import Mathlib

/-!
# uniauth wire protocol: client encoder/decoder and daemon connection buffer

Shallow embedding of `src/connect.c` (client side) and `src/daemon/clientbuf.c`
(daemon side).

Conventions of the embedding.

* A byte is a natural number (its unsigned value, 0..255).  A `char` buffer is a
  `List Nat`; `buf.getD i 0` is the read `buf[i]`.
* `size_t` cursors and lengths are natural numbers.  Every sum the code forms
  from them is bounded by a buffer capacity plus an in-memory object size, so
  no 64-bit wrap occurs; every difference the code forms is guarded so that it
  is not negative.
* `int32_t` / `int64_t` values are integers; the conversions the code performs
  (`uint32_t -> int32_t`, `>>` on a signed value, `& 0xff`) are written out.
* A `char*` string field of `struct uniauth_storage` is `Option (List Nat)`:
  `none` is `NULL`, `some s` points at the bytes `s` followed by a zero byte.
* Loops are structural recursions on a fuel argument that the caller sets to
  the largest number of iterations the loop can make; with fuel 0 the loop
  condition is already false.
* The system calls `read` and `write` are replaced by a script of outcomes.  On
  the daemon's non-blocking socket a used-up script means "would block"; on the
  client's blocking socket it means that the call never returns.
* `php_error(E_ERROR, ...)` does not return to its caller (connect.c 64-67: it
  "bails out of the current script"); a client call that raises it ends with
  the outcome `fatal`.
* The process state behind `uniauth_connect` is the cached handle together
  with the sets of open and of connected descriptors; the results of `poll`,
  `socket` and `connect` are parameters.
-/

namespace Uniauth

/-! ## Constants of the absent headers -/

/-- Modelled from the spec: the protocol constants of the absent header
(`uniauth.h` / `connect.h` / `clientbuf.h`): request opcodes, the bound
`UNIAUTH_OP_TOP`, response opcodes, field tags and the maximum message size.
Their numeric values are a parameter of the development. -/
structure Proto where
  UNIAUTH_PROTO_LOOKUP : Nat
  UNIAUTH_PROTO_COMMIT : Nat
  UNIAUTH_PROTO_CREATE : Nat
  UNIAUTH_PROTO_TRANSF : Nat
  UNIAUTH_OP_TOP : Nat
  UNIAUTH_PROTO_RESPONSE_MESSAGE : Nat
  UNIAUTH_PROTO_RESPONSE_ERROR : Nat
  UNIAUTH_PROTO_RESPONSE_RECORD : Nat
  UNIAUTH_PROTO_FIELD_KEY : Nat
  UNIAUTH_PROTO_FIELD_ID : Nat
  UNIAUTH_PROTO_FIELD_USER : Nat
  UNIAUTH_PROTO_FIELD_DISPLAY : Nat
  UNIAUTH_PROTO_FIELD_EXPIRE : Nat
  UNIAUTH_PROTO_FIELD_REDIRECT : Nat
  UNIAUTH_PROTO_FIELD_TAG : Nat
  UNIAUTH_PROTO_FIELD_TRANSSRC : Nat
  UNIAUTH_PROTO_FIELD_TRANSDST : Nat
  UNIAUTH_PROTO_FIELD_END : Nat
  UNIAUTH_MAX_MESSAGE : Nat
  deriving DecidableEq, Repr

/-- Modelled from the spec: `UNIAUTH_INT_SZ`, "4-byte little-endian for IDs". -/
def UNIAUTH_INT_SZ : Nat := 4

/-- Modelled from the spec: `UNIAUTH_TIME_SZ`, "8-byte little-endian for time
values". -/
def UNIAUTH_TIME_SZ : Nat := 8

/-- The nine field tags that `parse_buffer` dispatches on, in the order of its
`switch`. -/
def Proto.fieldTags (P : Proto) : List Nat :=
  [P.UNIAUTH_PROTO_FIELD_KEY, P.UNIAUTH_PROTO_FIELD_ID, P.UNIAUTH_PROTO_FIELD_USER,
   P.UNIAUTH_PROTO_FIELD_DISPLAY, P.UNIAUTH_PROTO_FIELD_EXPIRE,
   P.UNIAUTH_PROTO_FIELD_REDIRECT, P.UNIAUTH_PROTO_FIELD_TAG,
   P.UNIAUTH_PROTO_FIELD_TRANSSRC, P.UNIAUTH_PROTO_FIELD_TRANSDST]

/-- The seven record field tags that the client's `switch` statements dispatch
on. -/
def Proto.recordTags (P : Proto) : List Nat :=
  [P.UNIAUTH_PROTO_FIELD_KEY, P.UNIAUTH_PROTO_FIELD_ID, P.UNIAUTH_PROTO_FIELD_USER,
   P.UNIAUTH_PROTO_FIELD_DISPLAY, P.UNIAUTH_PROTO_FIELD_EXPIRE,
   P.UNIAUTH_PROTO_FIELD_REDIRECT, P.UNIAUTH_PROTO_FIELD_TAG]

/-- Modelled from the spec: what the code needs of the absent constants.  The
field tags and the end-marker are pairwise different single bytes (the labels
of one C `switch` are pairwise different), the three response opcodes are
pairwise different, the four request opcodes lie below `UNIAUTH_OP_TOP`, and
every constant is below 128, so that it compares equal to the `char` it was
stored in whether `char` is signed or not. -/
def Proto.wf (P : Proto) : Prop :=
  (P.UNIAUTH_PROTO_FIELD_END :: P.fieldTags).Nodup ∧
  [P.UNIAUTH_PROTO_RESPONSE_MESSAGE, P.UNIAUTH_PROTO_RESPONSE_ERROR,
    P.UNIAUTH_PROTO_RESPONSE_RECORD].Nodup ∧
  (∀ op ∈ [P.UNIAUTH_PROTO_LOOKUP, P.UNIAUTH_PROTO_COMMIT, P.UNIAUTH_PROTO_CREATE,
    P.UNIAUTH_PROTO_TRANSF], op < P.UNIAUTH_OP_TOP) ∧
  P.UNIAUTH_OP_TOP ≤ 128 ∧
  (∀ t ∈ P.UNIAUTH_PROTO_FIELD_END :: P.fieldTags, t < 128) ∧
  (∀ t ∈ [P.UNIAUTH_PROTO_RESPONSE_MESSAGE, P.UNIAUTH_PROTO_RESPONSE_ERROR,
    P.UNIAUTH_PROTO_RESPONSE_RECORD], t < 128)

instance (P : Proto) : Decidable P.wf := by
  unfold Proto.wf; infer_instance

/-- A concrete assignment of the constants, used to evaluate the code on
examples: `LOOKUP=0` as the spec states, the others numbered consecutively,
and a 64-byte message bound that keeps the examples small. -/
def stdProto : Proto where
  UNIAUTH_PROTO_LOOKUP := 0
  UNIAUTH_PROTO_COMMIT := 1
  UNIAUTH_PROTO_CREATE := 2
  UNIAUTH_PROTO_TRANSF := 3
  UNIAUTH_OP_TOP := 4
  UNIAUTH_PROTO_RESPONSE_MESSAGE := 4
  UNIAUTH_PROTO_RESPONSE_ERROR := 5
  UNIAUTH_PROTO_RESPONSE_RECORD := 6
  UNIAUTH_PROTO_FIELD_KEY := 1
  UNIAUTH_PROTO_FIELD_ID := 2
  UNIAUTH_PROTO_FIELD_USER := 3
  UNIAUTH_PROTO_FIELD_DISPLAY := 4
  UNIAUTH_PROTO_FIELD_EXPIRE := 5
  UNIAUTH_PROTO_FIELD_REDIRECT := 6
  UNIAUTH_PROTO_FIELD_TAG := 7
  UNIAUTH_PROTO_FIELD_TRANSSRC := 8
  UNIAUTH_PROTO_FIELD_TRANSDST := 9
  UNIAUTH_PROTO_FIELD_END := 10
  UNIAUTH_MAX_MESSAGE := 64

/-! ## Data model -/

/-- The fields of `struct uniauth_storage` that the two source files use. -/
structure uniauth_storage where
  key : Option (List Nat)
  keySz : Nat
  id : Int
  username : Option (List Nat)
  usernameSz : Nat
  displayName : Option (List Nat)
  displayNameSz : Nat
  expire : Int
  redirect : Option (List Nat)
  redirectSz : Nat
  tag : Option (List Nat)
  tagSz : Nat
  deriving DecidableEq, Repr

/-- The record after `memset(stor,0,sizeof(struct uniauth_storage))`. -/
def uniauth_storage.zero : uniauth_storage :=
  ⟨none, 0, 0, none, 0, none, 0, 0, none, 0, none, 0⟩

/-! ## Byte buffers -/

/-- Store the bytes `bytes` at `buf[pos], buf[pos+1], ...` of a fixed array. -/
def writeAt (buf : List Nat) (pos : Nat) (bytes : List Nat) : List Nat :=
  buf.take pos ++ bytes ++ buf.drop (pos + bytes.length)

/-- The `n` bytes `buf[off], ..., buf[off+n-1]`. -/
def slice (buf : List Nat) (off n : Nat) : List Nat :=
  (List.range n).map (fun j => buf.getD (off + j) 0)

/-- The bytes `strncpy(dst,src,n)` stores: the bytes of `src` up to its first
zero byte, at most `n` of them, then zero bytes up to `n`. -/
def strncpy (src : List Nat) (n : Nat) : List Nat :=
  let s := (src.takeWhile (fun b => b ≠ 0)).take n
  s ++ List.replicate (n - s.length) 0

/-- The C library's `strlen` on the memory of a string: the number of bytes
before the first zero byte (the list is followed by a zero byte). -/
def strlen (s : List Nat) : Nat :=
  (s.takeWhile (fun b => b ≠ 0)).length

/-- The scan `while (i < limit) { if (buf[i] == 0) break; i += 1; }`, which
occurs in `uniauth_connect_recv` (twice), `read_field_string` and
`read_string`: the result is the first index at or after `i` that holds a zero
byte, or an index that is not below `limit` when there is none. -/
def seek_zero (buf : List Nat) (limit : Nat) : Nat → Nat → Nat
  | 0, i => i
  | fuel + 1, i =>
    if i < limit then
      if buf.getD i 0 = 0 then i else seek_zero buf limit fuel (i + 1)
    else i

/-- Byte `i` of a signed value: `(value >> (i*8)) & 0xff`. -/
def int_byte (value : Int) (i : Nat) : Nat :=
  ((value >>> (i * 8)) % 256).toNat

/-- The `n` little-endian bytes written by the loop
`for (i = 0;i < n;++i) buffer[it++] = (value >> (i*8)) & 0xff;`. -/
def le_bytes (n : Nat) (value : Int) : List Nat :=
  (List.range n).map (int_byte value)

/-- The loop `for (i = 0;i < n;++i) value |= ((uintW_t)buf[i] << (i*8));` on an
unsigned accumulator of `w` bits, reading the bytes at `buf[off], ...`. -/
def le_decode (w : Nat) (buf : List Nat) (off n : Nat) : Nat :=
  (List.range n).foldl
    (fun value i => value ||| ((buf.getD (off + i) 0 <<< (i * 8)) % 2 ^ w)) 0

/-- The conversion of an unsigned `w`-bit value to the signed type of the same
width (`*dst = value`). -/
def to_signed (w : Nat) (value : Nat) : Int :=
  if value % 2 ^ w < 2 ^ (w - 1) then ((value % 2 ^ w : Nat) : Int)
  else ((value % 2 ^ w : Nat) : Int) - 2 ^ w

/-! ## Client side: `connect.c` -/

/-- The buffer and cursor (`buffer`, `*iter`) that the client encoders update. -/
structure EncState where
  buffer : List Nat
  iter : Nat
  deriving DecidableEq, Repr

/-- Source `buffer_field_string` (connect.c 214-227). -/
def buffer_field_string (maxsz : Nat) (st : EncState) (fieldType : Nat)
    (field : List Nat) (fieldsz : Nat) : Bool × EncState :=
  let it := st.iter
  if it + fieldsz + 2 ≤ maxsz then
    (true, ⟨writeAt st.buffer it (fieldType :: strncpy field fieldsz ++ [0]),
            it + 1 + fieldsz + 1⟩)
  else (false, st)

/-- Source `buffer_field_integer` (connect.c 229-245). -/
def buffer_field_integer (maxsz : Nat) (st : EncState) (fieldType : Nat)
    (value : Int) : Bool × EncState :=
  let it := st.iter
  if it + 6 ≤ maxsz then
    (true, ⟨writeAt st.buffer it (fieldType :: le_bytes UNIAUTH_INT_SZ value),
            it + 1 + UNIAUTH_INT_SZ⟩)
  else (false, st)

/-- Source `buffer_field_time` (connect.c 247-263). -/
def buffer_field_time (maxsz : Nat) (st : EncState) (fieldType : Nat)
    (value : Int) : Bool × EncState :=
  let it := st.iter
  if it + 10 ≤ maxsz then
    (true, ⟨writeAt st.buffer it (fieldType :: le_bytes UNIAUTH_TIME_SZ value),
            it + 1 + UNIAUTH_TIME_SZ⟩)
  else (false, st)

/-- Source `buffer_field_end` (connect.c 265-274). -/
def buffer_field_end (P : Proto) (maxsz : Nat) (st : EncState) : Bool × EncState :=
  let i := st.iter
  if i < maxsz then
    (true, ⟨writeAt st.buffer i [P.UNIAUTH_PROTO_FIELD_END], i + 1⟩)
  else (false, st)

/-- One disjunct `(present && !write(...)) || rest` of the short-circuit chain
in `buffer_storage_record`: when the field is present its encoder runs, and a
failure ends the chain with the state reached so far. -/
def enc_step (present : Bool) (write : EncState → Bool × EncState)
    (rest : EncState → Bool × EncState) (st : EncState) : Bool × EncState :=
  if present then
    match write st with
    | (true, st1) => rest st1
    | (false, st1) => (false, st1)
  else rest st

/-- Source `buffer_storage_record` (connect.c 276-298).  The result is the
returned flag together with the buffer and cursor as the calls left them. -/
def buffer_storage_record (P : Proto) (maxsz : Nat) (st : EncState)
    (stor : uniauth_storage) : Bool × EncState :=
  enc_step stor.key.isSome
    (fun s => buffer_field_string maxsz s P.UNIAUTH_PROTO_FIELD_KEY
      (stor.key.getD []) stor.keySz)
  (enc_step (decide (stor.id ≠ 0))
    (fun s => buffer_field_integer maxsz s P.UNIAUTH_PROTO_FIELD_ID stor.id)
  (enc_step stor.username.isSome
    (fun s => buffer_field_string maxsz s P.UNIAUTH_PROTO_FIELD_USER
      (stor.username.getD []) stor.usernameSz)
  (enc_step stor.displayName.isSome
    (fun s => buffer_field_string maxsz s P.UNIAUTH_PROTO_FIELD_DISPLAY
      (stor.displayName.getD []) stor.displayNameSz)
  (enc_step (decide (stor.expire ≠ 0))
    (fun s => buffer_field_time maxsz s P.UNIAUTH_PROTO_FIELD_EXPIRE stor.expire)
  (enc_step stor.redirect.isSome
    (fun s => buffer_field_string maxsz s P.UNIAUTH_PROTO_FIELD_REDIRECT
      (stor.redirect.getD []) stor.redirectSz)
  (enc_step stor.tag.isSome
    (fun s => buffer_field_string maxsz s P.UNIAUTH_PROTO_FIELD_TAG
      (stor.tag.getD []) stor.tagSz)
  (fun s => buffer_field_end P maxsz s))))))) st

/-- Source `read_field_string` (connect.c 300-320), reading the span of `sz`
bytes at `buffer + off`; the result is the return value and the two outputs
`*dst`, `*dstsz` (unchanged when the function returns 0). -/
def read_field_string (buffer : List Nat) (off sz : Nat)
    (dst : Option (List Nat)) (dstsz : Nat) : Nat × Option (List Nat) × Nat :=
  let n := seek_zero buffer (off + sz) sz off - off
  if n ≥ sz then (0, dst, dstsz)
  else (n + 1, some (slice buffer off n), n)

/-- Source `read_field_integer` (connect.c 322-337). -/
def read_field_integer (buffer : List Nat) (off sz : Nat) (dst : Int) : Nat × Int :=
  if sz < UNIAUTH_INT_SZ then (0, dst)
  else (UNIAUTH_INT_SZ, to_signed 32 (le_decode 32 buffer off UNIAUTH_INT_SZ))

/-- Source `read_field_time` (connect.c 339-354).  The loop bound is
`UNIAUTH_INT_SZ`, as in the source. -/
def read_field_time (buffer : List Nat) (off sz : Nat) (dst : Int) : Nat × Int :=
  if sz < UNIAUTH_TIME_SZ then (0, dst)
  else (UNIAUTH_TIME_SZ, to_signed 64 (le_decode 64 buffer off UNIAUTH_INT_SZ))

/-- The outcome of one `read` on the socket: `data bytes` delivers the first
bytes of `bytes` that fit the requested length (so `data []`, or any data when
the requested length is 0, is the zero-length read), `wouldblock` is the
failure with `EAGAIN`/`EWOULDBLOCK`, `fail` any other failure. -/
inductive ReadOutcome where
  | data (bytes : List Nat)
  | wouldblock
  | fail
  deriving DecidableEq, Repr

/-- The outcome of one `write` on the socket: `accept n` means the socket has
room for `n` bytes and takes `min n requested` of them, `wouldblock` is the
failure with `EAGAIN`/`EWOULDBLOCK`, `fail` any other failure. -/
inductive WriteOutcome where
  | accept (n : Nat)
  | wouldblock
  | fail
  deriving DecidableEq, Repr

/-- The socket as one side sees it: the outcomes of the coming `read` and
`write` calls, and the bytes the socket has accepted so far.  After the last
listed outcome every call on the daemon's non-blocking socket would block. -/
structure Sock where
  reads : List ReadOutcome
  writes : List WriteOutcome
  sent : List Nat
  deriving DecidableEq, Repr

/-- The `switch` of `read_storage_record` (connect.c 378-400) on the tag byte
`t`, for the span of `z` bytes at `buffer + off`: the value of `n` and the
record.  When no case matches, `n` keeps its initial value 0. -/
def read_storage_field (P : Proto) (buffer : List Nat) (off z t : Nat)
    (stor : uniauth_storage) : Nat × uniauth_storage :=
  if t = P.UNIAUTH_PROTO_FIELD_KEY then
    let r := read_field_string buffer off z stor.key stor.keySz
    (r.1, { stor with key := r.2.1, keySz := r.2.2 })
  else if t = P.UNIAUTH_PROTO_FIELD_ID then
    let r := read_field_integer buffer off z stor.id
    (r.1, { stor with id := r.2 })
  else if t = P.UNIAUTH_PROTO_FIELD_USER then
    let r := read_field_string buffer off z stor.username stor.usernameSz
    (r.1, { stor with username := r.2.1, usernameSz := r.2.2 })
  else if t = P.UNIAUTH_PROTO_FIELD_DISPLAY then
    let r := read_field_string buffer off z stor.displayName stor.displayNameSz
    (r.1, { stor with displayName := r.2.1, displayNameSz := r.2.2 })
  else if t = P.UNIAUTH_PROTO_FIELD_EXPIRE then
    let r := read_field_time buffer off z stor.expire
    (r.1, { stor with expire := r.2 })
  else if t = P.UNIAUTH_PROTO_FIELD_REDIRECT then
    let r := read_field_string buffer off z stor.redirect stor.redirectSz
    (r.1, { stor with redirect := r.2.1, redirectSz := r.2.2 })
  else if t = P.UNIAUTH_PROTO_FIELD_TAG then
    let r := read_field_string buffer off z stor.tag stor.tagSz
    (r.1, { stor with tag := r.2.1, tagSz := r.2.2 })
  else (0, stor)

/-- What `read_storage_record` leaves behind: the record, the final value of
its cursor `iter`, and whether it raised the fatal communication error. -/
structure ReadRec where
  stor : uniauth_storage
  iter : Nat
  error : Bool
  deriving DecidableEq, Repr

/-- The `while (iter < sz)` loop of `read_storage_record` (connect.c 364-410). -/
def read_storage_loop (P : Proto) (buffer : List Nat) (sz : Nat) :
    Nat → Nat → uniauth_storage → ReadRec
  | 0, iter, stor => ⟨stor, iter, false⟩
  | fuel + 1, iter, stor =>
    if iter < sz then
      if buffer.getD iter 0 = P.UNIAUTH_PROTO_FIELD_END then ⟨stor, iter, false⟩
      else
        let r := read_storage_field P buffer (iter + 1) (sz - iter - 1)
          (buffer.getD iter 0) stor
        if r.1 = 0 then ⟨r.2, iter + 1, true⟩
        else read_storage_loop P buffer sz fuel (iter + 1 + r.1) r.2
    else ⟨stor, iter, false⟩

/-- Source `read_storage_record` (connect.c 356-411). -/
def read_storage_record (P : Proto) (buffer : List Nat) (sz : Nat)
    (stor : uniauth_storage) : ReadRec :=
  read_storage_loop P buffer sz sz 1 stor

/-- The `while (i < it)` loop of the `RECORD` branch of `uniauth_connect_recv`
(connect.c 170-208); the result is the returned state. -/
def recv_record_loop (P : Proto) (buffer : List Nat) (it : Nat) : Nat → Nat → Nat
  | 0, _ => 1
  | fuel + 1, i =>
    if i < it then
      if buffer.getD i 0 = P.UNIAUTH_PROTO_FIELD_END then 0
      else
        let t := buffer.getD i 0
        let i := i + 1
        if t = P.UNIAUTH_PROTO_FIELD_KEY ∨ t = P.UNIAUTH_PROTO_FIELD_USER
            ∨ t = P.UNIAUTH_PROTO_FIELD_DISPLAY ∨ t = P.UNIAUTH_PROTO_FIELD_REDIRECT
            ∨ t = P.UNIAUTH_PROTO_FIELD_TAG then
          let j := seek_zero buffer it (it - i) i
          if j ≥ it then 1 else recv_record_loop P buffer it fuel (j + 1)
        else if t = P.UNIAUTH_PROTO_FIELD_ID then
          recv_record_loop P buffer it fuel (i + 4)
        else if t = P.UNIAUTH_PROTO_FIELD_EXPIRE then
          recv_record_loop P buffer it fuel (i + 8)
        else 2
    else 1

/-- The walk of `uniauth_connect_recv` over the `it` accumulated bytes
(connect.c 148-211): 0 = complete, 1 = incomplete, 2 = error. -/
def recv_classify (P : Proto) (buffer : List Nat) (it : Nat) : Nat :=
  if buffer.getD 0 0 = P.UNIAUTH_PROTO_RESPONSE_MESSAGE
      ∨ buffer.getD 0 0 = P.UNIAUTH_PROTO_RESPONSE_ERROR then
    let i := seek_zero buffer it (it - 1) 1
    if i ≥ it then 1 else 0
  else if buffer.getD 0 0 = P.UNIAUTH_PROTO_RESPONSE_RECORD then
    recv_record_loop P buffer it it 1
  else 2

/-- Source `uniauth_connect_recv` (connect.c 128-212) for one outcome of its
blocking `read`: the returned state, the buffer and `*iter`. -/
def uniauth_connect_recv (P : Proto) (buffer : List Nat) (maxsz iter : Nat)
    (rd : ReadOutcome) : Nat × List Nat × Nat :=
  match rd with
  | ReadOutcome.data bytes =>
    let got := bytes.take (maxsz - iter)
    let buffer1 := writeAt buffer iter got
    let it := iter + got.length
    (recv_classify P buffer1 it, buffer1, it)
  | _ => (2, buffer, iter)

/-- The process state that `uniauth_connect` reads and changes: the module
global `UNIAUTH_G(conn)` (the cached handle, -1 when absent), the descriptors
that are open, and the open descriptors on which `connect` has succeeded. -/
structure ConnState where
  conn : Int
  opened : List Int
  connected : List Int
  deriving DecidableEq, Repr

/-- The return values of the system calls `poll`, `socket` and `connect` made
by one invocation of `uniauth_connect` (each at most once): `poll` returns the
number of descriptors with an event, `socket` a new descriptor or -1, `connect`
0 or -1. -/
structure SysCalls where
  poll : Int
  socket : Int
  connect : Int
  deriving DecidableEq, Repr

/-- The system call `close(fd)`: the descriptor is open no longer. -/
def sys_close (st : ConnState) (fd : Int) : ConnState :=
  { st with opened := st.opened.erase fd, connected := st.connected.erase fd }

/-- Source `uniauth_connect` (connect.c 71-126): the returned descriptor and the
process state.  The result `none` stands for `php_error(E_ERROR, ...)`, which
by the note at connect.c 64-67 "bails out of the current script": control does
not come back to the caller.  `php_error(E_WARNING, ...)` returns. -/
def uniauth_connect (st : ConnState) (k : SysCalls) : Option Int × ConnState :=
  let sock := st.conn
  if sock ≠ -1 ∧ ¬ (k.poll > 0) then (some sock, st)
  else
    let st1 := if sock ≠ -1 then sys_close st sock else st
    let sock1 := k.socket
    if sock1 = -1 then (none, st1)
    else
      let st2 := { st1 with opened := sock1 :: st1.opened }
      if k.connect = -1 then (none, st2)
      else (some sock1, { st2 with conn := sock1, connected := sock1 :: st2.connected })

/-- How a client call ends: `fatal` when `php_error(E_ERROR, ...)` was raised
(control leaves the function and the script is aborted), `blocked` when a
blocking `read` or `write` never returns (the script of socket outcomes is
used up), `ret v` when the function returns `v`. -/
inductive Outcome (α : Type) where
  | fatal
  | blocked
  | ret (v : α)
  deriving DecidableEq, Repr

/-- The call `write(sock,buffer,iter)` of the client operations on the blocking
socket: the return value (`none` when the call never returns) and the socket.
`accept n` takes `min n iter` bytes; every failure returns -1. -/
def client_write (buffer : List Nat) (iter : Nat) (s : Sock) : Option Int × Sock :=
  match s.writes with
  | [] => (none, s)
  | WriteOutcome.accept n :: ws =>
    (some ((min n iter : Nat) : Int),
     { s with writes := ws, sent := s.sent ++ slice buffer 0 (min n iter) })
  | _ :: ws => (some (-1), { s with writes := ws })

/-- The loop `do { status = uniauth_connect_recv(sock,buffer,sizeof(buffer),&sz);
if (status == 2) { php_error(E_ERROR,...); ... } } while (status != 0);` of the
four client operations, over the outcomes of the coming blocking reads: the
buffer and `sz` when the loop is left with status 0, and the outcomes not yet
used. -/
def recv_loop (P : Proto) :
    List ReadOutcome → List Nat → Nat → Outcome (List Nat × Nat) × List ReadOutcome
  | [], _, _ => (Outcome.blocked, [])
  | rd :: rs, buffer, sz =>
    let r := uniauth_connect_recv P buffer P.UNIAUTH_MAX_MESSAGE sz rd
    if r.1 = 2 then (Outcome.fatal, rs)
    else if r.1 ≠ 0 then recv_loop P rs r.2.1 r.2.2
    else (Outcome.ret (r.2.1, r.2.2), rs)

/-- What a client call leaves behind: how it ended, the process state and the
socket. -/
structure ClientCall (α : Type) where
  result : Outcome α
  st : ConnState
  sock : Sock
  deriving DecidableEq, Repr

/-- The text that the four client operations share (connect.c 433-449, 484-499,
527-542, 575-590): `sock = uniauth_connect(); if (write(sock,buffer,iter) == -1)
php_error(E_ERROR,...);` and the receive loop with `sz = 0`.  The value
returned is the buffer and `sz` with which the loop is left.  In
`uniauth_connect_lookup` a `return NULL` follows the `php_error` of the write,
in the other three nothing follows it; as `php_error(E_ERROR, ...)` does not
return, the four texts behave alike. -/
def request_response (P : Proto) (buffer : List Nat) (iter : Nat)
    (st : ConnState) (k : SysCalls) (s : Sock) : ClientCall (List Nat × Nat) :=
  match uniauth_connect st k with
  | (none, st1) => ⟨Outcome.fatal, st1, s⟩
  | (some _, st1) =>
    match client_write buffer iter s with
    | (none, s1) => ⟨Outcome.blocked, st1, s1⟩
    | (some w, s1) =>
      if w = -1 then ⟨Outcome.fatal, st1, s1⟩
      else
        let r := recv_loop P s1.reads buffer 0
        ⟨r.1, st1, { s1 with reads := r.2 }⟩

/-- The request-building part of `uniauth_connect_lookup` (connect.c 425-428)
on the local array `buffer0`: whether both encoders succeeded, the buffer and
`iter`. -/
def lookup_request (P : Proto) (buffer0 : List Nat) (key : List Nat) (keylen : Nat) :
    Bool × EncState :=
  let st0 : EncState := ⟨writeAt buffer0 0 [P.UNIAUTH_PROTO_LOOKUP], 1⟩
  let e1 := buffer_field_string P.UNIAUTH_MAX_MESSAGE st0 P.UNIAUTH_PROTO_FIELD_KEY key keylen
  if e1.1 then buffer_field_end P P.UNIAUTH_MAX_MESSAGE e1.2 else (false, e1.2)

/-- What `uniauth_connect_lookup` leaves behind: how it ended (`ret false` is
the return of `NULL`, `ret true` the return of `backing`), the record
`*backing`, the process state and the socket. -/
structure LookupCall where
  result : Outcome Bool
  backing : uniauth_storage
  st : ConnState
  sock : Sock
  deriving DecidableEq, Repr

/-- Source `uniauth_connect_lookup` (connect.c 415-465). -/
def uniauth_connect_lookup (P : Proto) (key : List Nat) (keylen : Nat)
    (backing : uniauth_storage) (buffer0 : List Nat)
    (st : ConnState) (k : SysCalls) (s : Sock) : LookupCall :=
  let e := lookup_request P buffer0 key keylen
  if ¬ e.1 then ⟨Outcome.fatal, backing, st, s⟩
  else
    let x := request_response P e.2.buffer e.2.iter st k s
    match x.result with
    | Outcome.fatal => ⟨Outcome.fatal, backing, x.st, x.sock⟩
    | Outcome.blocked => ⟨Outcome.blocked, backing, x.st, x.sock⟩
    | Outcome.ret (buffer, sz) =>
      if buffer.getD 0 0 = P.UNIAUTH_PROTO_RESPONSE_MESSAGE
          ∨ buffer.getD 0 0 = P.UNIAUTH_PROTO_RESPONSE_ERROR then
        ⟨Outcome.ret false, backing, x.st, x.sock⟩
      else
        let r := read_storage_record P buffer sz uniauth_storage.zero
        if r.error then ⟨Outcome.fatal, r.stor, x.st, x.sock⟩
        else ⟨Outcome.ret true, r.stor, x.st, x.sock⟩

/-- The last statements of `uniauth_connect_commit`, `uniauth_connect_create`
and `uniauth_connect_transfer` (connect.c 501-507, 544-550, 592-598): 0 when
the response begins with `MESSAGE`, else -1. -/
def message_result (P : Proto) (x : ClientCall (List Nat × Nat)) : ClientCall Int :=
  match x.result with
  | Outcome.fatal => ⟨Outcome.fatal, x.st, x.sock⟩
  | Outcome.blocked => ⟨Outcome.blocked, x.st, x.sock⟩
  | Outcome.ret (buffer, _) =>
    if buffer.getD 0 0 = P.UNIAUTH_PROTO_RESPONSE_MESSAGE then ⟨Outcome.ret 0, x.st, x.sock⟩
    else ⟨Outcome.ret (-1), x.st, x.sock⟩

/-- Source `uniauth_connect_commit` (connect.c 467-508). -/
def uniauth_connect_commit (P : Proto) (stor : uniauth_storage) (buffer0 : List Nat)
    (st : ConnState) (k : SysCalls) (s : Sock) : ClientCall Int :=
  let e := buffer_storage_record P P.UNIAUTH_MAX_MESSAGE
    ⟨writeAt buffer0 0 [P.UNIAUTH_PROTO_COMMIT], 1⟩ stor
  if ¬ e.1 then ⟨Outcome.fatal, st, s⟩
  else message_result P (request_response P e.2.buffer e.2.iter st k s)

/-- Source `uniauth_connect_create` (connect.c 510-551). -/
def uniauth_connect_create (P : Proto) (stor : uniauth_storage) (buffer0 : List Nat)
    (st : ConnState) (k : SysCalls) (s : Sock) : ClientCall Int :=
  let e := buffer_storage_record P P.UNIAUTH_MAX_MESSAGE
    ⟨writeAt buffer0 0 [P.UNIAUTH_PROTO_CREATE], 1⟩ stor
  if ¬ e.1 then ⟨Outcome.fatal, st, s⟩
  else message_result P (request_response P e.2.buffer e.2.iter st k s)

/-- The request-building part of `uniauth_connect_transfer` (connect.c
563-568) on the local array `buffer0`: whether the three encoders succeeded,
the buffer and `iter`.  The second call passes `src` with `strlen(dst)`, as in
the source. -/
def transfer_request (P : Proto) (buffer0 : List Nat) (src dst : List Nat) :
    Bool × EncState :=
  let st0 : EncState := ⟨writeAt buffer0 0 [P.UNIAUTH_PROTO_TRANSF], 1⟩
  let e1 := buffer_field_string P.UNIAUTH_MAX_MESSAGE st0 P.UNIAUTH_PROTO_FIELD_TRANSSRC
    src (strlen src)
  if e1.1 then
    let e2 := buffer_field_string P.UNIAUTH_MAX_MESSAGE e1.2 P.UNIAUTH_PROTO_FIELD_TRANSDST
      src (strlen dst)
    if e2.1 then buffer_field_end P P.UNIAUTH_MAX_MESSAGE e2.2 else (false, e2.2)
  else (false, e1.2)

/-- Source `uniauth_connect_transfer` (connect.c 553-599). -/
def uniauth_connect_transfer (P : Proto) (src dst : List Nat) (buffer0 : List Nat)
    (st : ConnState) (k : SysCalls) (s : Sock) : ClientCall Int :=
  let e := transfer_request P buffer0 src dst
  if ¬ e.1 then ⟨Outcome.fatal, st, s⟩
  else message_result P (request_response P e.2.buffer e.2.iter st k s)

/-! ## Daemon side: `daemon/clientbuf.c` -/

/-- The parse status of a connection (`client->status`). -/
inductive Status where
  | notset
  | incomplete
  | complete
  | error
  deriving DecidableEq, Repr

/-- The transfer pair `client->trans`. -/
structure transfer_pair where
  src : Option (List Nat)
  dst : Option (List Nat)
  deriving DecidableEq, Repr

/-- The fields of `struct clientbuf` that the source file uses.  `iomode` is 0
in the input phase and 1 in the output phase. -/
structure clientbuf where
  sock : Int
  conntm : Int
  buf : List Nat
  bufit : Nat
  bufsz : Nat
  iomode : Nat
  status : Status
  eof : Bool
  opkind : Int
  stor : uniauth_storage
  trans : transfer_pair
  deriving DecidableEq, Repr

/-- Source `clientbuf_init` (clientbuf.c 15-22); the `memset` makes every byte
of the `UNIAUTH_MAX_MESSAGE`-byte buffer zero and the status `notset`. -/
def clientbuf_init (P : Proto) (sock atm : Int) : clientbuf :=
  { sock := sock, conntm := atm, buf := List.replicate P.UNIAUTH_MAX_MESSAGE 0,
    bufit := 0, bufsz := 0, iomode := 0, status := Status.notset, eof := false,
    opkind := 0, stor := uniauth_storage.zero, trans := ⟨none, none⟩ }

/-- Source `read_string` (clientbuf.c 31-51): the return value and the outputs
`*dst`, `*psz` (unchanged when the function returns 0). -/
def read_string (client : clientbuf) (iter : Nat) (dst : Option (List Nat))
    (psz : Nat) : Nat × Option (List Nat) × Nat :=
  let tmp := iter
  let j := seek_zero client.buf client.bufsz (client.bufsz - iter) iter
  if j < client.bufsz then
    ((j - tmp) + 1, some (slice client.buf tmp (j - tmp)), j - tmp)
  else (0, dst, psz)

/-- Source `read_integer` (clientbuf.c 53-70). -/
def read_integer (client : clientbuf) (iter : Nat) (dst : Int) : Nat × Int :=
  if iter + UNIAUTH_INT_SZ ≤ client.bufsz then
    (UNIAUTH_INT_SZ, to_signed 32 (le_decode 32 client.buf iter UNIAUTH_INT_SZ))
  else (0, dst)

/-- Source `read_time` (clientbuf.c 72-89). -/
def read_time (client : clientbuf) (iter : Nat) (dst : Int) : Nat × Int :=
  if iter + UNIAUTH_TIME_SZ ≤ client.bufsz then
    (UNIAUTH_TIME_SZ, to_signed 64 (le_decode 64 client.buf iter UNIAUTH_TIME_SZ))
  else (0, dst)

/-- The `switch (field)` of `parse_buffer` (clientbuf.c 129-165) for the tag
byte `field` at index `iter`: `nbytes` and the updated connection, or `none`
for the `default` label. -/
def parse_field (P : Proto) (client : clientbuf) (iter field : Nat) :
    Option (Nat × clientbuf) :=
  if field = P.UNIAUTH_PROTO_FIELD_KEY then
    let r := read_string client (iter + 1) client.stor.key client.stor.keySz
    some (r.1, { client with stor := { client.stor with key := r.2.1, keySz := r.2.2 } })
  else if field = P.UNIAUTH_PROTO_FIELD_ID then
    let r := read_integer client (iter + 1) client.stor.id
    some (r.1, { client with stor := { client.stor with id := r.2 } })
  else if field = P.UNIAUTH_PROTO_FIELD_USER then
    let r := read_string client (iter + 1) client.stor.username client.stor.usernameSz
    some (r.1, { client with
      stor := { client.stor with username := r.2.1, usernameSz := r.2.2 } })
  else if field = P.UNIAUTH_PROTO_FIELD_DISPLAY then
    let r := read_string client (iter + 1) client.stor.displayName
      client.stor.displayNameSz
    some (r.1, { client with
      stor := { client.stor with displayName := r.2.1, displayNameSz := r.2.2 } })
  else if field = P.UNIAUTH_PROTO_FIELD_EXPIRE then
    let r := read_time client (iter + 1) client.stor.expire
    some (r.1, { client with stor := { client.stor with expire := r.2 } })
  else if field = P.UNIAUTH_PROTO_FIELD_REDIRECT then
    let r := read_string client (iter + 1) client.stor.redirect client.stor.redirectSz
    some (r.1, { client with
      stor := { client.stor with redirect := r.2.1, redirectSz := r.2.2 } })
  else if field = P.UNIAUTH_PROTO_FIELD_TAG then
    let r := read_string client (iter + 1) client.stor.tag client.stor.tagSz
    some (r.1, { client with stor := { client.stor with tag := r.2.1, tagSz := r.2.2 } })
  else if field = P.UNIAUTH_PROTO_FIELD_TRANSSRC then
    let r := read_string client (iter + 1) client.trans.src 0
    some (r.1, { client with trans := { client.trans with src := r.2.1 } })
  else if field = P.UNIAUTH_PROTO_FIELD_TRANSDST then
    let r := read_string client (iter + 1) client.trans.dst 0
    some (r.1, { client with trans := { client.trans with dst := r.2.1 } })
  else none

/-- The `while (iter < client->bufsz)` loop of `parse_buffer` together with the
two statements after it (clientbuf.c 116-180): the return value and the
connection. -/
def parse_loop (P : Proto) : Nat → clientbuf → Nat → Nat × clientbuf
  | 0, client, iter => (0, { client with bufit := iter })
  | fuel + 1, client, iter =>
    if iter < client.bufsz then
      let field := client.buf.getD iter 0
      if field = P.UNIAUTH_PROTO_FIELD_END then
        (0, { client with status := Status.complete, bufit := iter + 1 })
      else
        match parse_field P client iter field with
        | none => (1, { client with status := Status.error })
        | some (nbytes, client1) =>
          if nbytes = 0 then (0, { client1 with bufit := iter })
          else parse_loop P fuel client1 (iter + (1 + nbytes))
    else (0, { client with bufit := iter })

/-- Source `parse_buffer` (clientbuf.c 91-181). -/
def parse_buffer (P : Proto) (client : clientbuf) : Nat × clientbuf :=
  let iter := client.bufit
  if client.bufsz ≤ 0 then (0, client)
  else if client.status = Status.notset then
    let client1 := { client with opkind := (client.buf.getD iter 0 : Nat) }
    if client1.opkind < 0 ∨ client1.opkind ≥ (P.UNIAUTH_OP_TOP : Int) then
      (1, { client1 with status := Status.error })
    else
      parse_loop P (client.bufsz - (iter + 1))
        { client1 with status := Status.incomplete } (iter + 1)
  else parse_loop P (client.bufsz - iter) client iter

/-- The `while (sz > 0)` loop of `flush_buffer` (clientbuf.c 190-203) for the
bytes at `buf + base`: whether it left by the failure branch, the final `t` and
`sz`, the write outcomes not yet used and the bytes the socket has accepted. -/
def flush_loop (buf : List Nat) (base : Nat) :
    List WriteOutcome → Nat → Nat → List Nat →
      Bool × Nat × Nat × List WriteOutcome × List Nat
  | ws, t, 0, sent => (false, t, 0, ws, sent)
  | [], t, sz + 1, sent => (false, t, sz + 1, [], sent)
  | WriteOutcome.wouldblock :: ws, t, sz + 1, sent => (false, t, sz + 1, ws, sent)
  | WriteOutcome.fail :: ws, t, sz + 1, sent => (true, t, sz + 1, ws, sent)
  | WriteOutcome.accept n :: ws, t, sz + 1, sent =>
    let r := min n (sz + 1)
    flush_loop buf base ws (t + r) (sz + 1 - r) (sent ++ slice buf (base + t) r)

/-- Source `flush_buffer` (clientbuf.c 183-216). -/
def flush_buffer (client : clientbuf) (s : Sock) : Nat × clientbuf × Sock :=
  let base := client.bufit
  let r := flush_loop client.buf base s.writes 0 client.bufsz s.sent
  let s1 : Sock := { s with writes := r.2.2.2.1, sent := r.2.2.2.2 }
  if r.1 then (1, { client with status := Status.error }, s1)
  else
    let t := r.2.1
    let sz := r.2.2.1
    (0, { client with
            buf := writeAt client.buf 0 (slice client.buf (base + t) sz),
            bufit := 0, bufsz := sz,
            status := if sz = 0 then Status.complete else client.status }, s1)

/-- The `while (true)` read loop of `clientbuf_operation` (clientbuf.c
232-256): `some 1` when the loop returns 1 from the function, `none` when it is
left by `break`; the connection; the read outcomes not yet used. -/
def read_loop (P : Proto) (initial : Nat) :
    List ReadOutcome → clientbuf → Option Nat × clientbuf × List ReadOutcome
  | [], client => (none, client, [])
  | ReadOutcome.wouldblock :: rs, client => (none, client, rs)
  | ReadOutcome.fail :: rs, client => (some 1, { client with status := Status.error }, rs)
  | ReadOutcome.data bytes :: rs, client =>
    let len := P.UNIAUTH_MAX_MESSAGE - client.bufsz
    let got := bytes.take len
    if got.length = 0 then
      if initial = client.bufsz then (some 1, { client with eof := true }, rs)
      else (none, { client with eof := true }, rs)
    else
      read_loop P initial rs
        { client with buf := writeAt client.buf client.bufsz got,
                      bufsz := client.bufsz + got.length }

/-- Source `clientbuf_operation` (clientbuf.c 218-262). -/
def clientbuf_operation (P : Proto) (client : clientbuf) (s : Sock) :
    Nat × clientbuf × Sock :=
  let initial := client.bufsz
  if client.eof then (1, client, s)
  else if client.iomode = 0 then
    let r := read_loop P initial s.reads client
    let s1 : Sock := { s with reads := r.2.2 }
    match r.1 with
    | some ret => (ret, r.2.1, s1)
    | none =>
      let p := parse_buffer P r.2.1
      (p.1, p.2, s1)
  else flush_buffer client s

/-- Source `clientbuf_input_mode` (clientbuf.c 264-273). -/
def clientbuf_input_mode (client : clientbuf) : clientbuf :=
  { client with iomode := 0, bufsz := 0, bufit := 0, status := Status.notset,
                stor := uniauth_storage.zero }

/-- Source `clientbuf_output_mode` (clientbuf.c 275-283). -/
def clientbuf_output_mode (client : clientbuf) : clientbuf :=
  { client with iomode := 1, bufsz := 0, bufit := 0, status := Status.notset }

/-- Source `get_output_buffer` (clientbuf.c 285-307): the offset in
`client->buf` of the returned pointer and `*outremain`, or `none` for `NULL`;
and the connection. -/
def get_output_buffer (P : Proto) (client : clientbuf) :
    Option (Nat × Nat) × clientbuf :=
  let client1 := if client.iomode = 0 then clientbuf_output_mode client else client
  if ¬ client1.eof ∧ P.UNIAUTH_MAX_MESSAGE - client1.bufsz > 0 then
    (some (client1.bufsz, P.UNIAUTH_MAX_MESSAGE - client1.bufsz),
     { client1 with status := Status.incomplete })
  else (none, client1)

/-- Source `transfer_string` (clientbuf.c 309-319): the bytes it copies (its
return value is their number).  The memory at `src` is the string followed by
its zero terminator. -/
def transfer_string (remain : Nat) (src : List Nat) (sz : Nat) : List Nat :=
  let n := if remain < sz + 1 then remain else sz + 1
  slice (src ++ [0]) 0 n

/-- Source `transfer_integer` (clientbuf.c 321-337): the bytes it copies. -/
def transfer_integer (remain : Nat) (value : Int) : List Nat :=
  let n := if remain < UNIAUTH_INT_SZ then remain else UNIAUTH_INT_SZ
  (le_bytes UNIAUTH_INT_SZ value).take n

/-- Source `transfer_time` (clientbuf.c 339-355): the bytes it copies. -/
def transfer_time (remain : Nat) (value : Int) : List Nat :=
  let n := if remain < UNIAUTH_TIME_SZ then remain else UNIAUTH_TIME_SZ
  (le_bytes UNIAUTH_TIME_SZ value).take n

/-- One guarded field of `clientbuf_send_record`,
`if (present && remain-n > 0) { buf[n++] = tag; n += transfer(buf+n,remain-n,..); }`,
on the pair of the connection buffer and `n`; `off` is the offset of the
output span in the buffer and `xfer room` the bytes the transfer function
copies when given `room` bytes. -/
def send_field (off remain : Nat) (present : Bool) (t : Nat)
    (xfer : Nat → List Nat) (st : List Nat × Nat) : List Nat × Nat :=
  if present ∧ remain - st.2 > 0 then
    let buf1 := writeAt st.1 (off + st.2) [t]
    let n1 := st.2 + 1
    let bytes := xfer (remain - n1)
    (writeAt buf1 (off + n1) bytes, n1 + bytes.length)
  else st

/-- The body of `clientbuf_send_record` between obtaining the output span and
`client->bufsz += n` (clientbuf.c 402-442): the buffer and `n`. -/
def send_record_fields (P : Proto) (buf : List Nat) (off remain : Nat)
    (key : Option (List Nat)) (keySz : Nat) (stor : uniauth_storage) :
    List Nat × Nat :=
  let st0 : List Nat × Nat := (writeAt buf off [P.UNIAUTH_PROTO_RESPONSE_RECORD], 1)
  let st1 := send_field off remain key.isSome P.UNIAUTH_PROTO_FIELD_KEY
    (fun room => transfer_string room (key.getD []) keySz) st0
  let st2 := send_field off remain (decide (stor.id > 0)) P.UNIAUTH_PROTO_FIELD_ID
    (fun room => transfer_integer room stor.id) st1
  let st3 := send_field off remain stor.username.isSome P.UNIAUTH_PROTO_FIELD_USER
    (fun room => transfer_string room (stor.username.getD []) stor.usernameSz) st2
  let st4 := send_field off remain stor.displayName.isSome P.UNIAUTH_PROTO_FIELD_DISPLAY
    (fun room => transfer_string room (stor.displayName.getD []) stor.displayNameSz) st3
  let st5 := send_field off remain (decide (stor.expire ≥ 0)) P.UNIAUTH_PROTO_FIELD_EXPIRE
    (fun room => transfer_time room stor.expire) st4
  let st6 := send_field off remain stor.redirect.isSome P.UNIAUTH_PROTO_FIELD_REDIRECT
    (fun room => transfer_string room (stor.redirect.getD []) stor.redirectSz) st5
  let st7 := send_field off remain stor.tag.isSome P.UNIAUTH_PROTO_FIELD_TAG
    (fun room => transfer_string room (stor.tag.getD []) stor.tagSz) st6
  if remain - st7.2 > 0 then
    (writeAt st7.1 (off + st7.2) [P.UNIAUTH_PROTO_FIELD_END], st7.2 + 1)
  else st7

/-- Source `clientbuf_send_record` (clientbuf.c 395-450). -/
def clientbuf_send_record (P : Proto) (client : clientbuf) (s : Sock)
    (key : Option (List Nat)) (keySz : Nat) (stor : uniauth_storage) :
    Nat × clientbuf × Sock :=
  match get_output_buffer P client with
  | (some (off, remain), client1) =>
    let r := send_record_fields P client1.buf off remain key keySz stor
    let client2 := { client1 with buf := r.1, bufsz := client1.bufsz + r.2 }
    let f := flush_buffer client2 s
    (0, f.2.1, f.2.2)
  | (none, client1) => (1, client1, s)

/-- Source `clientbuf_send_error` (clientbuf.c 357-374). -/
def clientbuf_send_error (P : Proto) (client : clientbuf) (s : Sock) (text : List Nat) :
    Nat × clientbuf × Sock :=
  match get_output_buffer P client with
  | (some (off, remain), client1) =>
    let buf1 := writeAt client1.buf off [P.UNIAUTH_PROTO_RESPONSE_ERROR]
    let bytes := transfer_string (remain - 1) text (strlen text)
    let client2 := { client1 with buf := writeAt buf1 (off + 1) bytes,
                                  bufsz := client1.bufsz + (1 + bytes.length) }
    let f := flush_buffer client2 s
    (0, f.2.1, f.2.2)
  | (none, client1) => (1, client1, s)

/-- Source `clientbuf_send_message` (clientbuf.c 376-393). -/
def clientbuf_send_message (P : Proto) (client : clientbuf) (s : Sock) (text : List Nat) :
    Nat × clientbuf × Sock :=
  match get_output_buffer P client with
  | (some (off, remain), client1) =>
    let buf1 := writeAt client1.buf off [P.UNIAUTH_PROTO_RESPONSE_MESSAGE]
    let bytes := transfer_string (remain - 1) text (strlen text)
    let client2 := { client1 with buf := writeAt buf1 (off + 1) bytes,
                                  bufsz := client1.bufsz + (1 + bytes.length) }
    let f := flush_buffer client2 s
    (0, f.2.1, f.2.2)
  | (none, client1) => (1, client1, s)

/-! ## Specification-side definitions -/

/-- The wire size of a record in the spec's words: the sum over the present
fields of tag plus payload (a string of `N` data bytes has `N + 1` payload
bytes, the id 4, the expiry 8), plus one end-marker byte. -/
def wire_size (stor : uniauth_storage) : Nat :=
  (if stor.key.isSome then 1 + (stor.keySz + 1) else 0)
  + (if stor.id ≠ 0 then 1 + 4 else 0)
  + (if stor.username.isSome then 1 + (stor.usernameSz + 1) else 0)
  + (if stor.displayName.isSome then 1 + (stor.displayNameSz + 1) else 0)
  + (if stor.expire ≠ 0 then 1 + 8 else 0)
  + (if stor.redirect.isSome then 1 + (stor.redirectSz + 1) else 0)
  + (if stor.tag.isSome then 1 + (stor.tagSz + 1) else 0)
  + 1

/-- A string field is a C string of the recorded length: when it is not `NULL`
its length is `sz` and it holds no zero byte. -/
def cstring (s : Option (List Nat)) (sz : Nat) : Prop :=
  match s with
  | none => True
  | some l => l.length = sz ∧ 0 ∉ l

instance (s : Option (List Nat)) (sz : Nat) : Decidable (cstring s sz) := by
  unfold cstring; cases s <;> infer_instance

/-- Every string field of the record is a C string of the recorded length. -/
def uniauth_storage.cstrings (stor : uniauth_storage) : Prop :=
  cstring stor.key stor.keySz ∧ cstring stor.username stor.usernameSz ∧
  cstring stor.displayName stor.displayNameSz ∧ cstring stor.redirect stor.redirectSz ∧
  cstring stor.tag stor.tagSz

instance (stor : uniauth_storage) : Decidable stor.cstrings := by
  unfold uniauth_storage.cstrings; infer_instance

/-- The wire form of an optional string field in the spec's words: nothing when
absent, else tag, data bytes, zero terminator. -/
def string_field (t : Nat) (s : Option (List Nat)) : List Nat :=
  match s with
  | none => []
  | some l => t :: l ++ [0]

/-- The canonical encoding of a record in the spec's words: in the fixed order
key, id, username, displayName, expire, redirect, tag the encodings of the
fields whose presence predicate holds, then one end-marker byte. -/
def record_bytes (P : Proto) (stor : uniauth_storage) : List Nat :=
  string_field P.UNIAUTH_PROTO_FIELD_KEY stor.key
  ++ (if stor.id ≠ 0 then P.UNIAUTH_PROTO_FIELD_ID :: le_bytes 4 stor.id else [])
  ++ string_field P.UNIAUTH_PROTO_FIELD_USER stor.username
  ++ string_field P.UNIAUTH_PROTO_FIELD_DISPLAY stor.displayName
  ++ (if stor.expire ≠ 0 then P.UNIAUTH_PROTO_FIELD_EXPIRE :: le_bytes 8 stor.expire else [])
  ++ string_field P.UNIAUTH_PROTO_FIELD_REDIRECT stor.redirect
  ++ string_field P.UNIAUTH_PROTO_FIELD_TAG stor.tag
  ++ [P.UNIAUTH_PROTO_FIELD_END]

/-- An encoder `f` appends `bs`: on a buffer of `maxsz` bytes, whenever it
succeeds the bytes fit and it has stored exactly `bs` at the cursor and moved
the cursor past them. -/
def Appends (maxsz : Nat) (f : EncState → Bool × EncState) (bs : List Nat) : Prop :=
  ∀ s : EncState, s.buffer.length = maxsz → (f s).1 = true →
    s.iter + bs.length ≤ maxsz ∧
    (f s).2 = ⟨writeAt s.buffer s.iter bs, s.iter + bs.length⟩

/-- The connection and socket after `k` successive invocations of
`flush_buffer`. -/
def flush_repeat : Nat → clientbuf → Sock → clientbuf × Sock
  | 0, client, s => (client, s)
  | k + 1, client, s =>
    let r := flush_buffer client s
    flush_repeat k r.2.1 r.2.2

/-- The tag `t` is one of the five string tags of a record (the first group of
`case` labels in `uniauth_connect_recv`). -/
def Proto.stringTag (P : Proto) (t : Nat) : Prop :=
  t = P.UNIAUTH_PROTO_FIELD_KEY ∨ t = P.UNIAUTH_PROTO_FIELD_USER
    ∨ t = P.UNIAUTH_PROTO_FIELD_DISPLAY ∨ t = P.UNIAUTH_PROTO_FIELD_REDIRECT
    ∨ t = P.UNIAUTH_PROTO_FIELD_TAG

instance (P : Proto) (t : Nat) : Decidable (P.stringTag t) := by
  unfold Proto.stringTag; infer_instance

/-- The index `j` holds the first zero byte at or after index `i`, and lies
below `limit`. -/
def first_zero (buf : List Nat) (limit i j : Nat) : Prop :=
  i ≤ j ∧ j < limit ∧ buf.getD j 0 = 0 ∧ ∀ k, i ≤ k → k < j → buf.getD k 0 ≠ 0

/-- The field-tag positions of a response record in the spec's words: index 1
is one, and from a field-tag position below `it` that holds a record tag the
position after the whole field is one (after the zero terminator of a string,
4 bytes after an id tag, 8 bytes after an expiry tag). -/
inductive RecvWalk (P : Proto) (buffer : List Nat) (it : Nat) : Nat → Prop
  | start : RecvWalk P buffer it 1
  | string (i j : Nat) : RecvWalk P buffer it i → i < it → P.stringTag (buffer.getD i 0) →
      first_zero buffer it (i + 1) j → RecvWalk P buffer it (j + 1)
  | integer (i : Nat) : RecvWalk P buffer it i → i < it →
      buffer.getD i 0 = P.UNIAUTH_PROTO_FIELD_ID → RecvWalk P buffer it (i + 1 + 4)
  | time (i : Nat) : RecvWalk P buffer it i → i < it →
      buffer.getD i 0 = P.UNIAUTH_PROTO_FIELD_EXPIRE → RecvWalk P buffer it (i + 1 + 8)

/-- An end-marker stands at a field-tag position. -/
def recv_complete (P : Proto) (buffer : List Nat) (it : Nat) : Prop :=
  ∃ i, RecvWalk P buffer it i ∧ i < it ∧ buffer.getD i 0 = P.UNIAUTH_PROTO_FIELD_END

/-- A field-tag position holds a byte that is neither a record tag nor the
end-marker. -/
def recv_bad_tag (P : Proto) (buffer : List Nat) (it : Nat) : Prop :=
  ∃ i, RecvWalk P buffer it i ∧ i < it ∧ buffer.getD i 0 ≠ P.UNIAUTH_PROTO_FIELD_END ∧
    buffer.getD i 0 ∉ P.recordTags

/-- The bytes run out before an end-marker: after a whole field (a field-tag
position at or beyond `it`) or inside a string field (no zero byte follows its
tag). -/
def recv_runs_out (P : Proto) (buffer : List Nat) (it : Nat) : Prop :=
  ∃ i, RecvWalk P buffer it i ∧
    (it ≤ i ∨ (i < it ∧ P.stringTag (buffer.getD i 0) ∧
      ∀ k, i + 1 ≤ k → k < it → buffer.getD k 0 ≠ 0))

/-- The tag `t` is one of the seven string tags of the `switch` in
`parse_buffer`. -/
def Proto.serverStringTag (P : Proto) (t : Nat) : Prop :=
  t = P.UNIAUTH_PROTO_FIELD_KEY ∨ t = P.UNIAUTH_PROTO_FIELD_USER
    ∨ t = P.UNIAUTH_PROTO_FIELD_DISPLAY ∨ t = P.UNIAUTH_PROTO_FIELD_REDIRECT
    ∨ t = P.UNIAUTH_PROTO_FIELD_TAG ∨ t = P.UNIAUTH_PROTO_FIELD_TRANSSRC
    ∨ t = P.UNIAUTH_PROTO_FIELD_TRANSDST

instance (P : Proto) (t : Nat) : Decidable (P.serverStringTag t) := by
  unfold Proto.serverStringTag; infer_instance

/-- A field of a request message as the spec describes the wire: a string
field (tag, data bytes, zero terminator), an integer field (id tag, 4 bytes)
or a time field (expiry tag, 8 bytes). -/
inductive WireField where
  | string (t : Nat) (s : List Nat)
  | integer (b : List Nat)
  | time (b : List Nat)
  deriving DecidableEq, Repr

/-- The bytes of a wire field. -/
def WireField.bytes (P : Proto) : WireField → List Nat
  | WireField.string t s => t :: s ++ [0]
  | WireField.integer b => P.UNIAUTH_PROTO_FIELD_ID :: b
  | WireField.time b => P.UNIAUTH_PROTO_FIELD_EXPIRE :: b

/-- A wire field is recognised: a string field carries a string tag and data
without a zero byte, an integer field 4 bytes, a time field 8 bytes. -/
def WireField.wf (P : Proto) : WireField → Prop
  | WireField.string t s => P.serverStringTag t ∧ 0 ∉ s
  | WireField.integer b => b.length = 4
  | WireField.time b => b.length = 8

instance (P : Proto) (f : WireField) : Decidable (f.wf P) := by
  cases f <;> unfold WireField.wf <;> infer_instance

/-- The bytes of a sequence of wire fields. -/
def wire_bytes (P : Proto) : List WireField → List Nat
  | [] => []
  | f :: fs => f.bytes P ++ wire_bytes P fs

/-- What receiving the string field `t`, `s` means for the connection in the
spec's words: the record member (or transfer member) named by the tag holds
the data, the length member its length. -/
def store_string (P : Proto) (t : Nat) (s : List Nat) (c : clientbuf) : clientbuf :=
  if t = P.UNIAUTH_PROTO_FIELD_KEY then
    { c with stor := { c.stor with key := some s, keySz := s.length } }
  else if t = P.UNIAUTH_PROTO_FIELD_USER then
    { c with stor := { c.stor with username := some s, usernameSz := s.length } }
  else if t = P.UNIAUTH_PROTO_FIELD_DISPLAY then
    { c with stor := { c.stor with displayName := some s, displayNameSz := s.length } }
  else if t = P.UNIAUTH_PROTO_FIELD_REDIRECT then
    { c with stor := { c.stor with redirect := some s, redirectSz := s.length } }
  else if t = P.UNIAUTH_PROTO_FIELD_TAG then
    { c with stor := { c.stor with tag := some s, tagSz := s.length } }
  else if t = P.UNIAUTH_PROTO_FIELD_TRANSSRC then
    { c with trans := { c.trans with src := some s } }
  else if t = P.UNIAUTH_PROTO_FIELD_TRANSDST then
    { c with trans := { c.trans with dst := some s } }
  else c

/-- What receiving a wire field means for the connection: a string is stored
under its tag, the 4 bytes of an integer field give the id and the 8 bytes of
a time field the expiry, both little-endian two's complement. -/
def store_field (P : Proto) (f : WireField) (c : clientbuf) : clientbuf :=
  match f with
  | WireField.string t s => store_string P t s c
  | WireField.integer b =>
    { c with stor := { c.stor with id := to_signed 32 (le_decode 32 b 0 4) } }
  | WireField.time b =>
    { c with stor := { c.stor with expire := to_signed 64 (le_decode 64 b 0 8) } }

/-- The connection after receiving the wire fields `fs` in order. -/
def store_fields (P : Proto) (fs : List WireField) (c : clientbuf) : clientbuf :=
  fs.foldl (fun c f => store_field P f c) c

/-- The value of the `n` bytes at `buf[off], ...` read as a little-endian
number: the byte at `off + i` counts `256 ^ i`. -/
def le_sum (buf : List Nat) (off : Nat) : Nat → Nat
  | 0 => 0
  | n + 1 => le_sum buf off n + buf.getD (off + n) 0 * 2 ^ (n * 8)

/-- The `int32_t` member `id` and the `int64_t` member `expire` of the record
hold values of their C types. -/
def uniauth_storage.typed (stor : uniauth_storage) : Prop :=
  (-(2 : Int) ^ 31 ≤ stor.id ∧ stor.id < (2 : Int) ^ 31) ∧
  (-(2 : Int) ^ 63 ≤ stor.expire ∧ stor.expire < (2 : Int) ^ 63)

instance (stor : uniauth_storage) : Decidable stor.typed := by
  unfold uniauth_storage.typed; infer_instance

/-- An optional string member as wire fields: none when `NULL`, else the one
string field with tag `t`. -/
def string_fields (t : Nat) (o : Option (List Nat)) : List WireField :=
  match o with
  | some s => [WireField.string t s]
  | none => []

/-- The wire fields of a record in the canonical order of the client encoder:
key, id, username, displayName, expire, redirect, tag, each only when its
presence predicate holds. -/
def record_fields (P : Proto) (stor : uniauth_storage) : List WireField :=
  string_fields P.UNIAUTH_PROTO_FIELD_KEY stor.key
  ++ (if stor.id ≠ 0 then [WireField.integer (le_bytes 4 stor.id)] else [])
  ++ string_fields P.UNIAUTH_PROTO_FIELD_USER stor.username
  ++ string_fields P.UNIAUTH_PROTO_FIELD_DISPLAY stor.displayName
  ++ (if stor.expire ≠ 0 then [WireField.time (le_bytes 8 stor.expire)] else [])
  ++ string_fields P.UNIAUTH_PROTO_FIELD_REDIRECT stor.redirect
  ++ string_fields P.UNIAUTH_PROTO_FIELD_TAG stor.tag

/-- The longest run of leading fields of `fs` whose bytes fit into `avail`
bytes. -/
def take_fields (P : Proto) : List WireField → Nat → List WireField
  | [], _ => []
  | f :: fs, avail =>
    if (f.bytes P).length ≤ avail then
      f :: take_fields P fs (avail - (f.bytes P).length)
    else []

/-- The fields of `fs` that remain after `take_fields`. -/
def drop_fields (P : Proto) : List WireField → Nat → List WireField
  | [], _ => []
  | f :: fs, avail =>
    if (f.bytes P).length ≤ avail then drop_fields P fs (avail - (f.bytes P).length)
    else f :: fs

/-- One readiness event in the input phase on which the socket delivers the
bytes `chunk` in one read and would block on the next: the connection after
`clientbuf_operation`. -/
def deliver (P : Proto) (client : clientbuf) (chunk : List Nat) : clientbuf :=
  (clientbuf_operation P client
    ⟨[ReadOutcome.data chunk, ReadOutcome.wouldblock], [], []⟩).2.1

/-- The connection after one readiness event per chunk, in order. -/
def deliver_all (P : Proto) (client : clientbuf) (chunks : List (List Nat)) : clientbuf :=
  chunks.foldl (deliver P) client
/-- One whole request message: opcode, fields, end-marker. -/
def request_bytes (P : Proto) (op : Nat) (fs : List WireField) : List Nat :=
  op :: (wire_bytes P fs ++ [P.UNIAUTH_PROTO_FIELD_END])

/-- The connection state that the spec expects after the first `k >= 1` bytes
of the request `op`, `fs` have arrived on the fresh connection `c0`: the bytes
are in the buffer and the opcode is recorded; before the last byte the status
is incomplete, the fields received completely are stored and the cursor
stands behind them; with the last byte the status is complete, all fields are
stored and the cursor stands at the end. -/
def parsed_state (P : Proto) (c0 : clientbuf) (op : Nat) (fs : List WireField)
    (k : Nat) : clientbuf :=
  let c1 : clientbuf :=
    { c0 with buf := writeAt c0.buf 0 ((request_bytes P op fs).take k), bufsz := k,
              opkind := (op : Int), status := Status.incomplete }
  if k = (request_bytes P op fs).length then
    { store_fields P fs c1 with status := Status.complete, bufit := k }
  else
    { store_fields P (take_fields P fs (k - 1)) c1 with
      bufit := 1 + (wire_bytes P (take_fields P fs (k - 1))).length }

/-- The full response encoding `E` of a record in the spec's words for the
response side: the `RECORD` opcode, then in canonical order the key (when the
key argument is not `NULL`), the id (when positive), username, displayName
(when present), expire (when not negative), redirect, tag (when present), then
the end-marker. -/
def response_bytes (P : Proto) (key : Option (List Nat)) (stor : uniauth_storage) :
    List Nat :=
  P.UNIAUTH_PROTO_RESPONSE_RECORD ::
    (string_field P.UNIAUTH_PROTO_FIELD_KEY key
    ++ (if stor.id > 0 then P.UNIAUTH_PROTO_FIELD_ID :: le_bytes 4 stor.id else [])
    ++ string_field P.UNIAUTH_PROTO_FIELD_USER stor.username
    ++ string_field P.UNIAUTH_PROTO_FIELD_DISPLAY stor.displayName
    ++ (if stor.expire ≥ 0 then P.UNIAUTH_PROTO_FIELD_EXPIRE :: le_bytes 8 stor.expire else [])
    ++ string_field P.UNIAUTH_PROTO_FIELD_REDIRECT stor.redirect
    ++ string_field P.UNIAUTH_PROTO_FIELD_TAG stor.tag
    ++ [P.UNIAUTH_PROTO_FIELD_END])

/-- An example record: key "a", id 7, expiry 1700000000, no other member. -/
def record_a7 : uniauth_storage :=
  { uniauth_storage.zero with key := some [97], keySz := 1, id := 7, expire := 1700000000 }

/-- An example record: key "a" and every other member zero. -/
def record_a : uniauth_storage :=
  { uniauth_storage.zero with key := some [97], keySz := 1 }

/-- An example connection: a fresh connection after one readiness event on
which the peer delivered the request `LOOKUP`, key "a", end-marker and then
closed its side (a zero-length read). -/
def half_closed_client : clientbuf :=
  (clientbuf_operation stdProto (clientbuf_init stdProto 3 0)
    ⟨[ReadOutcome.data [0, 1, 97, 0, 10], ReadOutcome.data []], [], []⟩).2.1

/-- The coming `read` on the socket delivers no byte into `room` bytes of space
and does not fail: it would block, or it is a zero-length read. -/
def idle_read (s : Sock) (room : Nat) : Prop :=
  match s.reads with
  | [] => True
  | ReadOutcome.wouldblock :: _ => True
  | ReadOutcome.data bytes :: _ => bytes.take room = []
  | ReadOutcome.fail :: _ => False

instance (s : Sock) (room : Nat) : Decidable (idle_read s room) := by
  unfold idle_read
  split <;> infer_instance

/-- An example connection: a fresh connection that has received the complete
request `LOOKUP`, key "a", end-marker in one readiness event. -/
def served_client : clientbuf :=
  deliver stdProto (clientbuf_init stdProto 3 0) [0, 1, 97, 0, 10]

/-- An example connection: a fresh connection that has received the single
byte 10, which is not a request opcode. -/
def refused_client : clientbuf :=
  deliver stdProto (clientbuf_init stdProto 3 0) [10]

/-- The cached handle is absent, or it names a descriptor that is open and on
which `connect` has succeeded. -/
def cached_ok (st : ConnState) : Prop :=
  st.conn = -1 ∨ (st.conn ∈ st.opened ∧ st.conn ∈ st.connected)

instance (st : ConnState) : Decidable (cached_ok st) := by
  unfold cached_ok; infer_instance

/-- An example record: key "abc", username "alice", expiry 1700000000. -/
def record_abc : uniauth_storage :=
  { uniauth_storage.zero with key := some [97, 98, 99], keySz := 3,
                              username := some [97, 108, 105, 99, 101], usernameSz := 5,
                              expire := 1700000000 }

/-- A field of a response record is recognised by the client: a string field
carries one of the five string tags of a record and data without a zero byte,
an integer field 4 bytes, a time field 8 bytes. -/
def WireField.record_wf (P : Proto) : WireField → Prop
  | WireField.string t s => P.stringTag t ∧ 0 ∉ s
  | WireField.integer b => b.length = 4
  | WireField.time b => b.length = 8

instance (P : Proto) (f : WireField) : Decidable (f.record_wf P) := by
  cases f <;> unfold WireField.record_wf <;> infer_instance

/-- A response message as the spec describes it: exactly one of the three
kinds, a text for `MESSAGE` and `ERROR`, record fields for `RECORD`. -/
inductive Response where
  | message (text : List Nat)
  | error (text : List Nat)
  | record (fs : List WireField)
  deriving DecidableEq, Repr

/-- The bytes of a complete response: the opcode, then the text and its zero
terminator, or the fields and the end-marker. -/
def Response.bytes (P : Proto) : Response → List Nat
  | Response.message text => P.UNIAUTH_PROTO_RESPONSE_MESSAGE :: (text ++ [0])
  | Response.error text => P.UNIAUTH_PROTO_RESPONSE_ERROR :: (text ++ [0])
  | Response.record fs =>
    P.UNIAUTH_PROTO_RESPONSE_RECORD :: (wire_bytes P fs ++ [P.UNIAUTH_PROTO_FIELD_END])

/-- A response is well formed: its text holds no zero byte, its fields are
record fields. -/
def Response.wf (P : Proto) : Response → Prop
  | Response.message text => 0 ∉ text
  | Response.error text => 0 ∉ text
  | Response.record fs => ∀ f ∈ fs, f.record_wf P

instance (P : Proto) (r : Response) : Decidable (r.wf P) := by
  cases r <;> unfold Response.wf <;> infer_instance

/-- The socket delivers the bytes of `resp` in the non-empty pieces `chunks`,
one per blocking read, and then the outcomes `rest`. -/
def delivers (P : Proto) (s : Sock) (resp : Response) (chunks : List (List Nat))
    (rest : List ReadOutcome) : Prop :=
  s.reads = chunks.map ReadOutcome.data ++ rest ∧ (∀ c ∈ chunks, c ≠ []) ∧
  chunks.flatten = resp.bytes P

instance (P : Proto) (s : Sock) (resp : Response) (chunks : List (List Nat))
    (rest : List ReadOutcome) : Decidable (delivers P s resp chunks rest) := by
  unfold delivers; infer_instance

/-- What the `switch` of the client's `read_storage_record` stores for one
field of a response record: a string under its tag together with its length,
the id from the four bytes of an integer field, the expiry from the first four
bytes of a time field (the loop of `read_field_time` runs to `UNIAUTH_INT_SZ`). -/
def client_store_field (P : Proto) (f : WireField) (stor : uniauth_storage) :
    uniauth_storage :=
  match f with
  | WireField.string t s =>
    if t = P.UNIAUTH_PROTO_FIELD_KEY then { stor with key := some s, keySz := s.length }
    else if t = P.UNIAUTH_PROTO_FIELD_USER then
      { stor with username := some s, usernameSz := s.length }
    else if t = P.UNIAUTH_PROTO_FIELD_DISPLAY then
      { stor with displayName := some s, displayNameSz := s.length }
    else if t = P.UNIAUTH_PROTO_FIELD_REDIRECT then
      { stor with redirect := some s, redirectSz := s.length }
    else if t = P.UNIAUTH_PROTO_FIELD_TAG then { stor with tag := some s, tagSz := s.length }
    else stor
  | WireField.integer b => { stor with id := to_signed 32 (le_decode 32 b 0 4) }
  | WireField.time b => { stor with expire := to_signed 64 (le_decode 64 b 0 4) }

/-- The record after the client has stored the fields `fs` in order. -/
def client_store_fields (P : Proto) (fs : List WireField) (stor : uniauth_storage) :
    uniauth_storage :=
  fs.foldl (fun st f => client_store_field P f st) stor

/-- An encoder keeps the array: applied to a buffer of `maxsz` bytes it leaves
a buffer of `maxsz` bytes. -/
def Keeps (maxsz : Nat) (f : EncState → Bool × EncState) : Prop :=
  ∀ s : EncState, s.buffer.length = maxsz → (f s).2.buffer.length = maxsz

/-- The connection after reads have appended the bytes `bytes` to its buffer. -/
def received (client : clientbuf) (bytes : List Nat) : clientbuf :=
  { client with buf := writeAt client.buf client.bufsz bytes,
                bufsz := client.bufsz + bytes.length }

/-- The field whose tag byte stands at index `i` has not been received
completely within the first `bufsz` bytes: a string field without a zero byte
behind its tag, an id field with fewer than 4 or an expiry field with fewer
than 8 bytes behind its tag. -/
def field_incomplete (P : Proto) (buf : List Nat) (bufsz i : Nat) : Prop :=
  i < bufsz ∧
  ((P.serverStringTag (buf.getD i 0) ∧ ∀ k, i + 1 ≤ k → k < bufsz → buf.getD k 0 ≠ 0) ∨
   (buf.getD i 0 = P.UNIAUTH_PROTO_FIELD_ID ∧ bufsz < i + 1 + 4) ∨
   (buf.getD i 0 = P.UNIAUTH_PROTO_FIELD_EXPIRE ∧ bufsz < i + 1 + 8))

/-- One call on a connection from outside `clientbuf.c`: the functions that the
header exports for a connection after `clientbuf_init`. -/
inductive BufCall where
  | operation
  | input_mode
  | output_mode
  | send_error (text : List Nat)
  | send_message (text : List Nat)
  | send_record (key : Option (List Nat)) (keySz : Nat) (stor : uniauth_storage)
  deriving DecidableEq, Repr

/-- The connection and the socket after one call (the return value of the call
is not used: every order of calls is allowed). -/
def apply_call (P : Proto) (cs : clientbuf × Sock) : BufCall → clientbuf × Sock
  | BufCall.operation => (clientbuf_operation P cs.1 cs.2).2
  | BufCall.input_mode => (clientbuf_input_mode cs.1, cs.2)
  | BufCall.output_mode => (clientbuf_output_mode cs.1, cs.2)
  | BufCall.send_error text => (clientbuf_send_error P cs.1 cs.2 text).2
  | BufCall.send_message text => (clientbuf_send_message P cs.1 cs.2 text).2
  | BufCall.send_record key keySz stor => (clientbuf_send_record P cs.1 cs.2 key keySz stor).2

/-- The connection and the socket after a sequence of calls. -/
def run_calls (P : Proto) (cs : clientbuf × Sock) (calls : List BufCall) : clientbuf × Sock :=
  calls.foldl (apply_call P) cs

/-- The connection with the memory that follows its fixed buffer made visible:
`beyond` are the bytes stored right after `client->buf`. -/
def with_beyond (beyond : List Nat) (client : clientbuf) : clientbuf :=
  { client with buf := client.buf ++ beyond }

/-- The bounds on the cursor and the size of a connection, the fixed length of
its buffer, and the cursor at 0 while no status is set. -/
def conn_inv (P : Proto) (client : clientbuf) : Prop :=
  client.bufit ≤ client.bufsz ∧ client.bufsz ≤ P.UNIAUTH_MAX_MESSAGE ∧
  (client.iomode ≠ 0 → client.bufit = 0) ∧
  client.buf.length = P.UNIAUTH_MAX_MESSAGE ∧
  (client.status = Status.notset → client.bufit = 0)

/-! # Theorems -/

/-! ## Byte buffers -/

theorem length_writeAt (buf : List Nat) (pos : Nat) (bs : List Nat)
    (h : pos + bs.length ≤ buf.length) : (writeAt buf pos bs).length = buf.length := by
  simp [writeAt]; omega

theorem writeAt_writeAt (buf : List Nat) (pos : Nat) (x y : List Nat)
    (h : pos ≤ buf.length) :
    writeAt (writeAt buf pos x) (pos + x.length) y = writeAt buf pos (x ++ y) := by
  unfold writeAt
  have h1 : (List.take pos buf).length = pos := by simp [h]
  have e1 : List.take (pos + x.length) (List.take pos buf ++ x ++ List.drop (pos + x.length) buf)
      = List.take pos buf ++ x := by
    rw [List.take_append_eq_append_take]
    simp [h1]
  have e2 : List.drop (pos + x.length + y.length)
      (List.take pos buf ++ x ++ List.drop (pos + x.length) buf)
      = List.drop (pos + (x ++ y).length) buf := by
    rw [List.drop_append_eq_append_drop]
    simp [h1]
    have : pos + x.length + y.length - (min pos buf.length + x.length) = y.length := by
      rw [Nat.min_eq_left h]; omega
    simp [this, Nat.add_assoc]
    rw [Nat.min_eq_left h]; omega
  rw [e1, e2]; simp

theorem getD_writeAt_lt (buf : List Nat) (pos : Nat) (bs : List Nat) (i : Nat)
    (h : pos ≤ buf.length) (hi : i < pos) :
    (writeAt buf pos bs).getD i 0 = buf.getD i 0 := by
  unfold writeAt
  have h1 : (List.take pos buf).length = pos := by simp [h]
  simp only [List.getD_eq_getElem?_getD, List.append_assoc]
  rw [List.getElem?_append_left (by omega)]
  rw [List.getElem?_take_of_lt hi]

theorem getD_writeAt_mid (buf : List Nat) (pos : Nat) (bs : List Nat) (j : Nat)
    (h : pos ≤ buf.length) (hj : j < bs.length) :
    (writeAt buf pos bs).getD (pos + j) 0 = bs.getD j 0 := by
  unfold writeAt
  have h1 : (List.take pos buf).length = pos := by simp [h]
  simp only [List.getD_eq_getElem?_getD, List.append_assoc]
  rw [List.getElem?_append_right (by omega)]
  rw [h1, Nat.add_sub_cancel_left, List.getElem?_append_left hj]

theorem getD_writeAt_ge (buf : List Nat) (pos : Nat) (bs : List Nat) (i : Nat)
    (h : pos ≤ buf.length) (hi : pos + bs.length ≤ i) :
    (writeAt buf pos bs).getD i 0 = buf.getD i 0 := by
  unfold writeAt
  have h1 : (List.take pos buf).length = pos := by simp [h]
  simp only [List.getD_eq_getElem?_getD]
  rw [List.getElem?_append_right (by simp [h1]; omega)]
  simp only [List.length_append, h1, List.getElem?_drop]
  congr 2; omega

theorem slice_eq_of_getD (buf : List Nat) (off : Nat) (bs : List Nat)
    (h : ∀ j, j < bs.length → buf.getD (off + j) 0 = bs.getD j 0) :
    slice buf off bs.length = bs := by
  unfold slice
  apply List.ext_getElem
  · simp
  · intro n h1 h2
    simp at h1
    have := h n h1
    simp only [List.getD_eq_getElem?_getD, List.getElem?_eq_getElem h1, Option.getD_some] at this
    simp [this]

theorem slice_writeAt (buf : List Nat) (pos : Nat) (bs : List Nat) (h : pos ≤ buf.length) :
    slice (writeAt buf pos bs) pos bs.length = bs :=
  slice_eq_of_getD _ _ _ (fun j hj => getD_writeAt_mid buf pos bs j h hj)

/-! ## Client encoder: capacity -/

theorem enc_step_fits (maxsz n slack m : Nat) (present : Bool)
    (write rest : EncState → Bool × EncState)
    (hw : ∀ s, ((write s).1 = true ↔ s.iter + n + slack ≤ maxsz) ∧
      ((write s).1 = true → (write s).2.iter = s.iter + n))
    (hr : ∀ s, (rest s).1 = true ↔ s.iter + m ≤ maxsz) (hm : slack ≤ m) (s : EncState) :
    (enc_step present write rest s).1 = true ↔
      s.iter + ((if present then n else 0) + m) ≤ maxsz := by
  unfold enc_step
  cases present with
  | false => simp [hr]
  | true =>
    simp only [if_true]
    obtain ⟨h1, h2⟩ := hw s
    rcases hws : write s with ⟨b, s1⟩
    rw [hws] at h1 h2
    cases b with
    | true =>
      simp only [hr]
      have := h2 rfl
      simp only at this
      rw [this]; omega
    | false =>
      simp at h1 ⊢
      omega

theorem buffer_field_string_fits (maxsz t : Nat) (f : List Nat) (sz : Nat) (s : EncState) :
    ((buffer_field_string maxsz s t f sz).1 = true ↔ s.iter + (1 + (sz + 1)) + 0 ≤ maxsz) ∧
    ((buffer_field_string maxsz s t f sz).1 = true →
      (buffer_field_string maxsz s t f sz).2.iter = s.iter + (1 + (sz + 1))) := by
  unfold buffer_field_string
  by_cases h : s.iter + sz + 2 ≤ maxsz
  · simp [h]; omega
  · simp [h]; omega

theorem buffer_field_integer_fits (maxsz t : Nat) (v : Int) (s : EncState) :
    ((buffer_field_integer maxsz s t v).1 = true ↔ s.iter + (1 + 4) + 1 ≤ maxsz) ∧
    ((buffer_field_integer maxsz s t v).1 = true →
      (buffer_field_integer maxsz s t v).2.iter = s.iter + (1 + 4)) := by
  unfold buffer_field_integer
  by_cases h : s.iter + 6 ≤ maxsz
  · simp [h, UNIAUTH_INT_SZ]
  · simp [h]

theorem buffer_field_time_fits (maxsz t : Nat) (v : Int) (s : EncState) :
    ((buffer_field_time maxsz s t v).1 = true ↔ s.iter + (1 + 8) + 1 ≤ maxsz) ∧
    ((buffer_field_time maxsz s t v).1 = true →
      (buffer_field_time maxsz s t v).2.iter = s.iter + (1 + 8)) := by
  unfold buffer_field_time
  by_cases h : s.iter + 10 ≤ maxsz
  · simp [h, UNIAUTH_TIME_SZ]
  · simp [h]

theorem buffer_field_end_fits (P : Proto) (maxsz : Nat) (s : EncState) :
    (buffer_field_end P maxsz s).1 = true ↔ s.iter + 1 ≤ maxsz := by
  unfold buffer_field_end
  by_cases h : s.iter < maxsz
  · simp [h]; omega
  · simp [h]; omega

/-- The return flag of `buffer_storage_record` in terms of the cursor, the wire
size and the capacity. -/
theorem buffer_storage_record_fits (P : Proto) (maxsz : Nat) (st : EncState)
    (stor : uniauth_storage) :
    (buffer_storage_record P maxsz st stor).1 = true ↔ st.iter + wire_size stor ≤ maxsz := by
  unfold buffer_storage_record
  rw [enc_step_fits maxsz _ 0 _ _ _ _ (buffer_field_string_fits maxsz _ _ _)
    (enc_step_fits maxsz _ 1 _ _ _ _ (buffer_field_integer_fits maxsz _ _)
    (enc_step_fits maxsz _ 0 _ _ _ _ (buffer_field_string_fits maxsz _ _ _)
    (enc_step_fits maxsz _ 0 _ _ _ _ (buffer_field_string_fits maxsz _ _ _)
    (enc_step_fits maxsz _ 1 _ _ _ _ (buffer_field_time_fits maxsz _ _)
    (enc_step_fits maxsz _ 0 _ _ _ _ (buffer_field_string_fits maxsz _ _ _)
    (enc_step_fits maxsz _ 0 _ _ _ _ (buffer_field_string_fits maxsz _ _ _)
    (buffer_field_end_fits P maxsz) (Nat.zero_le _))
    (Nat.zero_le _)) (by split <;> omega)) (Nat.zero_le _)) (Nat.zero_le _)) (by split <;> omega))
    (Nat.zero_le _)]
  unfold wire_size
  simp only [decide_eq_true_eq, Nat.reduceAdd]
  omega

/-- C5: `buffer_storage_record` succeeds exactly when the cursor plus the wire
size of the record (sum over the present fields of tag plus payload, plus one
end-marker byte) does not exceed `maxsz`, and fails exactly when it does; the
outcome depends on the cursor, the record and the capacity only, not on the
buffer contents. -/
theorem buffer_storage_record_ok_iff (P : Proto) (maxsz : Nat) (st : EncState)
    (stor : uniauth_storage) :
    ((buffer_storage_record P maxsz st stor).1 = true ↔ st.iter + wire_size stor ≤ maxsz) ∧
    ((buffer_storage_record P maxsz st stor).1 = false ↔ maxsz < st.iter + wire_size stor) := by
  have h := buffer_storage_record_fits P maxsz st stor
  refine ⟨h, ?_⟩
  constructor
  · intro hf
    by_contra hle
    have := h.mpr (by omega)
    rw [hf] at this
    exact absurd this (by decide)
  · intro hlt
    cases hb : (buffer_storage_record P maxsz st stor).1 with
    | false => rfl
    | true => have := h.mp hb; omega

/-! ## Client encoder: bytes written -/

theorem strncpy_length (src : List Nat) (n : Nat) : (strncpy src n).length = n := by
  simp [strncpy]

theorem strncpy_cstring (l : List Nat) (h : 0 ∉ l) : strncpy l l.length = l := by
  have h1 : l.takeWhile (fun b => decide (b ≠ 0)) = l := by
    rw [List.takeWhile_eq_self_iff]
    intro a ha
    simp
    rintro rfl
    exact h ha
  unfold strncpy
  simp only [h1, List.take_length, Nat.sub_self, List.replicate_zero, List.append_nil]

theorem le_bytes_length (n : Nat) (v : Int) : (le_bytes n v).length = n := by
  simp [le_bytes]

theorem enc_step_appends (maxsz : Nat) (present : Bool)
    (write rest : EncState → Bool × EncState) (bs rs : List Nat)
    (hw : Appends maxsz write bs) (hr : Appends maxsz rest rs) :
    Appends maxsz (enc_step present write rest) ((if present then bs else []) ++ rs) := by
  intro s hlen hok
  unfold enc_step at hok ⊢
  cases present with
  | false => simpa using hr s hlen (by simpa using hok)
  | true =>
    simp only [if_true] at hok ⊢
    have h1 := hw s hlen
    rcases hws : write s with ⟨b, s1⟩
    rw [hws] at h1 hok
    cases b with
    | false => simp at hok
    | true =>
      obtain ⟨hfit, hs1⟩ := h1 rfl
      simp only at hs1 hok ⊢
      subst hs1
      have hlen1 : (writeAt s.buffer s.iter bs).length = maxsz := by
        rw [length_writeAt _ _ _ (by omega)]; exact hlen
      obtain ⟨hfit2, hres⟩ := hr ⟨writeAt s.buffer s.iter bs, s.iter + bs.length⟩ hlen1 hok
      simp only at hfit2 hres
      refine ⟨by simp; omega, ?_⟩
      rw [hres, writeAt_writeAt _ _ _ _ (by omega)]
      simp [Nat.add_assoc]

theorem buffer_field_string_appends (maxsz t : Nat) (f : List Nat) (sz : Nat) :
    Appends maxsz (fun s => buffer_field_string maxsz s t f sz) (t :: strncpy f sz ++ [0]) := by
  intro s _ hok
  simp only [buffer_field_string] at hok ⊢
  by_cases h : s.iter + sz + 2 ≤ maxsz
  · simp [h, strncpy_length]; omega
  · simp [h] at hok

theorem buffer_field_integer_appends (maxsz t : Nat) (v : Int) :
    Appends maxsz (fun s => buffer_field_integer maxsz s t v) (t :: le_bytes 4 v) := by
  intro s _ hok
  simp only [buffer_field_integer] at hok ⊢
  by_cases h : s.iter + 6 ≤ maxsz
  · simp [h, le_bytes_length, UNIAUTH_INT_SZ]; omega
  · simp [h] at hok

theorem buffer_field_time_appends (maxsz t : Nat) (v : Int) :
    Appends maxsz (fun s => buffer_field_time maxsz s t v) (t :: le_bytes 8 v) := by
  intro s _ hok
  simp only [buffer_field_time] at hok ⊢
  by_cases h : s.iter + 10 ≤ maxsz
  · simp [h, le_bytes_length, UNIAUTH_TIME_SZ]; omega
  · simp [h] at hok

theorem buffer_field_end_appends (P : Proto) (maxsz : Nat) :
    Appends maxsz (fun s => buffer_field_end P maxsz s) [P.UNIAUTH_PROTO_FIELD_END] := by
  intro s _ hok
  simp only [buffer_field_end] at hok ⊢
  by_cases h : s.iter < maxsz
  · simp [h]; omega
  · simp [h] at hok

theorem string_field_eq (t : Nat) (s : Option (List Nat)) (sz : Nat) (h : cstring s sz) :
    (if s.isSome then t :: strncpy (s.getD []) sz ++ [0] else []) = string_field t s := by
  cases s with
  | none => rfl
  | some l =>
    obtain ⟨h1, h2⟩ := h
    subst h1
    simp [string_field, strncpy_cstring l h2]

theorem buffer_storage_record_appends (P : Proto) (maxsz : Nat) (stor : uniauth_storage)
    (hs : stor.cstrings) :
    Appends maxsz (fun s => buffer_storage_record P maxsz s stor) (record_bytes P stor) := by
  obtain ⟨h1, h2, h3, h4, h5⟩ := hs
  have key := enc_step_appends maxsz stor.key.isSome _ _ _ _
    (buffer_field_string_appends maxsz P.UNIAUTH_PROTO_FIELD_KEY (stor.key.getD []) stor.keySz)
    (enc_step_appends maxsz (decide (stor.id ≠ 0)) _ _ _ _
    (buffer_field_integer_appends maxsz P.UNIAUTH_PROTO_FIELD_ID stor.id)
    (enc_step_appends maxsz stor.username.isSome _ _ _ _
    (buffer_field_string_appends maxsz P.UNIAUTH_PROTO_FIELD_USER (stor.username.getD [])
      stor.usernameSz)
    (enc_step_appends maxsz stor.displayName.isSome _ _ _ _
    (buffer_field_string_appends maxsz P.UNIAUTH_PROTO_FIELD_DISPLAY (stor.displayName.getD [])
      stor.displayNameSz)
    (enc_step_appends maxsz (decide (stor.expire ≠ 0)) _ _ _ _
    (buffer_field_time_appends maxsz P.UNIAUTH_PROTO_FIELD_EXPIRE stor.expire)
    (enc_step_appends maxsz stor.redirect.isSome _ _ _ _
    (buffer_field_string_appends maxsz P.UNIAUTH_PROTO_FIELD_REDIRECT (stor.redirect.getD [])
      stor.redirectSz)
    (enc_step_appends maxsz stor.tag.isSome _ _ _ _
    (buffer_field_string_appends maxsz P.UNIAUTH_PROTO_FIELD_TAG (stor.tag.getD [])
      stor.tagSz)
    (buffer_field_end_appends P maxsz)))))))
  rw [string_field_eq _ _ _ h1, string_field_eq _ _ _ h2, string_field_eq _ _ _ h3,
    string_field_eq _ _ _ h4, string_field_eq _ _ _ h5] at key
  simp only [decide_eq_true_eq] at key
  unfold record_bytes
  simp only [List.append_assoc]
  exact key

/-- C8: whenever `buffer_storage_record` succeeds on a buffer of `maxsz` bytes
(for a record whose string fields are C strings of the recorded length), the
cursor has advanced by exactly the length of the canonical encoding, the bytes
from the starting cursor on are exactly the canonical encoding (present fields
in the fixed order, then one end-marker; absent fields contribute nothing), the
bytes before the starting cursor are unchanged and the buffer keeps its
size. -/
theorem buffer_storage_record_canonical (P : Proto) (maxsz : Nat) (st : EncState)
    (stor : uniauth_storage) (hbuf : st.buffer.length = maxsz) (hs : stor.cstrings)
    (hok : (buffer_storage_record P maxsz st stor).1 = true) :
    (buffer_storage_record P maxsz st stor).2.iter = st.iter + (record_bytes P stor).length ∧
    slice (buffer_storage_record P maxsz st stor).2.buffer st.iter (record_bytes P stor).length
      = record_bytes P stor ∧
    (∀ i, i < st.iter →
      (buffer_storage_record P maxsz st stor).2.buffer.getD i 0 = st.buffer.getD i 0) ∧
    (buffer_storage_record P maxsz st stor).2.buffer.length = maxsz := by
  obtain ⟨hfit, hres⟩ := buffer_storage_record_appends P maxsz stor hs st hbuf hok
  simp only at hres
  rw [hres]
  refine ⟨rfl, slice_writeAt _ _ _ (by omega), ?_, ?_⟩
  · intro i hi
    exact getD_writeAt_lt _ _ _ _ (by omega) hi
  · rw [length_writeAt _ _ _ (by omega)]; exact hbuf

/-- Witness for C8: a record with key "abc", id 7 and expiry 1700000000 encoded
at cursor 1 of a 40-byte buffer. -/
theorem buffer_storage_record_canonical_witness :
    (buffer_storage_record stdProto 40 ⟨List.replicate 40 0, 1⟩
        { uniauth_storage.zero with
          key := some [97, 98, 99], keySz := 3, id := 7, expire := 1700000000 }).2.iter = 21 ∧
    slice (buffer_storage_record stdProto 40 ⟨List.replicate 40 0, 1⟩
        { uniauth_storage.zero with
          key := some [97, 98, 99], keySz := 3, id := 7, expire := 1700000000 }).2.buffer 1 20
      = [1, 97, 98, 99, 0, 2, 7, 0, 0, 0, 5, 0, 241, 83, 101, 0, 0, 0, 0, 10] := by
  have h := buffer_storage_record_canonical stdProto 40 ⟨List.replicate 40 0, 1⟩
    { uniauth_storage.zero with
      key := some [97, 98, 99], keySz := 3, id := 7, expire := 1700000000 }
    (by decide) (by decide) (by decide)
  have e : record_bytes stdProto { uniauth_storage.zero with
      key := some [97, 98, 99], keySz := 3, id := 7, expire := 1700000000 }
      = [1, 97, 98, 99, 0, 2, 7, 0, 0, 0, 5, 0, 241, 83, 101, 0, 0, 0, 0, 10] := by decide
  rw [e] at h
  exact ⟨h.1, h.2.1⟩

/-- C9: the integer and time encoders refuse a field that fits exactly.  With 5
bytes of remaining capacity `buffer_field_integer` fails although the field
takes 5 bytes (1 tag + 4), and with 9 bytes `buffer_field_time` fails although
the field takes 9 bytes (1 tag + 8); with one byte more both succeed and
advance the cursor by 5 and 9.  The string and end-marker encoders succeed at
exactly their wire size. -/
theorem buffer_field_integer_exact_fit_fails :
    (buffer_field_integer 5 ⟨List.replicate 5 0, 0⟩ 2 7).1 = false ∧
    (buffer_field_integer 6 ⟨List.replicate 6 0, 0⟩ 2 7)
      = (true, ⟨[2, 7, 0, 0, 0, 0], 5⟩) ∧
    (buffer_field_time 9 ⟨List.replicate 9 0, 0⟩ 5 7).1 = false ∧
    (buffer_field_time 10 ⟨List.replicate 10 0, 0⟩ 5 7)
      = (true, ⟨[5, 7, 0, 0, 0, 0, 0, 0, 0, 0], 9⟩) ∧
    (buffer_field_string 5 ⟨List.replicate 5 0, 0⟩ 1 [97, 98, 99] 3)
      = (true, ⟨[1, 97, 98, 99, 0], 5⟩) ∧
    (buffer_field_end stdProto 1 ⟨[0], 0⟩) = (true, ⟨[10], 1⟩) := by
  decide

/-- C10: `read_field_time` decodes only the four low bytes.  On the 8-byte
little-endian encoding of 2^32 it returns 8 and stores 0, and on the encoding
of -1 it stores 4294967295; `read_field_integer` on the 4-byte encoding of -2
returns 4 and stores -2, and both return 0 and keep the output on a short
span. -/
theorem read_field_time_drops_high_bytes :
    le_bytes 8 (2 ^ 32) = [0, 0, 0, 0, 1, 0, 0, 0] ∧
    read_field_time (le_bytes 8 (2 ^ 32)) 0 8 77 = (8, 0) ∧
    read_field_time (le_bytes 8 (-1)) 0 8 77 = (8, 4294967295) ∧
    read_field_time (le_bytes 8 1700000000) 0 8 77 = (8, 1700000000) ∧
    read_field_integer (le_bytes 4 (-2)) 0 4 77 = (4, -2) ∧
    read_field_time [1, 2, 3, 4, 5, 6, 7] 0 7 77 = (0, 77) ∧
    read_field_integer [1, 2, 3] 0 3 77 = (0, 77) := by
  decide

/-! ## Daemon output phase -/

theorem slice_length (buf : List Nat) (off n : Nat) : (slice buf off n).length = n := by
  simp [slice]

theorem slice_append (buf : List Nat) (off n m : Nat) :
    slice buf off n ++ slice buf (off + n) m = slice buf off (n + m) := by
  unfold slice
  rw [List.range_add, List.map_append, List.map_map]
  congr 1
  apply List.map_congr_left
  intro a _
  simp [Nat.add_assoc]

theorem slice_zero (buf : List Nat) (off : Nat) : slice buf off 0 = [] := by
  simp [slice]

theorem slice_congr (b1 b2 : List Nat) (o1 o2 n : Nat)
    (h : ∀ j, j < n → b1.getD (o1 + j) 0 = b2.getD (o2 + j) 0) :
    slice b1 o1 n = slice b2 o2 n := by
  unfold slice
  apply List.map_congr_left
  intro a ha
  exact h a (List.mem_range.mp ha)

theorem getD_slice (buf : List Nat) (off n j : Nat) (h : j < n) :
    (slice buf off n).getD j 0 = buf.getD (off + j) 0 := by
  unfold slice
  rw [List.getD_eq_getElem?_getD, List.getElem?_map, List.getElem?_range h]
  simp

theorem slice_slice (b1 b2 : List Nat) (o1 o2 n a m : Nat)
    (h : slice b1 o1 n = slice b2 o2 n) (ham : a + m ≤ n) :
    slice b1 (o1 + a) m = slice b2 (o2 + a) m := by
  apply slice_congr
  intro j hj
  have e1 := getD_slice b1 o1 n (a + j) (by omega)
  have e2 := getD_slice b2 o2 n (a + j) (by omega)
  rw [h] at e1
  rw [Nat.add_assoc, Nat.add_assoc, ← e1, ← e2]

theorem flush_loop_spec (buf : List Nat) (base : Nat) (ws : List WriteOutcome) :
    ∀ (t sz : Nat) (sent : List Nat), (∀ w ∈ ws, w ≠ WriteOutcome.fail) →
      (flush_loop buf base ws t sz sent).1 = false ∧
      (flush_loop buf base ws t sz sent).2.1 + (flush_loop buf base ws t sz sent).2.2.1
        = t + sz ∧
      t ≤ (flush_loop buf base ws t sz sent).2.1 ∧
      (flush_loop buf base ws t sz sent).2.2.2.2
        = sent ++ slice buf (base + t) ((flush_loop buf base ws t sz sent).2.1 - t) ∧
      (∀ w ∈ (flush_loop buf base ws t sz sent).2.2.2.1, w ≠ WriteOutcome.fail) := by
  induction ws with
  | nil =>
    intro t sz sent hw
    cases sz <;> simp [flush_loop, slice_zero]
  | cons w ws ih =>
    intro t sz sent hw
    cases sz with
    | zero => simpa [flush_loop, slice_zero] using hw
    | succ n =>
      cases w with
      | wouldblock =>
        simp only [flush_loop, Nat.sub_self, slice_zero, List.append_nil, true_and,
          Nat.le_refl]
        intro w hw1
        exact hw w (List.mem_cons_of_mem _ hw1)
      | fail => exact absurd rfl (hw _ (List.mem_cons_self _ _))
      | accept k =>
        simp only [flush_loop]
        have h := ih (t + min k (n + 1)) (n + 1 - min k (n + 1))
          (sent ++ slice buf (base + t) (min k (n + 1)))
          (fun w hw1 => hw w (List.mem_cons_of_mem _ hw1))
        obtain ⟨h1, h2, h3, h4, h5⟩ := h
        refine ⟨h1, by omega, by omega, ?_, h5⟩
        rw [h4, List.append_assoc, ← Nat.add_assoc, slice_append]
        congr 2
        omega

theorem flush_buffer_spec (client : clientbuf) (s : Sock) (hit : client.bufit = 0)
    (hw : ∀ w ∈ s.writes, w ≠ WriteOutcome.fail) :
    ∃ t, t ≤ client.bufsz ∧
      (flush_buffer client s).1 = 0 ∧
      (flush_buffer client s).2.2.sent = s.sent ++ slice client.buf 0 t ∧
      (flush_buffer client s).2.1.bufit = 0 ∧
      (flush_buffer client s).2.1.bufsz = client.bufsz - t ∧
      slice (flush_buffer client s).2.1.buf 0 (client.bufsz - t)
        = slice client.buf t (client.bufsz - t) ∧
      ((flush_buffer client s).2.1.status = Status.complete ↔
        ((flush_buffer client s).2.1.bufsz = 0 ∨ client.status = Status.complete)) ∧
      (∀ w ∈ (flush_buffer client s).2.2.writes, w ≠ WriteOutcome.fail) := by
  obtain ⟨h1, h2, h3, h4, h5⟩ := flush_loop_spec client.buf client.bufit s.writes 0
    client.bufsz s.sent hw
  rw [hit] at h1 h2 h3 h4 h5
  refine ⟨(flush_loop client.buf 0 s.writes 0 client.bufsz s.sent).2.1, ?_⟩
  have e : (flush_loop client.buf 0 s.writes 0 client.bufsz s.sent).2.2.1
      = client.bufsz - (flush_loop client.buf 0 s.writes 0 client.bufsz s.sent).2.1 := by
    omega
  simp only [flush_buffer, hit, h1, Bool.false_eq_true, if_false]
  refine ⟨by omega, trivial, by simpa using h4, trivial, e, ?_, ?_, h5⟩
  · rw [← e]
    have := slice_writeAt client.buf 0
      (slice client.buf (0 + (flush_loop client.buf 0 s.writes 0 client.bufsz s.sent).2.1)
        (flush_loop client.buf 0 s.writes 0 client.bufsz s.sent).2.2.1) (Nat.zero_le _)
    rw [slice_length] at this
    simpa using this
  · by_cases hz : (flush_loop client.buf 0 s.writes 0 client.bufsz s.sent).2.2.1 = 0
    · simp only [hz, if_true, true_or]
    · simp only [hz, if_false, false_or]

theorem flush_repeat_spec (k : Nat) :
    ∀ (client : clientbuf) (s : Sock), client.bufit = 0 →
      (client.status = Status.complete → client.bufsz = 0) →
      (∀ w ∈ s.writes, w ≠ WriteOutcome.fail) →
      ∃ t, t ≤ client.bufsz ∧
        (flush_repeat k client s).2.sent = s.sent ++ slice client.buf 0 t ∧
        (flush_repeat k client s).1.bufit = 0 ∧
        (flush_repeat k client s).1.bufsz = client.bufsz - t ∧
        slice (flush_repeat k client s).1.buf 0 (client.bufsz - t)
          = slice client.buf t (client.bufsz - t) ∧
        ((flush_repeat k client s).1.status = Status.complete →
          (flush_repeat k client s).1.bufsz = 0) ∧
        (1 ≤ k → (flush_repeat k client s).1.bufsz = 0 →
          (flush_repeat k client s).1.status = Status.complete) := by
  induction k with
  | zero =>
    intro client s hit hst _
    exact ⟨0, Nat.zero_le _, by simp [flush_repeat, slice_zero], hit, rfl, rfl, hst,
      fun h => absurd h (by decide)⟩
  | succ k ih =>
    intro client s hit hst hw
    obtain ⟨t1, ht1, _, hsent1, hit1, hsz1, hbuf1, hst1, hw1⟩ :=
      flush_buffer_spec client s hit hw
    have hJ : (flush_buffer client s).2.1.status = Status.complete →
        (flush_buffer client s).2.1.bufsz = 0 := by
      intro h
      rcases hst1.mp h with h0 | h0
      · exact h0
      · have := hst h0; omega
    obtain ⟨t2, ht2, hsent2, hit2, hsz2, hbuf2, hst2, hcomp2⟩ :=
      ih (flush_buffer client s).2.1 (flush_buffer client s).2.2 hit1 hJ hw1
    refine ⟨t1 + t2, by omega, ?_, hit2, ?_, ?_, hst2, ?_⟩
    · show (flush_repeat k _ _).2.sent = _
      rw [hsent2, hsent1, List.append_assoc]
      congr 1
      rw [← slice_append]
      congr 1
      have := slice_slice _ _ 0 t1 (client.bufsz - t1) 0 t2 hbuf1 (by omega)
      simpa using this
    · show (flush_repeat k _ _).1.bufsz = _
      rw [hsz2, hsz1]; omega
    · show slice (flush_repeat k _ _).1.buf 0 _ = _
      have e : client.bufsz - (t1 + t2) = (flush_buffer client s).2.1.bufsz - t2 := by
        rw [hsz1]; omega
      rw [e, hbuf2, ← e]
      have := slice_slice _ _ 0 t1 (client.bufsz - t1) t2 (client.bufsz - (t1 + t2)) hbuf1
        (by omega)
      simpa using this
    · intro _ hz
      show (flush_repeat k _ _).1.status = Status.complete
      have hz1 : (flush_repeat k (flush_buffer client s).2.1 (flush_buffer client s).2.2).1.bufsz
          = 0 := hz
      rcases Nat.eq_zero_or_pos k with hk | hk
      · subst hk
        simp only [flush_repeat] at hz1 ⊢
        exact hst1.mpr (Or.inl hz1)
      · exact hcomp2 hk hz1

/-- C4: for an output-phase connection with cursor 0 (whose status is complete
only when nothing is buffered) and every script of write outcomes without a
genuine failure (each write accepts some bytes, at most those requested, or
reports would-block), after any number `k` of successive `flush_buffer`
invocations the socket has accepted exactly the first `t` buffered bytes, in
order, for some `t`; the unsent bytes occupy `buf[0 .. bufsz - t)`, `bufit` is
0 and the fill length is `bufsz - t`; after at least one invocation the status
is complete exactly when the fill length is 0, and then the bytes accepted are
the whole original content. -/
theorem flush_buffer_stream (k : Nat) (client : clientbuf) (s : Sock)
    (hit : client.bufit = 0)
    (hst : client.status = Status.complete → client.bufsz = 0)
    (hw : ∀ w ∈ s.writes, w ≠ WriteOutcome.fail) :
    ∃ t, t ≤ client.bufsz ∧
      (flush_repeat k client s).2.sent = s.sent ++ slice client.buf 0 t ∧
      (flush_repeat k client s).1.bufit = 0 ∧
      (flush_repeat k client s).1.bufsz = client.bufsz - t ∧
      slice (flush_repeat k client s).1.buf 0 (client.bufsz - t)
        = slice client.buf t (client.bufsz - t) ∧
      (1 ≤ k → ((flush_repeat k client s).1.status = Status.complete ↔
        (flush_repeat k client s).1.bufsz = 0)) ∧
      ((flush_repeat k client s).1.status = Status.complete →
        (flush_repeat k client s).2.sent = s.sent ++ slice client.buf 0 client.bufsz) := by
  obtain ⟨t, ht, hsent, hit2, hsz, hbuf, hst2, hcomp⟩ :=
    flush_repeat_spec k client s hit hst hw
  refine ⟨t, ht, hsent, hit2, hsz, hbuf, fun hk => ⟨hst2, hcomp hk⟩, ?_⟩
  intro h
  have := hst2 h
  have e : t = client.bufsz := by omega
  rw [hsent, e]

/-- Witness for C4: four buffered bytes, a socket that takes one byte, then
would block, then takes the rest; after two invocations the status is complete
and the socket holds the four bytes in order. -/
theorem flush_buffer_stream_witness :
    (flush_repeat 2 { clientbuf_init stdProto 3 0 with
        buf := [6, 1, 97, 0, 0, 0], bufsz := 4, iomode := 1, status := Status.incomplete }
      ⟨[], [WriteOutcome.accept 1, WriteOutcome.wouldblock, WriteOutcome.accept 9], []⟩).2.sent
      = [6, 1, 97, 0] := by
  obtain ⟨t, _, _, _, _, _, _, h⟩ := flush_buffer_stream 2
    { clientbuf_init stdProto 3 0 with
        buf := [6, 1, 97, 0, 0, 0], bufsz := 4, iomode := 1, status := Status.incomplete }
    ⟨[], [WriteOutcome.accept 1, WriteOutcome.wouldblock, WriteOutcome.accept 9], []⟩
    (by decide) (by decide) (by decide)
  rw [h (by decide)]
  decide

/-! ## Client response recognition -/

theorem seek_zero_spec (buf : List Nat) (limit : Nat) :
    ∀ (fuel i : Nat), limit - i ≤ fuel →
      i ≤ seek_zero buf limit fuel i ∧
      seek_zero buf limit fuel i ≤ max i limit ∧
      (∀ k, i ≤ k → k < seek_zero buf limit fuel i → buf.getD k 0 ≠ 0) ∧
      (seek_zero buf limit fuel i < limit → buf.getD (seek_zero buf limit fuel i) 0 = 0) := by
  intro fuel
  induction fuel with
  | zero =>
    intro i h
    simp only [seek_zero]
    refine ⟨Nat.le_refl _, Nat.le_max_left _ _, fun k h1 h2 => by omega, fun h1 => by omega⟩
  | succ f ih =>
    intro i h
    simp only [seek_zero]
    by_cases h1 : i < limit
    · by_cases h2 : buf.getD i 0 = 0
      · rw [if_pos h1, if_pos h2]
        exact ⟨Nat.le_refl _, Nat.le_max_left _ _, fun k h3 h4 => by omega, fun _ => h2⟩
      · rw [if_pos h1, if_neg h2]
        obtain ⟨a, b, c, d⟩ := ih (i + 1) (by omega)
        refine ⟨by omega, ?_, ?_, d⟩
        · have : max (i + 1) limit = max i limit := by omega
          omega
        · intro k hk1 hk2
          rcases Nat.eq_or_lt_of_le hk1 with e | e
          · subst e; exact h2
          · exact c k (by omega) hk2
    · rw [if_neg h1]
      exact ⟨Nat.le_refl _, Nat.le_max_left _ _, fun k h3 h4 => by omega, fun h3 => by omega⟩

theorem seek_zero_eq_of_first_zero (buf : List Nat) (limit fuel i j : Nat)
    (hf : limit - i ≤ fuel) (h : first_zero buf limit i j) :
    seek_zero buf limit fuel i = j := by
  obtain ⟨h1, h2, h3, h4⟩ := h
  obtain ⟨a, b, c, d⟩ := seek_zero_spec buf limit fuel i hf
  rcases Nat.lt_trichotomy (seek_zero buf limit fuel i) j with e | e | e
  · exact absurd (d (by omega)) (h4 _ a e)
  · exact e
  · exact absurd h3 (c j h1 e)

theorem first_zero_of_seek_zero (buf : List Nat) (limit fuel i : Nat)
    (hf : limit - i ≤ fuel) (h : seek_zero buf limit fuel i < limit) :
    first_zero buf limit i (seek_zero buf limit fuel i) := by
  obtain ⟨a, _, c, d⟩ := seek_zero_spec buf limit fuel i hf
  exact ⟨a, h, d h, c⟩

theorem no_zero_of_seek_zero (buf : List Nat) (limit fuel i : Nat)
    (hf : limit - i ≤ fuel) (h : limit ≤ seek_zero buf limit fuel i) :
    ∀ k, i ≤ k → k < limit → buf.getD k 0 ≠ 0 := by
  obtain ⟨_, _, c, _⟩ := seek_zero_spec buf limit fuel i hf
  exact fun k h1 h2 => c k h1 (by omega)

theorem seek_zero_ge_of_no_zero (buf : List Nat) (limit fuel i : Nat)
    (hf : limit - i ≤ fuel) (h : ∀ k, i ≤ k → k < limit → buf.getD k 0 ≠ 0) :
    limit ≤ seek_zero buf limit fuel i := by
  obtain ⟨a, _, _, d⟩ := seek_zero_spec buf limit fuel i hf
  by_contra hlt
  exact h _ a (by omega) (d (by omega))

theorem stringTag_mem (P : Proto) (t : Nat) (h : P.stringTag t) : t ∈ P.recordTags := by
  unfold Proto.stringTag at h
  simp only [Proto.recordTags, List.mem_cons, List.mem_singleton]
  tauto

theorem recordTags_ne_end (P : Proto) (hP : P.wf) (t : Nat) (h : t ∈ P.recordTags) :
    t ≠ P.UNIAUTH_PROTO_FIELD_END := by
  have h1 := hP.1
  simp only [Proto.fieldTags, List.nodup_cons, List.mem_cons, List.mem_singleton, not_or] at h1
  simp only [Proto.recordTags, List.mem_cons, List.mem_singleton, List.mem_nil_iff,
    or_false] at h
  obtain ⟨⟨a1, a2, a3, a4, a5, a6, a7, _⟩, _⟩ := h1
  rintro rfl
  rcases h with h | h | h | h | h | h | h
  · exact a1 h
  · exact a2 h
  · exact a3 h
  · exact a4 h
  · exact a5 h
  · exact a6 h
  · exact a7 h

theorem id_not_stringTag (P : Proto) (hP : P.wf) :
    ¬ P.stringTag P.UNIAUTH_PROTO_FIELD_ID ∧ ¬ P.stringTag P.UNIAUTH_PROTO_FIELD_EXPIRE ∧
    P.UNIAUTH_PROTO_FIELD_ID ≠ P.UNIAUTH_PROTO_FIELD_EXPIRE := by
  have h1 := hP.1
  simp only [Proto.fieldTags, List.nodup_cons, List.mem_cons, List.mem_singleton, not_or,
    List.mem_nil_iff, not_false_eq_true, List.nodup_nil, and_true] at h1
  unfold Proto.stringTag
  have := h1.2
  refine ⟨?_, ?_, ?_⟩
  · rintro (h | h | h | h | h) <;> simp_all
  · rintro (h | h | h | h | h) <;> simp_all
  · intro h; simp_all

theorem recv_record_loop_end (P : Proto) (buffer : List Nat) (it fuel i : Nat)
    (hi : i < it) (h : buffer.getD i 0 = P.UNIAUTH_PROTO_FIELD_END) :
    recv_record_loop P buffer it (fuel + 1) i = 0 := by
  simp only [recv_record_loop]
  rw [if_pos hi, if_pos h]

theorem recv_record_loop_past (P : Proto) (buffer : List Nat) (it fuel i : Nat)
    (hi : it ≤ i) : recv_record_loop P buffer it fuel i = 1 := by
  cases fuel with
  | zero => rfl
  | succ f =>
    simp only [recv_record_loop]
    rw [if_neg (by omega)]

theorem recv_record_loop_string (P : Proto) (buffer : List Nat) (it fuel i : Nat)
    (hi : i < it) (h : buffer.getD i 0 ≠ P.UNIAUTH_PROTO_FIELD_END)
    (hs : P.stringTag (buffer.getD i 0)) :
    recv_record_loop P buffer it (fuel + 1) i =
      if seek_zero buffer it (it - (i + 1)) (i + 1) ≥ it then 1
      else recv_record_loop P buffer it fuel (seek_zero buffer it (it - (i + 1)) (i + 1) + 1) := by
  unfold Proto.stringTag at hs
  simp only [recv_record_loop]
  rw [if_pos hi, if_neg h, if_pos hs]

theorem recv_record_loop_integer (P : Proto) (hP : P.wf) (buffer : List Nat) (it fuel i : Nat)
    (hi : i < it) (h : buffer.getD i 0 = P.UNIAUTH_PROTO_FIELD_ID) :
    recv_record_loop P buffer it (fuel + 1) i = recv_record_loop P buffer it fuel (i + 1 + 4) := by
  have hne : buffer.getD i 0 ≠ P.UNIAUTH_PROTO_FIELD_END :=
    recordTags_ne_end P hP _ (by rw [h]; simp [Proto.recordTags])
  have hs : ¬ P.stringTag (buffer.getD i 0) := by rw [h]; exact (id_not_stringTag P hP).1
  unfold Proto.stringTag at hs
  simp only [recv_record_loop]
  rw [if_pos hi, if_neg hne, if_neg hs, if_pos h]

theorem recv_record_loop_time (P : Proto) (hP : P.wf) (buffer : List Nat) (it fuel i : Nat)
    (hi : i < it) (h : buffer.getD i 0 = P.UNIAUTH_PROTO_FIELD_EXPIRE) :
    recv_record_loop P buffer it (fuel + 1) i = recv_record_loop P buffer it fuel (i + 1 + 8) := by
  have hne : buffer.getD i 0 ≠ P.UNIAUTH_PROTO_FIELD_END :=
    recordTags_ne_end P hP _ (by rw [h]; simp [Proto.recordTags])
  have hs : ¬ P.stringTag (buffer.getD i 0) := by rw [h]; exact (id_not_stringTag P hP).2.1
  have hid : buffer.getD i 0 ≠ P.UNIAUTH_PROTO_FIELD_ID := by
    rw [h]; exact fun e => (id_not_stringTag P hP).2.2 e.symm
  unfold Proto.stringTag at hs
  simp only [recv_record_loop]
  rw [if_pos hi, if_neg hne, if_neg hs, if_neg hid, if_pos h]

theorem recv_record_loop_bad (P : Proto) (buffer : List Nat) (it fuel i : Nat)
    (hi : i < it) (h : buffer.getD i 0 ≠ P.UNIAUTH_PROTO_FIELD_END)
    (hb : buffer.getD i 0 ∉ P.recordTags) :
    recv_record_loop P buffer it (fuel + 1) i = 2 := by
  have hs : ¬ P.stringTag (buffer.getD i 0) := fun hs => hb (stringTag_mem P _ hs)
  have hid : buffer.getD i 0 ≠ P.UNIAUTH_PROTO_FIELD_ID := by
    intro e; apply hb; rw [e]; simp [Proto.recordTags]
  have hex : buffer.getD i 0 ≠ P.UNIAUTH_PROTO_FIELD_EXPIRE := by
    intro e; apply hb; rw [e]; simp [Proto.recordTags]
  unfold Proto.stringTag at hs
  simp only [recv_record_loop]
  rw [if_pos hi, if_neg h, if_neg hs, if_neg hid, if_neg hex]

theorem recordTags_cases (P : Proto) (t : Nat) (h : t ∈ P.recordTags) :
    P.stringTag t ∨ t = P.UNIAUTH_PROTO_FIELD_ID ∨ t = P.UNIAUTH_PROTO_FIELD_EXPIRE := by
  unfold Proto.stringTag
  simp only [Proto.recordTags, List.mem_cons, List.mem_singleton, List.mem_nil_iff,
    or_false] at h
  tauto

theorem recv_record_loop_outcome (P : Proto) (hP : P.wf) (buffer : List Nat) (it : Nat) :
    ∀ (fuel i : Nat), RecvWalk P buffer it i → it - i ≤ fuel →
      (recv_record_loop P buffer it fuel i = 0 ∧ recv_complete P buffer it) ∨
      (recv_record_loop P buffer it fuel i = 1 ∧ recv_runs_out P buffer it) ∨
      (recv_record_loop P buffer it fuel i = 2 ∧ recv_bad_tag P buffer it) := by
  intro fuel
  induction fuel with
  | zero =>
    intro i hw hf
    exact Or.inr (Or.inl ⟨rfl, i, hw, Or.inl (by omega)⟩)
  | succ f ih =>
    intro i hw hf
    by_cases hi : i < it
    · by_cases he : buffer.getD i 0 = P.UNIAUTH_PROTO_FIELD_END
      · exact Or.inl ⟨recv_record_loop_end P buffer it f i hi he, i, hw, hi, he⟩
      · by_cases hm : buffer.getD i 0 ∈ P.recordTags
        · rcases recordTags_cases P _ hm with hs | hid | hex
          · rw [recv_record_loop_string P buffer it f i hi he hs]
            by_cases hz : seek_zero buffer it (it - (i + 1)) (i + 1) ≥ it
            · rw [if_pos hz]
              exact Or.inr (Or.inl ⟨rfl, i, hw, Or.inr ⟨hi, hs,
                no_zero_of_seek_zero buffer it _ (i + 1) (Nat.le_refl _) hz⟩⟩)
            · rw [if_neg hz]
              have hfz := first_zero_of_seek_zero buffer it _ (i + 1) (Nat.le_refl _)
                (by omega)
              exact ih _ (RecvWalk.string i _ hw hi hs hfz) (by have := hfz.1; omega)
          · rw [recv_record_loop_integer P hP buffer it f i hi hid]
            exact ih _ (RecvWalk.integer i hw hi hid) (by omega)
          · rw [recv_record_loop_time P hP buffer it f i hi hex]
            exact ih _ (RecvWalk.time i hw hi hex) (by omega)
        · exact Or.inr (Or.inr ⟨recv_record_loop_bad P buffer it f i hi he hm, i, hw, hi, he, hm⟩)
    · exact Or.inr (Or.inl ⟨recv_record_loop_past P buffer it _ i (by omega), i, hw,
        Or.inl (by omega)⟩)

theorem recv_record_loop_along (P : Proto) (hP : P.wf) (buffer : List Nat) (it i : Nat)
    (hw : RecvWalk P buffer it i) :
    ∃ fuel, it - i ≤ fuel ∧
      recv_record_loop P buffer it it 1 = recv_record_loop P buffer it fuel i := by
  induction hw with
  | start => exact ⟨it, by omega, rfl⟩
  | string i j _ hi hs hfz ih =>
    obtain ⟨fuel, hf, e⟩ := ih
    obtain ⟨f, rfl⟩ : ∃ f, fuel = f + 1 := ⟨fuel - 1, by omega⟩
    have he : buffer.getD i 0 ≠ P.UNIAUTH_PROTO_FIELD_END :=
      recordTags_ne_end P hP _ (stringTag_mem P _ hs)
    refine ⟨f, by have := hfz.1; omega, ?_⟩
    rw [e, recv_record_loop_string P buffer it f i hi he hs,
      seek_zero_eq_of_first_zero buffer it _ (i + 1) j (Nat.le_refl _) hfz,
      if_neg (by have := hfz.2.1; omega)]
  | integer i _ hi hid ih =>
    obtain ⟨fuel, hf, e⟩ := ih
    obtain ⟨f, rfl⟩ : ∃ f, fuel = f + 1 := ⟨fuel - 1, by omega⟩
    exact ⟨f, by omega, by rw [e, recv_record_loop_integer P hP buffer it f i hi hid]⟩
  | time i _ hi hex ih =>
    obtain ⟨fuel, hf, e⟩ := ih
    obtain ⟨f, rfl⟩ : ∃ f, fuel = f + 1 := ⟨fuel - 1, by omega⟩
    exact ⟨f, by omega, by rw [e, recv_record_loop_time P hP buffer it f i hi hex]⟩

theorem recv_record_complete (P : Proto) (hP : P.wf) (buffer : List Nat) (it : Nat)
    (h : recv_complete P buffer it) : recv_record_loop P buffer it it 1 = 0 := by
  obtain ⟨i, hw, hi, he⟩ := h
  obtain ⟨fuel, hf, e⟩ := recv_record_loop_along P hP buffer it i hw
  obtain ⟨f, rfl⟩ : ∃ f, fuel = f + 1 := ⟨fuel - 1, by omega⟩
  rw [e, recv_record_loop_end P buffer it f i hi he]

theorem recv_record_bad_tag (P : Proto) (hP : P.wf) (buffer : List Nat) (it : Nat)
    (h : recv_bad_tag P buffer it) : recv_record_loop P buffer it it 1 = 2 := by
  obtain ⟨i, hw, hi, he, hb⟩ := h
  obtain ⟨fuel, hf, e⟩ := recv_record_loop_along P hP buffer it i hw
  obtain ⟨f, rfl⟩ : ∃ f, fuel = f + 1 := ⟨fuel - 1, by omega⟩
  rw [e, recv_record_loop_bad P buffer it f i hi he hb]

theorem recv_record_runs_out (P : Proto) (hP : P.wf) (buffer : List Nat) (it : Nat)
    (h : recv_runs_out P buffer it) : recv_record_loop P buffer it it 1 = 1 := by
  obtain ⟨i, hw, h⟩ := h
  obtain ⟨fuel, hf, e⟩ := recv_record_loop_along P hP buffer it i hw
  rcases h with h | ⟨hi, hs, hnz⟩
  · rw [e, recv_record_loop_past P buffer it fuel i h]
  · obtain ⟨f, rfl⟩ : ∃ f, fuel = f + 1 := ⟨fuel - 1, by omega⟩
    have he : buffer.getD i 0 ≠ P.UNIAUTH_PROTO_FIELD_END :=
      recordTags_ne_end P hP _ (stringTag_mem P _ hs)
    rw [e, recv_record_loop_string P buffer it f i hi he hs,
      if_pos (seek_zero_ge_of_no_zero buffer it _ (i + 1) (Nat.le_refl _) hnz)]

theorem recv_classify_spec (P : Proto) (hP : P.wf) (buffer : List Nat) (it : Nat)
    (hit : 1 ≤ it) :
    ((buffer.getD 0 0 = P.UNIAUTH_PROTO_RESPONSE_MESSAGE
        ∨ buffer.getD 0 0 = P.UNIAUTH_PROTO_RESPONSE_ERROR) →
      (recv_classify P buffer it = 0 ↔ ∃ j, 1 ≤ j ∧ j < it ∧ buffer.getD j 0 = 0) ∧
      (recv_classify P buffer it = 1 ↔ ¬ ∃ j, 1 ≤ j ∧ j < it ∧ buffer.getD j 0 = 0)) ∧
    (buffer.getD 0 0 = P.UNIAUTH_PROTO_RESPONSE_RECORD →
      (recv_classify P buffer it = 0 ↔ recv_complete P buffer it) ∧
      (recv_classify P buffer it = 1 ↔ recv_runs_out P buffer it) ∧
      (recv_classify P buffer it = 2 ↔ recv_bad_tag P buffer it)) ∧
    (buffer.getD 0 0 ≠ P.UNIAUTH_PROTO_RESPONSE_MESSAGE →
      buffer.getD 0 0 ≠ P.UNIAUTH_PROTO_RESPONSE_ERROR →
      buffer.getD 0 0 ≠ P.UNIAUTH_PROTO_RESPONSE_RECORD → recv_classify P buffer it = 2) := by
  refine ⟨?_, ?_, ?_⟩
  · intro h0
    have hc : recv_classify P buffer it
        = if seek_zero buffer it (it - 1) 1 ≥ it then 1 else 0 := by
      simp only [recv_classify]
      rw [if_pos h0]
    have key : (∃ j, 1 ≤ j ∧ j < it ∧ buffer.getD j 0 = 0) ↔
        ¬ seek_zero buffer it (it - 1) 1 ≥ it := by
      constructor
      · rintro ⟨j, h1, h2, h3⟩ hge
        exact no_zero_of_seek_zero buffer it _ 1 (Nat.le_refl _) hge j h1 h2 h3
      · intro hlt
        have hfz := first_zero_of_seek_zero buffer it _ 1 (Nat.le_refl _) (by omega)
        exact ⟨_, hfz.1, hfz.2.1, hfz.2.2.1⟩
    rw [hc, key]
    by_cases hz : seek_zero buffer it (it - 1) 1 ≥ it
    · simp [hz]
    · simp [hz]
  · intro h0
    have hne := hP.2.1
    simp only [List.nodup_cons, List.mem_cons, List.mem_singleton, not_or, List.mem_nil_iff,
      or_false] at hne
    have hc : recv_classify P buffer it = recv_record_loop P buffer it it 1 := by
      simp only [recv_classify]
      rw [if_neg (by rw [h0]; rintro (e | e); exact hne.1.2 e.symm; exact hne.2.1 e.symm),
        if_pos h0]
    rw [hc]
    have hout := recv_record_loop_outcome P hP buffer it it 1 RecvWalk.start (by omega)
    refine ⟨⟨?_, recv_record_complete P hP buffer it⟩,
      ⟨?_, recv_record_runs_out P hP buffer it⟩,
      ⟨?_, recv_record_bad_tag P hP buffer it⟩⟩
    · intro h; rcases hout with ⟨_, c⟩ | ⟨e, _⟩ | ⟨e, _⟩
      · exact c
      · rw [h] at e; exact absurd e (by decide)
      · rw [h] at e; exact absurd e (by decide)
    · intro h; rcases hout with ⟨e, _⟩ | ⟨_, c⟩ | ⟨e, _⟩
      · rw [h] at e; exact absurd e (by decide)
      · exact c
      · rw [h] at e; exact absurd e (by decide)
    · intro h; rcases hout with ⟨e, _⟩ | ⟨e, _⟩ | ⟨_, c⟩
      · rw [h] at e; exact absurd e (by decide)
      · rw [h] at e; exact absurd e (by decide)
      · exact c
  · intro h1 h2 h3
    simp only [recv_classify]
    rw [if_neg (by rintro (e | e); exact h1 e; exact h2 e), if_neg h3]

/-- C7: `uniauth_connect_recv` classifies the `it >= 1` accumulated bytes from
the first byte.  For `MESSAGE` or `ERROR` the result is 0 exactly when a zero
byte occurs among the bytes 1..it-1 and 1 otherwise.  For `RECORD` the result
is 0 exactly when an end-marker stands at a field-tag position reached by
walking whole fields, 1 exactly when the bytes run out inside or after a field
before an end-marker, and 2 exactly when a field-tag position holds a byte
that is neither a record tag nor the end-marker.  Any other first byte gives
2. -/
theorem uniauth_connect_recv_spec (P : Proto) (hP : P.wf) (buffer0 : List Nat)
    (maxsz iter : Nat) (bytes : List Nat) (st : Nat) (buffer : List Nat) (it : Nat)
    (hr : uniauth_connect_recv P buffer0 maxsz iter (ReadOutcome.data bytes)
      = (st, buffer, it))
    (hit : 1 ≤ it) :
    ((buffer.getD 0 0 = P.UNIAUTH_PROTO_RESPONSE_MESSAGE
        ∨ buffer.getD 0 0 = P.UNIAUTH_PROTO_RESPONSE_ERROR) →
      (st = 0 ↔ ∃ j, 1 ≤ j ∧ j < it ∧ buffer.getD j 0 = 0) ∧
      (st = 1 ↔ ¬ ∃ j, 1 ≤ j ∧ j < it ∧ buffer.getD j 0 = 0)) ∧
    (buffer.getD 0 0 = P.UNIAUTH_PROTO_RESPONSE_RECORD →
      (st = 0 ↔ recv_complete P buffer it) ∧
      (st = 1 ↔ recv_runs_out P buffer it) ∧
      (st = 2 ↔ recv_bad_tag P buffer it)) ∧
    (buffer.getD 0 0 ≠ P.UNIAUTH_PROTO_RESPONSE_MESSAGE →
      buffer.getD 0 0 ≠ P.UNIAUTH_PROTO_RESPONSE_ERROR →
      buffer.getD 0 0 ≠ P.UNIAUTH_PROTO_RESPONSE_RECORD → st = 2) := by
  simp only [uniauth_connect_recv, Prod.mk.injEq] at hr
  obtain ⟨h1, h2, h3⟩ := hr
  subst h2 h3
  rw [← h1]
  exact recv_classify_spec P hP _ _ hit

/-- Witness for C7: the response `RECORD, KEY "a", END` read in one piece is
classified as complete, so an end-marker stands at a field-tag position. -/
theorem uniauth_connect_recv_spec_witness :
    recv_complete stdProto [6, 1, 97, 0, 10, 0, 0, 0] 5 :=
  ((uniauth_connect_recv_spec stdProto (by decide) [0, 0, 0, 0, 0, 0, 0, 0] 8 0
    [6, 1, 97, 0, 10] 0 [6, 1, 97, 0, 10, 0, 0, 0] 5 (by decide) (by decide)).2.1
    (by decide)).1.mp rfl

/-! ## Daemon parser: one field -/

theorem le_decode_slice (w : Nat) (buf : List Nat) (off n : Nat) :
    le_decode w buf off n = le_decode w (slice buf off n) 0 n := by
  unfold le_decode
  apply List.foldl_ext
  intro a i hi
  rw [getD_slice buf off n (0 + i) (by simpa using List.mem_range.mp hi)]
  simp

theorem getD_of_slice_eq (buf : List Nat) (off : Nat) (bs : List Nat)
    (h : slice buf off bs.length = bs) (j : Nat) (hj : j < bs.length) :
    buf.getD (off + j) 0 = bs.getD j 0 := by
  rw [← getD_slice buf off bs.length j hj, h]

theorem slice_split (buf : List Nat) (off : Nat) (x y : List Nat)
    (h : slice buf off (x ++ y).length = x ++ y) :
    slice buf off x.length = x ∧ slice buf (off + x.length) y.length = y := by
  rw [List.length_append, ← slice_append] at h
  have := List.append_inj h (by simp [slice_length])
  exact this

theorem read_string_complete (client : clientbuf) (iter : Nat) (s : List Nat)
    (d : Option (List Nat)) (p : Nat) (hz : 0 ∉ s)
    (h : slice client.buf iter (s ++ [0]).length = s ++ [0])
    (hsz : iter + s.length + 1 ≤ client.bufsz) :
    read_string client iter d p = (s.length + 1, some s, s.length) := by
  obtain ⟨h1, h2⟩ := slice_split _ _ _ _ h
  have hfz : first_zero client.buf client.bufsz iter (iter + s.length) := by
    refine ⟨by omega, by omega, ?_, ?_⟩
    · have := getD_of_slice_eq _ _ _ h2 0 (by simp)
      simpa using this
    · intro k hk1 hk2 hk0
      have := getD_of_slice_eq _ _ _ h1 (k - iter) (by omega)
      rw [show iter + (k - iter) = k by omega, hk0] at this
      apply hz
      rw [this, List.getD_eq_getElem?_getD, List.getElem?_eq_getElem (by omega)]
      exact List.getElem_mem _
  have hj := seek_zero_eq_of_first_zero client.buf client.bufsz (client.bufsz - iter) iter _
    (Nat.le_refl _) hfz
  simp only [read_string, hj]
  rw [if_pos (by omega)]
  simp only [Nat.add_sub_cancel_left, h1]

theorem read_string_incomplete (client : clientbuf) (iter : Nat)
    (d : Option (List Nat)) (p : Nat)
    (h : ∀ k, iter ≤ k → k < client.bufsz → client.buf.getD k 0 ≠ 0) :
    read_string client iter d p = (0, d, p) := by
  have := seek_zero_ge_of_no_zero client.buf client.bufsz (client.bufsz - iter) iter
    (Nat.le_refl _) h
  simp only [read_string]
  rw [if_neg (by omega)]

theorem read_integer_complete (client : clientbuf) (iter : Nat) (b : List Nat) (d : Int)
    (hb : b.length = 4) (h : slice client.buf iter b.length = b)
    (hsz : iter + 4 ≤ client.bufsz) :
    read_integer client iter d = (4, to_signed 32 (le_decode 32 b 0 4)) := by
  simp only [read_integer, UNIAUTH_INT_SZ]
  rw [if_pos hsz, le_decode_slice, ← hb, h]

theorem read_time_complete (client : clientbuf) (iter : Nat) (b : List Nat) (d : Int)
    (hb : b.length = 8) (h : slice client.buf iter b.length = b)
    (hsz : iter + 8 ≤ client.bufsz) :
    read_time client iter d = (8, to_signed 64 (le_decode 64 b 0 8)) := by
  simp only [read_time, UNIAUTH_TIME_SZ]
  rw [if_pos hsz, le_decode_slice, ← hb, h]

theorem tags_distinct (P : Proto) (hP : P.wf) :
    (¬ P.UNIAUTH_PROTO_FIELD_END = P.UNIAUTH_PROTO_FIELD_KEY ∧
      ¬ P.UNIAUTH_PROTO_FIELD_END = P.UNIAUTH_PROTO_FIELD_ID ∧
      ¬ P.UNIAUTH_PROTO_FIELD_END = P.UNIAUTH_PROTO_FIELD_USER ∧
      ¬ P.UNIAUTH_PROTO_FIELD_END = P.UNIAUTH_PROTO_FIELD_DISPLAY ∧
      ¬ P.UNIAUTH_PROTO_FIELD_END = P.UNIAUTH_PROTO_FIELD_EXPIRE ∧
      ¬ P.UNIAUTH_PROTO_FIELD_END = P.UNIAUTH_PROTO_FIELD_REDIRECT ∧
      ¬ P.UNIAUTH_PROTO_FIELD_END = P.UNIAUTH_PROTO_FIELD_TAG ∧
      ¬ P.UNIAUTH_PROTO_FIELD_END = P.UNIAUTH_PROTO_FIELD_TRANSSRC ∧
      ¬ P.UNIAUTH_PROTO_FIELD_END = P.UNIAUTH_PROTO_FIELD_TRANSDST) ∧
    (¬ P.UNIAUTH_PROTO_FIELD_KEY = P.UNIAUTH_PROTO_FIELD_ID ∧
      ¬ P.UNIAUTH_PROTO_FIELD_KEY = P.UNIAUTH_PROTO_FIELD_USER ∧
      ¬ P.UNIAUTH_PROTO_FIELD_KEY = P.UNIAUTH_PROTO_FIELD_DISPLAY ∧
      ¬ P.UNIAUTH_PROTO_FIELD_KEY = P.UNIAUTH_PROTO_FIELD_EXPIRE ∧
      ¬ P.UNIAUTH_PROTO_FIELD_KEY = P.UNIAUTH_PROTO_FIELD_REDIRECT ∧
      ¬ P.UNIAUTH_PROTO_FIELD_KEY = P.UNIAUTH_PROTO_FIELD_TAG ∧
      ¬ P.UNIAUTH_PROTO_FIELD_KEY = P.UNIAUTH_PROTO_FIELD_TRANSSRC ∧
      ¬ P.UNIAUTH_PROTO_FIELD_KEY = P.UNIAUTH_PROTO_FIELD_TRANSDST) ∧
    (¬ P.UNIAUTH_PROTO_FIELD_ID = P.UNIAUTH_PROTO_FIELD_USER ∧
      ¬ P.UNIAUTH_PROTO_FIELD_ID = P.UNIAUTH_PROTO_FIELD_DISPLAY ∧
      ¬ P.UNIAUTH_PROTO_FIELD_ID = P.UNIAUTH_PROTO_FIELD_EXPIRE ∧
      ¬ P.UNIAUTH_PROTO_FIELD_ID = P.UNIAUTH_PROTO_FIELD_REDIRECT ∧
      ¬ P.UNIAUTH_PROTO_FIELD_ID = P.UNIAUTH_PROTO_FIELD_TAG ∧
      ¬ P.UNIAUTH_PROTO_FIELD_ID = P.UNIAUTH_PROTO_FIELD_TRANSSRC ∧
      ¬ P.UNIAUTH_PROTO_FIELD_ID = P.UNIAUTH_PROTO_FIELD_TRANSDST) ∧
    (¬ P.UNIAUTH_PROTO_FIELD_USER = P.UNIAUTH_PROTO_FIELD_DISPLAY ∧
      ¬ P.UNIAUTH_PROTO_FIELD_USER = P.UNIAUTH_PROTO_FIELD_EXPIRE ∧
      ¬ P.UNIAUTH_PROTO_FIELD_USER = P.UNIAUTH_PROTO_FIELD_REDIRECT ∧
      ¬ P.UNIAUTH_PROTO_FIELD_USER = P.UNIAUTH_PROTO_FIELD_TAG ∧
      ¬ P.UNIAUTH_PROTO_FIELD_USER = P.UNIAUTH_PROTO_FIELD_TRANSSRC ∧
      ¬ P.UNIAUTH_PROTO_FIELD_USER = P.UNIAUTH_PROTO_FIELD_TRANSDST) ∧
    (¬ P.UNIAUTH_PROTO_FIELD_DISPLAY = P.UNIAUTH_PROTO_FIELD_EXPIRE ∧
      ¬ P.UNIAUTH_PROTO_FIELD_DISPLAY = P.UNIAUTH_PROTO_FIELD_REDIRECT ∧
      ¬ P.UNIAUTH_PROTO_FIELD_DISPLAY = P.UNIAUTH_PROTO_FIELD_TAG ∧
      ¬ P.UNIAUTH_PROTO_FIELD_DISPLAY = P.UNIAUTH_PROTO_FIELD_TRANSSRC ∧
      ¬ P.UNIAUTH_PROTO_FIELD_DISPLAY = P.UNIAUTH_PROTO_FIELD_TRANSDST) ∧
    (¬ P.UNIAUTH_PROTO_FIELD_EXPIRE = P.UNIAUTH_PROTO_FIELD_REDIRECT ∧
      ¬ P.UNIAUTH_PROTO_FIELD_EXPIRE = P.UNIAUTH_PROTO_FIELD_TAG ∧
      ¬ P.UNIAUTH_PROTO_FIELD_EXPIRE = P.UNIAUTH_PROTO_FIELD_TRANSSRC ∧
      ¬ P.UNIAUTH_PROTO_FIELD_EXPIRE = P.UNIAUTH_PROTO_FIELD_TRANSDST) ∧
    (¬ P.UNIAUTH_PROTO_FIELD_REDIRECT = P.UNIAUTH_PROTO_FIELD_TAG ∧
      ¬ P.UNIAUTH_PROTO_FIELD_REDIRECT = P.UNIAUTH_PROTO_FIELD_TRANSSRC ∧
      ¬ P.UNIAUTH_PROTO_FIELD_REDIRECT = P.UNIAUTH_PROTO_FIELD_TRANSDST) ∧
    (¬ P.UNIAUTH_PROTO_FIELD_TAG = P.UNIAUTH_PROTO_FIELD_TRANSSRC ∧
      ¬ P.UNIAUTH_PROTO_FIELD_TAG = P.UNIAUTH_PROTO_FIELD_TRANSDST) ∧
    ¬ P.UNIAUTH_PROTO_FIELD_TRANSSRC = P.UNIAUTH_PROTO_FIELD_TRANSDST := by
  have h := hP.1
  simp only [Proto.fieldTags, List.nodup_cons, List.mem_cons, List.mem_singleton, not_or,
    List.mem_nil_iff, not_false_eq_true, List.nodup_nil, and_true, or_false] at h
  exact h

theorem ne_key_end (P : Proto) (hP : P.wf) :
    P.UNIAUTH_PROTO_FIELD_KEY ≠ P.UNIAUTH_PROTO_FIELD_END :=
  fun e => (tags_distinct P hP).1.1 e.symm

theorem ne_id_end (P : Proto) (hP : P.wf) :
    P.UNIAUTH_PROTO_FIELD_ID ≠ P.UNIAUTH_PROTO_FIELD_END :=
  fun e => (tags_distinct P hP).1.2.1 e.symm

theorem ne_user_end (P : Proto) (hP : P.wf) :
    P.UNIAUTH_PROTO_FIELD_USER ≠ P.UNIAUTH_PROTO_FIELD_END :=
  fun e => (tags_distinct P hP).1.2.2.1 e.symm

theorem ne_display_end (P : Proto) (hP : P.wf) :
    P.UNIAUTH_PROTO_FIELD_DISPLAY ≠ P.UNIAUTH_PROTO_FIELD_END :=
  fun e => (tags_distinct P hP).1.2.2.2.1 e.symm

theorem ne_expire_end (P : Proto) (hP : P.wf) :
    P.UNIAUTH_PROTO_FIELD_EXPIRE ≠ P.UNIAUTH_PROTO_FIELD_END :=
  fun e => (tags_distinct P hP).1.2.2.2.2.1 e.symm

theorem ne_redirect_end (P : Proto) (hP : P.wf) :
    P.UNIAUTH_PROTO_FIELD_REDIRECT ≠ P.UNIAUTH_PROTO_FIELD_END :=
  fun e => (tags_distinct P hP).1.2.2.2.2.2.1 e.symm

theorem ne_tag_end (P : Proto) (hP : P.wf) :
    P.UNIAUTH_PROTO_FIELD_TAG ≠ P.UNIAUTH_PROTO_FIELD_END :=
  fun e => (tags_distinct P hP).1.2.2.2.2.2.2.1 e.symm

theorem ne_transsrc_end (P : Proto) (hP : P.wf) :
    P.UNIAUTH_PROTO_FIELD_TRANSSRC ≠ P.UNIAUTH_PROTO_FIELD_END :=
  fun e => (tags_distinct P hP).1.2.2.2.2.2.2.2.1 e.symm

theorem ne_transdst_end (P : Proto) (hP : P.wf) :
    P.UNIAUTH_PROTO_FIELD_TRANSDST ≠ P.UNIAUTH_PROTO_FIELD_END :=
  fun e => (tags_distinct P hP).1.2.2.2.2.2.2.2.2 e.symm

theorem ne_id_key (P : Proto) (hP : P.wf) :
    P.UNIAUTH_PROTO_FIELD_ID ≠ P.UNIAUTH_PROTO_FIELD_KEY :=
  fun e => (tags_distinct P hP).2.1.1 e.symm

theorem ne_user_key (P : Proto) (hP : P.wf) :
    P.UNIAUTH_PROTO_FIELD_USER ≠ P.UNIAUTH_PROTO_FIELD_KEY :=
  fun e => (tags_distinct P hP).2.1.2.1 e.symm

theorem ne_display_key (P : Proto) (hP : P.wf) :
    P.UNIAUTH_PROTO_FIELD_DISPLAY ≠ P.UNIAUTH_PROTO_FIELD_KEY :=
  fun e => (tags_distinct P hP).2.1.2.2.1 e.symm

theorem ne_expire_key (P : Proto) (hP : P.wf) :
    P.UNIAUTH_PROTO_FIELD_EXPIRE ≠ P.UNIAUTH_PROTO_FIELD_KEY :=
  fun e => (tags_distinct P hP).2.1.2.2.2.1 e.symm

theorem ne_redirect_key (P : Proto) (hP : P.wf) :
    P.UNIAUTH_PROTO_FIELD_REDIRECT ≠ P.UNIAUTH_PROTO_FIELD_KEY :=
  fun e => (tags_distinct P hP).2.1.2.2.2.2.1 e.symm

theorem ne_tag_key (P : Proto) (hP : P.wf) :
    P.UNIAUTH_PROTO_FIELD_TAG ≠ P.UNIAUTH_PROTO_FIELD_KEY :=
  fun e => (tags_distinct P hP).2.1.2.2.2.2.2.1 e.symm

theorem ne_transsrc_key (P : Proto) (hP : P.wf) :
    P.UNIAUTH_PROTO_FIELD_TRANSSRC ≠ P.UNIAUTH_PROTO_FIELD_KEY :=
  fun e => (tags_distinct P hP).2.1.2.2.2.2.2.2.1 e.symm

theorem ne_transdst_key (P : Proto) (hP : P.wf) :
    P.UNIAUTH_PROTO_FIELD_TRANSDST ≠ P.UNIAUTH_PROTO_FIELD_KEY :=
  fun e => (tags_distinct P hP).2.1.2.2.2.2.2.2.2 e.symm

theorem ne_user_id (P : Proto) (hP : P.wf) :
    P.UNIAUTH_PROTO_FIELD_USER ≠ P.UNIAUTH_PROTO_FIELD_ID :=
  fun e => (tags_distinct P hP).2.2.1.1 e.symm

theorem ne_display_id (P : Proto) (hP : P.wf) :
    P.UNIAUTH_PROTO_FIELD_DISPLAY ≠ P.UNIAUTH_PROTO_FIELD_ID :=
  fun e => (tags_distinct P hP).2.2.1.2.1 e.symm

theorem ne_expire_id (P : Proto) (hP : P.wf) :
    P.UNIAUTH_PROTO_FIELD_EXPIRE ≠ P.UNIAUTH_PROTO_FIELD_ID :=
  fun e => (tags_distinct P hP).2.2.1.2.2.1 e.symm

theorem ne_redirect_id (P : Proto) (hP : P.wf) :
    P.UNIAUTH_PROTO_FIELD_REDIRECT ≠ P.UNIAUTH_PROTO_FIELD_ID :=
  fun e => (tags_distinct P hP).2.2.1.2.2.2.1 e.symm

theorem ne_tag_id (P : Proto) (hP : P.wf) :
    P.UNIAUTH_PROTO_FIELD_TAG ≠ P.UNIAUTH_PROTO_FIELD_ID :=
  fun e => (tags_distinct P hP).2.2.1.2.2.2.2.1 e.symm

theorem ne_transsrc_id (P : Proto) (hP : P.wf) :
    P.UNIAUTH_PROTO_FIELD_TRANSSRC ≠ P.UNIAUTH_PROTO_FIELD_ID :=
  fun e => (tags_distinct P hP).2.2.1.2.2.2.2.2.1 e.symm

theorem ne_transdst_id (P : Proto) (hP : P.wf) :
    P.UNIAUTH_PROTO_FIELD_TRANSDST ≠ P.UNIAUTH_PROTO_FIELD_ID :=
  fun e => (tags_distinct P hP).2.2.1.2.2.2.2.2.2 e.symm

theorem ne_display_user (P : Proto) (hP : P.wf) :
    P.UNIAUTH_PROTO_FIELD_DISPLAY ≠ P.UNIAUTH_PROTO_FIELD_USER :=
  fun e => (tags_distinct P hP).2.2.2.1.1 e.symm

theorem ne_expire_user (P : Proto) (hP : P.wf) :
    P.UNIAUTH_PROTO_FIELD_EXPIRE ≠ P.UNIAUTH_PROTO_FIELD_USER :=
  fun e => (tags_distinct P hP).2.2.2.1.2.1 e.symm

theorem ne_redirect_user (P : Proto) (hP : P.wf) :
    P.UNIAUTH_PROTO_FIELD_REDIRECT ≠ P.UNIAUTH_PROTO_FIELD_USER :=
  fun e => (tags_distinct P hP).2.2.2.1.2.2.1 e.symm

theorem ne_tag_user (P : Proto) (hP : P.wf) :
    P.UNIAUTH_PROTO_FIELD_TAG ≠ P.UNIAUTH_PROTO_FIELD_USER :=
  fun e => (tags_distinct P hP).2.2.2.1.2.2.2.1 e.symm

theorem ne_transsrc_user (P : Proto) (hP : P.wf) :
    P.UNIAUTH_PROTO_FIELD_TRANSSRC ≠ P.UNIAUTH_PROTO_FIELD_USER :=
  fun e => (tags_distinct P hP).2.2.2.1.2.2.2.2.1 e.symm

theorem ne_transdst_user (P : Proto) (hP : P.wf) :
    P.UNIAUTH_PROTO_FIELD_TRANSDST ≠ P.UNIAUTH_PROTO_FIELD_USER :=
  fun e => (tags_distinct P hP).2.2.2.1.2.2.2.2.2 e.symm

theorem ne_expire_display (P : Proto) (hP : P.wf) :
    P.UNIAUTH_PROTO_FIELD_EXPIRE ≠ P.UNIAUTH_PROTO_FIELD_DISPLAY :=
  fun e => (tags_distinct P hP).2.2.2.2.1.1 e.symm

theorem ne_redirect_display (P : Proto) (hP : P.wf) :
    P.UNIAUTH_PROTO_FIELD_REDIRECT ≠ P.UNIAUTH_PROTO_FIELD_DISPLAY :=
  fun e => (tags_distinct P hP).2.2.2.2.1.2.1 e.symm

theorem ne_tag_display (P : Proto) (hP : P.wf) :
    P.UNIAUTH_PROTO_FIELD_TAG ≠ P.UNIAUTH_PROTO_FIELD_DISPLAY :=
  fun e => (tags_distinct P hP).2.2.2.2.1.2.2.1 e.symm

theorem ne_transsrc_display (P : Proto) (hP : P.wf) :
    P.UNIAUTH_PROTO_FIELD_TRANSSRC ≠ P.UNIAUTH_PROTO_FIELD_DISPLAY :=
  fun e => (tags_distinct P hP).2.2.2.2.1.2.2.2.1 e.symm

theorem ne_transdst_display (P : Proto) (hP : P.wf) :
    P.UNIAUTH_PROTO_FIELD_TRANSDST ≠ P.UNIAUTH_PROTO_FIELD_DISPLAY :=
  fun e => (tags_distinct P hP).2.2.2.2.1.2.2.2.2 e.symm

theorem ne_redirect_expire (P : Proto) (hP : P.wf) :
    P.UNIAUTH_PROTO_FIELD_REDIRECT ≠ P.UNIAUTH_PROTO_FIELD_EXPIRE :=
  fun e => (tags_distinct P hP).2.2.2.2.2.1.1 e.symm

theorem ne_tag_expire (P : Proto) (hP : P.wf) :
    P.UNIAUTH_PROTO_FIELD_TAG ≠ P.UNIAUTH_PROTO_FIELD_EXPIRE :=
  fun e => (tags_distinct P hP).2.2.2.2.2.1.2.1 e.symm

theorem ne_transsrc_expire (P : Proto) (hP : P.wf) :
    P.UNIAUTH_PROTO_FIELD_TRANSSRC ≠ P.UNIAUTH_PROTO_FIELD_EXPIRE :=
  fun e => (tags_distinct P hP).2.2.2.2.2.1.2.2.1 e.symm

theorem ne_transdst_expire (P : Proto) (hP : P.wf) :
    P.UNIAUTH_PROTO_FIELD_TRANSDST ≠ P.UNIAUTH_PROTO_FIELD_EXPIRE :=
  fun e => (tags_distinct P hP).2.2.2.2.2.1.2.2.2 e.symm

theorem ne_tag_redirect (P : Proto) (hP : P.wf) :
    P.UNIAUTH_PROTO_FIELD_TAG ≠ P.UNIAUTH_PROTO_FIELD_REDIRECT :=
  fun e => (tags_distinct P hP).2.2.2.2.2.2.1.1 e.symm

theorem ne_transsrc_redirect (P : Proto) (hP : P.wf) :
    P.UNIAUTH_PROTO_FIELD_TRANSSRC ≠ P.UNIAUTH_PROTO_FIELD_REDIRECT :=
  fun e => (tags_distinct P hP).2.2.2.2.2.2.1.2.1 e.symm

theorem ne_transdst_redirect (P : Proto) (hP : P.wf) :
    P.UNIAUTH_PROTO_FIELD_TRANSDST ≠ P.UNIAUTH_PROTO_FIELD_REDIRECT :=
  fun e => (tags_distinct P hP).2.2.2.2.2.2.1.2.2 e.symm

theorem ne_transsrc_tag (P : Proto) (hP : P.wf) :
    P.UNIAUTH_PROTO_FIELD_TRANSSRC ≠ P.UNIAUTH_PROTO_FIELD_TAG :=
  fun e => (tags_distinct P hP).2.2.2.2.2.2.2.1.1 e.symm

theorem ne_transdst_tag (P : Proto) (hP : P.wf) :
    P.UNIAUTH_PROTO_FIELD_TRANSDST ≠ P.UNIAUTH_PROTO_FIELD_TAG :=
  fun e => (tags_distinct P hP).2.2.2.2.2.2.2.1.2 e.symm

theorem ne_transdst_transsrc (P : Proto) (hP : P.wf) :
    P.UNIAUTH_PROTO_FIELD_TRANSDST ≠ P.UNIAUTH_PROTO_FIELD_TRANSSRC :=
  fun e => (tags_distinct P hP).2.2.2.2.2.2.2.2 e.symm

theorem parse_field_string (P : Proto) (hP : P.wf) (client : clientbuf) (iter t : Nat)
    (s : List Nat) (ht : P.serverStringTag t)
    (hr : ∀ d p, read_string client (iter + 1) d p = (s.length + 1, some s, s.length)) :
    parse_field P client iter t = some (s.length + 1, store_string P t s client) := by
  unfold parse_field store_string
  rcases ht with rfl | rfl | rfl | rfl | rfl | rfl | rfl <;>
    simp only [hr, ↓reduceIte,
      ne_id_key P hP, ne_user_key P hP, ne_display_key P hP, ne_expire_key P hP, ne_redirect_key
      P hP, ne_tag_key P hP, ne_transsrc_key P hP, ne_transdst_key P hP, ne_user_id P hP,
      ne_display_id P hP, ne_expire_id P hP, ne_redirect_id P hP, ne_tag_id P hP, ne_transsrc_id
      P hP, ne_transdst_id P hP, ne_display_user P hP, ne_expire_user P hP, ne_redirect_user P
      hP, ne_tag_user P hP, ne_transsrc_user P hP, ne_transdst_user P hP, ne_expire_display P
      hP, ne_redirect_display P hP, ne_tag_display P hP, ne_transsrc_display P hP,
      ne_transdst_display P hP, ne_redirect_expire P hP, ne_tag_expire P hP, ne_transsrc_expire
      P hP, ne_transdst_expire P hP, ne_tag_redirect P hP, ne_transsrc_redirect P hP,
      ne_transdst_redirect P hP, ne_transsrc_tag P hP, ne_transdst_tag P hP,
      ne_transdst_transsrc P hP]

theorem parse_field_string_incomplete (P : Proto) (hP : P.wf) (client : clientbuf)
    (iter t : Nat) (ht : P.serverStringTag t)
    (hr : ∀ d p, read_string client (iter + 1) d p = (0, d, p)) :
    parse_field P client iter t = some (0, client) := by
  unfold parse_field
  rcases ht with rfl | rfl | rfl | rfl | rfl | rfl | rfl <;>
    simp only [hr, ↓reduceIte,
      ne_id_key P hP, ne_user_key P hP, ne_display_key P hP, ne_expire_key P hP, ne_redirect_key
      P hP, ne_tag_key P hP, ne_transsrc_key P hP, ne_transdst_key P hP, ne_user_id P hP,
      ne_display_id P hP, ne_expire_id P hP, ne_redirect_id P hP, ne_tag_id P hP, ne_transsrc_id
      P hP, ne_transdst_id P hP, ne_display_user P hP, ne_expire_user P hP, ne_redirect_user P
      hP, ne_tag_user P hP, ne_transsrc_user P hP, ne_transdst_user P hP, ne_expire_display P
      hP, ne_redirect_display P hP, ne_tag_display P hP, ne_transsrc_display P hP,
      ne_transdst_display P hP, ne_redirect_expire P hP, ne_tag_expire P hP, ne_transsrc_expire
      P hP, ne_transdst_expire P hP, ne_tag_redirect P hP, ne_transsrc_redirect P hP,
      ne_transdst_redirect P hP, ne_transsrc_tag P hP, ne_transdst_tag P hP,
      ne_transdst_transsrc P hP]

theorem parse_field_integer (P : Proto) (hP : P.wf) (client : clientbuf) (iter : Nat) :
    parse_field P client iter P.UNIAUTH_PROTO_FIELD_ID =
      some ((read_integer client (iter + 1) client.stor.id).1,
        { client with stor := { client.stor with
            id := (read_integer client (iter + 1) client.stor.id).2 } }) := by
  unfold parse_field
  simp only [↓reduceIte, ne_id_key P hP]

theorem parse_field_time (P : Proto) (hP : P.wf) (client : clientbuf) (iter : Nat) :
    parse_field P client iter P.UNIAUTH_PROTO_FIELD_EXPIRE =
      some ((read_time client (iter + 1) client.stor.expire).1,
        { client with stor := { client.stor with
            expire := (read_time client (iter + 1) client.stor.expire).2 } }) := by
  unfold parse_field
  simp only [↓reduceIte, ne_expire_key P hP, ne_expire_id P hP, ne_expire_user P hP,
    ne_expire_display P hP]

theorem parse_field_unknown (P : Proto) (client : clientbuf) (iter t : Nat)
    (h : t ∉ P.fieldTags) : parse_field P client iter t = none := by
  simp only [Proto.fieldTags, List.mem_cons, List.mem_singleton, List.mem_nil_iff, or_false,
    not_or] at h
  unfold parse_field
  obtain ⟨h1, h2, h3, h4, h5, h6, h7, h8, h9⟩ := h
  rw [if_neg h1, if_neg h2, if_neg h3, if_neg h4, if_neg h5, if_neg h6, if_neg h7, if_neg h8,
    if_neg h9]

theorem WireField.bytes_pos (P : Proto) (f : WireField) : 1 ≤ (f.bytes P).length := by
  cases f <;> simp [WireField.bytes]

theorem WireField.tag_ne_end (P : Proto) (hP : P.wf) (f : WireField) (hf : f.wf P) :
    (f.bytes P).getD 0 0 ≠ P.UNIAUTH_PROTO_FIELD_END := by
  cases f with
  | string t s =>
    obtain ⟨ht, _⟩ := hf
    simp only [WireField.bytes, List.cons_append, List.getD_cons_zero]
    rcases ht with rfl | rfl | rfl | rfl | rfl | rfl | rfl
    · exact ne_key_end P hP
    · exact ne_user_end P hP
    · exact ne_display_end P hP
    · exact ne_redirect_end P hP
    · exact ne_tag_end P hP
    · exact ne_transsrc_end P hP
    · exact ne_transdst_end P hP
  | integer b => simp only [WireField.bytes, List.getD_cons_zero]; exact ne_id_end P hP
  | time b => simp only [WireField.bytes, List.getD_cons_zero]; exact ne_expire_end P hP

theorem parse_field_complete (P : Proto) (hP : P.wf) (client : clientbuf) (iter : Nat)
    (f : WireField) (hf : f.wf P)
    (h : slice client.buf iter (f.bytes P).length = f.bytes P)
    (hsz : iter + (f.bytes P).length ≤ client.bufsz) :
    parse_field P client iter (client.buf.getD iter 0)
      = some ((f.bytes P).length - 1, store_field P f client) := by
  have htag := getD_of_slice_eq _ _ _ h 0 (WireField.bytes_pos P f)
  rw [Nat.add_zero] at htag
  rw [htag]
  cases f with
  | string t s =>
    obtain ⟨ht, hz⟩ := hf
    have h2 := (slice_split client.buf iter [t] (s ++ [0]) h).2
    simp only [WireField.bytes, List.cons_append, List.length_cons, List.length_append,
      List.length_singleton, List.length_nil] at hsz
    have hr : ∀ d p, read_string client (iter + 1) d p = (s.length + 1, some s, s.length) :=
      fun d p => read_string_complete client (iter + 1) s d p hz h2 (by omega)
    simp only [WireField.bytes, List.cons_append, List.getD_cons_zero, List.length_cons,
      List.length_append, List.length_singleton, List.length_nil, Nat.add_sub_cancel,
      store_field]
    exact parse_field_string P hP client iter t s ht hr
  | integer b =>
    have hb : b.length = 4 := hf
    have h2 := (slice_split client.buf iter [P.UNIAUTH_PROTO_FIELD_ID] b h).2
    simp only [WireField.bytes, List.length_cons, hb] at hsz
    simp only [WireField.bytes, List.getD_cons_zero, List.length_cons, Nat.add_sub_cancel,
      store_field]
    rw [parse_field_integer P hP,
      read_integer_complete client (iter + 1) b _ hb h2 (by omega), hb]
  | time b =>
    have hb : b.length = 8 := hf
    have h2 := (slice_split client.buf iter [P.UNIAUTH_PROTO_FIELD_EXPIRE] b h).2
    simp only [WireField.bytes, List.length_cons, hb] at hsz
    simp only [WireField.bytes, List.getD_cons_zero, List.length_cons, Nat.add_sub_cancel,
      store_field]
    rw [parse_field_time P hP,
      read_time_complete client (iter + 1) b _ hb h2 (by omega), hb]

theorem store_field_frame (P : Proto) (f : WireField) (c : clientbuf) :
    (store_field P f c).buf = c.buf ∧ (store_field P f c).bufsz = c.bufsz ∧
    (store_field P f c).status = c.status ∧ (store_field P f c).bufit = c.bufit ∧
    (store_field P f c).opkind = c.opkind ∧ (store_field P f c).iomode = c.iomode ∧
    (store_field P f c).eof = c.eof ∧ (store_field P f c).sock = c.sock ∧
    (store_field P f c).conntm = c.conntm := by
  cases f with
  | string t s =>
    simp only [store_field, store_string]
    split_ifs <;> simp
  | integer b => simp [store_field]
  | time b => simp [store_field]

/-- One iteration of the parser loop over a whole field. -/
theorem parse_loop_field (P : Proto) (hP : P.wf) (fuel : Nat) (client : clientbuf)
    (iter : Nat) (f : WireField) (hf : f.wf P)
    (h : slice client.buf iter (f.bytes P).length = f.bytes P)
    (hsz : iter + (f.bytes P).length ≤ client.bufsz) :
    parse_loop P (fuel + 1) client iter
      = parse_loop P fuel (store_field P f client) (iter + (f.bytes P).length) := by
  have hpos := WireField.bytes_pos P f
  have htag := getD_of_slice_eq _ _ _ h 0 hpos
  rw [Nat.add_zero] at htag
  have hne : client.buf.getD iter 0 ≠ P.UNIAUTH_PROTO_FIELD_END := by
    rw [htag]; exact WireField.tag_ne_end P hP f hf
  have hlen : 2 ≤ (f.bytes P).length := by
    cases f with
    | string t s => simp [WireField.bytes]
    | integer b => have : b.length = 4 := hf; simp [WireField.bytes, this]
    | time b => have : b.length = 8 := hf; simp [WireField.bytes, this]
  simp only [parse_loop]
  rw [if_pos (by omega), if_neg hne, parse_field_complete P hP client iter f hf h hsz]
  simp only
  rw [if_neg (by omega)]
  congr 1
  omega

/-! ## Daemon parser: runs of whole fields -/

theorem wire_bytes_append (P : Proto) (fs gs : List WireField) :
    wire_bytes P (fs ++ gs) = wire_bytes P fs ++ wire_bytes P gs := by
  induction fs with
  | nil => rfl
  | cons f fs ih => simp [wire_bytes, ih]

theorem WireField.bytes_two (P : Proto) (f : WireField) (hf : f.wf P) :
    2 ≤ (f.bytes P).length := by
  cases f with
  | string t s => simp [WireField.bytes]
  | integer b => have : b.length = 4 := hf; simp [WireField.bytes, this]
  | time b => have : b.length = 8 := hf; simp [WireField.bytes, this]

theorem wire_bytes_length_ge (P : Proto) (fs : List WireField) (hfs : ∀ f ∈ fs, f.wf P) :
    2 * fs.length ≤ (wire_bytes P fs).length := by
  induction fs with
  | nil => simp [wire_bytes]
  | cons f fs ih =>
    have h1 := WireField.bytes_two P f (hfs f (List.mem_cons_self _ _))
    have h2 := ih (fun g hg => hfs g (List.mem_cons_of_mem _ hg))
    simp only [wire_bytes, List.length_append, List.length_cons]
    omega

theorem store_fields_frame (P : Proto) (fs : List WireField) (c : clientbuf) :
    (store_fields P fs c).buf = c.buf ∧ (store_fields P fs c).bufsz = c.bufsz ∧
    (store_fields P fs c).status = c.status ∧ (store_fields P fs c).bufit = c.bufit ∧
    (store_fields P fs c).opkind = c.opkind ∧ (store_fields P fs c).iomode = c.iomode ∧
    (store_fields P fs c).eof = c.eof ∧ (store_fields P fs c).sock = c.sock ∧
    (store_fields P fs c).conntm = c.conntm := by
  induction fs generalizing c with
  | nil => simp [store_fields]
  | cons f fs ih =>
    have h1 := store_field_frame P f c
    have h2 := ih (store_field P f c)
    simp only [store_fields, List.foldl_cons] at h2 ⊢
    obtain ⟨a1, a2, a3, a4, a5, a6, a7, a8, a9⟩ := h1
    obtain ⟨b1, b2, b3, b4, b5, b6, b7, b8, b9⟩ := h2
    exact ⟨b1.trans a1, b2.trans a2, b3.trans a3, b4.trans a4, b5.trans a5, b6.trans a6,
      b7.trans a7, b8.trans a8, b9.trans a9⟩

/-- The parser loop over a run of whole fields: one iteration per field. -/
theorem parse_loop_fields (P : Proto) (hP : P.wf) (fs : List WireField) :
    ∀ (fuel : Nat) (client : clientbuf) (iter : Nat), (∀ f ∈ fs, f.wf P) →
      slice client.buf iter (wire_bytes P fs).length = wire_bytes P fs →
      iter + (wire_bytes P fs).length ≤ client.bufsz →
      parse_loop P (fuel + fs.length) client iter
        = parse_loop P fuel (store_fields P fs client) (iter + (wire_bytes P fs).length) := by
  induction fs with
  | nil =>
    intro fuel client iter _ _ _
    simp [wire_bytes, store_fields]
  | cons f fs ih =>
    intro fuel client iter hfs h hsz
    simp only [wire_bytes, List.length_append] at h hsz
    have hf := hfs f (List.mem_cons_self _ _)
    obtain ⟨h1, h2⟩ := slice_split client.buf iter (f.bytes P) (wire_bytes P fs)
      (by rw [List.length_append]; exact h)
    have hfr := store_field_frame P f client
    rw [List.length_cons, ← Nat.add_assoc,
      parse_loop_field P hP (fuel + fs.length) client iter f hf h1 (by omega),
      ih fuel (store_field P f client) (iter + (f.bytes P).length)
        (fun g hg => hfs g (List.mem_cons_of_mem _ hg))
        (by rw [hfr.1]; exact h2) (by rw [hfr.2.1]; omega)]
    simp only [store_fields, List.foldl_cons, wire_bytes, List.length_append, Nat.add_assoc]

theorem parse_loop_bad_tag (P : Proto) (fuel : Nat) (client : clientbuf) (iter : Nat)
    (hi : iter < client.bufsz)
    (he : client.buf.getD iter 0 ≠ P.UNIAUTH_PROTO_FIELD_END)
    (hb : client.buf.getD iter 0 ∉ P.fieldTags) :
    parse_loop P (fuel + 1) client iter = (1, { client with status := Status.error }) := by
  simp only [parse_loop]
  rw [if_pos hi, if_neg he, parse_field_unknown P client iter _ hb]

/-- C6: in a connection buffer in which the parser, starting from its saved
cursor (one byte further when the opcode byte is still to be read), passes a
run of whole recognised fields and then stands, below `bufsz`, on a byte that
is neither one of the nine recognised field tags nor the end-marker,
`parse_buffer` returns 1 and sets the status to error, whatever bytes and
however many bytes follow. -/
theorem parse_buffer_unknown_tag (P : Proto) (hP : P.wf) (client : clientbuf)
    (fs : List WireField) (start : Nat) (hfs : ∀ f ∈ fs, f.wf P)
    (hstart : start = if client.status = Status.notset then client.bufit + 1
      else client.bufit)
    (h : slice client.buf start (wire_bytes P fs).length = wire_bytes P fs)
    (hi : start + (wire_bytes P fs).length < client.bufsz)
    (he : client.buf.getD (start + (wire_bytes P fs).length) 0 ≠ P.UNIAUTH_PROTO_FIELD_END)
    (hb : client.buf.getD (start + (wire_bytes P fs).length) 0 ∉ P.fieldTags) :
    (parse_buffer P client).1 = 1 ∧ (parse_buffer P client).2.status = Status.error := by
  have hlen := wire_bytes_length_ge P fs hfs
  have key : ∀ (c : clientbuf), c.buf = client.buf → c.bufsz = client.bufsz →
      (parse_loop P (client.bufsz - start) c start).1 = 1 ∧
      (parse_loop P (client.bufsz - start) c start).2.status = Status.error := by
    intro c hc1 hc2
    obtain ⟨f, hf⟩ : ∃ f, client.bufsz - start = (f + 1) + fs.length :=
      ⟨client.bufsz - start - fs.length - 1, by omega⟩
    have hfr := store_fields_frame P fs c
    rw [hf, parse_loop_fields P hP fs (f + 1) c start hfs (by rw [hc1]; exact h)
        (by rw [hc2]; omega),
      parse_loop_bad_tag P f _ _ (by rw [hfr.2.1, hc2]; exact hi)
        (by rw [hfr.1, hc1]; exact he) (by rw [hfr.1, hc1]; exact hb)]
    exact ⟨rfl, rfl⟩
  unfold parse_buffer
  simp only
  rw [if_neg (by omega)]
  by_cases hs : client.status = Status.notset
  · rw [if_pos hs] at hstart
    rw [if_pos hs]
    split
    · exact ⟨rfl, rfl⟩
    · rw [← hstart]
      exact key _ rfl rfl
  · rw [if_neg hs] at hstart
    rw [if_neg hs, ← hstart]
    exact key _ rfl rfl

/-- Witness for C6: after the opcode and a whole key field the byte 99 is no
field tag; the parser reports an error although more bytes follow. -/
theorem parse_buffer_unknown_tag_witness :
    (parse_buffer stdProto { clientbuf_init stdProto 3 0 with
        buf := [1, 1, 97, 0, 99, 5, 5, 5], bufsz := 8 }).1 = 1 ∧
    (parse_buffer stdProto { clientbuf_init stdProto 3 0 with
        buf := [1, 1, 97, 0, 99, 5, 5, 5], bufsz := 8 }).2.status = Status.error :=
  parse_buffer_unknown_tag stdProto (by decide)
    { clientbuf_init stdProto 3 0 with buf := [1, 1, 97, 0, 99, 5, 5, 5], bufsz := 8 }
    [WireField.string 1 [97]] 1 (by decide) (by decide) (by decide) (by decide) (by decide)
    (by decide)

/-! ## Little-endian integers -/

theorem le_decode_succ (w : Nat) (buf : List Nat) (off n : Nat) :
    le_decode w buf off (n + 1)
      = le_decode w buf off n ||| ((buf.getD (off + n) 0 <<< (n * 8)) % 2 ^ w) := by
  simp [le_decode, List.range_succ, List.foldl_append]

theorem le_decode_eq_sum (w : Nat) (buf : List Nat) (off : Nat) :
    ∀ n, (∀ i, i < n → buf.getD (off + i) 0 < 256) → n * 8 ≤ w →
      le_decode w buf off n = le_sum buf off n ∧ le_sum buf off n < 2 ^ (n * 8) := by
  intro n
  induction n with
  | zero => intro _ _; simp [le_decode, le_sum]
  | succ n ih =>
    intro hb hw
    obtain ⟨e, hlt⟩ := ih (fun i hi => hb i (by omega)) (by omega)
    have hbn := hb n (by omega)
    have hpow : 2 ^ ((n + 1) * 8) = 2 ^ (n * 8) * 256 := by
      rw [Nat.add_mul, Nat.pow_add]
    have hlt2 : buf.getD (off + n) 0 * 2 ^ (n * 8) < 2 ^ ((n + 1) * 8) := by
      rw [hpow, Nat.mul_comm]
      exact Nat.mul_lt_mul_of_pos_left hbn (Nat.two_pow_pos _)
    have hle : 2 ^ ((n + 1) * 8) ≤ 2 ^ w := Nat.pow_le_pow_right (by decide) hw
    have hsum : le_sum buf off n + buf.getD (off + n) 0 * 2 ^ (n * 8) < 2 ^ ((n + 1) * 8) := by
      rw [hpow]
      have : buf.getD (off + n) 0 * 2 ^ (n * 8) ≤ 255 * 2 ^ (n * 8) :=
        Nat.mul_le_mul_right _ (by omega)
      omega
    refine ⟨?_, hsum⟩
    rw [le_decode_succ, e, Nat.shiftLeft_eq, Nat.mod_eq_of_lt (by omega), Nat.lor_comm,
      Nat.mul_comm, ← Nat.mul_add_lt_is_or hlt]
    simp only [le_sum]
    rw [Nat.mul_comm]
    omega

theorem int_byte_lt (v : Int) (i : Nat) : int_byte v i < 256 := by
  unfold int_byte
  omega

theorem getD_le_bytes (n : Nat) (v : Int) (i : Nat) (h : i < n) :
    (le_bytes n v).getD i 0 = int_byte v i := by
  unfold le_bytes
  rw [List.getD_eq_getElem?_getD, List.getElem?_map, List.getElem?_range h]
  rfl

theorem emod_split64 (v : Int) :
    v % 18446744073709551616 = v % 4294967296 + 4294967296 * (v / 4294967296 % 4294967296) := by
  have h1 := Int.emod_add_ediv v 4294967296
  have h2 := Int.emod_add_ediv (v / 4294967296) 4294967296
  have h3 := Int.emod_nonneg v (show (4294967296 : Int) ≠ 0 by decide)
  have h4 := Int.emod_lt_of_pos v (show (0 : Int) < 4294967296 by decide)
  have h5 := Int.emod_nonneg (v / 4294967296) (show (4294967296 : Int) ≠ 0 by decide)
  have h6 := Int.emod_lt_of_pos (v / 4294967296) (show (0 : Int) < 4294967296 by decide)
  generalize v % 4294967296 = r at *
  generalize v / 4294967296 % 4294967296 = s at *
  generalize v / 4294967296 / 4294967296 = t at *
  generalize v / 4294967296 = q at *
  have := (Int.ediv_emod_unique (a := v) (b := 18446744073709551616) (r := r + 4294967296 * s)
    (q := t) (by decide)).mpr ⟨by omega, by omega, by omega⟩
  exact this.2
theorem byte_sum4 (x : Int) :
    ((x % 256).toNat + (x / 256 % 256).toNat * 256 + (x / 65536 % 256).toNat * 65536
      + (x / 16777216 % 256).toNat * 16777216 : Nat) = (x % 4294967296).toNat := by
  omega
theorem byte_sum8 (v : Int) :
    ((v % 256).toNat + (v / 256 % 256).toNat * 256 + (v / 65536 % 256).toNat * 65536
      + (v / 16777216 % 256).toNat * 16777216
      + (v / 4294967296 % 256).toNat * 4294967296
      + (v / 1099511627776 % 256).toNat * 1099511627776
      + (v / 281474976710656 % 256).toNat * 281474976710656
      + (v / 72057594037927936 % 256).toNat * 72057594037927936 : Nat)
      = (v % 18446744073709551616).toNat := by
  have h1 := byte_sum4 v
  have h2 := byte_sum4 (v / 4294967296)
  have e1 : v / 4294967296 / 256 = v / 1099511627776 := by omega
  have e2 : v / 4294967296 / 65536 = v / 281474976710656 := by omega
  have e3 : v / 4294967296 / 16777216 = v / 72057594037927936 := by omega
  rw [e1, e2, e3] at h2
  have h3 := emod_split64 v
  have h5 := Int.emod_nonneg v (show (4294967296 : Int) ≠ 0 by decide)
  have h6 := Int.emod_nonneg (v / 4294967296) (show (4294967296 : Int) ≠ 0 by decide)
  generalize (v % 256).toNat = b0 at *
  generalize (v / 256 % 256).toNat = b1 at *
  generalize (v / 65536 % 256).toNat = b2 at *
  generalize (v / 16777216 % 256).toNat = b3 at *
  generalize (v / 4294967296 % 256).toNat = b4 at *
  generalize (v / 1099511627776 % 256).toNat = b5 at *
  generalize (v / 281474976710656 % 256).toNat = b6 at *
  generalize (v / 72057594037927936 % 256).toNat = b7 at *
  generalize (v % 4294967296) = x at *
  generalize (v / 4294967296 % 4294967296) = y at *
  generalize (v % 18446744073709551616) = z at *
  omega

theorem to_signed_of_emod32 (v : Int) (h1 : -(2 : Int) ^ 31 ≤ v) (h2 : v < (2 : Int) ^ 31)
    (n : Nat) (hn : n = (v % 4294967296).toNat) : to_signed 32 n = v := by
  subst hn
  unfold to_signed
  norm_num at h1 h2 ⊢
  split <;> omega

theorem to_signed_of_emod64 (v : Int) (h1 : -(2 : Int) ^ 63 ≤ v) (h2 : v < (2 : Int) ^ 63)
    (n : Nat) (hn : n = (v % 18446744073709551616).toNat) : to_signed 64 n = v := by
  subst hn
  have h3 := Int.emod_add_ediv v 18446744073709551616
  have h4 := Int.emod_nonneg v (show (18446744073709551616 : Int) ≠ 0 by decide)
  have h5 := Int.emod_lt_of_pos v (show (0 : Int) < 18446744073709551616 by decide)
  unfold to_signed
  norm_num at h1 h2 ⊢
  generalize v % 18446744073709551616 = z at *
  generalize v / 18446744073709551616 = k at *
  have hz : ((z.toNat : Nat) : Int) = z := Int.toNat_of_nonneg h4
  have hm : z.toNat % 18446744073709551616 = z.toNat := Nat.mod_eq_of_lt (by omega)
  rw [hm]
  split <;> omega

theorem le_roundtrip32 (v : Int) (h1 : -(2 : Int) ^ 31 ≤ v) (h2 : v < (2 : Int) ^ 31) :
    to_signed 32 (le_decode 32 (le_bytes 4 v) 0 4) = v := by
  have hs := (le_decode_eq_sum 32 (le_bytes 4 v) 0 4
    (fun i hi => by rw [Nat.zero_add, getD_le_bytes 4 v i hi]; exact int_byte_lt v i)
    (by decide)).1
  rw [hs]
  apply to_signed_of_emod32 v h1 h2
  simp only [le_sum, Nat.zero_add, getD_le_bytes 4 v 0 (by decide),
    getD_le_bytes 4 v 1 (by decide), getD_le_bytes 4 v 2 (by decide),
    getD_le_bytes 4 v 3 (by decide), int_byte, Int.shiftRight_eq_div_pow]
  norm_num
  exact byte_sum4 v

theorem le_roundtrip64 (v : Int) (h1 : -(2 : Int) ^ 63 ≤ v) (h2 : v < (2 : Int) ^ 63) :
    to_signed 64 (le_decode 64 (le_bytes 8 v) 0 8) = v := by
  have hs := (le_decode_eq_sum 64 (le_bytes 8 v) 0 8
    (fun i hi => by rw [Nat.zero_add, getD_le_bytes 8 v i hi]; exact int_byte_lt v i)
    (by decide)).1
  rw [hs]
  apply to_signed_of_emod64 v h1 h2
  simp only [le_sum, Nat.zero_add, getD_le_bytes 8 v 0 (by decide),
    getD_le_bytes 8 v 1 (by decide), getD_le_bytes 8 v 2 (by decide),
    getD_le_bytes 8 v 3 (by decide), getD_le_bytes 8 v 4 (by decide),
    getD_le_bytes 8 v 5 (by decide), getD_le_bytes 8 v 6 (by decide),
    getD_le_bytes 8 v 7 (by decide), int_byte, Int.shiftRight_eq_div_pow]
  norm_num
  exact byte_sum8 v

/-! ## Request round trip -/

theorem parse_loop_end (P : Proto) (fuel : Nat) (client : clientbuf) (iter : Nat)
    (hi : iter < client.bufsz)
    (he : client.buf.getD iter 0 = P.UNIAUTH_PROTO_FIELD_END) :
    parse_loop P (fuel + 1) client iter
      = (0, { client with status := Status.complete, bufit := iter + 1 }) := by
  simp only [parse_loop]
  rw [if_pos hi, if_pos he]

theorem record_bytes_eq_wire (P : Proto) (stor : uniauth_storage) :
    record_bytes P stor = wire_bytes P (record_fields P stor) ++ [P.UNIAUTH_PROTO_FIELD_END] := by
  have hs : ∀ (t : Nat) (o : Option (List Nat)),
      string_field t o = wire_bytes P (string_fields t o) := by
    intro t o
    cases o <;> simp [string_field, string_fields, wire_bytes, WireField.bytes]
  have hi : (if stor.id ≠ 0 then P.UNIAUTH_PROTO_FIELD_ID :: le_bytes 4 stor.id else [])
      = wire_bytes P (if stor.id ≠ 0 then [WireField.integer (le_bytes 4 stor.id)] else []) := by
    split <;> simp [wire_bytes, WireField.bytes]
  have he : (if stor.expire ≠ 0 then P.UNIAUTH_PROTO_FIELD_EXPIRE :: le_bytes 8 stor.expire
        else [])
      = wire_bytes P (if stor.expire ≠ 0 then [WireField.time (le_bytes 8 stor.expire)]
        else []) := by
    split <;> simp [wire_bytes, WireField.bytes]
  unfold record_bytes record_fields
  rw [hi, he]
  simp only [wire_bytes_append, hs]

theorem record_fields_wf (P : Proto) (stor : uniauth_storage) (hs : stor.cstrings) :
    ∀ f ∈ record_fields P stor, f.wf P := by
  obtain ⟨h1, h2, h3, h4, h5⟩ := hs
  have hstr : ∀ (t : Nat) (o : Option (List Nat)) (sz : Nat), P.serverStringTag t →
      cstring o sz → ∀ f ∈ string_fields t o, f.wf P := by
    intro t o sz ht hc f hf
    cases o with
    | none => simp [string_fields] at hf
    | some s =>
      simp only [string_fields, List.mem_singleton] at hf
      subst hf
      exact ⟨ht, hc.2⟩
  intro f hf
  unfold record_fields at hf
  simp only [List.mem_append] at hf
  rcases hf with (((((hf | hf) | hf) | hf) | hf) | hf) | hf
  · exact hstr _ _ _ (Or.inl rfl) h1 f hf
  · split at hf
    · simp only [List.mem_singleton] at hf
      subst hf
      exact le_bytes_length 4 _
    · simp at hf
  · exact hstr _ _ _ (Or.inr (Or.inl rfl)) h2 f hf
  · exact hstr _ _ _ (Or.inr (Or.inr (Or.inl rfl))) h3 f hf
  · split at hf
    · simp only [List.mem_singleton] at hf
      subst hf
      exact le_bytes_length 8 _
    · simp at hf
  · exact hstr _ _ _ (Or.inr (Or.inr (Or.inr (Or.inl rfl)))) h4 f hf
  · exact hstr _ _ _ (Or.inr (Or.inr (Or.inr (Or.inr (Or.inl rfl))))) h5 f hf

theorem store_fields_append (P : Proto) (fs gs : List WireField) (c : clientbuf) :
    store_fields P (fs ++ gs) c = store_fields P gs (store_fields P fs c) := by
  simp [store_fields, List.foldl_append]

theorem store_string_key (P : Proto) (s : List Nat) (c : clientbuf) :
    store_string P P.UNIAUTH_PROTO_FIELD_KEY s c
      = { c with stor := { c.stor with key := some s, keySz := s.length } } := by
  simp only [store_string, ↓reduceIte]

theorem store_string_user (P : Proto) (hP : P.wf) (s : List Nat) (c : clientbuf) :
    store_string P P.UNIAUTH_PROTO_FIELD_USER s c
      = { c with stor := { c.stor with username := some s, usernameSz := s.length } } := by
  simp only [store_string, ↓reduceIte, ne_user_key P hP]

theorem store_string_display (P : Proto) (hP : P.wf) (s : List Nat) (c : clientbuf) :
    store_string P P.UNIAUTH_PROTO_FIELD_DISPLAY s c
      = { c with stor := { c.stor with displayName := some s, displayNameSz := s.length } } := by
  simp only [store_string, ↓reduceIte, ne_display_key P hP, ne_display_user P hP]

theorem store_string_redirect (P : Proto) (hP : P.wf) (s : List Nat) (c : clientbuf) :
    store_string P P.UNIAUTH_PROTO_FIELD_REDIRECT s c
      = { c with stor := { c.stor with redirect := some s, redirectSz := s.length } } := by
  simp only [store_string, ↓reduceIte, ne_redirect_key P hP, ne_redirect_user P hP,
    ne_redirect_display P hP]

theorem store_string_tag (P : Proto) (hP : P.wf) (s : List Nat) (c : clientbuf) :
    store_string P P.UNIAUTH_PROTO_FIELD_TAG s c
      = { c with stor := { c.stor with tag := some s, tagSz := s.length } } := by
  simp only [store_string, ↓reduceIte, ne_tag_key P hP, ne_tag_user P hP,
    ne_tag_display P hP, ne_tag_redirect P hP]

/-- The record that the parser has assembled after the canonical fields of
`stor`, starting from the zeroed record. -/
theorem store_record_fields (P : Proto) (hP : P.wf) (stor : uniauth_storage)
    (hs : stor.cstrings) (ht : stor.typed) (c : clientbuf)
    (hc : c.stor = uniauth_storage.zero) :
    (store_fields P (record_fields P stor) c).stor.key = stor.key ∧
    (stor.key.isSome → (store_fields P (record_fields P stor) c).stor.keySz = stor.keySz) ∧
    (store_fields P (record_fields P stor) c).stor.id = stor.id ∧
    (store_fields P (record_fields P stor) c).stor.username = stor.username ∧
    (stor.username.isSome →
      (store_fields P (record_fields P stor) c).stor.usernameSz = stor.usernameSz) ∧
    (store_fields P (record_fields P stor) c).stor.displayName = stor.displayName ∧
    (stor.displayName.isSome →
      (store_fields P (record_fields P stor) c).stor.displayNameSz = stor.displayNameSz) ∧
    (store_fields P (record_fields P stor) c).stor.expire = stor.expire ∧
    (store_fields P (record_fields P stor) c).stor.redirect = stor.redirect ∧
    (stor.redirect.isSome →
      (store_fields P (record_fields P stor) c).stor.redirectSz = stor.redirectSz) ∧
    (store_fields P (record_fields P stor) c).stor.tag = stor.tag ∧
    (stor.tag.isSome → (store_fields P (record_fields P stor) c).stor.tagSz = stor.tagSz) ∧
    (store_fields P (record_fields P stor) c).trans = c.trans := by
  obtain ⟨h1, h2, h3, h4, h5⟩ := hs
  obtain ⟨⟨i1, i2⟩, ⟨e1, e2⟩⟩ := ht
  have k1 : ∀ c : clientbuf, store_fields P
      (string_fields P.UNIAUTH_PROTO_FIELD_KEY stor.key) c
      = { c with stor := { c.stor with
            key := if stor.key.isSome then stor.key else c.stor.key,
            keySz := if stor.key.isSome then stor.keySz else c.stor.keySz } } := by
    intro c
    cases hk : stor.key with
    | none => simp [store_fields, string_fields]
    | some s =>
      rw [hk] at h1
      simp [store_fields, string_fields, store_field, store_string_key, h1.1]
  have k2 : ∀ c : clientbuf, store_fields P
      (if stor.id ≠ 0 then [WireField.integer (le_bytes 4 stor.id)] else []) c
      = { c with stor := { c.stor with id := if stor.id ≠ 0 then stor.id else c.stor.id } } := by
    intro c
    by_cases hid : stor.id = 0
    · simp [store_fields, hid]
    · simp [store_fields, store_field, hid, le_roundtrip32 stor.id i1 i2]
  have k3 : ∀ c : clientbuf, store_fields P
      (string_fields P.UNIAUTH_PROTO_FIELD_USER stor.username) c
      = { c with stor := { c.stor with
            username := if stor.username.isSome then stor.username else c.stor.username,
            usernameSz := if stor.username.isSome then stor.usernameSz
              else c.stor.usernameSz } } := by
    intro c
    cases hk : stor.username with
    | none => simp [store_fields, string_fields]
    | some s =>
      rw [hk] at h2
      simp [store_fields, string_fields, store_field, store_string_user P hP, h2.1]
  have k4 : ∀ c : clientbuf, store_fields P
      (string_fields P.UNIAUTH_PROTO_FIELD_DISPLAY stor.displayName) c
      = { c with stor := { c.stor with
            displayName := if stor.displayName.isSome then stor.displayName
              else c.stor.displayName,
            displayNameSz := if stor.displayName.isSome then stor.displayNameSz
              else c.stor.displayNameSz } } := by
    intro c
    cases hk : stor.displayName with
    | none => simp [store_fields, string_fields]
    | some s =>
      rw [hk] at h3
      simp [store_fields, string_fields, store_field, store_string_display P hP, h3.1]
  have k5 : ∀ c : clientbuf, store_fields P
      (if stor.expire ≠ 0 then [WireField.time (le_bytes 8 stor.expire)] else []) c
      = { c with stor := { c.stor with
            expire := if stor.expire ≠ 0 then stor.expire else c.stor.expire } } := by
    intro c
    by_cases hid : stor.expire = 0
    · simp [store_fields, hid]
    · simp [store_fields, store_field, hid, le_roundtrip64 stor.expire e1 e2]
  have k6 : ∀ c : clientbuf, store_fields P
      (string_fields P.UNIAUTH_PROTO_FIELD_REDIRECT stor.redirect) c
      = { c with stor := { c.stor with
            redirect := if stor.redirect.isSome then stor.redirect else c.stor.redirect,
            redirectSz := if stor.redirect.isSome then stor.redirectSz
              else c.stor.redirectSz } } := by
    intro c
    cases hk : stor.redirect with
    | none => simp [store_fields, string_fields]
    | some s =>
      rw [hk] at h4
      simp [store_fields, string_fields, store_field, store_string_redirect P hP, h4.1]
  have k7 : ∀ c : clientbuf, store_fields P
      (string_fields P.UNIAUTH_PROTO_FIELD_TAG stor.tag) c
      = { c with stor := { c.stor with
            tag := if stor.tag.isSome then stor.tag else c.stor.tag,
            tagSz := if stor.tag.isSome then stor.tagSz else c.stor.tagSz } } := by
    intro c
    cases hk : stor.tag with
    | none => simp [store_fields, string_fields]
    | some s =>
      rw [hk] at h5
      simp [store_fields, string_fields, store_field, store_string_tag P hP, h5.1]
  unfold record_fields
  simp only [store_fields_append, k1, k2, k3, k4, k5, k6, k7, hc, uniauth_storage.zero]
  refine ⟨?_, ?_, ?_, ?_, ?_, ?_, ?_, ?_, ?_, ?_, ?_, ?_, trivial⟩
  · cases stor.key <;> simp
  · intro h; simp [h]
  · by_cases h : stor.id = 0 <;> simp [h]
  · cases stor.username <;> simp
  · intro h; simp [h]
  · cases stor.displayName <;> simp
  · intro h; simp [h]
  · by_cases h : stor.expire = 0 <;> simp [h]
  · cases stor.redirect <;> simp
  · intro h; simp [h]
  · cases stor.tag <;> simp
  · intro h; simp [h]

/-- The parser loop over a run of whole fields closed by the end-marker. -/
theorem parse_loop_message (P : Proto) (hP : P.wf) (c2 : clientbuf) (start : Nat)
    (fs : List WireField) (hfs : ∀ f ∈ fs, f.wf P)
    (h : slice c2.buf start (wire_bytes P fs).length = wire_bytes P fs)
    (hend : c2.buf.getD (start + (wire_bytes P fs).length) 0 = P.UNIAUTH_PROTO_FIELD_END)
    (hsz : c2.bufsz = start + (wire_bytes P fs).length + 1) :
    parse_loop P (c2.bufsz - start) c2 start
      = (0, { store_fields P fs c2 with status := Status.complete, bufit := c2.bufsz }) := by
  have hlen := wire_bytes_length_ge P fs hfs
  obtain ⟨f, hf⟩ : ∃ f, c2.bufsz - start = (f + 1) + fs.length :=
    ⟨c2.bufsz - start - 1 - fs.length, by omega⟩
  have hfr := store_fields_frame P fs c2
  rw [hf, parse_loop_fields P hP fs (f + 1) c2 start hfs h (by omega),
    parse_loop_end P f _ _ (by rw [hfr.2.1]; omega) (by rw [hfr.1]; exact hend)]
  congr 2
  omega

/-- The parser on one whole request message (opcode, recognised fields,
end-marker) held by a connection whose opcode byte is still to be read. -/
theorem parse_buffer_message (P : Proto) (hP : P.wf) (client : clientbuf) (op : Nat)
    (fs : List WireField) (hst : client.status = Status.notset) (hit : client.bufit = 0)
    (hop : op < P.UNIAUTH_OP_TOP) (hfs : ∀ f ∈ fs, f.wf P)
    (hmsg : slice client.buf 0 (op :: (wire_bytes P fs ++ [P.UNIAUTH_PROTO_FIELD_END])).length
      = op :: (wire_bytes P fs ++ [P.UNIAUTH_PROTO_FIELD_END]))
    (hsz : client.bufsz = (op :: (wire_bytes P fs ++ [P.UNIAUTH_PROTO_FIELD_END])).length) :
    parse_buffer P client
      = (0, { store_fields P fs { client with opkind := (op : Int),
                                              status := Status.incomplete } with
              status := Status.complete, bufit := client.bufsz }) := by
  have h0 := getD_of_slice_eq client.buf 0 _ hmsg 0 (by simp)
  simp only [Nat.zero_add, List.getD_cons_zero] at h0
  have hsplit := slice_split client.buf 0 [op]
    (wire_bytes P fs ++ [P.UNIAUTH_PROTO_FIELD_END]) hmsg
  simp only [List.length_cons, List.length_append, List.length_singleton] at hsz
  have hsplit2 := slice_split client.buf (0 + [op].length) (wire_bytes P fs)
    [P.UNIAUTH_PROTO_FIELD_END] hsplit.2
  have hend := getD_of_slice_eq client.buf _ _ hsplit2.2 0 (by simp)
  simp only [List.length_singleton, Nat.zero_add, Nat.add_zero, List.getD_cons_zero]
    at hsplit2 hend
  have key := parse_loop_message P hP
    { client with opkind := (op : Int), status := Status.incomplete } 1 fs hfs hsplit2.1 hend
    (by simp only [List.length_nil] at hsz; simp only; omega)
  unfold parse_buffer
  simp only [hit, Nat.zero_add]
  rw [if_neg (by omega), if_pos hst, h0, if_neg (by omega)]
  simp only [hit] at key
  exact key

/-- C1: request-direction round trip.  Take a record whose string members are
C strings of the recorded length and whose id and expiry are values of their C
types, a request opcode `op` (below `UNIAUTH_OP_TOP`), and let the client
encoder `buffer_storage_record` succeed at cursor 1 of a buffer of
`UNIAUTH_MAX_MESSAGE` bytes whose first byte is `op`.  When the bytes the
client then sends (the first `iter` bytes of its buffer) stand at the front of
the buffer of a freshly reset input-mode connection, `parse_buffer` returns 0
with status complete, the opcode `op`, the cursor at the end of the message,
and a record with exactly the same members: the same key, username,
displayName, redirect and tag (present or absent, byte for byte, with the same
lengths), the same id and the same expiry. -/
theorem request_round_trip (P : Proto) (hP : P.wf) (stor : uniauth_storage) (op : Nat)
    (buffer : List Nat) (c : clientbuf) (msg : List Nat)
    (hbuf : buffer.length = P.UNIAUTH_MAX_MESSAGE) (hop : op < P.UNIAUTH_OP_TOP)
    (hs : stor.cstrings) (ht : stor.typed)
    (hok : (buffer_storage_record P P.UNIAUTH_MAX_MESSAGE ⟨writeAt buffer 0 [op], 1⟩ stor).1
      = true)
    (hmsg : msg = slice
      (buffer_storage_record P P.UNIAUTH_MAX_MESSAGE ⟨writeAt buffer 0 [op], 1⟩ stor).2.buffer 0
      (buffer_storage_record P P.UNIAUTH_MAX_MESSAGE ⟨writeAt buffer 0 [op], 1⟩ stor).2.iter) :
    msg.length ≤ P.UNIAUTH_MAX_MESSAGE ∧
    (parse_buffer P { clientbuf_input_mode c with
        buf := writeAt c.buf 0 msg, bufsz := msg.length }).1 = 0 ∧
    (parse_buffer P { clientbuf_input_mode c with
        buf := writeAt c.buf 0 msg, bufsz := msg.length }).2.status = Status.complete ∧
    (parse_buffer P { clientbuf_input_mode c with
        buf := writeAt c.buf 0 msg, bufsz := msg.length }).2.opkind = (op : Int) ∧
    (parse_buffer P { clientbuf_input_mode c with
        buf := writeAt c.buf 0 msg, bufsz := msg.length }).2.bufit = msg.length ∧
    (parse_buffer P { clientbuf_input_mode c with
        buf := writeAt c.buf 0 msg, bufsz := msg.length }).2.stor.key = stor.key ∧
    (stor.key.isSome → (parse_buffer P { clientbuf_input_mode c with
        buf := writeAt c.buf 0 msg, bufsz := msg.length }).2.stor.keySz = stor.keySz) ∧
    (parse_buffer P { clientbuf_input_mode c with
        buf := writeAt c.buf 0 msg, bufsz := msg.length }).2.stor.id = stor.id ∧
    (parse_buffer P { clientbuf_input_mode c with
        buf := writeAt c.buf 0 msg, bufsz := msg.length }).2.stor.username = stor.username ∧
    (stor.username.isSome → (parse_buffer P { clientbuf_input_mode c with
        buf := writeAt c.buf 0 msg, bufsz := msg.length }).2.stor.usernameSz
          = stor.usernameSz) ∧
    (parse_buffer P { clientbuf_input_mode c with
        buf := writeAt c.buf 0 msg, bufsz := msg.length }).2.stor.displayName
          = stor.displayName ∧
    (stor.displayName.isSome → (parse_buffer P { clientbuf_input_mode c with
        buf := writeAt c.buf 0 msg, bufsz := msg.length }).2.stor.displayNameSz
          = stor.displayNameSz) ∧
    (parse_buffer P { clientbuf_input_mode c with
        buf := writeAt c.buf 0 msg, bufsz := msg.length }).2.stor.expire = stor.expire ∧
    (parse_buffer P { clientbuf_input_mode c with
        buf := writeAt c.buf 0 msg, bufsz := msg.length }).2.stor.redirect = stor.redirect ∧
    (stor.redirect.isSome → (parse_buffer P { clientbuf_input_mode c with
        buf := writeAt c.buf 0 msg, bufsz := msg.length }).2.stor.redirectSz
          = stor.redirectSz) ∧
    (parse_buffer P { clientbuf_input_mode c with
        buf := writeAt c.buf 0 msg, bufsz := msg.length }).2.stor.tag = stor.tag ∧
    (stor.tag.isSome → (parse_buffer P { clientbuf_input_mode c with
        buf := writeAt c.buf 0 msg, bufsz := msg.length }).2.stor.tagSz = stor.tagSz) := by
  have hmax : 1 + wire_size stor ≤ P.UNIAUTH_MAX_MESSAGE :=
    (buffer_storage_record_fits P P.UNIAUTH_MAX_MESSAGE ⟨writeAt buffer 0 [op], 1⟩ stor).mp hok
  have hb1 : (writeAt buffer 0 [op]).length = P.UNIAUTH_MAX_MESSAGE := by
    rw [length_writeAt _ _ _ (by simp only [List.length_singleton]; omega)]; exact hbuf
  obtain ⟨hfit, henc⟩ := buffer_storage_record_appends P P.UNIAUTH_MAX_MESSAGE stor hs
    ⟨writeAt buffer 0 [op], 1⟩ hb1 hok
  simp only at hfit henc
  have hw : writeAt (writeAt buffer 0 [op]) 1 (record_bytes P stor)
      = writeAt buffer 0 (op :: record_bytes P stor) := by
    have := writeAt_writeAt buffer 0 [op] (record_bytes P stor) (Nat.zero_le _)
    simpa using this
  have hmsg2 : msg = op :: (wire_bytes P (record_fields P stor)
      ++ [P.UNIAUTH_PROTO_FIELD_END]) := by
    rw [hmsg, henc, hw]
    simp only
    have := slice_writeAt buffer 0 (op :: record_bytes P stor) (Nat.zero_le _)
    rw [List.length_cons, Nat.add_comm] at this
    rw [this, record_bytes_eq_wire]
  have hlenmsg : msg.length ≤ P.UNIAUTH_MAX_MESSAGE := by
    rw [hmsg2, ← record_bytes_eq_wire, List.length_cons]; omega
  have hfs := record_fields_wf P stor hs
  have hp := parse_buffer_message P hP
    { clientbuf_input_mode c with buf := writeAt c.buf 0 msg, bufsz := msg.length } op
    (record_fields P stor) rfl rfl hop hfs
    (by
      simp only
      rw [← hmsg2]
      exact slice_writeAt c.buf 0 msg (Nat.zero_le _))
    (by simp only; rw [← hmsg2])
  rw [hp]
  have hrec := store_record_fields P hP stor hs ht
    { { clientbuf_input_mode c with buf := writeAt c.buf 0 msg, bufsz := msg.length } with
      opkind := (op : Int), status := Status.incomplete } rfl
  have hfr := store_fields_frame P (record_fields P stor)
    { { clientbuf_input_mode c with buf := writeAt c.buf 0 msg, bufsz := msg.length } with
      opkind := (op : Int), status := Status.incomplete }
  obtain ⟨r1, r2, r3, r4, r5, r6, r7, r8, r9, r10, r11, r12, _⟩ := hrec
  exact ⟨hlenmsg, rfl, rfl, hfr.2.2.2.2.1, rfl, r1, r2, r3, r4, r5, r6, r7, r8, r9, r10, r11,
    r12⟩

/-- Witness for C1: a record with key "abc", id -7 and expiry 1700000000 sent
with opcode 2 into an 8-byte-prefilled connection buffer. -/
theorem request_round_trip_witness :
    (parse_buffer stdProto { clientbuf_input_mode (clientbuf_init stdProto 3 0) with
        buf := writeAt (clientbuf_init stdProto 3 0).buf 0
          [2, 1, 97, 98, 99, 0, 2, 249, 255, 255, 255, 5, 0, 241, 83, 101, 0, 0, 0, 0, 10],
        bufsz := 21 }).2.stor.id = -7 := by
  have h := request_round_trip stdProto (by decide)
    { uniauth_storage.zero with
      key := some [97, 98, 99], keySz := 3, id := -7, expire := 1700000000 } 2
    (List.replicate 64 0) (clientbuf_init stdProto 3 0)
    [2, 1, 97, 98, 99, 0, 2, 249, 255, 255, 255, 5, 0, 241, 83, 101, 0, 0, 0, 0, 10]
    (by decide) (by decide) (by decide) (by decide) (by decide) (by decide)
  exact h.2.2.2.2.2.2.2.1

/-! ## Incremental reads -/

theorem take_drop_fields (P : Proto) (fs : List WireField) :
    ∀ avail, take_fields P fs avail ++ drop_fields P fs avail = fs := by
  induction fs with
  | nil => intro avail; rfl
  | cons f fs ih =>
    intro avail
    simp only [take_fields, drop_fields]
    split
    · simp [ih]
    · simp

theorem take_fields_length (P : Proto) (fs : List WireField) :
    ∀ avail, (wire_bytes P (take_fields P fs avail)).length ≤ avail := by
  induction fs with
  | nil => intro avail; simp [take_fields, wire_bytes]
  | cons f fs ih =>
    intro avail
    simp only [take_fields]
    split
    · have := ih (avail - (f.bytes P).length)
      simp only [wire_bytes, List.length_append]
      omega
    · simp [wire_bytes]

theorem take_fields_mono (P : Proto) (fs : List WireField) :
    ∀ a b, a ≤ b →
      take_fields P fs b = take_fields P fs a
        ++ take_fields P (drop_fields P fs a) (b - (wire_bytes P (take_fields P fs a)).length) ∧
      drop_fields P fs b
        = drop_fields P (drop_fields P fs a) (b - (wire_bytes P (take_fields P fs a)).length) := by
  induction fs with
  | nil => intro a b _; simp [take_fields, drop_fields]
  | cons f fs ih =>
    intro a b hab
    by_cases h : (f.bytes P).length ≤ a
    · have hb : (f.bytes P).length ≤ b := by omega
      obtain ⟨i1, i2⟩ := ih (a - (f.bytes P).length) (b - (f.bytes P).length) (by omega)
      simp only [take_fields, drop_fields, if_pos h, if_pos hb, wire_bytes, List.length_append,
        List.cons_append]
      have e : b - ((f.bytes P).length
          + (wire_bytes P (take_fields P fs (a - (f.bytes P).length))).length)
          = b - (f.bytes P).length
            - (wire_bytes P (take_fields P fs (a - (f.bytes P).length))).length := by omega
      rw [e]
      exact ⟨by rw [← i1], i2⟩
    · simp only [take_fields, drop_fields, if_neg h, wire_bytes, List.length_nil, Nat.sub_zero,
        List.nil_append]
      exact ⟨trivial, trivial⟩

theorem take_fields_wf (P : Proto) (fs : List WireField) (hfs : ∀ f ∈ fs, f.wf P) (a : Nat) :
    (∀ f ∈ take_fields P fs a, f.wf P) ∧ (∀ f ∈ drop_fields P fs a, f.wf P) := by
  have h := take_drop_fields P fs a
  constructor
  · intro f hf; exact hfs f (by rw [← h]; exact List.mem_append_left _ hf)
  · intro f hf; exact hfs f (by rw [← h]; exact List.mem_append_right _ hf)

theorem take_fields_all (P : Proto) (fs : List WireField) :
    ∀ a, (wire_bytes P fs).length ≤ a → take_fields P fs a = fs ∧ drop_fields P fs a = [] := by
  induction fs with
  | nil => intro a _; exact ⟨rfl, rfl⟩
  | cons f fs ih =>
    intro a h
    simp only [wire_bytes, List.length_append] at h
    obtain ⟨i1, i2⟩ := ih (a - (f.bytes P).length) (by omega)
    simp only [take_fields, drop_fields, if_pos (show (f.bytes P).length ≤ a by omega)]
    exact ⟨by rw [i1], i2⟩

theorem parse_loop_exit (P : Proto) (fuel : Nat) (client : clientbuf) (iter : Nat)
    (h : client.bufsz ≤ iter) :
    parse_loop P fuel client iter = (0, { client with bufit := iter }) := by
  cases fuel with
  | zero => rfl
  | succ f =>
    simp only [parse_loop]
    rw [if_neg (by omega)]

theorem clientbuf_eta_id (client : clientbuf) :
    { client with stor := { client.stor with id := client.stor.id } } = client := rfl

/-- One iteration of the parser loop on a field that has not been received
completely: the loop stops with the cursor on the tag byte. -/
theorem parse_loop_field_incomplete (P : Proto) (hP : P.wf) (fuel : Nat) (client : clientbuf)
    (iter : Nat) (f : WireField) (hf : f.wf P) (hi : iter < client.bufsz)
    (hshort : client.bufsz - iter < (f.bytes P).length)
    (h : ∀ j, j < client.bufsz - iter → client.buf.getD (iter + j) 0 = (f.bytes P).getD j 0) :
    parse_loop P (fuel + 1) client iter = (0, { client with bufit := iter }) := by
  have htag := h 0 (by omega)
  rw [Nat.add_zero] at htag
  have hne : client.buf.getD iter 0 ≠ P.UNIAUTH_PROTO_FIELD_END := by
    rw [htag]; exact WireField.tag_ne_end P hP f hf
  simp only [parse_loop]
  rw [if_pos hi, if_neg hne, htag]
  cases f with
  | string t s =>
    obtain ⟨ht, hz⟩ := hf
    simp only [WireField.bytes, List.cons_append, List.length_cons, List.length_append,
      List.length_singleton, List.length_nil] at hshort
    have hr : ∀ d p, read_string client (iter + 1) d p = (0, d, p) := by
      intro d p
      apply read_string_incomplete
      intro k hk1 hk2 hk0
      have := h (k - iter) (by omega)
      rw [show iter + (k - iter) = k by omega, hk0] at this
      simp only [WireField.bytes, List.cons_append] at this
      obtain ⟨m, hm⟩ : ∃ m, k - iter = m + 1 := ⟨k - iter - 1, by omega⟩
      rw [hm, List.getD_cons_succ, List.getD_eq_getElem?_getD,
        List.getElem?_append_left (by omega), List.getElem?_eq_getElem (by omega)] at this
      apply hz
      simp only [Option.getD_some] at this
      rw [this]
      exact List.getElem_mem _
    simp only [WireField.bytes, List.cons_append, List.getD_cons_zero]
    rw [parse_field_string_incomplete P hP client iter t ht hr]
    rfl
  | integer b =>
    have hb : b.length = 4 := hf
    simp only [WireField.bytes, List.length_cons, hb] at hshort
    simp only [WireField.bytes, List.getD_cons_zero]
    have hri : read_integer client (iter + 1) client.stor.id = (0, client.stor.id) := by
      simp only [read_integer, UNIAUTH_INT_SZ]
      rw [if_neg (by omega)]
    rw [parse_field_integer P hP, hri]
    rfl
  | time b =>
    have hb : b.length = 8 := hf
    simp only [WireField.bytes, List.length_cons, hb] at hshort
    simp only [WireField.bytes, List.getD_cons_zero]
    have hri : read_time client (iter + 1) client.stor.expire = (0, client.stor.expire) := by
      simp only [read_time, UNIAUTH_TIME_SZ]
      rw [if_neg (by omega)]
    rw [parse_field_time P hP, hri]
    rfl

/-- The parser loop on a buffer that ends before the end-marker of the
message: it stores the fields that were received completely and stops with the
cursor behind them. -/
theorem parse_loop_head (P : Proto) (hP : P.wf) (fs : List WireField) :
    ∀ (fuel : Nat) (client : clientbuf) (start : Nat), (∀ f ∈ fs, f.wf P) →
      start ≤ client.bufsz → client.bufsz ≤ start + (wire_bytes P fs).length →
      (∀ j, j < client.bufsz - start →
        client.buf.getD (start + j) 0 = (wire_bytes P fs).getD j 0) →
      client.bufsz - start ≤ fuel →
      parse_loop P fuel client start
        = (0, { store_fields P (take_fields P fs (client.bufsz - start)) client with
                bufit := start
                  + (wire_bytes P (take_fields P fs (client.bufsz - start))).length }) := by
  induction fs with
  | nil =>
    intro fuel client start _ h1 h2 _ _
    simp only [wire_bytes, List.length_nil, Nat.add_zero] at h2
    rw [parse_loop_exit P fuel client start h2]
    simp [take_fields, store_fields, wire_bytes]
  | cons f fs ih =>
    intro fuel client start hfs h1 h2 hag hfuel
    have hf := hfs f (List.mem_cons_self _ _)
    have hf2 := WireField.bytes_two P f hf
    simp only [wire_bytes, List.length_append] at h2
    by_cases hfit : (f.bytes P).length ≤ client.bufsz - start
    · obtain ⟨fuel1, rfl⟩ : ∃ g, fuel = g + 1 := ⟨fuel - 1, by omega⟩
      have hsl : slice client.buf start (f.bytes P).length = f.bytes P := by
        apply slice_eq_of_getD
        intro j hj
        rw [hag j (by omega)]
        simp only [wire_bytes, List.getD_eq_getElem?_getD]
        rw [List.getElem?_append_left hj]
      have hfr := store_field_frame P f client
      rw [parse_loop_field P hP fuel1 client start f hf hsl (by omega),
        ih fuel1 (store_field P f client) (start + (f.bytes P).length)
          (fun g hg => hfs g (List.mem_cons_of_mem _ hg))
          (by rw [hfr.2.1]; omega) (by rw [hfr.2.1]; omega)
          (by
            intro j hj
            rw [hfr.2.1] at hj
            rw [hfr.1, Nat.add_assoc, hag ((f.bytes P).length + j) (by omega)]
            simp only [wire_bytes, List.getD_eq_getElem?_getD]
            rw [List.getElem?_append_right (by omega), Nat.add_sub_cancel_left])
          (by rw [hfr.2.1]; omega)]
      simp only [take_fields, if_pos hfit, hfr.2.1, store_fields, List.foldl_cons, wire_bytes,
        List.length_append]
      have e : client.bufsz - (start + (f.bytes P).length)
          = client.bufsz - start - (f.bytes P).length := by omega
      rw [e, Nat.add_assoc]
    · simp only [take_fields, if_neg hfit, store_fields, List.foldl_nil, wire_bytes,
        List.length_nil, Nat.add_zero]
      by_cases hlt : start < client.bufsz
      · obtain ⟨fuel1, rfl⟩ : ∃ g, fuel = g + 1 := ⟨fuel - 1, by omega⟩
        apply parse_loop_field_incomplete P hP fuel1 client start f hf hlt (by omega)
        intro j hj
        rw [hag j hj]
        simp only [wire_bytes, List.getD_eq_getElem?_getD]
        rw [List.getElem?_append_left (by omega)]
      · exact parse_loop_exit P fuel client start (by omega)

theorem clientbuf_ext (a b : clientbuf) (h1 : a.sock = b.sock) (h2 : a.conntm = b.conntm)
    (h3 : a.buf = b.buf) (h4 : a.bufit = b.bufit) (h5 : a.bufsz = b.bufsz)
    (h6 : a.iomode = b.iomode) (h7 : a.status = b.status) (h8 : a.eof = b.eof)
    (h9 : a.opkind = b.opkind) (h10 : a.stor = b.stor) (h11 : a.trans = b.trans) : a = b := by
  cases a; cases b; simp_all

theorem store_field_congr (P : Proto) (f : WireField) (c d : clientbuf)
    (hs : c.stor = d.stor) (ht : c.trans = d.trans) :
    (store_field P f c).stor = (store_field P f d).stor ∧
    (store_field P f c).trans = (store_field P f d).trans := by
  cases f with
  | string t s =>
    simp only [store_field, store_string]
    split_ifs <;> simp [hs, ht]
  | integer b => simp [store_field, hs, ht]
  | time b => simp [store_field, hs, ht]

theorem store_fields_congr (P : Proto) (fs : List WireField) :
    ∀ (c d : clientbuf), c.stor = d.stor → c.trans = d.trans →
      (store_fields P fs c).stor = (store_fields P fs d).stor ∧
      (store_fields P fs c).trans = (store_fields P fs d).trans := by
  induction fs with
  | nil => intro c d hs ht; exact ⟨hs, ht⟩
  | cons f fs ih =>
    intro c d hs ht
    obtain ⟨a1, a2⟩ := store_field_congr P f c d hs ht
    simpa [store_fields] using ih _ _ a1 a2

/-- One readiness event that delivers a non-empty chunk that fits: the chunk is
appended to the buffer and the parser runs. -/
theorem deliver_eq (P : Proto) (c : clientbuf) (chunk : List Nat) (hio : c.iomode = 0)
    (heof : c.eof = false) (hne : chunk ≠ [])
    (hfit : c.bufsz + chunk.length ≤ P.UNIAUTH_MAX_MESSAGE) :
    deliver P c chunk
      = (parse_buffer P { c with buf := writeAt c.buf c.bufsz chunk,
                                 bufsz := c.bufsz + chunk.length }).2 := by
  have htake : List.take (P.UNIAUTH_MAX_MESSAGE - c.bufsz) chunk = chunk :=
    List.take_of_length_le (by omega)
  have hlen : chunk.length ≠ 0 := by
    intro h; exact hne (List.length_eq_zero.mp h)
  simp only [deliver, clientbuf_operation, heof, hio, read_loop, htake, Bool.false_eq_true,
    if_false, if_true, if_neg hlen]

theorem getD_take_of_lt (l : List Nat) (k j : Nat) (h : j < k) :
    (l.take k).getD j 0 = l.getD j 0 := by
  simp only [List.getD_eq_getElem?_getD, List.getElem?_take_of_lt h]

theorem request_bytes_length (P : Proto) (op : Nat) (fs : List WireField) :
    (request_bytes P op fs).length = (wire_bytes P fs).length + 2 := by
  simp [request_bytes]

/-- The bytes of a fresh connection buffer after the first `k` bytes of a
request arrived. -/
theorem getD_received (P : Proto) (buf0 : List Nat) (op : Nat) (fs : List WireField)
    (k j : Nat) (hk : k ≤ (request_bytes P op fs).length) (hj : j < k) :
    (writeAt buf0 0 ((request_bytes P op fs).take k)).getD j 0
      = (request_bytes P op fs).getD j 0 := by
  have := getD_writeAt_mid buf0 0 ((request_bytes P op fs).take k) j (Nat.zero_le _)
    (by rw [List.length_take]; omega)
  rw [Nat.zero_add] at this
  rw [this, getD_take_of_lt _ _ _ hj]

theorem getD_request_field (P : Proto) (op : Nat) (ts ds : List WireField) (j : Nat)
    (hj : j < (wire_bytes P ds).length) :
    (request_bytes P op (ts ++ ds)).getD (1 + (wire_bytes P ts).length + j) 0
      = (wire_bytes P ds).getD j 0 := by
  simp only [request_bytes, wire_bytes_append, List.getD_eq_getElem?_getD]
  rw [show 1 + (wire_bytes P ts).length + j = ((wire_bytes P ts).length + j) + 1 by omega,
    List.getElem?_cons_succ, List.append_assoc,
    List.getElem?_append_right (by omega), Nat.add_sub_cancel_left,
    List.getElem?_append_left hj]

theorem getD_request_end (P : Proto) (op : Nat) (fs : List WireField) :
    (request_bytes P op fs).getD (1 + (wire_bytes P fs).length) 0
      = P.UNIAUTH_PROTO_FIELD_END := by
  simp only [request_bytes, List.getD_eq_getElem?_getD]
  rw [show 1 + (wire_bytes P fs).length = (wire_bytes P fs).length + 1 by omega,
    List.getElem?_cons_succ, List.getElem?_append_right (Nat.le_refl _), Nat.sub_self]
  rfl

/-- The parser on the first bytes of a request, the opcode byte still to be
read and the end-marker not yet received. -/
theorem parse_buffer_head (P : Proto) (hP : P.wf) (c : clientbuf) (op : Nat)
    (fs : List WireField) (hst : c.status = Status.notset) (hit : c.bufit = 0)
    (hop : op < P.UNIAUTH_OP_TOP) (hfs : ∀ f ∈ fs, f.wf P) (hk1 : 1 ≤ c.bufsz)
    (hk2 : c.bufsz < (request_bytes P op fs).length)
    (hag : ∀ j, j < c.bufsz → c.buf.getD j 0 = (request_bytes P op fs).getD j 0) :
    parse_buffer P c
      = (0, { store_fields P (take_fields P fs (c.bufsz - 1))
                { c with opkind := (op : Int), status := Status.incomplete } with
              bufit := 1 + (wire_bytes P (take_fields P fs (c.bufsz - 1))).length }) := by
  rw [request_bytes_length] at hk2
  have h0 : c.buf.getD 0 0 = op := by
    rw [hag 0 (by omega)]; rfl
  have key := parse_loop_head P hP fs (c.bufsz - 1)
    { c with opkind := (op : Int), status := Status.incomplete } 1 hfs
    (by simp only; omega) (by simp only; omega)
    (by
      intro j hj
      simp only at hj ⊢
      rw [hag (1 + j) (by omega)]
      have := getD_request_field P op [] fs j (by omega)
      simpa [wire_bytes] using this)
    (by simp only; omega)
  unfold parse_buffer
  simp only [hit, Nat.zero_add]
  rw [if_neg (by omega), if_pos hst, h0, if_neg (by omega)]
  simp only [hit] at key
  exact key

/-- The parser resumed behind the fields `ts` when more bytes, but not yet the
end-marker, have arrived. -/
theorem parse_buffer_resume (P : Proto) (hP : P.wf) (c : clientbuf) (op : Nat)
    (ts ds : List WireField) (hst : c.status = Status.incomplete)
    (hit : c.bufit = 1 + (wire_bytes P ts).length) (hds : ∀ f ∈ ds, f.wf P)
    (hk : c.bufit ≤ c.bufsz) (hk2 : c.bufsz < (request_bytes P op (ts ++ ds)).length)
    (hag : ∀ j, j < c.bufsz → c.buf.getD j 0 = (request_bytes P op (ts ++ ds)).getD j 0) :
    parse_buffer P c
      = (0, { store_fields P (take_fields P ds (c.bufsz - c.bufit)) c with
              bufit := c.bufit
                + (wire_bytes P (take_fields P ds (c.bufsz - c.bufit))).length }) := by
  rw [request_bytes_length, wire_bytes_append, List.length_append] at hk2
  have key := parse_loop_head P hP ds (c.bufsz - c.bufit) c c.bufit hds hk (by omega)
    (by
      intro j hj
      rw [hag (c.bufit + j) (by omega), hit]
      exact getD_request_field P op ts ds j (by omega))
    (Nat.le_refl _)
  unfold parse_buffer
  simp only
  rw [if_neg (by omega), if_neg (by rw [hst]; decide)]
  exact key

/-- The parser resumed behind the fields `ts` when the rest of the request has
arrived. -/
theorem parse_buffer_resume_end (P : Proto) (hP : P.wf) (c : clientbuf) (op : Nat)
    (ts ds : List WireField) (hst : c.status = Status.incomplete)
    (hit : c.bufit = 1 + (wire_bytes P ts).length) (hds : ∀ f ∈ ds, f.wf P)
    (hk2 : c.bufsz = (request_bytes P op (ts ++ ds)).length)
    (hag : ∀ j, j < c.bufsz → c.buf.getD j 0 = (request_bytes P op (ts ++ ds)).getD j 0) :
    parse_buffer P c
      = (0, { store_fields P ds c with status := Status.complete, bufit := c.bufsz }) := by
  rw [request_bytes_length, wire_bytes_append, List.length_append] at hk2
  have hsl : slice c.buf c.bufit (wire_bytes P ds).length = wire_bytes P ds := by
    apply slice_eq_of_getD
    intro j hj
    rw [hag (c.bufit + j) (by omega), hit]
    exact getD_request_field P op ts ds j hj
  have hend : c.buf.getD (c.bufit + (wire_bytes P ds).length) 0
      = P.UNIAUTH_PROTO_FIELD_END := by
    rw [hag _ (by omega), hit]
    have := getD_request_end P op (ts ++ ds)
    rw [wire_bytes_append, List.length_append, ← Nat.add_assoc] at this
    exact this
  have key := parse_loop_message P hP c c.bufit ds hds hsl hend (by omega)
  unfold parse_buffer
  simp only
  rw [if_neg (by omega), if_neg (by rw [hst]; decide)]
  exact key

theorem parsed_state_last (P : Proto) (c0 : clientbuf) (op : Nat) (fs : List WireField) :
    parsed_state P c0 op fs (request_bytes P op fs).length
      = { store_fields P fs
            { c0 with buf := writeAt c0.buf 0 (request_bytes P op fs),
                      bufsz := (request_bytes P op fs).length,
                      opkind := (op : Int), status := Status.incomplete } with
          status := Status.complete, bufit := (request_bytes P op fs).length } := by
  simp only [parsed_state, if_true, List.take_length]

theorem parsed_state_before (P : Proto) (c0 : clientbuf) (op : Nat) (fs : List WireField)
    (k : Nat) (hk : k < (request_bytes P op fs).length) :
    parsed_state P c0 op fs k
      = { store_fields P (take_fields P fs (k - 1))
            { c0 with buf := writeAt c0.buf 0 ((request_bytes P op fs).take k), bufsz := k,
                      opkind := (op : Int), status := Status.incomplete } with
          bufit := 1 + (wire_bytes P (take_fields P fs (k - 1))).length } := by
  simp only [parsed_state]
  rw [if_neg (by omega)]

/-- The first readiness event: the first `k` bytes of the request arrive on the
fresh connection. -/
theorem deliver_first (P : Proto) (hP : P.wf) (c0 : clientbuf) (op : Nat)
    (fs : List WireField) (k : Nat) (hio : c0.iomode = 0) (heof : c0.eof = false)
    (hsz : c0.bufsz = 0) (hit : c0.bufit = 0) (hst : c0.status = Status.notset)
    (hop : op < P.UNIAUTH_OP_TOP) (hfs : ∀ f ∈ fs, f.wf P) (hk1 : 1 ≤ k)
    (hk2 : k ≤ (request_bytes P op fs).length)
    (hmax : (request_bytes P op fs).length ≤ P.UNIAUTH_MAX_MESSAGE) :
    deliver P c0 ((request_bytes P op fs).take k) = parsed_state P c0 op fs k := by
  have hlen : ((request_bytes P op fs).take k).length = k := by
    rw [List.length_take]; omega
  rw [deliver_eq P c0 _ hio heof (by intro h; rw [h] at hlen; simp at hlen; omega)
    (by rw [hlen, hsz]; omega)]
  simp only [hsz, Nat.zero_add, hlen]
  rcases Nat.eq_or_lt_of_le hk2 with he | hlt
  · subst he
    rw [parsed_state_last, List.take_length]
    rw [parse_buffer_message P hP
      { c0 with buf := writeAt c0.buf 0 (request_bytes P op fs),
                bufsz := (request_bytes P op fs).length } op fs hst hit hop hfs
      (slice_writeAt c0.buf 0 (request_bytes P op fs) (Nat.zero_le _)) rfl]
  · rw [parsed_state_before P c0 op fs k hlt]
    rw [parse_buffer_head P hP
      { c0 with buf := writeAt c0.buf 0 ((request_bytes P op fs).take k), bufsz := k }
      op fs hst hit hop hfs hk1 hlt
      (fun j hj => getD_received P c0.buf op fs k j hk2 hj)]

/-- A later readiness event: the request bytes `k .. k'` arrive on the
connection that has parsed the first `k` bytes. -/
theorem deliver_next (P : Proto) (hP : P.wf) (c0 : clientbuf) (op : Nat)
    (fs : List WireField) (k k' : Nat) (hio : c0.iomode = 0) (heof : c0.eof = false)
    (hfs : ∀ f ∈ fs, f.wf P) (hk1 : 1 ≤ k) (hkk : k < k')
    (hk2 : k' ≤ (request_bytes P op fs).length)
    (hmax : (request_bytes P op fs).length ≤ P.UNIAUTH_MAX_MESSAGE) :
    deliver P (parsed_state P c0 op fs k) (((request_bytes P op fs).take k').drop k)
      = parsed_state P c0 op fs k' := by
  have hlen : (((request_bytes P op fs).take k').drop k).length = k' - k := by
    rw [List.length_drop, List.length_take]; omega
  have hsplit := take_drop_fields P fs (k - 1)
  have hTl := take_fields_length P fs (k - 1)
  obtain ⟨hTwf, hDwf⟩ := take_fields_wf P fs hfs (k - 1)
  have hmono := take_fields_mono P fs (k - 1) (k' - 1) (by omega)
  have hwl : (wire_bytes P fs).length
      = (wire_bytes P (take_fields P fs (k - 1))).length
        + (wire_bytes P (drop_fields P fs (k - 1))).length := by
    rw [← List.length_append, ← wire_bytes_append, hsplit]
  have hrl := request_bytes_length P op fs
  rw [parsed_state_before P c0 op fs k (by omega)]
  have hfr := store_fields_frame P (take_fields P fs (k - 1))
    { c0 with buf := writeAt c0.buf 0 ((request_bytes P op fs).take k), bufsz := k,
              opkind := (op : Int), status := Status.incomplete }
  obtain ⟨f1, f2, f3, f4, f5, f6, f7, f8, f9⟩ := hfr
  simp only at f1 f2 f3 f4 f5 f6 f7 f8 f9
  rw [deliver_eq P _ _ (by simp only; rw [f6]; exact hio) (by simp only; rw [f7]; exact heof)
    (by intro h; rw [h] at hlen; simp at hlen; omega)
    (by simp only; rw [f2, hlen]; omega)]
  simp only [f1, f2, hlen]
  have hbuf : writeAt (writeAt c0.buf 0 ((request_bytes P op fs).take k)) k
      (((request_bytes P op fs).take k').drop k)
      = writeAt c0.buf 0 ((request_bytes P op fs).take k') := by
    have hl : ((request_bytes P op fs).take k).length = k := by
      rw [List.length_take]; omega
    have := writeAt_writeAt c0.buf 0 ((request_bytes P op fs).take k)
      (((request_bytes P op fs).take k').drop k) (Nat.zero_le _)
    rw [Nat.zero_add, hl] at this
    rw [this]
    congr 1
    have e : (request_bytes P op fs).take k = ((request_bytes P op fs).take k').take k := by
      rw [List.take_take, Nat.min_eq_left (by omega)]
    rw [e, List.take_append_drop]
  rw [hbuf, show k + (k' - k) = k' by omega]
  have hcg := store_fields_congr P (take_fields P fs (k - 1))
    { c0 with buf := writeAt c0.buf 0 ((request_bytes P op fs).take k), bufsz := k,
              opkind := (op : Int), status := Status.incomplete }
    { c0 with buf := writeAt c0.buf 0 ((request_bytes P op fs).take k'), bufsz := k',
              opkind := (op : Int), status := Status.incomplete } rfl rfl
  have hag : ∀ j, j < k' → (writeAt c0.buf 0 ((request_bytes P op fs).take k')).getD j 0
      = (request_bytes P op (take_fields P fs (k - 1) ++ drop_fields P fs (k - 1))).getD j 0 := by
    intro j hj
    rw [hsplit]
    exact getD_received P c0.buf op fs k' j hk2 hj
  rcases Nat.eq_or_lt_of_le hk2 with he | hlt
  · subst he
    rw [parsed_state_last]
    simp only [List.take_length] at hcg hag ⊢
    rw [parse_buffer_resume_end P hP _ op (take_fields P fs (k - 1))
      (drop_fields P fs (k - 1)) (by simp only; exact f3) rfl hDwf
      (by simp only; rw [hsplit]) (by simpa only using hag)]
    simp only
    have hfrD := store_fields_frame P (drop_fields P fs (k - 1))
    have hfrA := store_fields_frame P fs
    have hcg2 := store_fields_congr P (drop_fields P fs (k - 1))
    have happ := store_fields_append P (take_fields P fs (k - 1)) (drop_fields P fs (k - 1))
    rw [hsplit] at happ
    apply clientbuf_ext
    · simp only [(hfrD _).2.2.2.2.2.2.2.1, (hfrA _).2.2.2.2.2.2.2.1, f8]
    · simp only [(hfrD _).2.2.2.2.2.2.2.2, (hfrA _).2.2.2.2.2.2.2.2, f9]
    · simp only [(hfrD _).1, (hfrA _).1]
    · rfl
    · simp only [(hfrD _).2.1, (hfrA _).2.1]
    · simp only [(hfrD _).2.2.2.2.2.1, (hfrA _).2.2.2.2.2.1, f6]
    · rfl
    · simp only [(hfrD _).2.2.2.2.2.2.1, (hfrA _).2.2.2.2.2.2.1, f7]
    · simp only [(hfrD _).2.2.2.2.1, (hfrA _).2.2.2.2.1, f5]
    · rw [happ]
      exact (hcg2 _ _ (by simp only; rw [hcg.1]) (by simp only; rw [hcg.2])).1
    · rw [happ]
      exact (hcg2 _ _ (by simp only; rw [hcg.1]) (by simp only; rw [hcg.2])).2
  · rw [parsed_state_before P c0 op fs k' hlt]
    rw [parse_buffer_resume P hP _ op (take_fields P fs (k - 1))
      (drop_fields P fs (k - 1)) (by simp only; exact f3) rfl hDwf
      (by simp only; omega) (by simp only; rw [hsplit]; exact hlt)
      (by simpa only using hag)]
    simp only
    have e1 : k' - (1 + (wire_bytes P (take_fields P fs (k - 1))).length)
        = k' - 1 - (wire_bytes P (take_fields P fs (k - 1))).length := by omega
    rw [e1, hmono.1]
    have hfrD := store_fields_frame P (take_fields P (drop_fields P fs (k - 1))
      (k' - 1 - (wire_bytes P (take_fields P fs (k - 1))).length))
    have hfrA := store_fields_frame P (take_fields P fs (k - 1) ++
      take_fields P (drop_fields P fs (k - 1))
        (k' - 1 - (wire_bytes P (take_fields P fs (k - 1))).length))
    have hcg2 := store_fields_congr P (take_fields P (drop_fields P fs (k - 1))
      (k' - 1 - (wire_bytes P (take_fields P fs (k - 1))).length))
    have happ := store_fields_append P (take_fields P fs (k - 1))
      (take_fields P (drop_fields P fs (k - 1))
        (k' - 1 - (wire_bytes P (take_fields P fs (k - 1))).length))
    apply clientbuf_ext
    · simp only [(hfrD _).2.2.2.2.2.2.2.1, (hfrA _).2.2.2.2.2.2.2.1, f8]
    · simp only [(hfrD _).2.2.2.2.2.2.2.2, (hfrA _).2.2.2.2.2.2.2.2, f9]
    · simp only [(hfrD _).1, (hfrA _).1]
    · simp only [wire_bytes_append, List.length_append, Nat.add_assoc]
    · simp only [(hfrD _).2.1, (hfrA _).2.1]
    · simp only [(hfrD _).2.2.2.2.2.1, (hfrA _).2.2.2.2.2.1, f6]
    · simp only [(hfrD _).2.2.1, (hfrA _).2.2.1, f3]
    · simp only [(hfrD _).2.2.2.2.2.2.1, (hfrA _).2.2.2.2.2.2.1, f7]
    · simp only [(hfrD _).2.2.2.2.1, (hfrA _).2.2.2.2.1, f5]
    · rw [happ]
      exact (hcg2 _ _ (by simp only; rw [hcg.1]) (by simp only; rw [hcg.2])).1
    · rw [happ]
      exact (hcg2 _ _ (by simp only; rw [hcg.1]) (by simp only; rw [hcg.2])).2

/-- The remaining chunks of a request delivered one readiness event each to the
connection that has parsed the first `k` bytes. -/
theorem deliver_all_rest (P : Proto) (hP : P.wf) (c0 : clientbuf) (op : Nat)
    (fs : List WireField) (hio : c0.iomode = 0) (heof : c0.eof = false)
    (hfs : ∀ f ∈ fs, f.wf P)
    (hmax : (request_bytes P op fs).length ≤ P.UNIAUTH_MAX_MESSAGE)
    (chunks : List (List Nat)) :
    ∀ k, 1 ≤ k → k ≤ (request_bytes P op fs).length →
      chunks.flatten = (request_bytes P op fs).drop k → (∀ ch ∈ chunks, ch ≠ []) →
      deliver_all P (parsed_state P c0 op fs k) chunks
        = parsed_state P c0 op fs (request_bytes P op fs).length := by
  induction chunks with
  | nil =>
    intro k _ hk2 hj _
    have hl := congrArg List.length hj
    simp only [List.flatten_nil, List.length_nil, List.length_drop] at hl
    have : k = (request_bytes P op fs).length := by omega
    rw [this]
    rfl
  | cons ch chunks ih =>
    intro k hk1 hk2 hj hne
    have hch : ch ≠ [] := hne ch (List.mem_cons_self _ _)
    have hchl : 0 < ch.length := List.length_pos.mpr hch
    rw [List.flatten_cons] at hj
    have hl := congrArg List.length hj
    simp only [List.length_append, List.length_drop] at hl
    have e1 : ((request_bytes P op fs).take (k + ch.length)).drop k = ch := by
      rw [List.drop_take, Nat.add_sub_cancel_left, ← hj, List.take_left]
    have e2 : chunks.flatten = (request_bytes P op fs).drop (k + ch.length) := by
      rw [← List.drop_drop, ← hj, List.drop_left]
    have hstep := deliver_next P hP c0 op fs k (k + ch.length) hio heof hfs hk1 (by omega)
      (by omega) hmax
    rw [e1] at hstep
    simp only [deliver_all, List.foldl_cons]
    rw [hstep]
    exact ih (k + ch.length) (by omega) (by omega) e2
      (fun c hc => hne c (List.mem_cons_of_mem _ hc))

/-- C3: incremental-read equivalence.  For every complete request message
(an opcode below `UNIAUTH_OP_TOP`, any sequence of recognised fields, the
end-marker) of at most `UNIAUTH_MAX_MESSAGE` bytes and every split of it into
non-empty chunks, delivering the chunks to a fresh input-mode connection one
readiness event at a time (each event appends the chunk and runs
`parse_buffer`, as `clientbuf_operation` does) ends in exactly the same
connection state as delivering the whole message in one event: status
complete, the same opkind, the same session record and transfer pair, the same
saved cursor (the end of the message).  The chunk boundaries are arbitrary. -/
theorem incremental_read_equivalence (P : Proto) (hP : P.wf) (c : clientbuf) (op : Nat)
    (fs : List WireField) (chunks : List (List Nat)) (heof : c.eof = false)
    (hop : op < P.UNIAUTH_OP_TOP) (hfs : ∀ f ∈ fs, f.wf P)
    (hmax : (request_bytes P op fs).length ≤ P.UNIAUTH_MAX_MESSAGE)
    (hne : ∀ ch ∈ chunks, ch ≠ []) (hjoin : chunks.flatten = request_bytes P op fs) :
    deliver_all P (clientbuf_input_mode c) chunks
      = deliver P (clientbuf_input_mode c) (request_bytes P op fs) ∧
    (deliver_all P (clientbuf_input_mode c) chunks).status = Status.complete ∧
    (deliver_all P (clientbuf_input_mode c) chunks).opkind = (op : Int) ∧
    (deliver_all P (clientbuf_input_mode c) chunks).bufit = (request_bytes P op fs).length ∧
    (deliver_all P (clientbuf_input_mode c) chunks).stor
      = (store_fields P fs (clientbuf_input_mode c)).stor ∧
    (deliver_all P (clientbuf_input_mode c) chunks).trans
      = (store_fields P fs (clientbuf_input_mode c)).trans := by
  have hrl := request_bytes_length P op fs
  have hone : deliver P (clientbuf_input_mode c) (request_bytes P op fs)
      = parsed_state P (clientbuf_input_mode c) op fs (request_bytes P op fs).length := by
    have := deliver_first P hP (clientbuf_input_mode c) op fs (request_bytes P op fs).length
      rfl heof rfl rfl rfl hop hfs (by omega) (Nat.le_refl _) hmax
    rw [List.take_length] at this
    exact this
  have hall : deliver_all P (clientbuf_input_mode c) chunks
      = parsed_state P (clientbuf_input_mode c) op fs (request_bytes P op fs).length := by
    cases chunks with
    | nil =>
      have hl := congrArg List.length hjoin
      simp only [List.flatten_nil, List.length_nil] at hl
      omega
    | cons ch chunks =>
      have hch : ch ≠ [] := hne ch (List.mem_cons_self _ _)
      have hchl : 0 < ch.length := List.length_pos.mpr hch
      rw [List.flatten_cons] at hjoin
      have hl := congrArg List.length hjoin
      simp only [List.length_append] at hl
      have e1 : (request_bytes P op fs).take ch.length = ch := by
        rw [← hjoin, List.take_left]
      have e2 : chunks.flatten = (request_bytes P op fs).drop ch.length := by
        rw [← hjoin, List.drop_left]
      have hfirst := deliver_first P hP (clientbuf_input_mode c) op fs ch.length
        rfl heof rfl rfl rfl hop hfs (by omega) (by omega) hmax
      rw [e1] at hfirst
      simp only [deliver_all, List.foldl_cons]
      rw [hfirst]
      exact deliver_all_rest P hP (clientbuf_input_mode c) op fs rfl heof hfs hmax chunks
        ch.length (by omega) (by omega) e2 (fun c hc => hne c (List.mem_cons_of_mem _ hc))
  rw [hall, hone, parsed_state_last]
  have hfr := store_fields_frame P fs
    { clientbuf_input_mode c with
      buf := writeAt (clientbuf_input_mode c).buf 0 (request_bytes P op fs),
      bufsz := (request_bytes P op fs).length,
      opkind := (op : Int), status := Status.incomplete }
  have hcg := store_fields_congr P fs
    { clientbuf_input_mode c with
      buf := writeAt (clientbuf_input_mode c).buf 0 (request_bytes P op fs),
      bufsz := (request_bytes P op fs).length,
      opkind := (op : Int), status := Status.incomplete }
    (clientbuf_input_mode c) rfl rfl
  exact ⟨rfl, rfl, hfr.2.2.2.2.1, rfl, hcg.1, hcg.2⟩

/-- Witness for C3: the request `CREATE, KEY "ab", ID 7, END` split inside the
string, inside the integer and immediately before the end-marker. -/
theorem incremental_read_equivalence_witness :
    (deliver_all stdProto (clientbuf_input_mode (clientbuf_init stdProto 3 0))
      [[2, 1, 97], [98, 0, 2, 7, 0], [0, 0], [10]]).status = Status.complete ∧
    (deliver_all stdProto (clientbuf_input_mode (clientbuf_init stdProto 3 0))
      [[2, 1, 97], [98, 0, 2, 7, 0], [0, 0], [10]]).stor.id = 7 := by
  have h := incremental_read_equivalence stdProto (by decide) (clientbuf_init stdProto 3 0) 2
    [WireField.string 1 [97, 98], WireField.integer [7, 0, 0, 0]]
    [[2, 1, 97], [98, 0, 2, 7, 0], [0, 0], [10]]
    (by decide) (by decide) (by decide) (by decide) (by decide) (by decide)
  refine ⟨h.2.1, ?_⟩
  rw [h.2.2.2.2.1]
  decide

/-! ## Response round trip -/

/-- C2: the response round trip loses the high half of the expiry.  The daemon
answers with the record key "a", expire 2^32 through `clientbuf_send_record`;
the socket takes the 14 bytes `RECORD, KEY "a", EXPIRE 00 00 00 00 01 00 00 00,
END`; the client's `uniauth_connect_recv` classifies them as complete, and
`read_storage_record` on them, into a zeroed record, raises no error, restores
the key, and stores expire 0 instead of 2^32.  With expire 1700000000 (below
2^32) the value comes back unchanged. -/
theorem response_round_trip_truncates_expire :
    (clientbuf_send_record stdProto (clientbuf_init stdProto 3 0)
        ⟨[], [WriteOutcome.accept 64], []⟩ (some [97]) 1
        { uniauth_storage.zero with expire := 2 ^ 32 }).2.2.sent
      = [6, 1, 97, 0, 5, 0, 0, 0, 0, 1, 0, 0, 0, 10] ∧
    (uniauth_connect_recv stdProto (List.replicate 64 0) 64 0
        (ReadOutcome.data [6, 1, 97, 0, 5, 0, 0, 0, 0, 1, 0, 0, 0, 10])).1 = 0 ∧
    (uniauth_connect_recv stdProto (List.replicate 64 0) 64 0
        (ReadOutcome.data [6, 1, 97, 0, 5, 0, 0, 0, 0, 1, 0, 0, 0, 10])).2.2 = 14 ∧
    (read_storage_record stdProto
        (uniauth_connect_recv stdProto (List.replicate 64 0) 64 0
          (ReadOutcome.data [6, 1, 97, 0, 5, 0, 0, 0, 0, 1, 0, 0, 0, 10])).2.1 14
        uniauth_storage.zero)
      = ⟨{ uniauth_storage.zero with key := some [97], keySz := 1, expire := 0 }, 13, false⟩ ∧
    (read_storage_record stdProto
        ([6, 1, 97, 0] ++ 5 :: le_bytes 8 1700000000 ++ [10]) 14
        uniauth_storage.zero).stor.expire = 1700000000 := by
  decide

/-! ## Mode transitions -/

/-- C14. From every connection state, `clientbuf_input_mode` and
`clientbuf_output_mode` set the cursor and the fill length to 0 and the status
to `notset`, and set the phase to 0 (input) and 1 (output); output mode leaves
every other member as it was, input mode also zeroes the session record and
leaves every other member as it was. -/
theorem mode_transition_reset (client : clientbuf) :
    ((clientbuf_input_mode client).bufit = 0 ∧
      (clientbuf_input_mode client).bufsz = 0 ∧
      (clientbuf_input_mode client).status = Status.notset ∧
      (clientbuf_input_mode client).iomode = 0 ∧
      (clientbuf_input_mode client).stor = uniauth_storage.zero ∧
      (clientbuf_input_mode client).sock = client.sock ∧
      (clientbuf_input_mode client).conntm = client.conntm ∧
      (clientbuf_input_mode client).buf = client.buf ∧
      (clientbuf_input_mode client).eof = client.eof ∧
      (clientbuf_input_mode client).opkind = client.opkind ∧
      (clientbuf_input_mode client).trans = client.trans) ∧
    ((clientbuf_output_mode client).bufit = 0 ∧
      (clientbuf_output_mode client).bufsz = 0 ∧
      (clientbuf_output_mode client).status = Status.notset ∧
      (clientbuf_output_mode client).iomode = 1 ∧
      (clientbuf_output_mode client).stor = client.stor ∧
      (clientbuf_output_mode client).sock = client.sock ∧
      (clientbuf_output_mode client).conntm = client.conntm ∧
      (clientbuf_output_mode client).buf = client.buf ∧
      (clientbuf_output_mode client).eof = client.eof ∧
      (clientbuf_output_mode client).opkind = client.opkind ∧
      (clientbuf_output_mode client).trans = client.trans) := by
  simp [clientbuf_input_mode, clientbuf_output_mode]

/-! ## Daemon response building -/

theorem slice_zero_take (l : List Nat) (n : Nat) (h : n ≤ l.length) :
    slice l 0 n = l.take n := by
  have h1 : (l.take n).length = n := by simp [h]
  have := slice_eq_of_getD l 0 (l.take n) (by
    intro j hj
    rw [h1] at hj
    rw [Nat.zero_add, getD_take_of_lt l n j hj])
  rw [h1] at this
  exact this

theorem writeAt_nil (buf : List Nat) (pos : Nat) : writeAt buf pos [] = buf := by
  simp [writeAt]

theorem transfer_string_take (room : Nat) (s : List Nat) :
    transfer_string room s s.length = (s ++ [0]).take room := by
  unfold transfer_string
  by_cases h : room < s.length + 1
  · simp only [h, if_true]
    exact slice_zero_take _ _ (by simp; omega)
  · simp only [h, if_false]
    rw [slice_zero_take _ _ (by simp)]
    rw [List.take_of_length_le (by simp), List.take_of_length_le (by simp; omega)]

theorem transfer_integer_take (room : Nat) (v : Int) :
    transfer_integer room v = (le_bytes 4 v).take room := by
  unfold transfer_integer UNIAUTH_INT_SZ
  by_cases h : room < 4
  · simp [h]
  · simp only [h, if_false]
    rw [List.take_of_length_le (by simp [le_bytes_length]),
      List.take_of_length_le (by simp [le_bytes_length]; omega)]

theorem transfer_time_take (room : Nat) (v : Int) :
    transfer_time room v = (le_bytes 8 v).take room := by
  unfold transfer_time UNIAUTH_TIME_SZ
  by_cases h : room < 8
  · simp [h]
  · simp only [h, if_false]
    rw [List.take_of_length_le (by simp [le_bytes_length]),
      List.take_of_length_le (by simp [le_bytes_length]; omega)]

/-- One guarded field of `clientbuf_send_record` keeps the shape "the first
`remain` bytes of what should have been written so far". -/
theorem send_field_take (b0 : List Nat) (off remain : Nat) (X F : List Nat)
    (present : Bool) (t : Nat) (xfer : Nat → List Nat)
    (hx : present = true → ∀ room, xfer room = F.take room)
    (hb : off + remain ≤ b0.length) :
    send_field off remain present t xfer
        (writeAt b0 off (X.take remain), min remain X.length)
      = (writeAt b0 off ((X ++ (if present then t :: F else [])).take remain),
         min remain (X ++ (if present then t :: F else [])).length) := by
  unfold send_field
  by_cases hp : present = true
  · by_cases hr : remain - min remain X.length > 0
    · have hlt : X.length < remain := by omega
      have hmin : min remain X.length = X.length := by omega
      simp only [hp, hr, and_self, if_true, hx hp]
      rw [hmin, List.take_of_length_le (by omega)]
      rw [writeAt_writeAt _ _ _ _ (by omega)]
      have e := writeAt_writeAt b0 off (X ++ [t]) (F.take (remain - (X.length + 1))) (by omega)
      simp only [List.length_append, List.length_singleton, Nat.add_assoc] at e
      rw [e]
      have e2 : (X ++ t :: F).take remain = X ++ [t] ++ F.take (remain - (X.length + 1)) := by
        rw [List.take_append_eq_append_take, List.take_of_length_le (by omega)]
        have : remain - X.length = (remain - (X.length + 1)) + 1 := by omega
        rw [this, List.take_succ_cons]
        simp
      rw [e2]
      simp only [List.length_append, List.length_cons, List.length_take, Prod.mk.injEq,
        true_and]
      omega
    · have hge : remain ≤ X.length := by omega
      simp only [hp, hr, and_false, if_false, if_true]
      rw [List.take_append_of_le_length hge]
      simp only [List.length_append, Prod.mk.injEq, true_and]
      omega
  · have hp2 : present = false := by simpa using hp
    simp [hp2]

theorem send_field_string (b0 : List Nat) (off remain : Nat) (X : List Nat)
    (o : Option (List Nat)) (sz t : Nat) (ho : cstring o sz)
    (hb : off + remain ≤ b0.length) :
    send_field off remain o.isSome t (fun room => transfer_string room (o.getD []) sz)
        (writeAt b0 off (X.take remain), min remain X.length)
      = (writeAt b0 off ((X ++ string_field t o).take remain),
         min remain (X ++ string_field t o).length) := by
  cases o with
  | none =>
    have := send_field_take b0 off remain X [] false t
      (fun room => transfer_string room [] sz) (by simp) hb
    simpa [string_field] using this
  | some l =>
    obtain ⟨h1, _⟩ := ho
    subst h1
    have := send_field_take b0 off remain X (l ++ [0]) true t
      (fun room => transfer_string room l l.length)
      (fun _ room => transfer_string_take room l) hb
    simpa [string_field] using this

theorem send_record_fields_take (P : Proto) (buf : List Nat) (off remain : Nat)
    (key : Option (List Nat)) (keySz : Nat) (stor : uniauth_storage)
    (hk : cstring key keySz) (hs : stor.cstrings) (hr : 1 ≤ remain)
    (hb : off + remain ≤ buf.length) :
    send_record_fields P buf off remain key keySz stor
      = (writeAt buf off ((response_bytes P key stor).take remain),
         min remain (response_bytes P key stor).length) := by
  obtain ⟨_, h2, h3, h4, h5⟩ := hs
  unfold send_record_fields
  have e0 : ((writeAt buf off [P.UNIAUTH_PROTO_RESPONSE_RECORD], 1) : List Nat × Nat)
      = (writeAt buf off ([P.UNIAUTH_PROTO_RESPONSE_RECORD].take remain),
          min remain [P.UNIAUTH_PROTO_RESPONSE_RECORD].length) := by
    rw [List.take_of_length_le (by simpa using hr)]
    simp only [List.length_singleton, Prod.mk.injEq, true_and]
    omega
  have eend : ∀ st : List Nat × Nat,
      (if remain - st.2 > 0 then
        (writeAt st.1 (off + st.2) [P.UNIAUTH_PROTO_FIELD_END], st.2 + 1) else st)
      = send_field off remain true P.UNIAUTH_PROTO_FIELD_END (fun _ => []) st := by
    intro st
    unfold send_field
    by_cases h : remain - st.2 > 0
    · simp [h, writeAt_nil]
    · simp [h]
  simp only []
  rw [eend, e0, send_field_string _ _ _ _ _ _ _ hk hb,
    send_field_take _ _ _ _ (le_bytes 4 stor.id) _ _ _
      (fun _ room => transfer_integer_take room stor.id) hb,
    send_field_string _ _ _ _ _ _ _ h2 hb,
    send_field_string _ _ _ _ _ _ _ h3 hb,
    send_field_take _ _ _ _ (le_bytes 8 stor.expire) _ _ _
      (fun _ room => transfer_time_take room stor.expire) hb,
    send_field_string _ _ _ _ _ _ _ h4 hb,
    send_field_string _ _ _ _ _ _ _ h5 hb,
    send_field_take _ _ _ _ [] true _ _ (fun _ room => by simp) hb]
  simp [response_bytes]

theorem get_output_buffer_some (P : Proto) (client client1 : clientbuf) (off remain : Nat)
    (hg : get_output_buffer P client = (some (off, remain), client1)) :
    1 ≤ remain ∧ off + remain = P.UNIAUTH_MAX_MESSAGE ∧ off = client1.bufsz ∧
    client1.buf = client.buf ∧ client1.eof = false ∧ client1.iomode ≠ 0 := by
  unfold get_output_buffer at hg
  by_cases hm : client.iomode = 0
  · simp only [hm, if_true] at hg
    split at hg
    · rename_i h
      simp only [Prod.mk.injEq, Option.some.injEq] at hg
      obtain ⟨⟨h1, h2⟩, h3⟩ := hg
      subst h3
      simp only [clientbuf_output_mode] at h h1 h2 ⊢
      simp at h
      refine ⟨by omega, by omega, h1.symm, trivial, h.1, by simp⟩
    · simp at hg
  · simp only [hm, if_false] at hg
    split at hg
    · rename_i h
      simp only [Prod.mk.injEq, Option.some.injEq] at hg
      obtain ⟨⟨h1, h2⟩, h3⟩ := hg
      subst h3
      simp at h ⊢
      refine ⟨by omega, by omega, h1.symm, h.1, hm⟩
    · simp at hg

/-- C12. On a connection whose buffer has `UNIAUTH_MAX_MESSAGE` bytes and on
which `get_output_buffer` yields a span of `remain` bytes at offset `off`, for
every key and record (C strings of the recorded lengths): the span has at least
one byte and ends at `UNIAUTH_MAX_MESSAGE`; `clientbuf_send_record` returns 0;
the field-writing part stores exactly the first `min remain L` bytes of the
full response encoding `E` (of length `L`) at the span and counts that many;
the connection handed to `flush_buffer` is the one with these bytes appended;
the buffer keeps its length and every byte outside the span's first
`min remain L` positions is untouched. -/
theorem clientbuf_send_record_truncates (P : Proto) (client : clientbuf) (s : Sock)
    (key : Option (List Nat)) (keySz : Nat) (stor : uniauth_storage)
    (off remain : Nat) (client1 : clientbuf)
    (hlen : client.buf.length = P.UNIAUTH_MAX_MESSAGE)
    (hk : cstring key keySz) (hs : stor.cstrings)
    (hg : get_output_buffer P client = (some (off, remain), client1)) :
    1 ≤ remain ∧ off + remain = P.UNIAUTH_MAX_MESSAGE ∧
    (clientbuf_send_record P client s key keySz stor).1 = 0 ∧
    send_record_fields P client1.buf off remain key keySz stor
      = (writeAt client.buf off
          ((response_bytes P key stor).take (min remain (response_bytes P key stor).length)),
         min remain (response_bytes P key stor).length) ∧
    (clientbuf_send_record P client s key keySz stor).2
      = (flush_buffer
          { client1 with
            buf := writeAt client.buf off
              ((response_bytes P key stor).take (min remain (response_bytes P key stor).length)),
            bufsz := client1.bufsz + min remain (response_bytes P key stor).length } s).2 ∧
    (writeAt client.buf off
        ((response_bytes P key stor).take
          (min remain (response_bytes P key stor).length))).length
      = P.UNIAUTH_MAX_MESSAGE ∧
    ∀ i, (i < off ∨ off + min remain (response_bytes P key stor).length ≤ i) →
      (writeAt client.buf off
        ((response_bytes P key stor).take
          (min remain (response_bytes P key stor).length))).getD i 0
        = client.buf.getD i 0 := by
  obtain ⟨h1, h2, _, h4, _, _⟩ := get_output_buffer_some P client client1 off remain hg
  have hb : off + remain ≤ client1.buf.length := by rw [h4, hlen]; omega
  have hf := send_record_fields_take P client1.buf off remain key keySz stor hk hs h1 hb
  have ht : (response_bytes P key stor).take (min remain (response_bytes P key stor).length)
      = (response_bytes P key stor).take remain := by
    by_cases h : remain ≤ (response_bytes P key stor).length
    · rw [Nat.min_eq_left h]
    · rw [Nat.min_eq_right (by omega), List.take_of_length_le (by omega),
        List.take_of_length_le (by omega)]
  have hl : ((response_bytes P key stor).take remain).length
      = min remain (response_bytes P key stor).length := by
    simp
  rw [ht]
  refine ⟨h1, h2, ?_, h4 ▸ hf, ?_, ?_, ?_⟩
  · unfold clientbuf_send_record
    rw [hg]
  · unfold clientbuf_send_record
    rw [hg]
    have hf2 := h4 ▸ hf
    simp only [h4, hf2]
  · rw [length_writeAt _ _ _ (by rw [hl, hlen]; omega), hlen]
  · intro i hi
    rcases hi with hi | hi
    · exact getD_writeAt_lt _ _ _ _ (by omega) hi
    · exact getD_writeAt_ge _ _ _ _ (by omega) (by rw [hl]; exact hi)

/-- Witness for C12: a connection in the output phase with 60 of 64 bytes
buffered; the response for key "a" and the zero record has 14 bytes, of which
the first 4 are appended. -/
theorem clientbuf_send_record_truncates_witness :
    send_record_fields stdProto (List.replicate 64 0) 60 4 (some [97]) 1 uniauth_storage.zero
      = (writeAt (List.replicate 64 0) 60 [6, 1, 97, 0], 4) := by
  have h := clientbuf_send_record_truncates stdProto
    { clientbuf_init stdProto 3 0 with iomode := 1, bufsz := 60 } ⟨[], [], []⟩
    (some [97]) 1 uniauth_storage.zero 60 4
    { clientbuf_init stdProto 3 0 with iomode := 1, bufsz := 60, status := Status.incomplete }
    (by decide) (by decide) (by decide) (by decide)
  exact h.2.2.2.1

/-! ## Presence rules of the two encoders -/

theorem response_bytes_length (P : Proto) (key : Option (List Nat)) (stor : uniauth_storage) :
    (response_bytes P key stor).length
      = 1 + ((string_field P.UNIAUTH_PROTO_FIELD_KEY key).length
        + (if stor.id > 0 then 5 else 0)
        + (string_field P.UNIAUTH_PROTO_FIELD_USER stor.username).length
        + (string_field P.UNIAUTH_PROTO_FIELD_DISPLAY stor.displayName).length
        + (if stor.expire ≥ 0 then 9 else 0)
        + (string_field P.UNIAUTH_PROTO_FIELD_REDIRECT stor.redirect).length
        + (string_field P.UNIAUTH_PROTO_FIELD_TAG stor.tag).length + 1) := by
  unfold response_bytes
  by_cases h1 : stor.id > 0 <;> by_cases h2 : stor.expire ≥ 0 <;>
    simp [h1, h2, le_bytes_length] <;> omega

theorem record_bytes_length (P : Proto) (stor : uniauth_storage) :
    (record_bytes P stor).length
      = (string_field P.UNIAUTH_PROTO_FIELD_KEY stor.key).length
        + (if stor.id ≠ 0 then 5 else 0)
        + (string_field P.UNIAUTH_PROTO_FIELD_USER stor.username).length
        + (string_field P.UNIAUTH_PROTO_FIELD_DISPLAY stor.displayName).length
        + (if stor.expire ≠ 0 then 9 else 0)
        + (string_field P.UNIAUTH_PROTO_FIELD_REDIRECT stor.redirect).length
        + (string_field P.UNIAUTH_PROTO_FIELD_TAG stor.tag).length + 1 := by
  unfold record_bytes
  by_cases h1 : stor.id = 0 <;> by_cases h2 : stor.expire = 0 <;>
    simp [h1, h2, le_bytes_length] <;> omega

theorem response_bytes_eq_record (P : Proto) (stor : uniauth_storage)
    (hid : 0 ≤ stor.id) (hexp : 0 < stor.expire) :
    response_bytes P stor.key stor = P.UNIAUTH_PROTO_RESPONSE_RECORD :: record_bytes P stor := by
  unfold response_bytes record_bytes
  have e1 : (stor.id > 0) = (stor.id ≠ 0) := by
    apply propext; constructor <;> intro h <;> omega
  have e2 : (stor.expire ≥ 0) := by omega
  have e3 : stor.expire ≠ 0 := by omega
  simp only [e1, e2, e3, if_true, ne_eq, not_false_eq_true]

/-- C13 (amended). With room for the whole response and for the whole request,
the field bytes that `clientbuf_send_record` writes behind the opcode byte
(called with the record's own key) are the field bytes `buffer_storage_record`
writes for the same record exactly when the id is not negative and the expiry
is positive; for every other record the two encoders write different bytes. -/
theorem send_record_same_fields_iff (P : Proto) (stor : uniauth_storage)
    (buf cbuf : List Nat) (off remain it maxsz : Nat)
    (hs : stor.cstrings)
    (hroom : (response_bytes P stor.key stor).length ≤ remain)
    (hb : off + remain ≤ buf.length)
    (hc : cbuf.length = maxsz)
    (hok : (buffer_storage_record P maxsz ⟨cbuf, it⟩ stor).1 = true) :
    slice (send_record_fields P buf off remain stor.key stor.keySz stor).1 (off + 1)
        ((send_record_fields P buf off remain stor.key stor.keySz stor).2 - 1)
      = slice (buffer_storage_record P maxsz ⟨cbuf, it⟩ stor).2.buffer it
        ((buffer_storage_record P maxsz ⟨cbuf, it⟩ stor).2.iter - it)
    ↔ (0 ≤ stor.id ∧ 0 < stor.expire) := by
  have hL := response_bytes_length P stor.key stor
  have hr1 : 1 ≤ remain := by omega
  have hsrv := send_record_fields_take P buf off remain stor.key stor.keySz stor hs.1 hs hr1 hb
  rw [List.take_of_length_le hroom, Nat.min_eq_right hroom] at hsrv
  obtain ⟨hfit, hcl⟩ := buffer_storage_record_appends P maxsz stor hs ⟨cbuf, it⟩ hc hok
  simp only at hfit hcl
  rw [hsrv, hcl]
  simp only [Nat.add_sub_cancel_left]
  constructor
  · intro h
    have hlen := congrArg List.length h
    rw [slice_length, slice_length, hL, record_bytes_length] at hlen
    by_cases h1 : stor.id > 0 <;> by_cases h2 : stor.id = 0 <;>
      by_cases h3 : stor.expire ≥ 0 <;> by_cases h4 : stor.expire = 0 <;>
      simp [h1, h2, h3, h4] at hlen <;> omega
  · rintro ⟨hid, hexp⟩
    rw [response_bytes_eq_record P stor hid hexp]
    have e1 : writeAt buf off (P.UNIAUTH_PROTO_RESPONSE_RECORD :: record_bytes P stor)
        = writeAt (writeAt buf off [P.UNIAUTH_PROTO_RESPONSE_RECORD]) (off + 1)
            (record_bytes P stor) := by
      rw [show off + 1 = off + [P.UNIAUTH_PROTO_RESPONSE_RECORD].length from rfl,
        writeAt_writeAt _ _ _ _ (by omega)]
      rfl
    rw [e1]
    simp only [List.length_cons, Nat.add_sub_cancel]
    rw [slice_writeAt _ _ _ (by rw [length_writeAt _ _ _ (by simp; omega)]; omega)]
    rw [slice_writeAt _ _ _ (by omega)]

/-- Witness for the amended C13: key "a", id 7, expire 1700000000. -/
theorem send_record_same_fields_iff_witness :
    slice (send_record_fields stdProto (List.replicate 64 0) 0 64 (some [97]) 1 record_a7).1 1
        ((send_record_fields stdProto (List.replicate 64 0) 0 64 (some [97]) 1 record_a7).2 - 1)
      = slice (buffer_storage_record stdProto 64 ⟨List.replicate 64 0, 1⟩ record_a7).2.buffer 1
        ((buffer_storage_record stdProto 64 ⟨List.replicate 64 0, 1⟩ record_a7).2.iter - 1) :=
  (send_record_same_fields_iff stdProto record_a7
    (List.replicate 64 0) (List.replicate 64 0) 0 64 1 64
    (by decide) (by decide) (by decide) (by decide) (by decide)).mpr (by decide)

/-- C13, counterexample.  For the record with key "a" and every other member
zero (so `expire = 0`), with 64 bytes of room on both sides, the daemon writes
the key, an expiry field of eight zero bytes and the end-marker behind the
opcode, while the client writes the key and the end-marker only. -/
theorem send_record_differs_from_client :
    slice (send_record_fields stdProto (List.replicate 64 0) 0 64 (some [97]) 1 record_a).1 1
        ((send_record_fields stdProto (List.replicate 64 0) 0 64 (some [97]) 1 record_a).2 - 1)
      = [1, 97, 0, 5, 0, 0, 0, 0, 0, 0, 0, 0, 10] ∧
    slice (buffer_storage_record stdProto 64 ⟨List.replicate 64 0, 1⟩ record_a).2.buffer 1
        ((buffer_storage_record stdProto 64 ⟨List.replicate 64 0, 1⟩ record_a).2.iter - 1)
      = [1, 97, 0, 10] ∧
    (buffer_storage_record stdProto 64 ⟨List.replicate 64 0, 1⟩ record_a).1 = true := by
  decide

/-! ## Response building without a writable span -/

theorem get_output_buffer_none (P : Proto) (client : clientbuf)
    (h : client.eof = true ∨ (client.iomode ≠ 0 ∧ P.UNIAUTH_MAX_MESSAGE ≤ client.bufsz)) :
    get_output_buffer P client
      = (none, if client.iomode = 0 then clientbuf_output_mode client else client) := by
  unfold get_output_buffer
  by_cases hm : client.iomode = 0
  · simp only [hm, if_true]
    rcases h with h | h
    · simp [clientbuf_output_mode, h]
    · exact absurd hm h.1
  · simp only [hm, if_false]
    rcases h with h | h
    · simp [h]
    · have : P.UNIAUTH_MAX_MESSAGE - client.bufsz = 0 := by omega
      simp [this]

/-- C16 (amended). When the end-of-stream flag is set, or the connection is in
the output phase with no capacity left, `clientbuf_send_error`,
`clientbuf_send_message` and `clientbuf_send_record` return 1 and leave the
socket untouched; a connection in the output phase is left exactly as it was,
and a connection in the input phase is left as `clientbuf_output_mode` makes
it (phase 1, cursor 0, fill length 0, status notset, every other member
unchanged). -/
theorem send_without_span (P : Proto) (client : clientbuf) (s : Sock)
    (text : List Nat) (key : Option (List Nat)) (keySz : Nat) (stor : uniauth_storage)
    (h : client.eof = true ∨ (client.iomode ≠ 0 ∧ P.UNIAUTH_MAX_MESSAGE ≤ client.bufsz)) :
    clientbuf_send_error P client s text
      = (1, if client.iomode = 0 then clientbuf_output_mode client else client, s) ∧
    clientbuf_send_message P client s text
      = (1, if client.iomode = 0 then clientbuf_output_mode client else client, s) ∧
    clientbuf_send_record P client s key keySz stor
      = (1, if client.iomode = 0 then clientbuf_output_mode client else client, s) := by
  have hg := get_output_buffer_none P client h
  refine ⟨?_, ?_, ?_⟩
  · unfold clientbuf_send_error; rw [hg]
  · unfold clientbuf_send_message; rw [hg]
  · unfold clientbuf_send_record; rw [hg]

/-- Witness for the amended C16: a connection in the output phase whose 64
bytes are all taken is left exactly as it was. -/
theorem send_without_span_witness :
    clientbuf_send_error stdProto
        { clientbuf_init stdProto 3 0 with iomode := 1, bufsz := 64 } ⟨[], [], []⟩ [110, 111]
      = (1, { clientbuf_init stdProto 3 0 with iomode := 1, bufsz := 64 }, ⟨[], [], []⟩) :=
  (send_without_span stdProto { clientbuf_init stdProto 3 0 with iomode := 1, bufsz := 64 }
    ⟨[], [], []⟩ [110, 111] none 0 uniauth_storage.zero (Or.inr (by decide))).1

/-- C16, counterexample.  The example connection is in the input phase with a
complete request of 5 bytes and the end-of-stream flag set, so no writable span
is available; `clientbuf_send_error`, `clientbuf_send_message` and
`clientbuf_send_record` return 1 and leave it in the output phase with cursor
0, fill length 0 and status notset. -/
theorem send_failure_resets_input_state :
    (half_closed_client.iomode = 0 ∧ half_closed_client.bufit = 5 ∧
      half_closed_client.bufsz = 5 ∧ half_closed_client.status = Status.complete ∧
      half_closed_client.eof = true) ∧
    ((clientbuf_send_error stdProto half_closed_client ⟨[], [], []⟩ [110, 111]).1 = 1 ∧
      (clientbuf_send_error stdProto half_closed_client ⟨[], [], []⟩ [110, 111]).2.1
        = clientbuf_output_mode half_closed_client) ∧
    ((clientbuf_send_message stdProto half_closed_client ⟨[], [], []⟩ [111, 107]).1 = 1 ∧
      (clientbuf_send_message stdProto half_closed_client ⟨[], [], []⟩ [111, 107]).2.1
        = clientbuf_output_mode half_closed_client) ∧
    ((clientbuf_send_record stdProto half_closed_client ⟨[], [], []⟩ (some [97]) 1
        record_a7).1 = 1 ∧
      (clientbuf_send_record stdProto half_closed_client ⟨[], [], []⟩ (some [97]) 1
        record_a7).2.1 = clientbuf_output_mode half_closed_client) ∧
    ((clientbuf_output_mode half_closed_client).iomode = 1 ∧
      (clientbuf_output_mode half_closed_client).bufit = 0 ∧
      (clientbuf_output_mode half_closed_client).bufsz = 0 ∧
      (clientbuf_output_mode half_closed_client).status = Status.notset) := by
  decide

/-! ## Terminal parse states -/

theorem parse_buffer_at_end (P : Proto) (client : clientbuf)
    (hst : client.status ≠ Status.notset) (hit : client.bufsz ≤ client.bufit) :
    (parse_buffer P client).2.status = client.status := by
  unfold parse_buffer
  by_cases h0 : client.bufsz ≤ 0
  · simp [h0]
  · have hf : client.bufsz - client.bufit = 0 := by omega
    simp only [h0, hst, if_false, hf]
    rfl

theorem flush_buffer_empty (client : clientbuf) (s : Sock) (h : client.bufsz = 0) :
    (flush_buffer client s).2.1.status = Status.complete := by
  unfold flush_buffer
  rw [h]
  cases hw : s.writes <;> simp [flush_loop]

/-- C15 (amended). A connection whose status is complete or error keeps that
status across an invocation of `clientbuf_operation` that has nothing to
process: when the end-of-stream flag is set; or in the input phase when the
saved cursor is at the fill length and the coming read delivers no byte and
does not fail; or in the output phase when the status is complete and nothing
is buffered. -/
theorem terminal_status_without_work (P : Proto) (client : clientbuf) (s : Sock)
    (hst : client.status = Status.complete ∨ client.status = Status.error)
    (h : client.eof = true ∨
      (client.iomode = 0 ∧ client.bufsz ≤ client.bufit ∧
        idle_read s (P.UNIAUTH_MAX_MESSAGE - client.bufsz)) ∨
      (client.iomode ≠ 0 ∧ client.status = Status.complete ∧ client.bufsz = 0)) :
    (clientbuf_operation P client s).2.1.status = client.status := by
  have hns : client.status ≠ Status.notset := by
    rcases hst with h1 | h1 <;> rw [h1] <;> decide
  unfold clientbuf_operation
  by_cases he : client.eof = true
  · simp [he]
  · rcases h with h | ⟨hm, hit, hidle⟩ | ⟨hm, hc, hz⟩
    · exact absurd h he
    · simp only [he, hm, if_true, Bool.false_eq_true, if_false]
      unfold idle_read at hidle
      cases hr : s.reads with
      | nil =>
        simp only [read_loop]
        exact parse_buffer_at_end P client hns hit
      | cons r rs =>
        rw [hr] at hidle
        cases r with
        | wouldblock =>
          simp only [read_loop]
          exact parse_buffer_at_end P client hns hit
        | fail => simp at hidle
        | data bytes =>
          simp only at hidle
          simp [read_loop, hidle]
    · simp only [he, hm, if_false, Bool.false_eq_true]
      rw [flush_buffer_empty client s hz, hc]

/-- Witness for the amended C15: the example connection with a complete
request keeps status complete when the next read would block. -/
theorem terminal_status_without_work_witness :
    (clientbuf_operation stdProto served_client ⟨[ReadOutcome.wouldblock], [], []⟩).2.1.status
      = Status.complete :=
  terminal_status_without_work stdProto served_client ⟨[ReadOutcome.wouldblock], [], []⟩
    (Or.inl (by decide)) (Or.inr (Or.inl (by decide)))

/-- C15, counterexample.  The example connection with a complete request has
status complete; one more `clientbuf_operation` on which the socket delivers
the byte 99 leaves status error, and so does one on which the read fails.  The
example connection refused for its opcode has status error; one more
`clientbuf_operation` on which the read would block leaves status complete.
In the output phase a connection with status error and two buffered bytes has
status complete after a `clientbuf_operation` on which the socket accepts
them.  No mode transition is involved. -/
theorem terminal_status_changes :
    (served_client.status = Status.complete ∧ served_client.iomode = 0 ∧
      (clientbuf_operation stdProto served_client
        ⟨[ReadOutcome.data [99]], [], []⟩).2.1.status = Status.error ∧
      (clientbuf_operation stdProto served_client
        ⟨[ReadOutcome.fail], [], []⟩).2.1.status = Status.error) ∧
    (refused_client.status = Status.error ∧ refused_client.iomode = 0 ∧
      (clientbuf_operation stdProto refused_client
        ⟨[ReadOutcome.wouldblock], [], []⟩).2.1.status = Status.complete) ∧
    (clientbuf_operation stdProto
        { clientbuf_init stdProto 3 0 with iomode := 1, bufsz := 2, status := Status.error }
        ⟨[], [WriteOutcome.accept 2], []⟩).2.1.status = Status.complete := by
  decide

/-! ## Client exchange: recognising a response that arrives in pieces -/

theorem getD_append_left (x y : List Nat) (j : Nat) (h : j < x.length) :
    (x ++ y).getD j 0 = x.getD j 0 := by
  simp only [List.getD_eq_getElem?_getD, List.getElem?_append_left h]

theorem getD_append_right (x y : List Nat) (j : Nat) :
    (x ++ y).getD (x.length + j) 0 = y.getD j 0 := by
  simp only [List.getD_eq_getElem?_getD]
  rw [List.getElem?_append_right (by omega)]
  simp

theorem getD_ne_zero_of_not_mem (s : List Nat) (h : 0 ∉ s) (j : Nat) (hj : j < s.length) :
    s.getD j 0 ≠ 0 := by
  simp only [List.getD_eq_getElem?_getD, List.getElem?_eq_getElem hj, Option.getD_some]
  intro e
  exact h (e ▸ List.getElem_mem hj)

theorem recv_walk_fields (P : Proto) (b : List Nat) (k : Nat) :
    ∀ (fs : List WireField) (pos : Nat), (∀ f ∈ fs, f.record_wf P) →
      RecvWalk P b k pos →
      (∀ j, pos + j < k →
        b.getD (pos + j) 0 = (wire_bytes P fs ++ [P.UNIAUTH_PROTO_FIELD_END]).getD j 0) →
      k ≤ pos + (wire_bytes P fs).length + 1 →
      (k = pos + (wire_bytes P fs).length + 1 → recv_complete P b k) ∧
      (k < pos + (wire_bytes P fs).length + 1 → recv_runs_out P b k) := by
  intro fs
  induction fs with
  | nil =>
    intro pos _ hw hb hk
    simp only [wire_bytes, List.length_nil, Nat.add_zero] at hk ⊢
    constructor
    · intro e
      refine ⟨pos, hw, by omega, ?_⟩
      have := hb 0 (by omega)
      simpa using this
    · intro e
      exact ⟨pos, hw, Or.inl (by omega)⟩
  | cons f fs ih =>
    intro pos hwf hw hb hk
    have hwf1 := hwf f (List.mem_cons_self _ _)
    have hwf2 : ∀ g ∈ fs, g.record_wf P := fun g hg => hwf g (List.mem_cons_of_mem _ hg)
    simp only [wire_bytes, List.length_append] at hk ⊢
    by_cases hpk : k ≤ pos
    · exact ⟨fun e => by omega, fun _ => ⟨pos, hw, Or.inl hpk⟩⟩
    · have hlt : pos < k := by omega
      -- what follows the field
      have hrest : ∀ j, pos + (f.bytes P).length + j < k →
          b.getD (pos + (f.bytes P).length + j) 0
            = (wire_bytes P fs ++ [P.UNIAUTH_PROTO_FIELD_END]).getD j 0 := by
        intro j hj
        have := hb ((f.bytes P).length + j) (by omega)
        rw [← Nat.add_assoc] at this
        rw [this]
        simp only [wire_bytes, List.append_assoc]
        exact getD_append_right _ _ j
      have hin : ∀ j, j < (f.bytes P).length → pos + j < k →
          b.getD (pos + j) 0 = (f.bytes P).getD j 0 := by
        intro j hj hjk
        rw [hb j hjk]
        simp only [wire_bytes, List.append_assoc]
        exact getD_append_left _ _ j hj
      cases f with
      | string t s =>
        obtain ⟨htag, hs⟩ := hwf1
        simp only [WireField.bytes, List.length_cons, List.length_append,
          List.length_singleton, List.length_nil, List.cons_append, Nat.zero_add]
          at hk hrest hin ⊢
        have h0 : b.getD pos 0 = t := by
          have := hin 0 (by omega) (by omega)
          simpa using this
        have hdata : ∀ m, pos + 1 ≤ m → m < pos + 1 + s.length → m < k →
            b.getD m 0 ≠ 0 := by
          intro m h1 h2 h3
          have := hin (m - pos) (by omega) (by omega)
          rw [show pos + (m - pos) = m by omega] at this
          rw [this, show m - pos = (m - pos - 1) + 1 by omega, List.getD_cons_succ,
            getD_append_left _ _ _ (by omega)]
          exact getD_ne_zero_of_not_mem s hs _ (by omega)
        by_cases hz : pos + 1 + s.length < k
        · have hzero : b.getD (pos + 1 + s.length) 0 = 0 := by
            have := hin (1 + s.length) (by omega) (by omega)
            rw [show pos + (1 + s.length) = pos + 1 + s.length by omega] at this
            rw [this, show 1 + s.length = s.length + 1 by omega, List.getD_cons_succ]
            have := getD_append_right s [0] 0
            simp
          have hfz : first_zero b k (pos + 1) (pos + 1 + s.length) :=
            ⟨by omega, hz, hzero, fun m h1 h2 => hdata m h1 h2 (by omega)⟩
          have hw2 := RecvWalk.string pos (pos + 1 + s.length) hw hlt (h0 ▸ htag) hfz
          have := ih (pos + 1 + s.length + 1) hwf2 hw2
            (by
              intro j hj
              have := hrest j (by omega)
              rw [show pos + (s.length + 1 + 1) + j = pos + 1 + s.length + 1 + j by omega] at this
              exact this)
            (by omega)
          constructor
          · intro e; exact this.1 (by omega)
          · intro e; exact this.2 (by omega)
        · constructor
          · intro e; omega
          · intro _
            exact ⟨pos, hw, Or.inr ⟨hlt, h0 ▸ htag, fun m h1 h2 => hdata m h1 (by omega) h2⟩⟩
      | integer v =>
        have hv : v.length = 4 := hwf1
        simp only [WireField.bytes, List.length_cons, hv] at hk hrest hin ⊢
        have h0 : b.getD pos 0 = P.UNIAUTH_PROTO_FIELD_ID := by
          have := hin 0 (by omega) (by omega)
          simpa using this
        have hw2 := RecvWalk.integer pos hw hlt h0
        have := ih (pos + 1 + 4) hwf2 hw2
          (by
            intro j hj
            have := hrest j (by omega)
            rw [show pos + (4 + 1) + j = pos + 1 + 4 + j by omega] at this
            exact this)
          (by omega)
        constructor
        · intro e; exact this.1 (by omega)
        · intro e; exact this.2 (by omega)
      | time v =>
        have hv : v.length = 8 := hwf1
        simp only [WireField.bytes, List.length_cons, hv] at hk hrest hin ⊢
        have h0 : b.getD pos 0 = P.UNIAUTH_PROTO_FIELD_EXPIRE := by
          have := hin 0 (by omega) (by omega)
          simpa using this
        have hw2 := RecvWalk.time pos hw hlt h0
        have := ih (pos + 1 + 8) hwf2 hw2
          (by
            intro j hj
            have := hrest j (by omega)
            rw [show pos + (8 + 1) + j = pos + 1 + 8 + j by omega] at this
            exact this)
          (by omega)
        constructor
        · intro e; exact this.1 (by omega)
        · intro e; exact this.2 (by omega)

theorem Response.bytes_length (P : Proto) (resp : Response) :
    2 ≤ (resp.bytes P).length := by
  cases resp <;> simp [Response.bytes]

theorem text_classify (P : Proto) (hP : P.wf) (op : Nat) (text : List Nat) (ht : 0 ∉ text)
    (hop : op = P.UNIAUTH_PROTO_RESPONSE_MESSAGE ∨ op = P.UNIAUTH_PROTO_RESPONSE_ERROR)
    (b : List Nat) (k : Nat) (hk1 : 1 ≤ k) (hk2 : k ≤ (op :: (text ++ [0])).length)
    (hb : ∀ j, j < k → b.getD j 0 = (op :: (text ++ [0])).getD j 0) :
    recv_classify P b k = if k = (op :: (text ++ [0])).length then 0 else 1 := by
  have h0 : b.getD 0 0 = op := by
    have := hb 0 (by omega)
    simpa using this
  have hspec := (recv_classify_spec P hP b k hk1).1 (by rw [h0]; exact hop)
  simp only [List.length_cons, List.length_append, List.length_singleton, List.length_nil,
    Nat.zero_add] at hk2 ⊢
  by_cases hk : k = text.length + 1 + 1
  · rw [if_pos hk]
    apply hspec.1.mpr
    refine ⟨text.length + 1, by omega, by omega, ?_⟩
    rw [hb _ (by omega), List.getD_cons_succ]
    have := getD_append_right text [0] 0
    simp
  · rw [if_neg hk]
    apply hspec.2.mpr
    rintro ⟨j, hj1, hj2, hj3⟩
    rw [hb j hj2, show j = (j - 1) + 1 by omega, List.getD_cons_succ,
      getD_append_left _ _ _ (by omega)] at hj3
    exact getD_ne_zero_of_not_mem text ht _ (by omega) hj3

theorem recv_classify_response (P : Proto) (hP : P.wf) (resp : Response) (hwf : resp.wf P)
    (b : List Nat) (k : Nat) (hk1 : 1 ≤ k) (hk2 : k ≤ (resp.bytes P).length)
    (hb : ∀ j, j < k → b.getD j 0 = (resp.bytes P).getD j 0) :
    recv_classify P b k = if k = (resp.bytes P).length then 0 else 1 := by
  cases resp with
  | message text => exact text_classify P hP _ text hwf (Or.inl rfl) b k hk1 hk2 hb
  | error text => exact text_classify P hP _ text hwf (Or.inr rfl) b k hk1 hk2 hb
  | record fs =>
    simp only [Response.bytes] at hk2 hb ⊢
    have h0 : b.getD 0 0 = P.UNIAUTH_PROTO_RESPONSE_RECORD := by
      have := hb 0 (by omega)
      simpa using this
    have hspec := (recv_classify_spec P hP b k hk1).2.1 h0
    simp only [List.length_cons, List.length_append, List.length_singleton, List.length_nil,
      Nat.zero_add] at hk2 ⊢
    have hwalk := recv_walk_fields P b k fs 1 hwf RecvWalk.start
      (by
        intro j hj
        have := hb (1 + j) hj
        rw [this, Nat.add_comm 1 j, List.getD_cons_succ])
      (by omega)
    by_cases hk : k = (wire_bytes P fs).length + 1 + 1
    · rw [if_pos hk]
      exact hspec.1.mpr (hwalk.1 (by omega))
    · rw [if_neg hk]
      exact hspec.2.1.mpr (hwalk.2 (by omega))

theorem recv_loop_cons (P : Proto) (rd : ReadOutcome) (rs : List ReadOutcome)
    (buffer : List Nat) (sz : Nat) :
    recv_loop P (rd :: rs) buffer sz
      = if (uniauth_connect_recv P buffer P.UNIAUTH_MAX_MESSAGE sz rd).1 = 2 then
          (Outcome.fatal, rs)
        else if (uniauth_connect_recv P buffer P.UNIAUTH_MAX_MESSAGE sz rd).1 ≠ 0 then
          recv_loop P rs (uniauth_connect_recv P buffer P.UNIAUTH_MAX_MESSAGE sz rd).2.1
            (uniauth_connect_recv P buffer P.UNIAUTH_MAX_MESSAGE sz rd).2.2
        else
          (Outcome.ret ((uniauth_connect_recv P buffer P.UNIAUTH_MAX_MESSAGE sz rd).2.1,
            (uniauth_connect_recv P buffer P.UNIAUTH_MAX_MESSAGE sz rd).2.2), rs) := rfl

theorem uniauth_connect_recv_data (P : Proto) (buffer : List Nat) (maxsz iter : Nat)
    (bytes : List Nat) (h : bytes.length ≤ maxsz - iter) :
    uniauth_connect_recv P buffer maxsz iter (ReadOutcome.data bytes)
      = (recv_classify P (writeAt buffer iter bytes) (iter + bytes.length),
         writeAt buffer iter bytes, iter + bytes.length) := by
  simp only [uniauth_connect_recv, List.take_of_length_le h]

theorem recv_loop_chunks (P : Proto) (hP : P.wf) (resp : Response) (hwf : resp.wf P)
    (hfit : (resp.bytes P).length ≤ P.UNIAUTH_MAX_MESSAGE) :
    ∀ (chunks : List (List Nat)) (pre : List Nat) (buffer : List Nat)
      (rest : List ReadOutcome),
      chunks ≠ [] → (∀ c ∈ chunks, c ≠ []) → pre ++ chunks.flatten = resp.bytes P →
      buffer.length = P.UNIAUTH_MAX_MESSAGE →
      (∀ j, j < pre.length → buffer.getD j 0 = pre.getD j 0) →
      recv_loop P (chunks.map ReadOutcome.data ++ rest) buffer pre.length
        = (Outcome.ret (writeAt buffer pre.length chunks.flatten, (resp.bytes P).length),
           rest) := by
  intro chunks
  induction chunks with
  | nil => intro _ _ _ h; exact absurd rfl h
  | cons c cs ih =>
    intro pre buffer rest _ hne hflat hlen hpre
    have hc : c ≠ [] := hne c (List.mem_cons_self _ _)
    have hcs : ∀ d ∈ cs, d ≠ [] := fun d hd => hne d (List.mem_cons_of_mem _ hd)
    have hcpos : 1 ≤ c.length := by
      cases c with
      | nil => exact absurd rfl hc
      | cons _ _ => simp
    rw [List.flatten_cons, ← List.append_assoc] at hflat
    have hl := congrArg List.length hflat
    simp only [List.length_append] at hl
    -- the buffer after the read holds the bytes received so far
    have hagree : ∀ j, j < pre.length + c.length →
        (writeAt buffer pre.length c).getD j 0 = (resp.bytes P).getD j 0 := by
      intro j hj
      rw [← hflat, getD_append_left _ _ _ (by simpa using hj)]
      by_cases h1 : j < pre.length
      · rw [getD_writeAt_lt _ _ _ _ (by omega) h1, hpre j h1, getD_append_left _ _ _ h1]
      · have := getD_writeAt_mid buffer pre.length c (j - pre.length) (by omega) (by omega)
        rw [show pre.length + (j - pre.length) = j by omega] at this
        rw [this]
        have e := getD_append_right pre c (j - pre.length)
        rw [show pre.length + (j - pre.length) = j by omega] at e
        exact e.symm
    have hcls := recv_classify_response P hP resp hwf (writeAt buffer pre.length c)
      (pre.length + c.length) (by omega) (by omega) hagree
    rw [List.map_cons, List.cons_append, recv_loop_cons,
      uniauth_connect_recv_data P buffer _ _ c (by omega)]
    simp only [hcls]
    cases cs with
    | nil =>
      simp only [List.flatten_nil, List.length_nil, Nat.add_zero] at hl
      simp [hl]
    | cons d ds =>
      have hd : d ≠ [] := hcs d (List.mem_cons_self _ _)
      have hdpos : 1 ≤ d.length := by
        cases d with
        | nil => exact absurd rfl hd
        | cons _ _ => simp
      have hlt : pre.length + c.length ≠ (resp.bytes P).length := by
        simp only [List.flatten_cons, List.length_append] at hl
        omega
      simp only [hlt, if_false]
      have := ih (pre ++ c) (writeAt buffer pre.length c) rest (by simp) hcs hflat
        (by rw [length_writeAt _ _ _ (by omega), hlen])
        (by
          intro j hj
          rw [List.length_append] at hj
          rw [hagree j hj, ← hflat, getD_append_left _ _ _ (by simpa using hj)])
      rw [List.length_append] at this
      simp only [Nat.one_ne_zero, ne_eq, not_false_eq_true, if_true, if_false,
        show (1 : Nat) = 2 ↔ False from by decide]
      rw [this, writeAt_writeAt _ _ _ _ (by omega)]
      simp

/-! ## Client decoder: runs of whole fields -/

theorem WireField.wf_of_record_wf (P : Proto) (f : WireField) (h : f.record_wf P) :
    f.wf P := by
  cases f with
  | string t s =>
    obtain ⟨ht, hs⟩ := h
    refine ⟨?_, hs⟩
    rcases ht with e | e | e | e | e
    · exact Or.inl e
    · exact Or.inr (Or.inl e)
    · exact Or.inr (Or.inr (Or.inl e))
    · exact Or.inr (Or.inr (Or.inr (Or.inl e)))
    · exact Or.inr (Or.inr (Or.inr (Or.inr (Or.inl e))))
  | integer b => exact h
  | time b => exact h

theorem le_decode_congr (w : Nat) (b1 b2 : List Nat) (o1 o2 n : Nat)
    (h : ∀ i, i < n → b1.getD (o1 + i) 0 = b2.getD (o2 + i) 0) :
    le_decode w b1 o1 n = le_decode w b2 o2 n := by
  unfold le_decode
  apply List.foldl_ext
  intro a i hi
  rw [h i (List.mem_range.mp hi)]

theorem read_field_string_complete (buffer : List Nat) (off sz : Nat) (s : List Nat)
    (d : Option (List Nat)) (p : Nat) (hz : 0 ∉ s)
    (h : slice buffer off (s ++ [0]).length = s ++ [0]) (hsz : s.length + 1 ≤ sz) :
    read_field_string buffer off sz d p = (s.length + 1, some s, s.length) := by
  obtain ⟨h1, h2⟩ := slice_split _ _ _ _ h
  have hfz : first_zero buffer (off + sz) off (off + s.length) := by
    refine ⟨by omega, by omega, ?_, ?_⟩
    · have := getD_of_slice_eq _ _ _ h2 0 (by simp)
      simpa using this
    · intro k hk1 hk2 hk0
      have := getD_of_slice_eq _ _ _ h1 (k - off) (by omega)
      rw [show off + (k - off) = k by omega, hk0] at this
      apply hz
      rw [this, List.getD_eq_getElem?_getD, List.getElem?_eq_getElem (by omega)]
      exact List.getElem_mem _
  have hj := seek_zero_eq_of_first_zero buffer (off + sz) sz off _ (by omega) hfz
  simp only [read_field_string, hj]
  rw [if_neg (by omega)]
  simp only [Nat.add_sub_cancel_left, h1]

theorem read_field_integer_complete (buffer : List Nat) (off sz : Nat) (b : List Nat)
    (d : Int) (hb : b.length = 4) (h : slice buffer off b.length = b) (hsz : 4 ≤ sz) :
    read_field_integer buffer off sz d = (4, to_signed 32 (le_decode 32 b 0 4)) := by
  simp only [read_field_integer, UNIAUTH_INT_SZ]
  rw [if_neg (by omega), le_decode_slice, ← hb, h]

theorem read_field_time_complete (buffer : List Nat) (off sz : Nat) (b : List Nat)
    (d : Int) (hb : b.length = 8) (h : slice buffer off b.length = b) (hsz : 8 ≤ sz) :
    read_field_time buffer off sz d = (8, to_signed 64 (le_decode 64 b 0 4)) := by
  simp only [read_field_time, UNIAUTH_INT_SZ, UNIAUTH_TIME_SZ]
  rw [if_neg (by omega)]
  rw [le_decode_congr 64 buffer b off 0 4 (by
    intro i hi
    rw [Nat.zero_add]
    exact getD_of_slice_eq buffer off b h i (by omega))]

theorem read_storage_field_string (P : Proto) (hP : P.wf) (buffer : List Nat)
    (off z t : Nat) (s : List Nat) (stor : uniauth_storage) (ht : P.stringTag t)
    (hr : ∀ d p, read_field_string buffer off z d p = (s.length + 1, some s, s.length)) :
    read_storage_field P buffer off z t stor
      = (s.length + 1, client_store_field P (WireField.string t s) stor) := by
  unfold read_storage_field client_store_field
  rcases ht with rfl | rfl | rfl | rfl | rfl <;>
    simp only [hr, ↓reduceIte,
      ne_id_key P hP, ne_user_key P hP, ne_display_key P hP, ne_expire_key P hP, ne_redirect_key
      P hP, ne_tag_key P hP, ne_user_id P hP,
      ne_display_id P hP, ne_expire_id P hP, ne_redirect_id P hP, ne_tag_id P hP,
      ne_display_user P hP, ne_expire_user P hP, ne_redirect_user P
      hP, ne_tag_user P hP, ne_expire_display P
      hP, ne_redirect_display P hP, ne_tag_display P hP,
      ne_redirect_expire P hP, ne_tag_expire P hP, ne_tag_redirect P hP]

theorem read_storage_field_integer (P : Proto) (hP : P.wf) (buffer : List Nat)
    (off z : Nat) (b : List Nat) (stor : uniauth_storage)
    (hr : ∀ d, read_field_integer buffer off z d = (4, to_signed 32 (le_decode 32 b 0 4))) :
    read_storage_field P buffer off z P.UNIAUTH_PROTO_FIELD_ID stor
      = (4, client_store_field P (WireField.integer b) stor) := by
  unfold read_storage_field client_store_field
  simp only [hr, ↓reduceIte, ne_id_key P hP]

theorem read_storage_field_time (P : Proto) (hP : P.wf) (buffer : List Nat)
    (off z : Nat) (b : List Nat) (stor : uniauth_storage)
    (hr : ∀ d, read_field_time buffer off z d = (8, to_signed 64 (le_decode 64 b 0 4))) :
    read_storage_field P buffer off z P.UNIAUTH_PROTO_FIELD_EXPIRE stor
      = (8, client_store_field P (WireField.time b) stor) := by
  unfold read_storage_field client_store_field
  simp only [hr, ↓reduceIte, ne_expire_key P hP, ne_expire_id P hP, ne_expire_user P hP,
    ne_expire_display P hP]

theorem read_storage_field_complete (P : Proto) (hP : P.wf) (buffer : List Nat)
    (pos z : Nat) (f : WireField) (hf : f.record_wf P) (stor : uniauth_storage)
    (h : slice buffer pos (f.bytes P).length = f.bytes P)
    (hz : (f.bytes P).length ≤ z + 1) :
    read_storage_field P buffer (pos + 1) z (buffer.getD pos 0) stor
      = ((f.bytes P).length - 1, client_store_field P f stor) := by
  have h0 : buffer.getD pos 0 = (f.bytes P).getD 0 0 := by
    have := getD_of_slice_eq buffer pos _ h 0 (WireField.bytes_pos P f)
    simpa using this
  cases f with
  | string t s =>
    obtain ⟨ht, hs⟩ := hf
    simp only [WireField.bytes, List.cons_append, List.length_cons, List.length_append,
      List.length_singleton, List.length_nil, Nat.zero_add, List.getD_cons_zero,
      Nat.add_sub_cancel] at h h0 hz ⊢
    have hp : slice buffer (pos + 1) (s ++ [0]).length = s ++ [0] := by
      have := slice_split buffer pos [t] (s ++ [0]) (by simpa using h)
      simpa using this.2
    rw [h0]
    exact read_storage_field_string P hP buffer (pos + 1) z t s stor ht
      (fun d p => read_field_string_complete buffer (pos + 1) z s d p hs hp (by omega))
  | integer b =>
    have hb : b.length = 4 := hf
    simp only [WireField.bytes, List.length_cons, hb, List.getD_cons_zero,
      Nat.add_sub_cancel] at h h0 hz ⊢
    have hp : slice buffer (pos + 1) b.length = b := by
      have := slice_split buffer pos [P.UNIAUTH_PROTO_FIELD_ID] b (by simpa [hb] using h)
      simpa using this.2
    rw [h0]
    exact read_storage_field_integer P hP buffer (pos + 1) z b stor
      (fun d => read_field_integer_complete buffer (pos + 1) z b d hb hp (by omega))
  | time b =>
    have hb : b.length = 8 := hf
    simp only [WireField.bytes, List.length_cons, hb, List.getD_cons_zero,
      Nat.add_sub_cancel] at h h0 hz ⊢
    have hp : slice buffer (pos + 1) b.length = b := by
      have := slice_split buffer pos [P.UNIAUTH_PROTO_FIELD_EXPIRE] b (by simpa [hb] using h)
      simpa using this.2
    rw [h0]
    exact read_storage_field_time P hP buffer (pos + 1) z b stor
      (fun d => read_field_time_complete buffer (pos + 1) z b d hb hp (by omega))

theorem read_storage_loop_fields (P : Proto) (hP : P.wf) (buffer : List Nat) (sz : Nat) :
    ∀ (fs : List WireField) (fuel pos : Nat) (stor : uniauth_storage),
      (∀ f ∈ fs, f.record_wf P) →
      slice buffer pos (wire_bytes P fs ++ [P.UNIAUTH_PROTO_FIELD_END]).length
        = wire_bytes P fs ++ [P.UNIAUTH_PROTO_FIELD_END] →
      pos + (wire_bytes P fs).length + 1 ≤ sz → fs.length + 1 ≤ fuel →
      read_storage_loop P buffer sz fuel pos stor
        = ⟨client_store_fields P fs stor, pos + (wire_bytes P fs).length, false⟩ := by
  intro fs
  induction fs with
  | nil =>
    intro fuel pos stor _ hb hsz hfuel
    obtain ⟨fuel, rfl⟩ : ∃ n, fuel = n + 1 := ⟨fuel - 1, by omega⟩
    simp only [wire_bytes, List.nil_append, List.length_singleton, List.length_nil,
      Nat.add_zero] at hb hsz ⊢
    have h0 : buffer.getD pos 0 = P.UNIAUTH_PROTO_FIELD_END := by
      have := getD_of_slice_eq buffer pos [P.UNIAUTH_PROTO_FIELD_END] hb 0 (by simp)
      simpa using this
    simp only [read_storage_loop, h0, if_true]
    rw [if_pos (by omega)]
    rfl
  | cons f fs ih =>
    intro fuel pos stor hwf hb hsz hfuel
    obtain ⟨fuel, rfl⟩ : ∃ n, fuel = n + 1 := ⟨fuel - 1, by omega⟩
    have hwf1 := hwf f (List.mem_cons_self _ _)
    have hwf2 : ∀ g ∈ fs, g.record_wf P := fun g hg => hwf g (List.mem_cons_of_mem _ hg)
    have h2 := WireField.bytes_two P f (WireField.wf_of_record_wf P f hwf1)
    simp only [wire_bytes, List.append_assoc, List.length_append, List.length_cons,
      List.length_nil, Nat.zero_add] at hb hsz hfuel ⊢
    have hsplit := slice_split buffer pos (f.bytes P)
      (wire_bytes P fs ++ [P.UNIAUTH_PROTO_FIELD_END]) (by
        simp only [List.length_append, List.length_cons, List.length_nil, Nat.zero_add]
        exact hb)
    have h0 : buffer.getD pos 0 ≠ P.UNIAUTH_PROTO_FIELD_END := by
      have := getD_of_slice_eq buffer pos _ hsplit.1 0 (by omega)
      rw [Nat.add_zero] at this
      rw [this]
      exact WireField.tag_ne_end P hP f (WireField.wf_of_record_wf P f hwf1)
    have hfield := read_storage_field_complete P hP buffer pos (sz - pos - 1) f hwf1 stor
      hsplit.1 (by omega)
    simp only [read_storage_loop, h0, if_false, hfield]
    rw [if_pos (by omega), if_neg (by omega)]
    rw [show pos + 1 + ((f.bytes P).length - 1) = pos + (f.bytes P).length by omega]
    rw [ih fuel (pos + (f.bytes P).length) _ hwf2 hsplit.2 (by omega) (by omega)]
    simp only [client_store_fields, List.foldl_cons, Nat.add_assoc]

/-! ## Client exchange: the request buffer -/

theorem buffer_field_string_keeps (maxsz t : Nat) (f : List Nat) (sz : Nat) :
    Keeps maxsz (fun s => buffer_field_string maxsz s t f sz) := by
  intro s hlen
  simp only [buffer_field_string]
  by_cases h : s.iter + sz + 2 ≤ maxsz
  · simp only [h, if_true]
    rw [length_writeAt _ _ _ (by simp [strncpy_length]; omega), hlen]
  · simp only [h, if_false]; exact hlen

theorem buffer_field_integer_keeps (maxsz t : Nat) (v : Int) :
    Keeps maxsz (fun s => buffer_field_integer maxsz s t v) := by
  intro s hlen
  simp only [buffer_field_integer]
  by_cases h : s.iter + 6 ≤ maxsz
  · simp only [h, if_true]
    rw [length_writeAt _ _ _ (by simp [le_bytes_length, UNIAUTH_INT_SZ]; omega), hlen]
  · simp only [h, if_false]; exact hlen

theorem buffer_field_time_keeps (maxsz t : Nat) (v : Int) :
    Keeps maxsz (fun s => buffer_field_time maxsz s t v) := by
  intro s hlen
  simp only [buffer_field_time]
  by_cases h : s.iter + 10 ≤ maxsz
  · simp only [h, if_true]
    rw [length_writeAt _ _ _ (by simp [le_bytes_length, UNIAUTH_TIME_SZ]; omega), hlen]
  · simp only [h, if_false]; exact hlen

theorem buffer_field_end_keeps (P : Proto) (maxsz : Nat) :
    Keeps maxsz (fun s => buffer_field_end P maxsz s) := by
  intro s hlen
  simp only [buffer_field_end]
  by_cases h : s.iter < maxsz
  · simp only [h, if_true]
    rw [length_writeAt _ _ _ (by simp; omega), hlen]
  · simp only [h, if_false]; exact hlen

theorem enc_step_keeps (maxsz : Nat) (present : Bool)
    (write rest : EncState → Bool × EncState)
    (hw : Keeps maxsz write) (hr : Keeps maxsz rest) :
    Keeps maxsz (enc_step present write rest) := by
  intro s hlen
  unfold enc_step
  cases present with
  | false => exact hr s hlen
  | true =>
    simp only [if_true]
    have h1 := hw s hlen
    rcases hws : write s with ⟨b, s1⟩
    rw [hws] at h1
    cases b with
    | true => exact hr s1 h1
    | false => exact h1

theorem buffer_storage_record_keeps (P : Proto) (maxsz : Nat) (stor : uniauth_storage) :
    Keeps maxsz (fun s => buffer_storage_record P maxsz s stor) := by
  unfold buffer_storage_record
  exact enc_step_keeps maxsz _ _ _ (buffer_field_string_keeps maxsz _ _ _)
    (enc_step_keeps maxsz _ _ _ (buffer_field_integer_keeps maxsz _ _)
    (enc_step_keeps maxsz _ _ _ (buffer_field_string_keeps maxsz _ _ _)
    (enc_step_keeps maxsz _ _ _ (buffer_field_string_keeps maxsz _ _ _)
    (enc_step_keeps maxsz _ _ _ (buffer_field_time_keeps maxsz _ _)
    (enc_step_keeps maxsz _ _ _ (buffer_field_string_keeps maxsz _ _ _)
    (enc_step_keeps maxsz _ _ _ (buffer_field_string_keeps maxsz _ _ _)
    (buffer_field_end_keeps P maxsz)))))))

theorem length_writeAt_opcode (buffer0 : List Nat) (op : Nat) (h : 1 ≤ buffer0.length) :
    (writeAt buffer0 0 [op]).length = buffer0.length :=
  length_writeAt _ _ _ (by simpa using h)

theorem lookup_request_keeps (P : Proto) (buffer0 key : List Nat) (keylen : Nat)
    (h : buffer0.length = P.UNIAUTH_MAX_MESSAGE) (h1 : 1 ≤ P.UNIAUTH_MAX_MESSAGE) :
    (lookup_request P buffer0 key keylen).2.buffer.length = P.UNIAUTH_MAX_MESSAGE := by
  unfold lookup_request
  have h0 : (writeAt buffer0 0 [P.UNIAUTH_PROTO_LOOKUP]).length = P.UNIAUTH_MAX_MESSAGE := by
    rw [length_writeAt_opcode _ _ (by omega), h]
  have k1 := buffer_field_string_keeps P.UNIAUTH_MAX_MESSAGE P.UNIAUTH_PROTO_FIELD_KEY key
    keylen ⟨writeAt buffer0 0 [P.UNIAUTH_PROTO_LOOKUP], 1⟩ h0
  simp only at k1 ⊢
  split
  · exact buffer_field_end_keeps P _ _ k1
  · exact k1

theorem transfer_request_keeps (P : Proto) (buffer0 src dst : List Nat)
    (h : buffer0.length = P.UNIAUTH_MAX_MESSAGE) (h1 : 1 ≤ P.UNIAUTH_MAX_MESSAGE) :
    (transfer_request P buffer0 src dst).2.buffer.length = P.UNIAUTH_MAX_MESSAGE := by
  unfold transfer_request
  have h0 : (writeAt buffer0 0 [P.UNIAUTH_PROTO_TRANSF]).length = P.UNIAUTH_MAX_MESSAGE := by
    rw [length_writeAt_opcode _ _ (by omega), h]
  have k1 := buffer_field_string_keeps P.UNIAUTH_MAX_MESSAGE P.UNIAUTH_PROTO_FIELD_TRANSSRC
    src (strlen src) ⟨writeAt buffer0 0 [P.UNIAUTH_PROTO_TRANSF], 1⟩ h0
  simp only at k1 ⊢
  split
  · have k2 := buffer_field_string_keeps P.UNIAUTH_MAX_MESSAGE P.UNIAUTH_PROTO_FIELD_TRANSDST
      src (strlen dst) _ k1
    simp only at k2
    split
    · exact buffer_field_end_keeps P _ _ k2
    · exact k2
  · exact k1

theorem request_response_delivers (P : Proto) (hP : P.wf) (buffer : List Nat) (iter : Nat)
    (st : ConnState) (k : SysCalls) (s : Sock) (resp : Response)
    (chunks : List (List Nat)) (rest : List ReadOutcome) (n : Nat) (ws : List WriteOutcome)
    (hlen : buffer.length = P.UNIAUTH_MAX_MESSAGE)
    (hc : (uniauth_connect st k).1 ≠ none)
    (hw : s.writes = WriteOutcome.accept n :: ws)
    (hwf : resp.wf P) (hfit : (resp.bytes P).length ≤ P.UNIAUTH_MAX_MESSAGE)
    (hd : delivers P s resp chunks rest) :
    request_response P buffer iter st k s
      = ⟨Outcome.ret (writeAt buffer 0 (resp.bytes P), (resp.bytes P).length),
         (uniauth_connect st k).2,
         { reads := rest, writes := ws, sent := s.sent ++ slice buffer 0 (min n iter) }⟩ := by
  obtain ⟨hreads, hne, hflat⟩ := hd
  have hchunks : chunks ≠ [] := by
    rintro rfl
    have := Response.bytes_length P resp
    rw [← hflat] at this
    simp at this
  have hloop := recv_loop_chunks P hP resp hwf hfit chunks [] buffer rest hchunks hne
    (by simpa using hflat) hlen (by intro j hj; simp at hj)
  rw [List.length_nil, hflat] at hloop
  unfold request_response
  rcases hu : uniauth_connect st k with ⟨o, st1⟩
  rw [hu] at hc
  cases o with
  | none => exact absurd rfl hc
  | some sock =>
    simp only [client_write, hw]
    rw [if_neg (by omega)]
    simp only [hreads, hloop]

/-! ## Client exchange: the four operations -/

theorem transfer_request_ok (P : Proto) (buffer0 src dst : List Nat)
    (h : strlen src + strlen dst + 6 ≤ P.UNIAUTH_MAX_MESSAGE) :
    (transfer_request P buffer0 src dst).1 = true := by
  unfold transfer_request
  obtain ⟨a1, a2⟩ := buffer_field_string_fits P.UNIAUTH_MAX_MESSAGE
    P.UNIAUTH_PROTO_FIELD_TRANSSRC src (strlen src)
    ⟨writeAt buffer0 0 [P.UNIAUTH_PROTO_TRANSF], 1⟩
  have e1 := a1.mpr (by simp only; omega)
  have i1 := a2 e1
  simp only at i1
  simp only [e1, if_true]
  obtain ⟨b1, b2⟩ := buffer_field_string_fits P.UNIAUTH_MAX_MESSAGE
    P.UNIAUTH_PROTO_FIELD_TRANSDST src (strlen dst)
    (buffer_field_string P.UNIAUTH_MAX_MESSAGE
      ⟨writeAt buffer0 0 [P.UNIAUTH_PROTO_TRANSF], 1⟩ P.UNIAUTH_PROTO_FIELD_TRANSSRC src
      (strlen src)).2
  have e2 := b1.mpr (by rw [i1]; omega)
  have i2 := b2 e2
  simp only [e2, if_true]
  exact (buffer_field_end_fits P _ _).mpr (by rw [i2, i1]; omega)

theorem message_result_ret (P : Proto) (buffer : List Nat) (sz : Nat) (st : ConnState)
    (s : Sock) :
    (message_result P ⟨Outcome.ret (buffer, sz), st, s⟩).result
      = Outcome.ret (if buffer.getD 0 0 = P.UNIAUTH_PROTO_RESPONSE_MESSAGE then 0 else -1) := by
  unfold message_result
  simp only
  split <;> rfl

theorem getD_response_head (P : Proto) (buffer : List Nat) (resp : Response) :
    (writeAt buffer 0 (resp.bytes P)).getD 0 0 = (resp.bytes P).getD 0 0 := by
  have := getD_writeAt_mid buffer 0 (resp.bytes P) 0 (Nat.zero_le _)
    (by have := Response.bytes_length P resp; omega)
  simpa using this

theorem response_head_message (P : Proto) (hP : P.wf) (resp : Response) :
    (resp.bytes P).getD 0 0 = P.UNIAUTH_PROTO_RESPONSE_MESSAGE
      ↔ ∃ text, resp = Response.message text := by
  obtain ⟨_, hn, _⟩ := hP
  simp only [List.nodup_cons, List.mem_cons, List.mem_singleton, not_or, List.not_mem_nil,
    not_false_eq_true, List.nodup_nil, and_true] at hn
  cases resp with
  | message text => simp [Response.bytes]
  | error text =>
    simp only [Response.bytes, List.getD_cons_zero, reduceCtorEq, exists_false, iff_false]
    exact fun e => hn.1.1 e.symm
  | record fs =>
    simp only [Response.bytes, List.getD_cons_zero, reduceCtorEq, exists_false, iff_false]
    exact fun e => hn.1.2 e.symm

/-- C18. For every record and pair of strings whose requests fit, a connection
that `uniauth_connect` provides, a socket that accepts the write, and every
complete well-formed response that fits and arrives in any non-empty pieces:
`uniauth_connect_commit`, `uniauth_connect_create` and
`uniauth_connect_transfer` return (no fatal error is raised), the value is 0
when the leading byte of the response is `MESSAGE` and -1 otherwise, and the
leading byte is `MESSAGE` exactly for a response of kind `MESSAGE`. -/
theorem exchange_result_iff_message (P : Proto) (hP : P.wf) (stor : uniauth_storage)
    (src dst : List Nat) (buffer0 : List Nat) (st : ConnState) (k : SysCalls) (s : Sock)
    (resp : Response) (chunks : List (List Nat)) (rest : List ReadOutcome) (n : Nat)
    (ws : List WriteOutcome)
    (hlen : buffer0.length = P.UNIAUTH_MAX_MESSAGE)
    (hrec : 1 + wire_size stor ≤ P.UNIAUTH_MAX_MESSAGE)
    (htr : strlen src + strlen dst + 6 ≤ P.UNIAUTH_MAX_MESSAGE)
    (hc : (uniauth_connect st k).1 ≠ none)
    (hw : s.writes = WriteOutcome.accept n :: ws)
    (hwf : resp.wf P) (hfit : (resp.bytes P).length ≤ P.UNIAUTH_MAX_MESSAGE)
    (hd : delivers P s resp chunks rest) :
    ((resp.bytes P).getD 0 0 = P.UNIAUTH_PROTO_RESPONSE_MESSAGE
      ↔ ∃ text, resp = Response.message text) ∧
    (uniauth_connect_commit P stor buffer0 st k s).result
      = Outcome.ret
        (if (resp.bytes P).getD 0 0 = P.UNIAUTH_PROTO_RESPONSE_MESSAGE then 0 else -1) ∧
    (uniauth_connect_create P stor buffer0 st k s).result
      = Outcome.ret
        (if (resp.bytes P).getD 0 0 = P.UNIAUTH_PROTO_RESPONSE_MESSAGE then 0 else -1) ∧
    (uniauth_connect_transfer P src dst buffer0 st k s).result
      = Outcome.ret
        (if (resp.bytes P).getD 0 0 = P.UNIAUTH_PROTO_RESPONSE_MESSAGE then 0 else -1) := by
  have h1 : 1 ≤ buffer0.length := by rw [hlen]; omega
  have hop : ∀ op : Nat,
      (buffer_storage_record P P.UNIAUTH_MAX_MESSAGE ⟨writeAt buffer0 0 [op], 1⟩ stor).1
        = true := by
    intro op
    exact (buffer_storage_record_fits P _ _ stor).mpr hrec
  have hkeep : ∀ op : Nat,
      (buffer_storage_record P P.UNIAUTH_MAX_MESSAGE
        ⟨writeAt buffer0 0 [op], 1⟩ stor).2.buffer.length = P.UNIAUTH_MAX_MESSAGE := by
    intro op
    exact buffer_storage_record_keeps P _ stor ⟨writeAt buffer0 0 [op], 1⟩
      (by rw [length_writeAt_opcode _ _ h1, hlen])
  refine ⟨response_head_message P hP resp, ?_, ?_, ?_⟩
  · unfold uniauth_connect_commit
    simp only [hop, not_true_eq_false, if_false]
    rw [request_response_delivers P hP _ _ st k s resp chunks rest n ws (hkeep _) hc hw hwf
      hfit hd, message_result_ret, getD_response_head]
  · unfold uniauth_connect_create
    simp only [hop, not_true_eq_false, if_false]
    rw [request_response_delivers P hP _ _ st k s resp chunks rest n ws (hkeep _) hc hw hwf
      hfit hd, message_result_ret, getD_response_head]
  · unfold uniauth_connect_transfer
    simp only [transfer_request_ok P buffer0 src dst htr, not_true_eq_false, if_false]
    rw [request_response_delivers P hP _ _ st k s resp chunks rest n ws
      (transfer_request_keeps P buffer0 src dst hlen (by omega)) hc hw hwf hfit hd,
      message_result_ret, getD_response_head]

/-- Witness for C18: `CREATE` with key "abc", username "alice", expiry
1700000000; the daemon replies `MESSAGE` "ok"; the call returns 0. -/
theorem exchange_result_iff_message_witness :
    (uniauth_connect_create stdProto record_abc (List.replicate 64 0) ⟨-1, [], []⟩ ⟨0, 5, 0⟩
      ⟨[ReadOutcome.data [4, 111, 107, 0]], [WriteOutcome.accept 64], []⟩).result
      = Outcome.ret 0 :=
  (exchange_result_iff_message stdProto (by decide) record_abc [97] [98]
    (List.replicate 64 0) ⟨-1, [], []⟩ ⟨0, 5, 0⟩
    ⟨[ReadOutcome.data [4, 111, 107, 0]], [WriteOutcome.accept 64], []⟩
    (Response.message [111, 107]) [[4, 111, 107, 0]] [] 64 []
    (by decide) (by decide) (by decide) (by decide) rfl (by decide) (by decide)
    (by decide)).2.2.1

theorem slice_append_right (x y : List Nat) : slice (x ++ y) x.length y.length = y :=
  slice_eq_of_getD _ _ _ (fun j _ => getD_append_right x y j)

theorem lookup_request_bytes (P : Proto) (buffer0 key : List Nat) (hkey : 0 ∉ key)
    (hfit : key.length + 4 ≤ P.UNIAUTH_MAX_MESSAGE) :
    lookup_request P buffer0 key key.length
      = (true, ⟨writeAt buffer0 0
          ([P.UNIAUTH_PROTO_LOOKUP, P.UNIAUTH_PROTO_FIELD_KEY] ++ key
            ++ [0, P.UNIAUTH_PROTO_FIELD_END]), key.length + 4⟩) := by
  have g1 : 1 + key.length + 2 ≤ P.UNIAUTH_MAX_MESSAGE := by omega
  have g2 : 1 + 1 + key.length + 1 < P.UNIAUTH_MAX_MESSAGE := by omega
  simp only [lookup_request, buffer_field_string, buffer_field_end, strncpy_cstring key hkey,
    g1, g2, if_true]
  have e1 := writeAt_writeAt buffer0 0 [P.UNIAUTH_PROTO_LOOKUP]
    (P.UNIAUTH_PROTO_FIELD_KEY :: key ++ [0]) (Nat.zero_le _)
  simp only [List.length_singleton, Nat.zero_add] at e1
  rw [e1]
  have e2 := writeAt_writeAt buffer0 0
    ([P.UNIAUTH_PROTO_LOOKUP] ++ (P.UNIAUTH_PROTO_FIELD_KEY :: key ++ [0]))
    [P.UNIAUTH_PROTO_FIELD_END] (Nat.zero_le _)
  simp only [List.length_append, List.length_singleton, List.length_cons, List.length_nil,
    Nat.zero_add] at e2
  rw [show 1 + 1 + key.length + 1 = 1 + (key.length + 1 + (0 + 1)) by omega, e2]
  simp only [Prod.mk.injEq, EncState.mk.injEq, true_and]
  constructor
  · congr 1
    simp
  · omega

/-- The lookup exchange, for every key (a C string) whose request fits, a
connection that `uniauth_connect` provides, a socket that accepts the whole
request, and every complete well-formed response that fits and arrives in any
non-empty pieces: `uniauth_connect_lookup` writes exactly `LOOKUP`, `KEY`, the
key bytes, 0, the end-marker; for a response of kind `MESSAGE` or `ERROR` it
returns `NULL` and the caller's record is as before; for a response of kind
`RECORD` with the fields `fs` it returns the caller's record without a fatal
error, and the record is the zeroed record with the fields `fs` stored in
order as `client_store_field` describes: each string under its tag with its
length, the id from the four bytes of the integer field, and the expiry from
the first four bytes only of the time field. -/
theorem lookup_exchange (P : Proto) (hP : P.wf) (key : List Nat)
    (backing : uniauth_storage) (buffer0 : List Nat) (st : ConnState) (k : SysCalls)
    (s : Sock) (resp : Response) (chunks : List (List Nat)) (rest : List ReadOutcome)
    (n : Nat) (ws : List WriteOutcome)
    (hlen : buffer0.length = P.UNIAUTH_MAX_MESSAGE) (hkey : 0 ∉ key)
    (hreq : key.length + 4 ≤ P.UNIAUTH_MAX_MESSAGE)
    (hc : (uniauth_connect st k).1 ≠ none)
    (hw : s.writes = WriteOutcome.accept n :: ws) (hn : key.length + 4 ≤ n)
    (hwf : resp.wf P) (hfit : (resp.bytes P).length ≤ P.UNIAUTH_MAX_MESSAGE)
    (hd : delivers P s resp chunks rest) :
    (uniauth_connect_lookup P key key.length backing buffer0 st k s).sock.sent
      = s.sent ++ ([P.UNIAUTH_PROTO_LOOKUP, P.UNIAUTH_PROTO_FIELD_KEY] ++ key
          ++ [0, P.UNIAUTH_PROTO_FIELD_END]) ∧
    (∀ text, resp = Response.message text ∨ resp = Response.error text →
      (uniauth_connect_lookup P key key.length backing buffer0 st k s).result
        = Outcome.ret false ∧
      (uniauth_connect_lookup P key key.length backing buffer0 st k s).backing = backing) ∧
    (∀ fs, resp = Response.record fs →
      (uniauth_connect_lookup P key key.length backing buffer0 st k s).result
        = Outcome.ret true ∧
      (uniauth_connect_lookup P key key.length backing buffer0 st k s).backing
        = client_store_fields P fs uniauth_storage.zero ∧
      read_storage_record P (resp.bytes P) (resp.bytes P).length uniauth_storage.zero
        = ⟨client_store_fields P fs uniauth_storage.zero, 1 + (wire_bytes P fs).length,
            false⟩) := by
  have hreqb := lookup_request_bytes P buffer0 key hkey hreq
  have hkeep := lookup_request_keeps P buffer0 key key.length hlen (by omega)
  have hx := request_response_delivers P hP (lookup_request P buffer0 key key.length).2.buffer
    (lookup_request P buffer0 key key.length).2.iter st k s resp chunks rest n ws hkeep hc hw
    hwf hfit hd
  have hsent : slice (lookup_request P buffer0 key key.length).2.buffer 0
      (min n (lookup_request P buffer0 key key.length).2.iter)
      = [P.UNIAUTH_PROTO_LOOKUP, P.UNIAUTH_PROTO_FIELD_KEY] ++ key
          ++ [0, P.UNIAUTH_PROTO_FIELD_END] := by
    rw [hreqb]
    simp only
    rw [Nat.min_eq_right hn]
    have := slice_writeAt buffer0 0 ([P.UNIAUTH_PROTO_LOOKUP, P.UNIAUTH_PROTO_FIELD_KEY] ++ key
          ++ [0, P.UNIAUTH_PROTO_FIELD_END]) (Nat.zero_le _)
    rw [show ([P.UNIAUTH_PROTO_LOOKUP, P.UNIAUTH_PROTO_FIELD_KEY] ++ key
          ++ [0, P.UNIAUTH_PROTO_FIELD_END]).length = key.length + 4 by simp] at this
    exact this
  have hflag : (lookup_request P buffer0 key key.length).1 = true := by rw [hreqb]
  have hhead := getD_response_head P (lookup_request P buffer0 key key.length).2.buffer resp
  have hn3 := hP.2.1
  simp only [List.nodup_cons, List.mem_cons, List.mem_singleton, not_or, List.not_mem_nil,
    not_false_eq_true, List.nodup_nil, and_true] at hn3
  refine ⟨?_, ?_, ?_⟩
  · unfold uniauth_connect_lookup
    simp only [hflag, not_true_eq_false, if_false, hx]
    split
    · simp only [hsent]
    · split <;> simp only [hsent]
  · intro text htext
    have hb : (resp.bytes P).getD 0 0 = P.UNIAUTH_PROTO_RESPONSE_MESSAGE
        ∨ (resp.bytes P).getD 0 0 = P.UNIAUTH_PROTO_RESPONSE_ERROR := by
      rcases htext with rfl | rfl
      · exact Or.inl rfl
      · exact Or.inr rfl
    unfold uniauth_connect_lookup
    simp only [hflag, not_true_eq_false, if_false, hx, hhead, hb, if_true, and_self]
  · intro fs hfs
    subst hfs
    have hb : ¬ ((Response.bytes P (Response.record fs)).getD 0 0
          = P.UNIAUTH_PROTO_RESPONSE_MESSAGE
        ∨ (Response.bytes P (Response.record fs)).getD 0 0
          = P.UNIAUTH_PROTO_RESPONSE_ERROR) := by
      simp only [Response.bytes, List.getD_cons_zero]
      rintro (e | e)
      · exact hn3.1.2 e.symm
      · exact hn3.2 e.symm
    have hbytes : Response.bytes P (Response.record fs)
        = P.UNIAUTH_PROTO_RESPONSE_RECORD ::
          (wire_bytes P fs ++ [P.UNIAUTH_PROTO_FIELD_END]) := rfl
    have hlenr : (Response.bytes P (Response.record fs)).length
        = 1 + (wire_bytes P fs).length + 1 := by
      rw [hbytes]; simp; omega
    have hfields := wire_bytes_length_ge P fs
      (fun f hf => WireField.wf_of_record_wf P f (hwf f hf))
    -- the decoder walks the same fields in the receive buffer and in the response
    have hwalk : ∀ b : List Nat,
        slice b 1 (wire_bytes P fs ++ [P.UNIAUTH_PROTO_FIELD_END]).length
          = wire_bytes P fs ++ [P.UNIAUTH_PROTO_FIELD_END] →
        read_storage_record P b (Response.bytes P (Response.record fs)).length
            uniauth_storage.zero
          = ⟨client_store_fields P fs uniauth_storage.zero, 1 + (wire_bytes P fs).length,
              false⟩ := by
      intro b hbs
      unfold read_storage_record
      exact read_storage_loop_fields P hP b _ fs _ 1 uniauth_storage.zero hwf hbs
        (by rw [hlenr]) (by rw [hlenr]; omega)
    have h1 := hwalk (Response.bytes P (Response.record fs)) (by
      rw [hbytes]
      exact slice_append_right [P.UNIAUTH_PROTO_RESPONSE_RECORD]
        (wire_bytes P fs ++ [P.UNIAUTH_PROTO_FIELD_END]))
    have h2 := hwalk (writeAt (lookup_request P buffer0 key key.length).2.buffer 0
        (Response.bytes P (Response.record fs))) (by
      have e := writeAt_writeAt (lookup_request P buffer0 key key.length).2.buffer 0
        [P.UNIAUTH_PROTO_RESPONSE_RECORD] (wire_bytes P fs ++ [P.UNIAUTH_PROTO_FIELD_END])
        (Nat.zero_le _)
      simp only [List.length_singleton, Nat.zero_add, List.singleton_append] at e
      rw [hbytes, ← e]
      exact slice_writeAt _ 1 _ (by
        rw [length_writeAt _ _ _ (by simp; omega)]; omega))
    unfold uniauth_connect_lookup
    simp only [hflag, not_true_eq_false, if_false, hx, hhead, hb, h1, h2]
    simp


/-- The lookup exchange at the key "abc" when the daemon replies `ERROR`
"not found": the call returns `NULL` without a fatal error and the caller's
record is as before. -/
theorem lookup_exchange_witness :
    (uniauth_connect_lookup stdProto [97, 98, 99] 3 record_a7 (List.replicate 64 0)
      ⟨-1, [], []⟩ ⟨0, 5, 0⟩
      ⟨[ReadOutcome.data [5, 110, 111, 116, 32, 102, 111, 117, 110, 100, 0]],
        [WriteOutcome.accept 64], []⟩).result = Outcome.ret false ∧
    (uniauth_connect_lookup stdProto [97, 98, 99] 3 record_a7 (List.replicate 64 0)
      ⟨-1, [], []⟩ ⟨0, 5, 0⟩
      ⟨[ReadOutcome.data [5, 110, 111, 116, 32, 102, 111, 117, 110, 100, 0]],
        [WriteOutcome.accept 64], []⟩).backing = record_a7 :=
  (lookup_exchange stdProto (by decide) [97, 98, 99] record_a7 (List.replicate 64 0)
    ⟨-1, [], []⟩ ⟨0, 5, 0⟩
    ⟨[ReadOutcome.data [5, 110, 111, 116, 32, 102, 111, 117, 110, 100, 0]],
      [WriteOutcome.accept 64], []⟩
    (Response.error [110, 111, 116, 32, 102, 111, 117, 110, 100])
    [[5, 110, 111, 116, 32, 102, 111, 117, 110, 100, 0]] [] 64 []
    (by decide) (by decide) (by decide) (by decide) rfl (by decide) (by decide) (by decide)
    (by decide)).2.1 [110, 111, 116, 32, 102, 111, 117, 110, 100] (Or.inr rfl)

/-! ## Client exchange: evaluations -/

/-- C17: a lookup whose reply is a record with an expiry of 2^32 fills the
caller's record with expire 0.  The daemon answers the key "a" with the record
key "a", expire 2^32 through `clientbuf_send_record`: the 14 bytes `RECORD,
KEY "a", EXPIRE 00 00 00 00 01 00 00 00, END`, a well-formed record response
with these two fields.  `uniauth_connect_lookup` for the key "a" writes
`LOOKUP, KEY "a", END`, receives these bytes in one read, returns the caller's
record without a fatal error, and the record holds the key "a" and expire 0
instead of 2^32.  With expire 1700000000 (below 2^32) in the reply the record
holds 1700000000. -/
theorem lookup_exchange_truncates_expire :
    (clientbuf_send_record stdProto (clientbuf_init stdProto 3 0)
        ⟨[], [WriteOutcome.accept 64], []⟩ (some [97]) 1
        { uniauth_storage.zero with expire := 2 ^ 32 }).2.2.sent
      = [6, 1, 97, 0, 5, 0, 0, 0, 0, 1, 0, 0, 0, 10] ∧
    Response.bytes stdProto
        (Response.record [WireField.string 1 [97], WireField.time (le_bytes 8 (2 ^ 32))])
      = [6, 1, 97, 0, 5, 0, 0, 0, 0, 1, 0, 0, 0, 10] ∧
    (uniauth_connect_lookup stdProto [97] 1 record_a7 (List.replicate 64 0)
        ⟨-1, [], []⟩ ⟨0, 5, 0⟩
        ⟨[ReadOutcome.data [6, 1, 97, 0, 5, 0, 0, 0, 0, 1, 0, 0, 0, 10]],
          [WriteOutcome.accept 64], []⟩).sock.sent = [0, 1, 97, 0, 10] ∧
    (uniauth_connect_lookup stdProto [97] 1 record_a7 (List.replicate 64 0)
        ⟨-1, [], []⟩ ⟨0, 5, 0⟩
        ⟨[ReadOutcome.data [6, 1, 97, 0, 5, 0, 0, 0, 0, 1, 0, 0, 0, 10]],
          [WriteOutcome.accept 64], []⟩).result = Outcome.ret true ∧
    (uniauth_connect_lookup stdProto [97] 1 record_a7 (List.replicate 64 0)
        ⟨-1, [], []⟩ ⟨0, 5, 0⟩
        ⟨[ReadOutcome.data [6, 1, 97, 0, 5, 0, 0, 0, 0, 1, 0, 0, 0, 10]],
          [WriteOutcome.accept 64], []⟩).backing
      = { uniauth_storage.zero with key := some [97], keySz := 1, expire := 0 } ∧
    (uniauth_connect_lookup stdProto [97] 1 record_a7 (List.replicate 64 0)
        ⟨-1, [], []⟩ ⟨0, 5, 0⟩
        ⟨[ReadOutcome.data ([6, 1, 97, 0] ++ 5 :: le_bytes 8 1700000000 ++ [10])],
          [WriteOutcome.accept 64], []⟩).backing.expire = 1700000000 := by
  decide


theorem strlen_cstring (l : List Nat) (h : 0 ∉ l) : strlen l = l.length := by
  unfold strlen
  have h1 : l.takeWhile (fun b => decide (b ≠ 0)) = l := by
    rw [List.takeWhile_eq_self_iff]
    intro a ha
    simp
    rintro rfl
    exact h ha
  rw [h1]

/-- The request that `uniauth_connect_transfer` builds, for every pair of C
strings that fits: the `TRANSDST` field holds `strncpy(src, strlen(dst))`, that
is, bytes of `src` cut or zero-padded to the length of `dst`. -/
theorem transfer_request_bytes (P : Proto) (buffer0 src dst : List Nat)
    (hs : 0 ∉ src) (hd : 0 ∉ dst)
    (hfit : src.length + dst.length + 6 ≤ P.UNIAUTH_MAX_MESSAGE) :
    transfer_request P buffer0 src dst
      = (true, ⟨writeAt buffer0 0
          ([P.UNIAUTH_PROTO_TRANSF, P.UNIAUTH_PROTO_FIELD_TRANSSRC] ++ src
            ++ [0, P.UNIAUTH_PROTO_FIELD_TRANSDST] ++ strncpy src dst.length
            ++ [0, P.UNIAUTH_PROTO_FIELD_END]), src.length + dst.length + 6⟩) := by
  have g1 : 1 + src.length + 2 ≤ P.UNIAUTH_MAX_MESSAGE := by omega
  have g2 : 1 + 1 + src.length + 1 + dst.length + 2 ≤ P.UNIAUTH_MAX_MESSAGE := by omega
  have g3 : 1 + 1 + src.length + 1 + 1 + dst.length + 1 < P.UNIAUTH_MAX_MESSAGE := by omega
  simp only [transfer_request, buffer_field_string, buffer_field_end, strlen_cstring src hs,
    strlen_cstring dst hd, strncpy_cstring src hs, g1, g2, g3, if_true]
  have e1 := writeAt_writeAt buffer0 0 [P.UNIAUTH_PROTO_TRANSF]
    (P.UNIAUTH_PROTO_FIELD_TRANSSRC :: src ++ [0]) (Nat.zero_le _)
  simp only [List.length_singleton, Nat.zero_add] at e1
  rw [e1]
  have e2 := writeAt_writeAt buffer0 0
    ([P.UNIAUTH_PROTO_TRANSF] ++ (P.UNIAUTH_PROTO_FIELD_TRANSSRC :: src ++ [0]))
    (P.UNIAUTH_PROTO_FIELD_TRANSDST :: strncpy src dst.length ++ [0]) (Nat.zero_le _)
  simp only [List.length_append, List.length_singleton, List.length_cons, List.length_nil,
    Nat.zero_add] at e2
  rw [show 1 + 1 + src.length + 1 = 1 + (src.length + 1 + (0 + 1)) by omega, e2]
  have e3 := writeAt_writeAt buffer0 0
    ([P.UNIAUTH_PROTO_TRANSF] ++ (P.UNIAUTH_PROTO_FIELD_TRANSSRC :: src ++ [0])
      ++ (P.UNIAUTH_PROTO_FIELD_TRANSDST :: strncpy src dst.length ++ [0]))
    [P.UNIAUTH_PROTO_FIELD_END] (Nat.zero_le _)
  simp only [List.length_append, List.length_singleton, List.length_cons, List.length_nil,
    Nat.zero_add, strncpy_length] at e3
  rw [show 1 + (src.length + 1 + (0 + 1)) + 1 + dst.length + 1
      = 1 + (src.length + 1 + (0 + 1)) + (dst.length + 1 + (0 + 1)) by omega, e3]
  simp only [Prod.mk.injEq, EncState.mk.injEq, true_and]
  constructor
  · congr 1
    simp
  · omega

/-- C11, evaluation.  For `src` = "ab" and `dst` = "xyz" the request that
`uniauth_connect_transfer` builds and writes is `TRANSF`, `TRANSSRC`, "ab", 0,
`TRANSDST`, "ab", 0, 0, end-marker: the `TRANSDST` field holds the three bytes
that `strncpy` takes from `src` ("ab" and a padding zero), not "xyz". -/
theorem transfer_request_carries_source :
    (transfer_request stdProto (List.replicate 64 0) [97, 98] [120, 121, 122]).1 = true ∧
    slice (transfer_request stdProto (List.replicate 64 0) [97, 98] [120, 121, 122]).2.buffer 0
        (transfer_request stdProto (List.replicate 64 0) [97, 98] [120, 121, 122]).2.iter
      = [3, 8, 97, 98, 0, 9, 97, 98, 0, 0, 10] ∧
    (uniauth_connect_transfer stdProto [97, 98] [120, 121, 122] (List.replicate 64 0)
      ⟨-1, [], []⟩ ⟨0, 5, 0⟩
      ⟨[ReadOutcome.data [4, 111, 107, 0]], [WriteOutcome.accept 64], []⟩).sock.sent
      = [3, 8, 97, 98, 0, 9, 97, 98, 0, 0, 10] ∧
    [3, 8, 97, 98, 0, 9, 97, 98, 0, 0, 10] ≠ [3, 8, 97, 98, 0, 9, 120, 121, 122, 0, 10] := by
  decide

/-- C19, evaluation.  The socket accepts 3 bytes of each request and the
daemon's answer `MESSAGE` "ok" is available: `uniauth_connect_create`,
`uniauth_connect_commit` and `uniauth_connect_transfer` read the response and
return 0, `uniauth_connect_lookup` reads it and returns `NULL`; no fatal error
is raised although only 3 bytes of the request were written. -/
theorem short_write_goes_unnoticed :
    ((uniauth_connect_create stdProto record_abc (List.replicate 64 0) ⟨-1, [], []⟩ ⟨0, 5, 0⟩
        ⟨[ReadOutcome.data [4, 111, 107, 0]], [WriteOutcome.accept 3], []⟩).result
        = Outcome.ret 0 ∧
      (uniauth_connect_create stdProto record_abc (List.replicate 64 0) ⟨-1, [], []⟩ ⟨0, 5, 0⟩
        ⟨[ReadOutcome.data [4, 111, 107, 0]], [WriteOutcome.accept 3], []⟩).sock
        = ⟨[], [], [2, 1, 97]⟩) ∧
    ((uniauth_connect_commit stdProto record_abc (List.replicate 64 0) ⟨-1, [], []⟩ ⟨0, 5, 0⟩
        ⟨[ReadOutcome.data [4, 111, 107, 0]], [WriteOutcome.accept 3], []⟩).result
        = Outcome.ret 0 ∧
      (uniauth_connect_commit stdProto record_abc (List.replicate 64 0) ⟨-1, [], []⟩ ⟨0, 5, 0⟩
        ⟨[ReadOutcome.data [4, 111, 107, 0]], [WriteOutcome.accept 3], []⟩).sock
        = ⟨[], [], [1, 1, 97]⟩) ∧
    ((uniauth_connect_transfer stdProto [97, 98] [120, 121, 122] (List.replicate 64 0)
        ⟨-1, [], []⟩ ⟨0, 5, 0⟩
        ⟨[ReadOutcome.data [4, 111, 107, 0]], [WriteOutcome.accept 3], []⟩).result
        = Outcome.ret 0 ∧
      (uniauth_connect_transfer stdProto [97, 98] [120, 121, 122] (List.replicate 64 0)
        ⟨-1, [], []⟩ ⟨0, 5, 0⟩
        ⟨[ReadOutcome.data [4, 111, 107, 0]], [WriteOutcome.accept 3], []⟩).sock
        = ⟨[], [], [3, 8, 97]⟩) ∧
    ((uniauth_connect_lookup stdProto [97, 98, 99] 3 record_a7 (List.replicate 64 0)
        ⟨-1, [], []⟩ ⟨0, 5, 0⟩
        ⟨[ReadOutcome.data [4, 111, 107, 0]], [WriteOutcome.accept 3], []⟩).result
        = Outcome.ret false ∧
      (uniauth_connect_lookup stdProto [97, 98, 99] 3 record_a7 (List.replicate 64 0)
        ⟨-1, [], []⟩ ⟨0, 5, 0⟩
        ⟨[ReadOutcome.data [4, 111, 107, 0]], [WriteOutcome.accept 3], []⟩).sock
        = ⟨[], [], [0, 1, 97]⟩) := by
  decide

/-- The part of C19 that holds: when the `write` of the request fails, each of
the four operations ends with the fatal error, and no read outcome is used. -/
theorem write_failure_is_fatal (P : Proto) (buffer : List Nat) (iter : Nat)
    (st : ConnState) (k : SysCalls) (s : Sock) (w : WriteOutcome) (ws : List WriteOutcome)
    (hc : (uniauth_connect st k).1 ≠ none)
    (hw : s.writes = w :: ws) (hfail : ∀ n, w ≠ WriteOutcome.accept n) :
    (request_response P buffer iter st k s).result = Outcome.fatal ∧
    (request_response P buffer iter st k s).sock.reads = s.reads ∧
    (request_response P buffer iter st k s).sock.sent = s.sent := by
  unfold request_response
  rcases hu : uniauth_connect st k with ⟨o, st1⟩
  rw [hu] at hc
  cases o with
  | none => exact absurd rfl hc
  | some sock =>
    cases w with
    | accept n => exact absurd rfl (hfail n)
    | wouldblock => simp [client_write, hw]
    | fail => simp [client_write, hw]

/-! ## Client connection: the cached handle -/

/-- C20, evaluation.  The cached handle is descriptor 5, open and connected,
and `poll` reports an event on it.  When `socket()` then fails, the call ends
with the fatal error and leaves the handle 5 cached although descriptor 5 has
been closed; when `socket()` returns 6 and `connect()` fails, the same holds
and descriptor 6 stays open and unconnected. -/
theorem stale_handle_stays_cached :
    cached_ok ⟨5, [5], [5]⟩ ∧
    uniauth_connect ⟨5, [5], [5]⟩ ⟨1, -1, 0⟩ = (none, ⟨5, [], []⟩) ∧
    ¬ cached_ok (uniauth_connect ⟨5, [5], [5]⟩ ⟨1, -1, 0⟩).2 ∧
    uniauth_connect ⟨5, [5], [5]⟩ ⟨1, 6, -1⟩ = (none, ⟨5, [6], []⟩) ∧
    ¬ cached_ok (uniauth_connect ⟨5, [5], [5]⟩ ⟨1, 6, -1⟩).2 := by
  decide

/-- The part of C20 that holds: a cached handle on which `poll` reports no
event is returned and nothing changes; and when the handle was absent, or
`poll` reports no event, or `socket()` and `connect()` succeed, a handle that
was absent or open and connected is so afterwards. -/
theorem uniauth_connect_keeps_handle (st : ConnState) (k : SysCalls) :
    (st.conn ≠ -1 → k.poll ≤ 0 → uniauth_connect st k = (some st.conn, st)) ∧
    (cached_ok st →
      (st.conn = -1 ∨ k.poll ≤ 0 ∨ (k.socket ≠ -1 ∧ k.connect ≠ -1)) →
      cached_ok (uniauth_connect st k).2) := by
  constructor
  · intro h1 h2
    unfold uniauth_connect
    simp only
    rw [if_pos ⟨h1, by omega⟩]
  · intro hok h
    unfold uniauth_connect
    simp only
    by_cases h1 : st.conn ≠ -1 ∧ ¬ (k.poll > 0)
    · rw [if_pos h1]; exact hok
    · rw [if_neg h1]
      by_cases h2 : k.socket = -1
      · rw [if_pos h2]
        rcases h with h | h | h
        · simp only [h, ne_eq, not_true_eq_false, if_false]
          exact Or.inl h
        · by_cases h3 : st.conn = -1
          · simp only [h3, ne_eq, not_true_eq_false, if_false]
            exact Or.inl h3
          · exact absurd ⟨h3, by omega⟩ h1
        · exact absurd h2 h.1
      · rw [if_neg h2]
        by_cases h3 : k.connect = -1
        · rw [if_pos h3]
          rcases h with h | h | h
          · simp only [h, ne_eq, not_true_eq_false, if_false]
            exact Or.inl rfl
          · by_cases h4 : st.conn = -1
            · simp only [h4, ne_eq, not_true_eq_false, if_false]
              exact Or.inl rfl
            · exact absurd ⟨h4, by omega⟩ h1
          · exact absurd h3 h.2
        · rw [if_neg h3]
          refine Or.inr ⟨?_, ?_⟩ <;> simp

/-! ## Daemon input phase: the read loop -/

theorem received_nil (client : clientbuf) : received client [] = client := by
  unfold received
  rw [writeAt_nil]
  rfl

theorem received_append (client : clientbuf) (x y : List Nat)
    (h : client.bufsz ≤ client.buf.length) :
    received (received client x) y = received client (x ++ y) := by
  unfold received
  simp only [writeAt_writeAt _ _ _ _ h, List.length_append, Nat.add_assoc]

theorem received_buf_length (client : clientbuf) (x : List Nat)
    (h : client.bufsz + x.length ≤ client.buf.length) :
    (received client x).buf.length = client.buf.length := by
  unfold received
  exact length_writeAt _ _ _ h

theorem read_loop_data (P : Proto) (initial : Nat) (c : List Nat) (rs : List ReadOutcome)
    (client : clientbuf) (hne : c ≠ [])
    (hfit : client.bufsz + c.length ≤ P.UNIAUTH_MAX_MESSAGE) :
    read_loop P initial (ReadOutcome.data c :: rs) client
      = read_loop P initial rs (received client c) := by
  have htake : List.take (P.UNIAUTH_MAX_MESSAGE - client.bufsz) c = c :=
    List.take_of_length_le (by omega)
  have hlen : c.length ≠ 0 := by
    intro h; exact hne (List.length_eq_zero.mp h)
  simp only [read_loop, htake, if_neg hlen, received]

theorem read_loop_chunks (P : Proto) (initial : Nat) :
    ∀ (chunks : List (List Nat)) (tail : List ReadOutcome) (client : clientbuf),
      (∀ c ∈ chunks, c ≠ []) →
      client.bufsz + chunks.flatten.length ≤ P.UNIAUTH_MAX_MESSAGE →
      client.buf.length = P.UNIAUTH_MAX_MESSAGE →
      read_loop P initial (chunks.map ReadOutcome.data ++ tail) client
        = read_loop P initial tail (received client chunks.flatten) := by
  intro chunks
  induction chunks with
  | nil =>
    intro tail client _ _ _
    simp only [List.map_nil, List.nil_append, List.flatten_nil, received_nil]
  | cons c cs ih =>
    intro tail client hne hfit hlen
    simp only [List.flatten_cons, List.length_append] at hfit
    rw [List.map_cons, List.cons_append,
      read_loop_data P initial c _ client (hne c (List.mem_cons_self _ _)) (by omega)]
    rw [ih tail (received client c) (fun d hd => hne d (List.mem_cons_of_mem _ hd))
      (by simp only [received]; omega)
      (by rw [received_buf_length _ _ (by omega), hlen])]
    rw [received_append _ _ _ (by omega), List.flatten_cons]

theorem read_loop_zero (P : Proto) (initial : Nat) (z : List Nat) (rs : List ReadOutcome)
    (client : clientbuf) (hz : z.take (P.UNIAUTH_MAX_MESSAGE - client.bufsz) = []) :
    read_loop P initial (ReadOutcome.data z :: rs) client
      = (if initial = client.bufsz then (some 1, { client with eof := true }, rs)
         else (none, { client with eof := true }, rs)) := by
  simp only [read_loop, hz, List.length_nil, if_true]

/-- C22. End-of-stream in `clientbuf_operation`.  When the end-of-stream flag
is already set the call returns 1 and changes neither the connection nor the
socket.  In the input phase, when the first read of the invocation is a
zero-length read, the call returns 1 and only sets the flag (buffer, cursor,
fill length and status stay).  When non-empty reads that fit have appended
bytes before the zero-length read, the call sets the flag and its result is
that of `parse_buffer` on the connection with the bytes appended. -/
theorem end_of_stream_handling (P : Proto) (client : clientbuf) (s : Sock)
    (chunks : List (List Nat)) (z : List Nat) (rs : List ReadOutcome) :
    (client.eof = true → clientbuf_operation P client s = (1, client, s)) ∧
    (client.eof = false → client.iomode = 0 → s.reads = ReadOutcome.data z :: rs →
      z.take (P.UNIAUTH_MAX_MESSAGE - client.bufsz) = [] →
      clientbuf_operation P client s
        = (1, { client with eof := true }, { s with reads := rs })) ∧
    (client.eof = false → client.iomode = 0 → client.buf.length = P.UNIAUTH_MAX_MESSAGE →
      s.reads = chunks.map ReadOutcome.data ++ ReadOutcome.data z :: rs →
      chunks ≠ [] → (∀ c ∈ chunks, c ≠ []) →
      client.bufsz + chunks.flatten.length ≤ P.UNIAUTH_MAX_MESSAGE →
      z.take (P.UNIAUTH_MAX_MESSAGE - (client.bufsz + chunks.flatten.length)) = [] →
      clientbuf_operation P client s
        = ((parse_buffer P { received client chunks.flatten with eof := true }).1,
           (parse_buffer P { received client chunks.flatten with eof := true }).2,
           { s with reads := rs })) := by
  refine ⟨?_, ?_, ?_⟩
  · intro he
    simp only [clientbuf_operation, he, if_true]
  · intro he hm hr hz
    simp only [clientbuf_operation, he, hm, hr, read_loop_zero P _ z rs client hz,
      Bool.false_eq_true, if_false, if_true]
  · intro he hm hlen hr hne hall hfit hz
    have hpos : 0 < chunks.flatten.length := by
      cases chunks with
      | nil => exact absurd rfl hne
      | cons c cs =>
        have hc := hall c (List.mem_cons_self _ _)
        cases c with
        | nil => exact absurd rfl hc
        | cons _ _ => simp
    have hz2 : z.take (P.UNIAUTH_MAX_MESSAGE - (received client chunks.flatten).bufsz) = [] :=
      hz
    have hne2 : client.bufsz ≠ (received client chunks.flatten).bufsz := by
      simp only [received]; omega
    simp only [clientbuf_operation, he, hm, hr, Bool.false_eq_true, if_false, if_true]
    rw [read_loop_chunks P _ chunks _ client hall hfit hlen,
      read_loop_zero P _ z rs _ hz2, if_neg hne2]

/-- Witness for C22: a fresh connection on which the peer delivers a complete
`LOOKUP` request and then closes: the flag is set and the parser has run over
the five bytes. -/
theorem end_of_stream_handling_witness :
    (clientbuf_operation stdProto (clientbuf_init stdProto 3 0)
      ⟨[ReadOutcome.data [0, 1, 97, 0, 10], ReadOutcome.data []], [], []⟩).2.1.status
      = Status.complete := by
  have h := (end_of_stream_handling stdProto (clientbuf_init stdProto 3 0)
    ⟨[ReadOutcome.data [0, 1, 97, 0, 10], ReadOutcome.data []], [], []⟩
    [[0, 1, 97, 0, 10]] [] []).2.2 rfl rfl (by decide) rfl (by decide) (by decide)
    (by decide) (by decide)
  rw [h]
  decide

/-! ## Daemon: flow control and failure -/

theorem parse_field_frame (P : Proto) (client client1 : clientbuf) (iter field n : Nat)
    (h : parse_field P client iter field = some (n, client1)) :
    client1.status = client.status ∧ client1.buf = client.buf ∧
    client1.bufsz = client.bufsz ∧ client1.bufit = client.bufit ∧
    client1.iomode = client.iomode ∧ client1.eof = client.eof ∧
    client1.sock = client.sock ∧ client1.conntm = client.conntm ∧
    client1.opkind = client.opkind := by
  unfold parse_field at h
  by_cases h0 : field = P.UNIAUTH_PROTO_FIELD_KEY
  · rw [if_pos h0] at h
    simp only [Option.some.injEq, Prod.mk.injEq] at h
    obtain ⟨_, h2⟩ := h
    subst h2
    exact ⟨rfl, rfl, rfl, rfl, rfl, rfl, rfl, rfl, rfl⟩
  · rw [if_neg h0] at h
    by_cases h1 : field = P.UNIAUTH_PROTO_FIELD_ID
    · rw [if_pos h1] at h
      simp only [Option.some.injEq, Prod.mk.injEq] at h
      obtain ⟨_, h2⟩ := h
      subst h2
      exact ⟨rfl, rfl, rfl, rfl, rfl, rfl, rfl, rfl, rfl⟩
    · rw [if_neg h1] at h
      by_cases h2 : field = P.UNIAUTH_PROTO_FIELD_USER
      · rw [if_pos h2] at h
        simp only [Option.some.injEq, Prod.mk.injEq] at h
        obtain ⟨_, h2⟩ := h
        subst h2
        exact ⟨rfl, rfl, rfl, rfl, rfl, rfl, rfl, rfl, rfl⟩
      · rw [if_neg h2] at h
        by_cases h3 : field = P.UNIAUTH_PROTO_FIELD_DISPLAY
        · rw [if_pos h3] at h
          simp only [Option.some.injEq, Prod.mk.injEq] at h
          obtain ⟨_, h2⟩ := h
          subst h2
          exact ⟨rfl, rfl, rfl, rfl, rfl, rfl, rfl, rfl, rfl⟩
        · rw [if_neg h3] at h
          by_cases h4 : field = P.UNIAUTH_PROTO_FIELD_EXPIRE
          · rw [if_pos h4] at h
            simp only [Option.some.injEq, Prod.mk.injEq] at h
            obtain ⟨_, h2⟩ := h
            subst h2
            exact ⟨rfl, rfl, rfl, rfl, rfl, rfl, rfl, rfl, rfl⟩
          · rw [if_neg h4] at h
            by_cases h5 : field = P.UNIAUTH_PROTO_FIELD_REDIRECT
            · rw [if_pos h5] at h
              simp only [Option.some.injEq, Prod.mk.injEq] at h
              obtain ⟨_, h2⟩ := h
              subst h2
              exact ⟨rfl, rfl, rfl, rfl, rfl, rfl, rfl, rfl, rfl⟩
            · rw [if_neg h5] at h
              by_cases h6 : field = P.UNIAUTH_PROTO_FIELD_TAG
              · rw [if_pos h6] at h
                simp only [Option.some.injEq, Prod.mk.injEq] at h
                obtain ⟨_, h2⟩ := h
                subst h2
                exact ⟨rfl, rfl, rfl, rfl, rfl, rfl, rfl, rfl, rfl⟩
              · rw [if_neg h6] at h
                by_cases h7 : field = P.UNIAUTH_PROTO_FIELD_TRANSSRC
                · rw [if_pos h7] at h
                  simp only [Option.some.injEq, Prod.mk.injEq] at h
                  obtain ⟨_, h2⟩ := h
                  subst h2
                  exact ⟨rfl, rfl, rfl, rfl, rfl, rfl, rfl, rfl, rfl⟩
                · rw [if_neg h7] at h
                  by_cases h8 : field = P.UNIAUTH_PROTO_FIELD_TRANSDST
                  · rw [if_pos h8] at h
                    simp only [Option.some.injEq, Prod.mk.injEq] at h
                    obtain ⟨_, h2⟩ := h
                    subst h2
                    exact ⟨rfl, rfl, rfl, rfl, rfl, rfl, rfl, rfl, rfl⟩
                  · rw [if_neg h8] at h
                    exact absurd h (by simp)

theorem parse_loop_ret (P : Proto) :
    ∀ (fuel : Nat) (client : clientbuf) (iter : Nat),
      ((parse_loop P fuel client iter).1 = 0 ∧
        ((parse_loop P fuel client iter).2.status = Status.error →
          client.status = Status.error)) ∨
      ((parse_loop P fuel client iter).1 = 1 ∧
        (parse_loop P fuel client iter).2.status = Status.error) := by
  intro fuel
  induction fuel with
  | zero =>
    intro client iter
    left
    simp [parse_loop]
  | succ fuel ih =>
    intro client iter
    simp only [parse_loop]
    split_ifs with h1 h2
    · left; simp
    · cases hp : parse_field P client iter (client.buf.getD iter 0) with
      | none => right; simp
      | some r =>
        obtain ⟨n, client1⟩ := r
        have hfr := parse_field_frame P client client1 iter _ n hp
        simp only
        split_ifs with h3
        · left
          simp only [true_and]
          rw [← hfr.1]
          exact id
        · have := ih client1 (iter + (1 + n))
          rw [hfr.1] at this
          exact this
    · left; simp

theorem parse_buffer_ret (P : Proto) (client : clientbuf) :
    ((parse_buffer P client).1 = 0 ∧
      ((parse_buffer P client).2.status = Status.error → client.status = Status.error)) ∨
    ((parse_buffer P client).1 = 1 ∧ (parse_buffer P client).2.status = Status.error) := by
  unfold parse_buffer
  simp only
  split_ifs with h1 h2 h3
  · left; exact ⟨rfl, id⟩
  · right; exact ⟨rfl, rfl⟩
  · have := parse_loop_ret P (client.bufsz - (client.bufit + 1))
      { client with opkind := (client.buf.getD client.bufit 0 : Nat),
                    status := Status.incomplete } (client.bufit + 1)
    rcases this with ⟨a, b⟩ | ⟨a, b⟩
    · left
      refine ⟨a, fun e => ?_⟩
      have := b e
      simp at this
    · right; exact ⟨a, b⟩
  · exact parse_loop_ret P _ client _

theorem flush_loop_accept (buf : List Nat) (base n : Nat) (ws : List WriteOutcome)
    (t sz : Nat) (sent : List Nat) :
    flush_loop buf base (WriteOutcome.accept n :: ws) t (sz + 1) sent
      = flush_loop buf base ws (t + min n (sz + 1)) (sz + 1 - min n (sz + 1))
          (sent ++ slice buf (base + t) (min n (sz + 1))) := rfl

theorem flush_loop_fail (buf : List Nat) (base : Nat) (ws : List WriteOutcome) :
    ∀ (ns : List Nat) (t sz : Nat) (sent : List Nat), ns.sum < sz →
      flush_loop buf base (ns.map WriteOutcome.accept ++ WriteOutcome.fail :: ws) t sz sent
        = (true, t + ns.sum, sz - ns.sum, ws, sent ++ slice buf (base + t) ns.sum) := by
  intro ns
  induction ns with
  | nil =>
    intro t sz sent h
    obtain ⟨n, rfl⟩ : ∃ n, sz = n + 1 := ⟨sz - 1, by simp at h; omega⟩
    simp [flush_loop, slice_zero]
  | cons n ns ih =>
    intro t sz sent h
    simp only [List.sum_cons] at h
    obtain ⟨m, rfl⟩ : ∃ m, sz = m + 1 := ⟨sz - 1, by omega⟩
    have hmin : min n (m + 1) = n := by omega
    rw [List.map_cons, List.cons_append, flush_loop_accept, hmin, List.sum_cons]
    rw [ih (t + n) (m + 1 - n) _ (by omega)]
    simp only [Prod.mk.injEq, true_and]
    refine ⟨by omega, by omega, ?_⟩
    rw [List.append_assoc, ← Nat.add_assoc, slice_append]

theorem flush_buffer_flow (client : clientbuf) (s : Sock)
    (hw : ∀ w ∈ s.writes, w ≠ WriteOutcome.fail) :
    ∃ t, t ≤ client.bufsz ∧
      (flush_buffer client s).1 = 0 ∧
      (flush_buffer client s).2.2.sent = s.sent ++ slice client.buf client.bufit t ∧
      (flush_buffer client s).2.1.bufit = 0 ∧
      (flush_buffer client s).2.1.bufsz = client.bufsz - t ∧
      slice (flush_buffer client s).2.1.buf 0 (client.bufsz - t)
        = slice client.buf (client.bufit + t) (client.bufsz - t) ∧
      (flush_buffer client s).2.1.status
        = (if client.bufsz - t = 0 then Status.complete else client.status) := by
  obtain ⟨h1, h2, h3, h4, _⟩ := flush_loop_spec client.buf client.bufit s.writes 0
    client.bufsz s.sent hw
  refine ⟨(flush_loop client.buf client.bufit s.writes 0 client.bufsz s.sent).2.1, ?_⟩
  have e : (flush_loop client.buf client.bufit s.writes 0 client.bufsz s.sent).2.2.1
      = client.bufsz
        - (flush_loop client.buf client.bufit s.writes 0 client.bufsz s.sent).2.1 := by
    omega
  simp only [flush_buffer, h1, Bool.false_eq_true, if_false]
  refine ⟨by omega, trivial, by simpa using h4, trivial, e, ?_, ?_⟩
  · rw [← e]
    have := slice_writeAt client.buf 0
      (slice client.buf
        (client.bufit + (flush_loop client.buf client.bufit s.writes 0 client.bufsz s.sent).2.1)
        (flush_loop client.buf client.bufit s.writes 0 client.bufsz s.sent).2.2.1)
      (Nat.zero_le _)
    rw [slice_length] at this
    exact this
  · rw [← e]

/-- C21. In `clientbuf_operation` with the end-of-stream flag clear.  Input
phase, non-empty reads that fit followed by a would-block: the result is that
of `parse_buffer` on the connection with the bytes appended, so the call
returns 0 and leaves a status that is error only if it was error before,
unless the parser returns 1 with status error.  Input phase, reads followed by
another read failure: the call returns 1 with status error, the bytes read
before stay appended.  Output phase, writes none of which fails otherwise than
by would-block (short writes included): the call returns 0, the socket has
taken the first `t` buffered bytes, the rest is kept at the front of the
buffer, and the status is complete when nothing is left and as before
otherwise.  Output phase, short writes followed by another write failure: the
call returns 1 with status error. -/
theorem flow_control_versus_failure (P : Proto) (client : clientbuf) (s : Sock)
    (chunks : List (List Nat)) (rs : List ReadOutcome) (ns : List Nat)
    (ws : List WriteOutcome) :
    (client.eof = false → client.iomode = 0 →
      client.buf.length = P.UNIAUTH_MAX_MESSAGE → (∀ c ∈ chunks, c ≠ []) →
      client.bufsz + chunks.flatten.length ≤ P.UNIAUTH_MAX_MESSAGE →
      (s.reads = chunks.map ReadOutcome.data
        ∨ s.reads = chunks.map ReadOutcome.data ++ ReadOutcome.wouldblock :: rs) →
      (clientbuf_operation P client s).1
        = (parse_buffer P (received client chunks.flatten)).1 ∧
      (clientbuf_operation P client s).2.1
        = (parse_buffer P (received client chunks.flatten)).2 ∧
      (((clientbuf_operation P client s).1 = 0 ∧
          ((clientbuf_operation P client s).2.1.status = Status.error →
            client.status = Status.error)) ∨
        ((clientbuf_operation P client s).1 = 1 ∧
          (clientbuf_operation P client s).2.1.status = Status.error ∧
          (parse_buffer P (received client chunks.flatten)).1 = 1))) ∧
    (client.eof = false → client.iomode = 0 →
      client.buf.length = P.UNIAUTH_MAX_MESSAGE → (∀ c ∈ chunks, c ≠ []) →
      client.bufsz + chunks.flatten.length ≤ P.UNIAUTH_MAX_MESSAGE →
      s.reads = chunks.map ReadOutcome.data ++ ReadOutcome.fail :: rs →
      clientbuf_operation P client s
        = (1, { received client chunks.flatten with status := Status.error },
           { s with reads := rs })) ∧
    (client.eof = false → client.iomode ≠ 0 →
      (∀ w ∈ s.writes, w ≠ WriteOutcome.fail) →
      ∃ t, t ≤ client.bufsz ∧
        (clientbuf_operation P client s).1 = 0 ∧
        (clientbuf_operation P client s).2.2.sent
          = s.sent ++ slice client.buf client.bufit t ∧
        (clientbuf_operation P client s).2.1.bufit = 0 ∧
        (clientbuf_operation P client s).2.1.bufsz = client.bufsz - t ∧
        slice (clientbuf_operation P client s).2.1.buf 0 (client.bufsz - t)
          = slice client.buf (client.bufit + t) (client.bufsz - t) ∧
        (clientbuf_operation P client s).2.1.status
          = (if client.bufsz - t = 0 then Status.complete else client.status)) ∧
    (client.eof = false → client.iomode ≠ 0 →
      s.writes = ns.map WriteOutcome.accept ++ WriteOutcome.fail :: ws →
      ns.sum < client.bufsz →
      clientbuf_operation P client s
        = (1, { client with status := Status.error },
           { s with writes := ws, sent := s.sent ++ slice client.buf client.bufit ns.sum })) := by
  refine ⟨?_, ?_, ?_, ?_⟩
  · intro he hm hlen hne hfit hr
    have hres : clientbuf_operation P client s
        = ((parse_buffer P (received client chunks.flatten)).1,
           (parse_buffer P (received client chunks.flatten)).2,
           { s with reads := [] }) ∨
        clientbuf_operation P client s
        = ((parse_buffer P (received client chunks.flatten)).1,
           (parse_buffer P (received client chunks.flatten)).2,
           { s with reads := rs }) := by
      rcases hr with hr | hr
      · left
        have := read_loop_chunks P client.bufsz chunks [] client hne hfit hlen
        rw [List.append_nil] at this
        simp only [clientbuf_operation, he, hm, hr, this, read_loop, Bool.false_eq_true,
          if_false, if_true]
      · right
        have := read_loop_chunks P client.bufsz chunks (ReadOutcome.wouldblock :: rs) client
          hne hfit hlen
        simp only [clientbuf_operation, he, hm, hr, this, read_loop, Bool.false_eq_true,
          if_false, if_true]
    have h1 : (clientbuf_operation P client s).1
        = (parse_buffer P (received client chunks.flatten)).1 := by
      rcases hres with h | h <;> rw [h]
    have h2 : (clientbuf_operation P client s).2.1
        = (parse_buffer P (received client chunks.flatten)).2 := by
      rcases hres with h | h <;> rw [h]
    refine ⟨h1, h2, ?_⟩
    rw [h1, h2]
    rcases parse_buffer_ret P (received client chunks.flatten) with ⟨a, b⟩ | ⟨a, b⟩
    · left; exact ⟨a, b⟩
    · right; exact ⟨a, b, a⟩
  · intro he hm hlen hne hfit hr
    have := read_loop_chunks P client.bufsz chunks (ReadOutcome.fail :: rs) client
      hne hfit hlen
    simp only [clientbuf_operation, he, hm, hr, this, read_loop, Bool.false_eq_true,
      if_false, if_true]
  · intro he hm hw
    have hop : clientbuf_operation P client s = flush_buffer client s := by
      simp only [clientbuf_operation, he, hm, Bool.false_eq_true, if_false]
    rw [hop]
    exact flush_buffer_flow client s hw
  · intro he hm hw hlt
    have hop : clientbuf_operation P client s = flush_buffer client s := by
      simp only [clientbuf_operation, he, hm, Bool.false_eq_true, if_false]
    rw [hop]
    simp only [flush_buffer, hw, flush_loop_fail client.buf client.bufit ws ns 0 client.bufsz
      s.sent hlt, if_true, Nat.add_zero]

/-- Witness for C21: a connection in the output phase with four buffered bytes;
the socket takes one byte and then fails: the call returns 1 with status
error. -/
theorem flow_control_versus_failure_witness :
    (clientbuf_operation stdProto
        { clientbuf_init stdProto 3 0 with iomode := 1, bufsz := 4,
                                           status := Status.incomplete }
        ⟨[], [WriteOutcome.accept 1, WriteOutcome.fail], []⟩).1 = 1 := by
  have h := (flow_control_versus_failure stdProto
    { clientbuf_init stdProto 3 0 with iomode := 1, bufsz := 4, status := Status.incomplete }
    ⟨[], [WriteOutcome.accept 1, WriteOutcome.fail], []⟩ [] [] [1] []).2.2.2
    rfl (by decide) rfl (by decide)
  rw [h]

/-! ## Daemon parser: what one call does, for every buffer content -/

theorem slice_one (buf : List Nat) (i : Nat) : slice buf i 1 = [buf.getD i 0] := by
  simp [slice, List.range_succ]

theorem slice_cons (buf : List Nat) (i n : Nat) :
    slice buf i (n + 1) = buf.getD i 0 :: slice buf (i + 1) n := by
  rw [Nat.add_comm n 1, ← slice_append, slice_one]
  rfl

theorem not_mem_slice (buf : List Nat) (off n : Nat)
    (h : ∀ k, off ≤ k → k < off + n → buf.getD k 0 ≠ 0) : 0 ∉ slice buf off n := by
  intro hm
  unfold slice at hm
  rw [List.mem_map] at hm
  obtain ⟨j, hj, e⟩ := hm
  exact h (off + j) (by omega) (by have := List.mem_range.mp hj; omega) e

theorem serverStringTag_or (P : Proto) (t : Nat) (h : t ∈ P.fieldTags) :
    P.serverStringTag t ∨ t = P.UNIAUTH_PROTO_FIELD_ID ∨ t = P.UNIAUTH_PROTO_FIELD_EXPIRE := by
  simp only [Proto.fieldTags, List.mem_cons, List.mem_singleton, List.not_mem_nil,
    or_false] at h
  unfold Proto.serverStringTag
  tauto

theorem clientbuf_eta_expire (client : clientbuf) :
    { client with stor := { client.stor with expire := client.stor.expire } } = client := rfl

/-- The `switch` of `parse_buffer` on the tag byte at an index below the fill
length: the tag is unknown, or its field is incomplete and nothing changes, or
a whole field stands there and is stored. -/
theorem parse_field_total (P : Proto) (hP : P.wf) (client : clientbuf) (iter : Nat) :
    (client.buf.getD iter 0 ∉ P.fieldTags ∧
      parse_field P client iter (client.buf.getD iter 0) = none) ∨
    ((iter < client.bufsz → field_incomplete P client.buf client.bufsz iter) ∧
      parse_field P client iter (client.buf.getD iter 0) = some (0, client)) ∨
    (∃ f : WireField, f.wf P ∧
      slice client.buf iter (f.bytes P).length = f.bytes P ∧
      iter + (f.bytes P).length ≤ client.bufsz ∧
      parse_field P client iter (client.buf.getD iter 0)
        = some ((f.bytes P).length - 1, store_field P f client)) := by
  by_cases hmem : client.buf.getD iter 0 ∈ P.fieldTags
  · right
    rcases serverStringTag_or P _ hmem with ht | ht | ht
    · -- a string field
      by_cases hj : seek_zero client.buf client.bufsz (client.bufsz - (iter + 1)) (iter + 1)
          < client.bufsz
      · right
        obtain ⟨z1, z2, z3, z4⟩ := first_zero_of_seek_zero client.buf client.bufsz _
          (iter + 1) (Nat.le_refl _) hj
        generalize seek_zero client.buf client.bufsz (client.bufsz - (iter + 1)) (iter + 1)
          = j at z1 z2 z3 z4
        obtain ⟨n, rfl⟩ : ∃ n, j = iter + 1 + n := ⟨j - (iter + 1), by omega⟩
        have hwf : (WireField.string (client.buf.getD iter 0)
            (slice client.buf (iter + 1) n)).wf P :=
          ⟨ht, not_mem_slice _ _ _ (fun k h1 h2 => z4 k h1 h2)⟩
        have hlen : ((WireField.string (client.buf.getD iter 0)
            (slice client.buf (iter + 1) n)).bytes P).length = n + 1 + 1 := by
          simp [WireField.bytes, slice_length]
        have hsl : slice client.buf iter ((WireField.string (client.buf.getD iter 0)
            (slice client.buf (iter + 1) n)).bytes P).length
            = (WireField.string (client.buf.getD iter 0)
              (slice client.buf (iter + 1) n)).bytes P := by
          rw [hlen, slice_cons, ← slice_append, slice_one, z3]
          rfl
        exact ⟨_, hwf, hsl, by rw [hlen]; omega,
          parse_field_complete P hP client iter _ hwf hsl (by rw [hlen]; omega)⟩
      · left
        have hno := no_zero_of_seek_zero client.buf client.bufsz _ (iter + 1) (Nat.le_refl _)
          (by omega)
        exact ⟨fun hi => ⟨hi, Or.inl ⟨ht, hno⟩⟩,
          parse_field_string_incomplete P hP client iter _ ht
            (fun d p => read_string_incomplete client (iter + 1) d p hno)⟩
    · -- the id field
      rw [ht]
      by_cases hsz : iter + 1 + 4 ≤ client.bufsz
      · right
        have hb : slice client.buf iter (1 + 4)
            = P.UNIAUTH_PROTO_FIELD_ID :: slice client.buf (iter + 1) 4 := by
          rw [← slice_append, slice_one, ht]; rfl
        have hpf := parse_field_complete P hP client iter
          (WireField.integer (slice client.buf (iter + 1) 4)) (slice_length _ _ _)
          (by simpa [WireField.bytes, slice_length, Nat.add_comm] using hb)
          (by simp [WireField.bytes, slice_length]; omega)
        rw [ht] at hpf
        refine ⟨WireField.integer (slice client.buf (iter + 1) 4), slice_length _ _ _,
          ?_, ?_, hpf⟩
        · simpa [WireField.bytes, slice_length, Nat.add_comm] using hb
        · simp [WireField.bytes, slice_length]; omega
      · left
        refine ⟨fun hi => ⟨hi, Or.inr (Or.inl ⟨ht, by omega⟩)⟩, ?_⟩
        rw [parse_field_integer P hP]
        have : read_integer client (iter + 1) client.stor.id = (0, client.stor.id) := by
          simp only [read_integer, UNIAUTH_INT_SZ]
          rw [if_neg hsz]
        rw [this]
    · -- the expiry field
      rw [ht]
      by_cases hsz : iter + 1 + 8 ≤ client.bufsz
      · right
        have hb : slice client.buf iter (1 + 8)
            = P.UNIAUTH_PROTO_FIELD_EXPIRE :: slice client.buf (iter + 1) 8 := by
          rw [← slice_append, slice_one, ht]; rfl
        have hpf := parse_field_complete P hP client iter
          (WireField.time (slice client.buf (iter + 1) 8)) (slice_length _ _ _)
          (by simpa [WireField.bytes, slice_length, Nat.add_comm] using hb)
          (by simp [WireField.bytes, slice_length]; omega)
        rw [ht] at hpf
        refine ⟨WireField.time (slice client.buf (iter + 1) 8), slice_length _ _ _,
          ?_, ?_, hpf⟩
        · simpa [WireField.bytes, slice_length, Nat.add_comm] using hb
        · simp [WireField.bytes, slice_length]; omega
      · left
        refine ⟨fun hi => ⟨hi, Or.inr (Or.inr ⟨ht, by omega⟩)⟩, ?_⟩
        rw [parse_field_time P hP]
        have : read_time client (iter + 1) client.stor.expire = (0, client.stor.expire) := by
          simp only [read_time, UNIAUTH_TIME_SZ]
          rw [if_neg hsz]
        rw [this]
  · left
    exact ⟨hmem, parse_field_unknown P client iter _ hmem⟩

/-- The loop of `parse_buffer` from a cursor that is not beyond the fill
length, for every buffer content: it walks a run of whole fields, stores them,
and then meets the end of the bytes (or an incomplete field), the end-marker,
or an unknown tag. -/
theorem parse_loop_total (P : Proto) (hP : P.wf) :
    ∀ (fuel : Nat) (client : clientbuf) (iter : Nat),
      client.bufsz - iter ≤ fuel → iter ≤ client.bufsz →
      ∃ (fs : List WireField) (e : Nat), e = iter + (wire_bytes P fs).length ∧
        (∀ f ∈ fs, f.wf P) ∧
        slice client.buf iter (wire_bytes P fs).length = wire_bytes P fs ∧
        e ≤ client.bufsz ∧
        (((e = client.bufsz ∨ field_incomplete P client.buf client.bufsz e) ∧
            parse_loop P fuel client iter
              = (0, { store_fields P fs client with bufit := e })) ∨
          (e < client.bufsz ∧ client.buf.getD e 0 = P.UNIAUTH_PROTO_FIELD_END ∧
            parse_loop P fuel client iter
              = (0, { store_fields P fs client with
                        status := Status.complete, bufit := e + 1 })) ∨
          (e < client.bufsz ∧ client.buf.getD e 0 ≠ P.UNIAUTH_PROTO_FIELD_END ∧
            client.buf.getD e 0 ∉ P.fieldTags ∧
            parse_loop P fuel client iter
              = (1, { store_fields P fs client with status := Status.error }))) := by
  intro fuel
  induction fuel with
  | zero =>
    intro client iter hf hi
    refine ⟨[], iter, rfl, by simp, by simp [wire_bytes, slice_zero], hi, Or.inl ⟨Or.inl ?_, ?_⟩⟩
    · omega
    · simp [parse_loop, store_fields]
  | succ fuel ih =>
    intro client iter hf hi
    by_cases hlt : iter < client.bufsz
    · by_cases hend : client.buf.getD iter 0 = P.UNIAUTH_PROTO_FIELD_END
      · exact ⟨[], iter, rfl, by simp, by simp [wire_bytes, slice_zero], hi,
          Or.inr (Or.inl ⟨hlt, hend, by
            rw [parse_loop_end P fuel client iter hlt hend]; simp [store_fields]⟩)⟩
      · rcases parse_field_total P hP client iter with ⟨hu, _⟩ | ⟨hinc, hpf⟩ | ⟨f, hwf, hsl, hsz, hpf⟩
        · exact ⟨[], iter, rfl, by simp, by simp [wire_bytes, slice_zero], hi,
            Or.inr (Or.inr ⟨hlt, hend, hu, by
              rw [parse_loop_bad_tag P fuel client iter hlt hend hu]; simp [store_fields]⟩)⟩
        · refine ⟨[], iter, rfl, by simp, by simp [wire_bytes, slice_zero], hi,
            Or.inl ⟨Or.inr (hinc hlt), ?_⟩⟩
          simp only [parse_loop, hlt, hend, hpf, if_true, if_false, store_fields,
            List.foldl_nil]
        · have h2 := WireField.bytes_two P f hwf
          obtain ⟨b1, b2, _, _, _, _, _, _, _⟩ := store_field_frame P f client
          have hstep := parse_loop_field P hP fuel client iter f hwf hsl hsz
          obtain ⟨fs, e, he, hfs, hs2, hle, hout⟩ := ih (store_field P f client)
            (iter + (f.bytes P).length) (by rw [b2]; omega) (by rw [b2]; exact hsz)
          rw [b1] at hs2 hout
          rw [b2] at hle hout
          refine ⟨f :: fs, e, ?_, ?_, ?_, hle, ?_⟩
          · rw [he]; simp only [wire_bytes, List.length_append]; omega
          · intro g hg
            rcases List.mem_cons.mp hg with rfl | hg
            · exact hwf
            · exact hfs g hg
          · simp only [wire_bytes, List.length_append]
            rw [← slice_append, hsl, hs2]
          · rw [hstep]
            have e1 : store_fields P (f :: fs) client
                = store_fields P fs (store_field P f client) := rfl
            rw [e1]
            exact hout
    · have hieq : client.bufsz ≤ iter := by omega
      refine ⟨[], iter, rfl, by simp, by simp [wire_bytes, slice_zero], hi,
        Or.inl ⟨Or.inl (by omega), ?_⟩⟩
      rw [parse_loop_exit P _ client iter hieq]
      simp [store_fields]

theorem parse_loop_incomplete (P : Proto) (hP : P.wf) (client : clientbuf) (iter : Nat)
    (hi : iter ≤ client.bufsz)
    (hres : (parse_loop P (client.bufsz - iter) client iter).2.status = Status.incomplete) :
    (parse_loop P (client.bufsz - iter) client iter).1 = 0 ∧
    ∃ fs : List WireField, (∀ f ∈ fs, f.wf P) ∧
      slice client.buf iter (wire_bytes P fs).length = wire_bytes P fs ∧
      (parse_loop P (client.bufsz - iter) client iter).2.bufit
        = iter + (wire_bytes P fs).length ∧
      ((parse_loop P (client.bufsz - iter) client iter).2.bufit = client.bufsz ∨
        field_incomplete P client.buf client.bufsz
          (parse_loop P (client.bufsz - iter) client iter).2.bufit) ∧
      (parse_loop P (client.bufsz - iter) client iter).2
        = { store_fields P fs client with bufit := iter + (wire_bytes P fs).length } := by
  obtain ⟨fs, e, he, hfs, hsl, _, hout⟩ :=
    parse_loop_total P hP (client.bufsz - iter) client iter (Nat.le_refl _) hi
  rcases hout with ⟨hstop, hr⟩ | ⟨_, _, hr⟩ | ⟨_, _, _, hr⟩
  · rw [hr]
    subst he
    exact ⟨rfl, fs, hfs, hsl, rfl, hstop, rfl⟩
  · rw [hr] at hres
    exact absurd hres (by simp)
  · rw [hr] at hres
    exact absurd hres (by simp)

/-- C23. When `parse_buffer` returns with status incomplete (the fill length is
positive and the starting cursor, which is `bufit + 1` behind the opcode of a
new message and `bufit` otherwise, is not beyond it): it returns 0; there is a
run of whole fields from the starting cursor to the saved cursor `bufit`; the
saved cursor is the fill length or the index of the tag byte of a field that
is not complete; and the connection is the one in which exactly these fields
have been stored.  Only a connection with status notset or incomplete is left
with status incomplete.  `read_string` without a zero byte in the available
span, `read_integer` with fewer than 4 and `read_time` with fewer than 8
available bytes return 0 and their outputs unchanged. -/
theorem saved_cursor_on_incomplete (P : Proto) (hP : P.wf) (client : clientbuf)
    (hsz : 0 < client.bufsz)
    (hres : (parse_buffer P client).2.status = Status.incomplete) :
    (client.status = Status.notset ∨ client.status = Status.incomplete) ∧
    (client.status = Status.notset → client.bufit + 1 ≤ client.bufsz →
      (parse_buffer P client).1 = 0 ∧
      ∃ fs : List WireField, (∀ f ∈ fs, f.wf P) ∧
        slice client.buf (client.bufit + 1) (wire_bytes P fs).length = wire_bytes P fs ∧
        (parse_buffer P client).2.bufit = client.bufit + 1 + (wire_bytes P fs).length ∧
        ((parse_buffer P client).2.bufit = client.bufsz ∨
          field_incomplete P client.buf client.bufsz (parse_buffer P client).2.bufit) ∧
        (parse_buffer P client).2
          = { store_fields P fs
                { client with opkind := (client.buf.getD client.bufit 0 : Nat),
                              status := Status.incomplete } with
              bufit := client.bufit + 1 + (wire_bytes P fs).length }) ∧
    (client.status = Status.incomplete → client.bufit ≤ client.bufsz →
      (parse_buffer P client).1 = 0 ∧
      ∃ fs : List WireField, (∀ f ∈ fs, f.wf P) ∧
        slice client.buf client.bufit (wire_bytes P fs).length = wire_bytes P fs ∧
        (parse_buffer P client).2.bufit = client.bufit + (wire_bytes P fs).length ∧
        ((parse_buffer P client).2.bufit = client.bufsz ∨
          field_incomplete P client.buf client.bufsz (parse_buffer P client).2.bufit) ∧
        (parse_buffer P client).2
          = { store_fields P fs client with
              bufit := client.bufit + (wire_bytes P fs).length }) ∧
    (∀ (c : clientbuf) (iter : Nat) (d : Option (List Nat)) (p : Nat),
      (∀ k, iter ≤ k → k < c.bufsz → c.buf.getD k 0 ≠ 0) →
      read_string c iter d p = (0, d, p)) ∧
    (∀ (c : clientbuf) (iter : Nat) (d : Int), c.bufsz < iter + 4 →
      read_integer c iter d = (0, d)) ∧
    (∀ (c : clientbuf) (iter : Nat) (d : Int), c.bufsz < iter + 8 →
      read_time c iter d = (0, d)) := by
  have h0 : ¬ client.bufsz ≤ 0 := by omega
  refine ⟨?_, ?_, ?_, ?_, ?_, ?_⟩
  · by_cases hn : client.status = Status.notset
    · exact Or.inl hn
    · right
      unfold parse_buffer at hres
      simp only [h0, hn, if_false] at hres
      rcases parse_loop_ret P (client.bufsz - client.bufit) client client.bufit
        with ⟨_, _⟩ | ⟨_, b⟩
      · by_cases hle : client.bufit ≤ client.bufsz
        · obtain ⟨fs, e, _, _, _, _, hout⟩ :=
            parse_loop_total P hP (client.bufsz - client.bufit) client client.bufit
              (Nat.le_refl _) hle
          have hst := (store_fields_frame P fs client).2.2.1
          rcases hout with ⟨_, hr⟩ | ⟨_, _, hr⟩ | ⟨_, _, _, hr⟩
          · rw [hr] at hres
            simp only at hres
            rw [← hst]; exact hres
          · rw [hr] at hres; exact absurd hres (by simp)
          · rw [hr] at hres; exact absurd hres (by simp)
        · rw [parse_loop_exit P _ client client.bufit (by omega)] at hres
          exact hres
      · rw [b] at hres; exact absurd hres (by simp)
  · intro hn hle
    unfold parse_buffer at hres ⊢
    simp only [h0, hn, if_false, if_true] at hres ⊢
    by_cases hop : ((client.buf.getD client.bufit 0 : Nat) : Int) < 0
        ∨ ((client.buf.getD client.bufit 0 : Nat) : Int) ≥ (P.UNIAUTH_OP_TOP : Int)
    · rw [if_pos hop] at hres
      exact absurd hres (by simp)
    · rw [if_neg hop] at hres ⊢
      exact parse_loop_incomplete P hP
        { client with opkind := (client.buf.getD client.bufit 0 : Nat),
                      status := Status.incomplete } (client.bufit + 1) hle hres
  · intro hn hle
    have hne : client.status ≠ Status.notset := by rw [hn]; decide
    unfold parse_buffer at hres ⊢
    simp only [h0, hne, if_false] at hres ⊢
    exact parse_loop_incomplete P hP client client.bufit hle hres
  · intro c iter d p h
    exact read_string_incomplete c iter d p h
  · intro c iter d h
    simp only [read_integer, UNIAUTH_INT_SZ]
    rw [if_neg (by omega)]
  · intro c iter d h
    simp only [read_time, UNIAUTH_TIME_SZ]
    rw [if_neg (by omega)]

/-- Witness for C23: a fresh connection that holds the three bytes `LOOKUP`,
`KEY`, "a" (no terminator yet): the parser returns 0 with the cursor saved on
the tag byte at index 1. -/
theorem saved_cursor_on_incomplete_witness :
    (parse_buffer stdProto (received (clientbuf_init stdProto 3 0) [0, 1, 97])).1 = 0 ∧
    (parse_buffer stdProto (received (clientbuf_init stdProto 3 0) [0, 1, 97])).2.bufit = 1 :=
  ⟨((saved_cursor_on_incomplete stdProto (by decide)
      (received (clientbuf_init stdProto 3 0) [0, 1, 97]) (by decide) (by decide)).2.1
      (by decide) (by decide)).1, by decide⟩

/-! ## Client: the recogniser and the decoder walk the same fields -/

theorem wire_bytes_singleton (P : Proto) (f : WireField) : wire_bytes P [f] = f.bytes P := by
  simp [wire_bytes]

/-- The field-tag positions that the recogniser reaches are the boundaries of a
run of whole record fields that starts at index 1. -/
theorem recv_walk_extract (P : Proto) (buffer : List Nat) (it : Nat) :
    ∀ i, RecvWalk P buffer it i →
      ∃ fs : List WireField, (∀ f ∈ fs, f.record_wf P) ∧
        slice buffer 1 (wire_bytes P fs).length = wire_bytes P fs ∧
        i = 1 + (wire_bytes P fs).length ∧
        ∀ k, k ≤ fs.length →
          RecvWalk P buffer it (1 + (wire_bytes P (fs.take k)).length) := by
  intro i hw
  -- one more field behind a run
  have hstep : ∀ (i i2 : Nat) (f : WireField), RecvWalk P buffer it i2 →
      f.record_wf P → slice buffer i (f.bytes P).length = f.bytes P →
      i2 = i + (f.bytes P).length →
      (∃ fs : List WireField, (∀ f ∈ fs, f.record_wf P) ∧
        slice buffer 1 (wire_bytes P fs).length = wire_bytes P fs ∧
        i = 1 + (wire_bytes P fs).length ∧
        ∀ k, k ≤ fs.length →
          RecvWalk P buffer it (1 + (wire_bytes P (fs.take k)).length)) →
      ∃ fs : List WireField, (∀ f ∈ fs, f.record_wf P) ∧
        slice buffer 1 (wire_bytes P fs).length = wire_bytes P fs ∧
        i2 = 1 + (wire_bytes P fs).length ∧
        ∀ k, k ≤ fs.length →
          RecvWalk P buffer it (1 + (wire_bytes P (fs.take k)).length) := by
    intro i i2 f hw2 hwf hsl hi2 ⟨fs, hfs, hs1, hi, hk⟩
    refine ⟨fs ++ [f], ?_, ?_, ?_, ?_⟩
    · intro g hg
      rcases List.mem_append.mp hg with hg | hg
      · exact hfs g hg
      · rw [List.mem_singleton.mp hg]; exact hwf
    · rw [wire_bytes_append, wire_bytes_singleton, List.length_append, ← slice_append, hs1,
        ← hi, hsl]
    · rw [wire_bytes_append, wire_bytes_singleton, List.length_append, hi2, hi]
      omega
    · intro k hkl
      rw [List.length_append, List.length_singleton] at hkl
      by_cases hk1 : k ≤ fs.length
      · rw [List.take_append_of_le_length hk1]
        exact hk k hk1
      · have : k = (fs ++ [f]).length := by simp; omega
        rw [this, List.take_length, wire_bytes_append, wire_bytes_singleton,
          List.length_append]
        have e : 1 + ((wire_bytes P fs).length + (f.bytes P).length) = i2 := by
          rw [hi2, hi]; omega
        rw [e]
        exact hw2
  induction hw with
  | start =>
    refine ⟨[], by simp, by simp [wire_bytes, slice_zero], by simp [wire_bytes], ?_⟩
    intro k hk
    simp only [List.length_nil, Nat.le_zero] at hk
    subst hk
    simpa [wire_bytes] using RecvWalk.start
  | string i j hw hi hs hfz ih =>
    obtain ⟨z1, z2, z3, z4⟩ := hfz
    obtain ⟨n, rfl⟩ : ∃ n, j = i + 1 + n := ⟨j - (i + 1), by omega⟩
    have hlen : ((WireField.string (buffer.getD i 0) (slice buffer (i + 1) n)).bytes P).length
        = n + 1 + 1 := by
      simp [WireField.bytes, slice_length]
    refine hstep i (i + 1 + n + 1) (WireField.string (buffer.getD i 0) (slice buffer (i + 1) n))
      (RecvWalk.string i (i + 1 + n) hw hi hs ⟨z1, z2, z3, z4⟩)
      ⟨hs, not_mem_slice _ _ _ (fun k h1 h2 => z4 k h1 h2)⟩ ?_ (by rw [hlen]; omega) ih
    rw [hlen, slice_cons, ← slice_append, slice_one, z3]
    rfl
  | integer i hw hi ht ih =>
    refine hstep i (i + 1 + 4) (WireField.integer (slice buffer (i + 1) 4))
      (RecvWalk.integer i hw hi ht) (slice_length _ _ _) ?_
      (by simp [WireField.bytes, slice_length]) ih
    simp only [WireField.bytes, List.length_cons, slice_length]
    rw [slice_cons, ht]
  | time i hw hi ht ih =>
    refine hstep i (i + 1 + 8) (WireField.time (slice buffer (i + 1) 8))
      (RecvWalk.time i hw hi ht) (slice_length _ _ _) ?_
      (by simp [WireField.bytes, slice_length]) ih
    simp only [WireField.bytes, List.length_cons, slice_length]
    rw [slice_cons, ht]

/-- The decoder's loop over a run of whole record fields that lies within the
`sz` bytes. -/
theorem read_storage_loop_run (P : Proto) (hP : P.wf) (buffer : List Nat) (sz : Nat) :
    ∀ (fs : List WireField) (fuel pos : Nat) (stor : uniauth_storage),
      (∀ f ∈ fs, f.record_wf P) →
      slice buffer pos (wire_bytes P fs).length = wire_bytes P fs →
      pos + (wire_bytes P fs).length ≤ sz →
      read_storage_loop P buffer sz (fuel + fs.length) pos stor
        = read_storage_loop P buffer sz fuel (pos + (wire_bytes P fs).length)
            (client_store_fields P fs stor) := by
  intro fs
  induction fs with
  | nil =>
    intro fuel pos stor _ _ _
    simp [wire_bytes, client_store_fields]
  | cons f fs ih =>
    intro fuel pos stor hwf hb hsz
    have hwf1 := hwf f (List.mem_cons_self _ _)
    have hwf2 : ∀ g ∈ fs, g.record_wf P := fun g hg => hwf g (List.mem_cons_of_mem _ hg)
    have h2 := WireField.bytes_two P f (WireField.wf_of_record_wf P f hwf1)
    simp only [wire_bytes, List.length_append] at hb hsz ⊢
    have hsplit := slice_split buffer pos (f.bytes P) (wire_bytes P fs) (by
      rw [List.length_append]; exact hb)
    have h0 : buffer.getD pos 0 ≠ P.UNIAUTH_PROTO_FIELD_END := by
      have := getD_of_slice_eq buffer pos _ hsplit.1 0 (by omega)
      rw [Nat.add_zero] at this
      rw [this]
      exact WireField.tag_ne_end P hP f (WireField.wf_of_record_wf P f hwf1)
    have hfield := read_storage_field_complete P hP buffer pos (sz - pos - 1) f hwf1 stor
      hsplit.1 (by omega)
    rw [List.length_cons, ← Nat.add_assoc]
    simp only [read_storage_loop, h0, if_false, hfield]
    rw [if_pos (by omega), if_neg (by omega)]
    rw [show pos + 1 + ((f.bytes P).length - 1) = pos + (f.bytes P).length by omega]
    rw [ih fuel (pos + (f.bytes P).length) _ hwf2 hsplit.2 (by omega)]
    simp only [client_store_fields, List.foldl_cons, Nat.add_assoc]

/-- C25: when `uniauth_connect_recv` classifies a buffer of `sz` bytes that
starts with the record opcode as complete, the bytes from index 1 are a run of
whole record fields followed by the end-marker below `sz`; at every boundary of
that run both the recogniser's loop and the loop of `read_storage_record` arrive
(the decoder with the fields before it stored); `read_storage_record` stops at
the end-marker without reporting a communication error; and its result depends
only on the bytes at the indices below `sz`. -/
theorem recogniser_decoder_agreement (P : Proto) (hP : P.wf) (buffer0 : List Nat)
    (maxsz iter : Nat) (bytes buffer : List Nat) (sz : Nat) (stor : uniauth_storage)
    (hr : uniauth_connect_recv P buffer0 maxsz iter (ReadOutcome.data bytes) = (0, buffer, sz))
    (h0 : buffer.getD 0 0 = P.UNIAUTH_PROTO_RESPONSE_RECORD) :
    ∃ fs : List WireField, (∀ f ∈ fs, f.record_wf P) ∧
      slice buffer 1 (wire_bytes P fs ++ [P.UNIAUTH_PROTO_FIELD_END]).length
        = wire_bytes P fs ++ [P.UNIAUTH_PROTO_FIELD_END] ∧
      1 + (wire_bytes P fs).length < sz ∧
      (∀ k, k ≤ fs.length →
        (∃ fuel, sz - (1 + (wire_bytes P (fs.take k)).length) ≤ fuel ∧
          recv_record_loop P buffer sz sz 1
            = recv_record_loop P buffer sz fuel (1 + (wire_bytes P (fs.take k)).length)) ∧
        (∃ fuel, fs.length - k + 1 ≤ fuel ∧
          read_storage_record P buffer sz stor
            = read_storage_loop P buffer sz fuel (1 + (wire_bytes P (fs.take k)).length)
                (client_store_fields P (fs.take k) stor))) ∧
      recv_record_loop P buffer sz sz 1 = 0 ∧
      read_storage_record P buffer sz stor
        = ⟨client_store_fields P fs stor, 1 + (wire_bytes P fs).length, false⟩ ∧
      ∀ b2 : List Nat, (∀ j, j < sz → b2.getD j 0 = buffer.getD j 0) →
        read_storage_record P b2 sz stor = read_storage_record P buffer sz stor := by
  simp only [uniauth_connect_recv, Prod.mk.injEq] at hr
  obtain ⟨hc, hb, hs⟩ := hr
  rw [hb, hs] at hc
  have hloop : recv_record_loop P buffer sz sz 1 = 0 := by
    have hne := hP.2.1
    simp only [List.nodup_cons, List.mem_cons, List.mem_singleton, not_or, List.mem_nil_iff,
      or_false] at hne
    simp only [recv_classify] at hc
    rw [if_neg (by rw [h0]; rintro (e | e); exact hne.1.2 e.symm; exact hne.2.1 e.symm),
      if_pos h0] at hc
    exact hc
  have hsz : 1 ≤ sz := by
    rcases Nat.eq_zero_or_pos sz with h | h
    · rw [h] at hloop; simp [recv_record_loop] at hloop
    · exact h
  obtain ⟨e, hw, he, hend⟩ := ((recv_classify_spec P hP buffer sz hsz).2.1 h0).1.mp hc
  obtain ⟨fs, hwf, hsl, hi, hk⟩ := recv_walk_extract P buffer sz e hw
  subst hi
  have hfull : slice buffer 1 (wire_bytes P fs ++ [P.UNIAUTH_PROTO_FIELD_END]).length
      = wire_bytes P fs ++ [P.UNIAUTH_PROTO_FIELD_END] := by
    rw [List.length_append, ← slice_append, hsl, List.length_singleton, slice_one, hend]
  have hlen : fs.length ≤ (wire_bytes P fs).length := by
    have := wire_bytes_length_ge P fs (fun f hf => WireField.wf_of_record_wf P f (hwf f hf))
    omega
  have hdec : ∀ b2 : List Nat, (∀ j, j < sz → b2.getD j 0 = buffer.getD j 0) →
      read_storage_record P b2 sz stor
        = ⟨client_store_fields P fs stor, 1 + (wire_bytes P fs).length, false⟩ := by
    intro b2 hb2
    have h2 : slice b2 1 (wire_bytes P fs ++ [P.UNIAUTH_PROTO_FIELD_END]).length
        = wire_bytes P fs ++ [P.UNIAUTH_PROTO_FIELD_END] := by
      rw [← hfull]
      rw [slice_length, List.length_append, List.length_singleton]
      apply slice_congr
      intro j hj
      exact hb2 _ (by omega)
    exact read_storage_loop_fields P hP b2 sz fs sz 1 stor hwf h2 (by omega) (by omega)
  refine ⟨fs, hwf, hfull, he, ?_, hloop, hdec buffer (fun _ _ => rfl), ?_⟩
  · intro k hkl
    refine ⟨recv_record_loop_along P hP buffer sz _ (hk k hkl), ?_⟩
    have htd : wire_bytes P fs = wire_bytes P (fs.take k) ++ wire_bytes P (fs.drop k) := by
      rw [← wire_bytes_append, List.take_append_drop]
    have hpre : slice buffer 1 (wire_bytes P (fs.take k)).length = wire_bytes P (fs.take k) := by
      rw [htd] at hsl
      exact (slice_split buffer 1 _ _ hsl).1
    have hle : (wire_bytes P (fs.take k)).length ≤ (wire_bytes P fs).length := by
      rw [htd, List.length_append]; omega
    have hrun := read_storage_loop_run P hP buffer sz (fs.take k) (sz - k) 1 stor
      (fun f hf => hwf f (List.mem_of_mem_take hf)) hpre (by omega)
    rw [List.length_take, Nat.min_eq_left hkl, Nat.sub_add_cancel (by omega)] at hrun
    exact ⟨sz - k, by omega, hrun⟩
  · intro b2 hb2
    rw [hdec b2 hb2, hdec buffer (fun _ _ => rfl)]

/-- C25 at the five bytes `RECORD · KEY "a" 0 · END`, received in one read. -/
theorem recogniser_decoder_agreement_witness :
    uniauth_connect_recv stdProto (List.replicate 8 0) 8 0 (ReadOutcome.data [6, 1, 97, 0, 10])
        = (0, [6, 1, 97, 0, 10, 0, 0, 0], 5) ∧
      ∃ fs : List WireField, (∀ f ∈ fs, f.record_wf stdProto) ∧
        slice [6, 1, 97, 0, 10, 0, 0, 0] 1
            (wire_bytes stdProto fs ++ [stdProto.UNIAUTH_PROTO_FIELD_END]).length
          = wire_bytes stdProto fs ++ [stdProto.UNIAUTH_PROTO_FIELD_END] ∧
        1 + (wire_bytes stdProto fs).length < 5 ∧
        (∀ k, k ≤ fs.length →
          (∃ fuel, 5 - (1 + (wire_bytes stdProto (fs.take k)).length) ≤ fuel ∧
            recv_record_loop stdProto [6, 1, 97, 0, 10, 0, 0, 0] 5 5 1
              = recv_record_loop stdProto [6, 1, 97, 0, 10, 0, 0, 0] 5 fuel
                  (1 + (wire_bytes stdProto (fs.take k)).length)) ∧
          (∃ fuel, fs.length - k + 1 ≤ fuel ∧
            read_storage_record stdProto [6, 1, 97, 0, 10, 0, 0, 0] 5 record_a
              = read_storage_loop stdProto [6, 1, 97, 0, 10, 0, 0, 0] 5 fuel
                  (1 + (wire_bytes stdProto (fs.take k)).length)
                  (client_store_fields stdProto (fs.take k) record_a))) ∧
        recv_record_loop stdProto [6, 1, 97, 0, 10, 0, 0, 0] 5 5 1 = 0 ∧
        read_storage_record stdProto [6, 1, 97, 0, 10, 0, 0, 0] 5 record_a
          = ⟨client_store_fields stdProto fs record_a, 1 + (wire_bytes stdProto fs).length,
              false⟩ ∧
        ∀ b2 : List Nat,
          (∀ j, j < 5 → b2.getD j 0 = ([6, 1, 97, 0, 10, 0, 0, 0] : List Nat).getD j 0) →
          read_storage_record stdProto b2 5 record_a
            = read_storage_record stdProto [6, 1, 97, 0, 10, 0, 0, 0] 5 record_a :=
  ⟨by decide,
   recogniser_decoder_agreement stdProto (by decide) (List.replicate 8 0) 8 0
     [6, 1, 97, 0, 10] [6, 1, 97, 0, 10, 0, 0, 0] 5 record_a (by decide) (by decide)⟩

/-! ## Daemon: the bounds of the buffer over every sequence of calls -/

theorem writeAt_append_beyond (buf beyond : List Nat) (pos : Nat) (bs : List Nat)
    (h : pos + bs.length ≤ buf.length) :
    writeAt (buf ++ beyond) pos bs = writeAt buf pos bs ++ beyond := by
  unfold writeAt
  rw [List.take_append_of_le_length (by omega), List.drop_append_of_le_length (by omega)]
  simp [List.append_assoc]

theorem slice_append_beyond (buf beyond : List Nat) (off n : Nat) (h : off + n ≤ buf.length) :
    slice (buf ++ beyond) off n = slice buf off n := by
  apply slice_congr
  intro j hj
  exact getD_append_left buf beyond _ (by omega)

theorem seek_zero_congr (b1 b2 : List Nat) (limit : Nat)
    (h : ∀ j, j < limit → b2.getD j 0 = b1.getD j 0) :
    ∀ (fuel i : Nat), seek_zero b2 limit fuel i = seek_zero b1 limit fuel i := by
  intro fuel
  induction fuel with
  | zero => intro i; rfl
  | succ f ih =>
    intro i
    simp only [seek_zero]
    by_cases hi : i < limit
    · rw [if_pos hi, if_pos hi, h i hi, ih]
    · rw [if_neg hi, if_neg hi]

/-- A string field that `read_string` accepts ends within the received bytes. -/
theorem read_string_bound (client : clientbuf) (iter : Nat) (d : Option (List Nat)) (p : Nat)
    (h : (read_string client iter d p).1 ≠ 0) :
    iter + (read_string client iter d p).1 ≤ client.bufsz := by
  have hs := seek_zero_spec client.buf client.bufsz (client.bufsz - iter) iter (Nat.le_refl _)
  unfold read_string at h ⊢
  simp only at h ⊢
  by_cases hj : seek_zero client.buf client.bufsz (client.bufsz - iter) iter < client.bufsz
  · rw [if_pos hj]
    simp only
    omega
  · rw [if_neg hj] at h
    exact absurd rfl h

theorem read_integer_bound (client : clientbuf) (iter : Nat) (d : Int)
    (h : (read_integer client iter d).1 ≠ 0) :
    iter + (read_integer client iter d).1 ≤ client.bufsz := by
  unfold read_integer at h ⊢
  by_cases hj : iter + UNIAUTH_INT_SZ ≤ client.bufsz
  · rw [if_pos hj]; exact hj
  · rw [if_neg hj] at h
    exact absurd rfl h

theorem read_time_bound (client : clientbuf) (iter : Nat) (d : Int)
    (h : (read_time client iter d).1 ≠ 0) :
    iter + (read_time client iter d).1 ≤ client.bufsz := by
  unfold read_time at h ⊢
  by_cases hj : iter + UNIAUTH_TIME_SZ ≤ client.bufsz
  · rw [if_pos hj]; exact hj
  · rw [if_neg hj] at h
    exact absurd rfl h

/-- A field that the `switch` of `parse_buffer` accepts ends within the received
bytes. -/
theorem parse_field_bound (P : Proto) (client client1 : clientbuf) (iter field n : Nat)
    (h : parse_field P client iter field = some (n, client1)) (hn : n ≠ 0) :
    iter + 1 + n ≤ client.bufsz := by
  unfold parse_field at h
  by_cases h0 : field = P.UNIAUTH_PROTO_FIELD_KEY
  · rw [if_pos h0] at h
    simp only [Option.some.injEq, Prod.mk.injEq] at h
    obtain ⟨h1, _⟩ := h
    rw [← h1] at hn ⊢
    exact read_string_bound client (iter + 1) _ _ hn
  rw [if_neg h0] at h
  by_cases h1 : field = P.UNIAUTH_PROTO_FIELD_ID
  · rw [if_pos h1] at h
    simp only [Option.some.injEq, Prod.mk.injEq] at h
    obtain ⟨h1, _⟩ := h
    rw [← h1] at hn ⊢
    exact read_integer_bound client (iter + 1) _ hn
  rw [if_neg h1] at h
  by_cases h2 : field = P.UNIAUTH_PROTO_FIELD_USER
  · rw [if_pos h2] at h
    simp only [Option.some.injEq, Prod.mk.injEq] at h
    obtain ⟨h1, _⟩ := h
    rw [← h1] at hn ⊢
    exact read_string_bound client (iter + 1) _ _ hn
  rw [if_neg h2] at h
  by_cases h3 : field = P.UNIAUTH_PROTO_FIELD_DISPLAY
  · rw [if_pos h3] at h
    simp only [Option.some.injEq, Prod.mk.injEq] at h
    obtain ⟨h1, _⟩ := h
    rw [← h1] at hn ⊢
    exact read_string_bound client (iter + 1) _ _ hn
  rw [if_neg h3] at h
  by_cases h4 : field = P.UNIAUTH_PROTO_FIELD_EXPIRE
  · rw [if_pos h4] at h
    simp only [Option.some.injEq, Prod.mk.injEq] at h
    obtain ⟨h1, _⟩ := h
    rw [← h1] at hn ⊢
    exact read_time_bound client (iter + 1) _ hn
  rw [if_neg h4] at h
  by_cases h5 : field = P.UNIAUTH_PROTO_FIELD_REDIRECT
  · rw [if_pos h5] at h
    simp only [Option.some.injEq, Prod.mk.injEq] at h
    obtain ⟨h1, _⟩ := h
    rw [← h1] at hn ⊢
    exact read_string_bound client (iter + 1) _ _ hn
  rw [if_neg h5] at h
  by_cases h6 : field = P.UNIAUTH_PROTO_FIELD_TAG
  · rw [if_pos h6] at h
    simp only [Option.some.injEq, Prod.mk.injEq] at h
    obtain ⟨h1, _⟩ := h
    rw [← h1] at hn ⊢
    exact read_string_bound client (iter + 1) _ _ hn
  rw [if_neg h6] at h
  by_cases h7 : field = P.UNIAUTH_PROTO_FIELD_TRANSSRC
  · rw [if_pos h7] at h
    simp only [Option.some.injEq, Prod.mk.injEq] at h
    obtain ⟨h1, _⟩ := h
    rw [← h1] at hn ⊢
    exact read_string_bound client (iter + 1) _ _ hn
  rw [if_neg h7] at h
  by_cases h8 : field = P.UNIAUTH_PROTO_FIELD_TRANSDST
  · rw [if_pos h8] at h
    simp only [Option.some.injEq, Prod.mk.injEq] at h
    obtain ⟨h1, _⟩ := h
    rw [← h1] at hn ⊢
    exact read_string_bound client (iter + 1) _ _ hn
  rw [if_neg h8] at h
  exact absurd h (by simp)

/-- What the loop of `parse_buffer` keeps: the buffer, the size and the phase
stay, the saved cursor stays within the size, and a status that was set stays
set. -/
theorem parse_loop_bounds (P : Proto) :
    ∀ (fuel : Nat) (client : clientbuf) (iter : Nat),
      iter ≤ client.bufsz → client.bufit ≤ client.bufsz →
      (parse_loop P fuel client iter).2.buf = client.buf ∧
      (parse_loop P fuel client iter).2.bufsz = client.bufsz ∧
      (parse_loop P fuel client iter).2.iomode = client.iomode ∧
      (parse_loop P fuel client iter).2.bufit ≤ client.bufsz ∧
      (client.status ≠ Status.notset →
        (parse_loop P fuel client iter).2.status ≠ Status.notset) := by
  intro fuel
  induction fuel with
  | zero =>
    intro client iter h1 h2
    exact ⟨rfl, rfl, rfl, h1, id⟩
  | succ fuel ih =>
    intro client iter h1 h2
    simp only [parse_loop]
    by_cases hlt : iter < client.bufsz
    · rw [if_pos hlt]
      by_cases he : client.buf.getD iter 0 = P.UNIAUTH_PROTO_FIELD_END
      · rw [if_pos he]
        exact ⟨rfl, rfl, rfl, hlt, fun _ => by simp⟩
      · rw [if_neg he]
        cases hp : parse_field P client iter (client.buf.getD iter 0) with
        | none => exact ⟨rfl, rfl, rfl, h2, fun _ => by simp⟩
        | some r =>
          obtain ⟨n, client1⟩ := r
          have hfr := parse_field_frame P client client1 iter _ n hp
          simp only
          by_cases h3 : n = 0
          · rw [if_pos h3]
            simp only
            exact ⟨hfr.2.1, hfr.2.2.1, hfr.2.2.2.2.1, h1, fun hs => by rw [hfr.1]; exact hs⟩
          · rw [if_neg h3]
            have hb := parse_field_bound P client client1 iter _ n hp h3
            have := ih client1 (iter + (1 + n)) (by rw [hfr.2.2.1]; omega)
              (by rw [hfr.2.2.1, hfr.2.2.2.1]; exact h2)
            rw [hfr.1, hfr.2.1, hfr.2.2.1, hfr.2.2.2.2.1] at this
            exact this
    · rw [if_neg hlt]
      exact ⟨rfl, rfl, rfl, h1, id⟩

theorem parse_buffer_inv (P : Proto) (client : clientbuf) (h : conn_inv P client)
    (hio : client.iomode = 0) :
    conn_inv P (parse_buffer P client).2 ∧ (parse_buffer P client).2.iomode = 0 := by
  obtain ⟨a1, a2, a3, a4, a5⟩ := h
  unfold parse_buffer
  simp only
  by_cases h1 : client.bufsz ≤ 0
  · rw [if_pos h1]
    exact ⟨⟨a1, a2, a3, a4, a5⟩, hio⟩
  · rw [if_neg h1]
    by_cases h2 : client.status = Status.notset
    · rw [if_pos h2]
      by_cases hop : ((client.buf.getD client.bufit 0 : Nat) : Int) < 0 ∨
          ((client.buf.getD client.bufit 0 : Nat) : Int) ≥ (P.UNIAUTH_OP_TOP : Int)
      · rw [if_pos hop]
        exact ⟨⟨a1, a2, a3, a4, fun hs => by simp at hs⟩, hio⟩
      · rw [if_neg hop]
        have h0 := a5 h2
        have := parse_loop_bounds P (client.bufsz - (client.bufit + 1))
          { client with opkind := (client.buf.getD client.bufit 0 : Nat),
                        status := Status.incomplete } (client.bufit + 1)
          (by simp only; omega) a1
        simp only at this
        obtain ⟨b1, b2, b3, b4, b5⟩ := this
        refine ⟨⟨?_, ?_, ?_, ?_, ?_⟩, by rw [b3]; exact hio⟩
        · rw [b2]; exact b4
        · rw [b2]; exact a2
        · intro hi
          rw [b3] at hi
          exact absurd hio hi
        · rw [b1]; exact a4
        · intro hs
          exact absurd hs (b5 (by simp))
    · rw [if_neg h2]
      obtain ⟨b1, b2, b3, b4, b5⟩ := parse_loop_bounds P (client.bufsz - client.bufit) client
        client.bufit a1 a1
      refine ⟨⟨?_, ?_, ?_, ?_, ?_⟩, by rw [b3]; exact hio⟩
      · rw [b2]; exact b4
      · rw [b2]; exact a2
      · intro hi
        rw [b3] at hi
        exact absurd hio hi
      · rw [b1]; exact a4
      · intro hs
        exact absurd hs (b5 h2)

theorem read_string_congr (client : clientbuf) (b2 : List Nat)
    (h : ∀ j, j < client.bufsz → b2.getD j 0 = client.buf.getD j 0)
    (iter : Nat) (d : Option (List Nat)) (p : Nat) :
    read_string { client with buf := b2 } iter d p = read_string client iter d p := by
  have hs := seek_zero_spec client.buf client.bufsz (client.bufsz - iter) iter (Nat.le_refl _)
  unfold read_string
  simp only
  rw [seek_zero_congr client.buf b2 client.bufsz h]
  by_cases hj : seek_zero client.buf client.bufsz (client.bufsz - iter) iter < client.bufsz
  · rw [if_pos hj, if_pos hj]
    rw [slice_congr b2 client.buf iter iter _ (fun j hjj => h _ (by omega))]
  · rw [if_neg hj, if_neg hj]

theorem read_integer_congr (client : clientbuf) (b2 : List Nat)
    (h : ∀ j, j < client.bufsz → b2.getD j 0 = client.buf.getD j 0)
    (iter : Nat) (d : Int) :
    read_integer { client with buf := b2 } iter d = read_integer client iter d := by
  unfold read_integer
  simp only
  by_cases hj : iter + UNIAUTH_INT_SZ ≤ client.bufsz
  · rw [if_pos hj, if_pos hj]
    rw [le_decode_congr 32 b2 client.buf iter iter _ (fun j hjj => h _ (by omega))]
  · rw [if_neg hj, if_neg hj]

theorem read_time_congr (client : clientbuf) (b2 : List Nat)
    (h : ∀ j, j < client.bufsz → b2.getD j 0 = client.buf.getD j 0)
    (iter : Nat) (d : Int) :
    read_time { client with buf := b2 } iter d = read_time client iter d := by
  unfold read_time
  simp only
  by_cases hj : iter + UNIAUTH_TIME_SZ ≤ client.bufsz
  · rw [if_pos hj, if_pos hj]
    rw [le_decode_congr 64 b2 client.buf iter iter _ (fun j hjj => h _ (by omega))]
  · rw [if_neg hj, if_neg hj]

/-- The `switch` of `parse_buffer` reads the buffer only below the size. -/
theorem parse_field_congr (P : Proto) (client : clientbuf) (b2 : List Nat)
    (h : ∀ j, j < client.bufsz → b2.getD j 0 = client.buf.getD j 0) (iter field : Nat) :
    parse_field P { client with buf := b2 } iter field
      = (parse_field P client iter field).map (fun r => (r.1, { r.2 with buf := b2 })) := by
  unfold parse_field
  simp only [read_string_congr client b2 h, read_integer_congr client b2 h,
    read_time_congr client b2 h]
  by_cases h0 : field = P.UNIAUTH_PROTO_FIELD_KEY
  · rw [if_pos h0, if_pos h0]
    rfl
  rw [if_neg h0, if_neg h0]
  by_cases h1 : field = P.UNIAUTH_PROTO_FIELD_ID
  · rw [if_pos h1, if_pos h1]
    rfl
  rw [if_neg h1, if_neg h1]
  by_cases h2 : field = P.UNIAUTH_PROTO_FIELD_USER
  · rw [if_pos h2, if_pos h2]
    rfl
  rw [if_neg h2, if_neg h2]
  by_cases h3 : field = P.UNIAUTH_PROTO_FIELD_DISPLAY
  · rw [if_pos h3, if_pos h3]
    rfl
  rw [if_neg h3, if_neg h3]
  by_cases h4 : field = P.UNIAUTH_PROTO_FIELD_EXPIRE
  · rw [if_pos h4, if_pos h4]
    rfl
  rw [if_neg h4, if_neg h4]
  by_cases h5 : field = P.UNIAUTH_PROTO_FIELD_REDIRECT
  · rw [if_pos h5, if_pos h5]
    rfl
  rw [if_neg h5, if_neg h5]
  by_cases h6 : field = P.UNIAUTH_PROTO_FIELD_TAG
  · rw [if_pos h6, if_pos h6]
    rfl
  rw [if_neg h6, if_neg h6]
  by_cases h7 : field = P.UNIAUTH_PROTO_FIELD_TRANSSRC
  · rw [if_pos h7, if_pos h7]
    rfl
  rw [if_neg h7, if_neg h7]
  by_cases h8 : field = P.UNIAUTH_PROTO_FIELD_TRANSDST
  · rw [if_pos h8, if_pos h8]
    rfl
  rw [if_neg h8, if_neg h8]
  rfl

/-- The loop of `parse_buffer` reads the buffer only below the size. -/
theorem parse_loop_congr (P : Proto) (b2 : List Nat) :
    ∀ (fuel : Nat) (client : clientbuf) (iter : Nat),
      (∀ j, j < client.bufsz → b2.getD j 0 = client.buf.getD j 0) →
      parse_loop P fuel { client with buf := b2 } iter
        = ((parse_loop P fuel client iter).1,
           { (parse_loop P fuel client iter).2 with buf := b2 }) := by
  intro fuel
  induction fuel with
  | zero =>
    intro client iter h
    rfl
  | succ fuel ih =>
    intro client iter h
    simp only [parse_loop]
    by_cases hlt : iter < client.bufsz
    · rw [if_pos hlt, if_pos hlt, h iter hlt]
      by_cases he : client.buf.getD iter 0 = P.UNIAUTH_PROTO_FIELD_END
      · rw [if_pos he, if_pos he]
      · rw [if_neg he, if_neg he, parse_field_congr P client b2 h]
        cases hp : parse_field P client iter (client.buf.getD iter 0) with
        | none => rfl
        | some r =>
          obtain ⟨n, client1⟩ := r
          have hfr := parse_field_frame P client client1 iter _ n hp
          simp only [Option.map_some']
          by_cases h3 : n = 0
          · rw [if_pos h3, if_pos h3]
          · rw [if_neg h3, if_neg h3]
            exact ih client1 (iter + (1 + n)) (by rw [hfr.2.1, hfr.2.2.1]; exact h)
    · rw [if_neg hlt, if_neg hlt]

/-- The parser reads the buffer only below the size, when the cursor is at 0
while no status is set. -/
theorem parse_buffer_congr (P : Proto) (client : clientbuf) (b2 : List Nat)
    (h : ∀ j, j < client.bufsz → b2.getD j 0 = client.buf.getD j 0)
    (h0 : client.status = Status.notset → client.bufit = 0) :
    parse_buffer P { client with buf := b2 }
      = ((parse_buffer P client).1, { (parse_buffer P client).2 with buf := b2 }) := by
  unfold parse_buffer
  simp only
  by_cases h1 : client.bufsz ≤ 0
  · rw [if_pos h1, if_pos h1]
  · rw [if_neg h1, if_neg h1]
    by_cases h2 : client.status = Status.notset
    · have hget : b2.getD client.bufit 0 = client.buf.getD client.bufit 0 := by
        rw [h0 h2]; exact h 0 (by omega)
      rw [if_pos h2, if_pos h2, hget]
      by_cases hop : ((client.buf.getD client.bufit 0 : Nat) : Int) < 0 ∨
          ((client.buf.getD client.bufit 0 : Nat) : Int) ≥ (P.UNIAUTH_OP_TOP : Int)
      · rw [if_pos hop, if_pos hop]
      · rw [if_neg hop, if_neg hop]
        exact parse_loop_congr P b2 _
          { client with opkind := (client.buf.getD client.bufit 0 : Nat),
                        status := Status.incomplete }
          _ h
    · rw [if_neg h2, if_neg h2]
      exact parse_loop_congr P b2 _ client _ h

theorem parse_buffer_beyond (P : Proto) (client : clientbuf) (beyond : List Nat)
    (h : conn_inv P client) :
    parse_buffer P (with_beyond beyond client)
      = ((parse_buffer P client).1, with_beyond beyond (parse_buffer P client).2) := by
  obtain ⟨a1, a2, a3, a4, a5⟩ := h
  have hb : (parse_buffer P client).2.buf = client.buf := by
    unfold parse_buffer
    simp only
    by_cases h1 : client.bufsz ≤ 0
    · rw [if_pos h1]
    · rw [if_neg h1]
      by_cases h2 : client.status = Status.notset
      · rw [if_pos h2]
        by_cases hop : ((client.buf.getD client.bufit 0 : Nat) : Int) < 0 ∨
            ((client.buf.getD client.bufit 0 : Nat) : Int) ≥ (P.UNIAUTH_OP_TOP : Int)
        · rw [if_pos hop]
        · rw [if_neg hop]
          exact (parse_loop_bounds P _
            { client with opkind := (client.buf.getD client.bufit 0 : Nat),
                          status := Status.incomplete } (client.bufit + 1)
            (by simp only; have := a5 h2; omega) a1).1
      · rw [if_neg h2]
        exact (parse_loop_bounds P _ client client.bufit a1 a1).1
  have := parse_buffer_congr P client (client.buf ++ beyond)
    (fun j hj => getD_append_left client.buf beyond j (by omega)) a5
  unfold with_beyond
  rw [this, hb]

/-- The read loop of `clientbuf_operation` keeps the bounds and neither reads
nor changes what lies beyond the buffer. -/
theorem read_loop_inv (P : Proto) (initial : Nat) (beyond : List Nat) :
    ∀ (rs : List ReadOutcome) (client : clientbuf), conn_inv P client → client.iomode = 0 →
      conn_inv P (read_loop P initial rs client).2.1 ∧
      (read_loop P initial rs client).2.1.iomode = 0 ∧
      read_loop P initial rs (with_beyond beyond client)
        = ((read_loop P initial rs client).1,
           with_beyond beyond (read_loop P initial rs client).2.1,
           (read_loop P initial rs client).2.2) := by
  intro rs
  induction rs with
  | nil =>
    intro client h hio
    exact ⟨h, hio, rfl⟩
  | cons r rs ih =>
    intro client h hio
    obtain ⟨a1, a2, a3, a4, a5⟩ := h
    cases r with
    | wouldblock => exact ⟨⟨a1, a2, a3, a4, a5⟩, hio, rfl⟩
    | fail =>
      refine ⟨⟨a1, a2, a3, a4, fun hs => ?_⟩, hio, rfl⟩
      simp [read_loop] at hs
    | data bytes =>
      have hg : (bytes.take (P.UNIAUTH_MAX_MESSAGE - client.bufsz)).length
          ≤ P.UNIAUTH_MAX_MESSAGE - client.bufsz := by
        rw [List.length_take]; exact Nat.min_le_left _ _
      have hb : (with_beyond beyond client).bufsz = client.bufsz := rfl
      simp only [read_loop, hb]
      by_cases h0 : (bytes.take (P.UNIAUTH_MAX_MESSAGE - client.bufsz)).length = 0
      · simp only [if_pos h0]
        by_cases h1 : initial = client.bufsz
        · simp only [if_pos h1]
          exact ⟨⟨a1, a2, a3, a4, a5⟩, hio, rfl⟩
        · simp only [if_neg h1]
          exact ⟨⟨a1, a2, a3, a4, a5⟩, hio, rfl⟩
      · simp only [if_neg h0]
        have hinv : conn_inv P
            { client with
                buf := writeAt client.buf client.bufsz
                  (bytes.take (P.UNIAUTH_MAX_MESSAGE - client.bufsz)),
                bufsz := client.bufsz
                  + (bytes.take (P.UNIAUTH_MAX_MESSAGE - client.bufsz)).length } := by
          refine ⟨?_, ?_, a3, ?_, a5⟩
          · simp only; omega
          · simp only; omega
          · simp only
            rw [length_writeAt _ _ _ (by omega)]
            exact a4
        obtain ⟨i1, i2, i3⟩ := ih _ hinv hio
        refine ⟨i1, i2, ?_⟩
        rw [← i3]
        simp only [with_beyond]
        rw [writeAt_append_beyond _ _ _ _ (by omega)]

theorem flush_loop_sum (buf : List Nat) (base : Nat) :
    ∀ (ws : List WriteOutcome) (t sz : Nat) (sent : List Nat),
      (flush_loop buf base ws t sz sent).2.1 + (flush_loop buf base ws t sz sent).2.2.1
        = t + sz := by
  intro ws
  induction ws with
  | nil =>
    intro t sz sent
    cases sz <;> rfl
  | cons w ws ih =>
    intro t sz sent
    cases sz with
    | zero => simp [flush_loop]
    | succ n =>
      cases w with
      | wouldblock => rfl
      | fail => rfl
      | accept k =>
        simp only [flush_loop]
        rw [ih]
        have := Nat.min_le_right k (n + 1)
        omega

/-- The write loop of `flush_buffer` reads only the bytes between the cursor and
the cursor plus the size. -/
theorem flush_loop_congr (b1 b2 : List Nat) (base : Nat) :
    ∀ (ws : List WriteOutcome) (t sz : Nat) (sent : List Nat),
      (∀ j, base + t ≤ j → j < base + t + sz → b2.getD j 0 = b1.getD j 0) →
      flush_loop b2 base ws t sz sent = flush_loop b1 base ws t sz sent := by
  intro ws
  induction ws with
  | nil =>
    intro t sz sent _
    cases sz <;> rfl
  | cons w ws ih =>
    intro t sz sent h
    cases sz with
    | zero => simp [flush_loop]
    | succ n =>
      cases w with
      | wouldblock => rfl
      | fail => rfl
      | accept k =>
        simp only [flush_loop]
        have hm := Nat.min_le_right k (n + 1)
        rw [slice_congr b2 b1 (base + t) (base + t) _ (fun j hj => h _ (by omega) (by omega))]
        exact ih _ _ _ (fun j h1 h2 => h j (by omega) (by omega))

/-- In the output phase `flush_buffer` keeps the bounds and neither reads nor
changes what lies beyond the buffer. -/
theorem flush_buffer_inv (P : Proto) (beyond : List Nat) (client : clientbuf) (s : Sock)
    (h : conn_inv P client) (hio : client.iomode ≠ 0) :
    conn_inv P (flush_buffer client s).2.1 ∧
    (flush_buffer client s).2.1.iomode ≠ 0 ∧
    flush_buffer (with_beyond beyond client) s
      = ((flush_buffer client s).1, with_beyond beyond (flush_buffer client s).2.1,
         (flush_buffer client s).2.2) := by
  obtain ⟨a1, a2, a3, a4, a5⟩ := h
  have hit := a3 hio
  have hsum := flush_loop_sum client.buf client.bufit s.writes 0 client.bufsz s.sent
  have hc := flush_loop_congr client.buf (client.buf ++ beyond) client.bufit s.writes 0
    client.bufsz s.sent (fun j _ h2 => getD_append_left client.buf beyond j (by omega))
  simp only [flush_buffer, with_beyond, hc]
  generalize flush_loop client.buf client.bufit s.writes 0 client.bufsz s.sent = r at hsum ⊢
  obtain ⟨fl, t, sz, ws, sent⟩ := r
  simp only at hsum ⊢
  cases fl with
  | true =>
    simp only [if_true]
    exact ⟨⟨a1, a2, a3, a4, fun hs => by simp at hs⟩, hio, trivial⟩
  | false =>
    simp only [Bool.false_eq_true, if_false]
    refine ⟨⟨Nat.zero_le _, by show sz ≤ P.UNIAUTH_MAX_MESSAGE; omega, fun _ => rfl, ?_,
      fun _ => rfl⟩, hio, ?_⟩
    · rw [length_writeAt _ _ _ (by rw [slice_length]; omega)]
      exact a4
    · rw [slice_append_beyond _ _ _ _ (by omega),
        writeAt_append_beyond _ _ _ _ (by rw [slice_length]; omega)]

theorem transfer_string_le (room : Nat) (src : List Nat) (sz : Nat) :
    (transfer_string room src sz).length ≤ room := by
  unfold transfer_string
  simp only [slice_length]
  by_cases h : room < sz + 1
  · rw [if_pos h]
  · rw [if_neg h]; omega

theorem transfer_integer_le (room : Nat) (v : Int) :
    (transfer_integer room v).length ≤ room := by
  unfold transfer_integer
  simp only [List.length_take]
  by_cases h : room < UNIAUTH_INT_SZ
  · rw [if_pos h]; exact Nat.min_le_left _ _
  · rw [if_neg h]
    have := Nat.min_le_left UNIAUTH_INT_SZ (le_bytes UNIAUTH_INT_SZ v).length
    omega

theorem transfer_time_le (room : Nat) (v : Int) :
    (transfer_time room v).length ≤ room := by
  unfold transfer_time
  simp only [List.length_take]
  by_cases h : room < UNIAUTH_TIME_SZ
  · rw [if_pos h]; exact Nat.min_le_left _ _
  · rw [if_neg h]
    have := Nat.min_le_left UNIAUTH_TIME_SZ (le_bytes UNIAUTH_TIME_SZ v).length
    omega

/-- One guarded field of `clientbuf_send_record` stays within the output span
and neither reads nor changes what lies beyond the buffer. -/
theorem send_field_step (beyond : List Nat) (off remain L : Nat) (present : Bool) (t : Nat)
    (xfer : Nat → List Nat) (hx : ∀ room, (xfer room).length ≤ room) (hL : off + remain ≤ L)
    (st stb : List Nat × Nat)
    (h : st.2 ≤ remain ∧ st.1.length = L ∧ stb = (st.1 ++ beyond, st.2)) :
    (send_field off remain present t xfer st).2 ≤ remain ∧
    (send_field off remain present t xfer st).1.length = L ∧
    send_field off remain present t xfer stb
      = ((send_field off remain present t xfer st).1 ++ beyond,
         (send_field off remain present t xfer st).2) := by
  obtain ⟨h1, h2, h3⟩ := h
  subst h3
  unfold send_field
  simp only
  by_cases hc : present = true ∧ remain - st.2 > 0
  · simp only [if_pos hc]
    have hxl := hx (remain - (st.2 + 1))
    have hl1 : (writeAt st.1 (off + st.2) [t]).length = st.1.length :=
      length_writeAt _ _ _ (by simp only [List.length_singleton]; omega)
    refine ⟨by omega, ?_, ?_⟩
    · rw [length_writeAt _ _ _ (by omega), hl1, h2]
    · rw [writeAt_append_beyond _ _ _ _ (by simp only [List.length_singleton]; omega),
        writeAt_append_beyond _ _ _ _ (by omega)]
  · simp only [if_neg hc]
    exact ⟨h1, h2, trivial⟩

/-- The body of `clientbuf_send_record` stays within the output span and
neither reads nor changes what lies beyond the buffer. -/
theorem send_record_fields_step (P : Proto) (beyond buf : List Nat) (off remain : Nat)
    (key : Option (List Nat)) (keySz : Nat) (stor : uniauth_storage)
    (hr : 1 ≤ remain) (hL : off + remain ≤ buf.length) :
    (send_record_fields P buf off remain key keySz stor).2 ≤ remain ∧
    (send_record_fields P buf off remain key keySz stor).1.length = buf.length ∧
    send_record_fields P (buf ++ beyond) off remain key keySz stor
      = ((send_record_fields P buf off remain key keySz stor).1 ++ beyond,
         (send_record_fields P buf off remain key keySz stor).2) := by
  have q0 : (1 : Nat) ≤ remain ∧
      (writeAt buf off [P.UNIAUTH_PROTO_RESPONSE_RECORD]).length = buf.length ∧
      ((writeAt (buf ++ beyond) off [P.UNIAUTH_PROTO_RESPONSE_RECORD], 1) : List Nat × Nat)
        = (writeAt buf off [P.UNIAUTH_PROTO_RESPONSE_RECORD] ++ beyond, 1) := by
    refine ⟨hr, length_writeAt _ _ _ (by simp only [List.length_singleton]; omega), ?_⟩
    rw [writeAt_append_beyond _ _ _ _ (by simp only [List.length_singleton]; omega)]
  have q1 := send_field_step beyond off remain buf.length key.isSome P.UNIAUTH_PROTO_FIELD_KEY
    (fun room => transfer_string room (key.getD []) keySz)
    (fun room => transfer_string_le room _ _) hL
    (writeAt buf off [P.UNIAUTH_PROTO_RESPONSE_RECORD], 1) _ q0
  have q2 := send_field_step beyond off remain buf.length (decide (stor.id > 0))
    P.UNIAUTH_PROTO_FIELD_ID (fun room => transfer_integer room stor.id)
    (fun room => transfer_integer_le room _) hL _ _ q1
  have q3 := send_field_step beyond off remain buf.length stor.username.isSome
    P.UNIAUTH_PROTO_FIELD_USER
    (fun room => transfer_string room (stor.username.getD []) stor.usernameSz)
    (fun room => transfer_string_le room _ _) hL _ _ q2
  have q4 := send_field_step beyond off remain buf.length stor.displayName.isSome
    P.UNIAUTH_PROTO_FIELD_DISPLAY
    (fun room => transfer_string room (stor.displayName.getD []) stor.displayNameSz)
    (fun room => transfer_string_le room _ _) hL _ _ q3
  have q5 := send_field_step beyond off remain buf.length (decide (stor.expire ≥ 0))
    P.UNIAUTH_PROTO_FIELD_EXPIRE (fun room => transfer_time room stor.expire)
    (fun room => transfer_time_le room _) hL _ _ q4
  have q6 := send_field_step beyond off remain buf.length stor.redirect.isSome
    P.UNIAUTH_PROTO_FIELD_REDIRECT
    (fun room => transfer_string room (stor.redirect.getD []) stor.redirectSz)
    (fun room => transfer_string_le room _ _) hL _ _ q5
  have q7 := send_field_step beyond off remain buf.length stor.tag.isSome
    P.UNIAUTH_PROTO_FIELD_TAG
    (fun room => transfer_string room (stor.tag.getD []) stor.tagSz)
    (fun room => transfer_string_le room _ _) hL _ _ q6
  unfold send_record_fields
  simp only
  generalize send_field off remain stor.tag.isSome P.UNIAUTH_PROTO_FIELD_TAG
    (fun room => transfer_string room (stor.tag.getD []) stor.tagSz) _ = st7 at q7 ⊢
  obtain ⟨r1, r2, r3⟩ := q7
  rw [r3]
  simp only
  by_cases hc : remain - st7.2 > 0
  · simp only [if_pos hc]
    refine ⟨by omega, ?_, ?_⟩
    · rw [length_writeAt _ _ _ (by simp only [List.length_singleton]; omega), r2]
    · rw [writeAt_append_beyond _ _ _ _ (by simp only [List.length_singleton]; omega)]
  · simp only [if_neg hc]
    exact ⟨r1, r2, trivial⟩

/-- The output span that `get_output_buffer` hands out lies in the buffer behind
the pending bytes; the call keeps the bounds and does not touch the buffer. -/
theorem get_output_buffer_inv (P : Proto) (beyond : List Nat) (client : clientbuf)
    (h : conn_inv P client) :
    conn_inv P (get_output_buffer P client).2 ∧
    (get_output_buffer P client).2.iomode ≠ 0 ∧
    get_output_buffer P (with_beyond beyond client)
      = ((get_output_buffer P client).1, with_beyond beyond (get_output_buffer P client).2) ∧
    (∀ off remain, (get_output_buffer P client).1 = some (off, remain) →
      1 ≤ remain ∧ off = (get_output_buffer P client).2.bufsz ∧
      off + remain = P.UNIAUTH_MAX_MESSAGE) := by
  obtain ⟨a1, a2, a3, a4, a5⟩ := h
  unfold get_output_buffer with_beyond
  by_cases hm : client.iomode = 0
  · simp only [if_pos hm, clientbuf_output_mode]
    by_cases hc : ¬ client.eof = true ∧ P.UNIAUTH_MAX_MESSAGE - 0 > 0
    · simp only [if_pos hc]
      refine ⟨⟨Nat.le_refl _, Nat.zero_le _, fun _ => rfl, a4, fun _ => rfl⟩, by simp, trivial, ?_⟩
      intro off remain e
      simp only [Option.some.injEq, Prod.mk.injEq] at e
      omega
    · simp only [if_neg hc]
      refine ⟨⟨Nat.le_refl _, Nat.zero_le _, fun _ => rfl, a4, fun _ => rfl⟩, by simp, trivial, ?_⟩
      intro off remain e
      simp at e
  · simp only [if_neg hm]
    by_cases hc : ¬ client.eof = true ∧ P.UNIAUTH_MAX_MESSAGE - client.bufsz > 0
    · simp only [if_pos hc]
      refine ⟨⟨a1, a2, a3, a4, fun _ => a3 hm⟩, hm, trivial, ?_⟩
      intro off remain e
      simp only [Option.some.injEq, Prod.mk.injEq] at e
      omega
    · simp only [if_neg hc]
      refine ⟨⟨a1, a2, a3, a4, a5⟩, hm, trivial, ?_⟩
      intro off remain e
      simp at e

/-- Filling the output span with at most `remain` bytes and flushing keeps the
bounds. -/
theorem fill_flush_inv (P : Proto) (beyond : List Nat) (client1 : clientbuf) (s : Sock)
    (buf2 : List Nat) (n : Nat) (h : conn_inv P client1) (hio : client1.iomode ≠ 0)
    (hn : client1.bufsz + n ≤ P.UNIAUTH_MAX_MESSAGE) (hl : buf2.length = client1.buf.length) :
    conn_inv P (flush_buffer { client1 with buf := buf2, bufsz := client1.bufsz + n } s).2.1 ∧
    flush_buffer { with_beyond beyond client1 with
        buf := buf2 ++ beyond, bufsz := client1.bufsz + n } s
      = ((flush_buffer { client1 with buf := buf2, bufsz := client1.bufsz + n } s).1,
         with_beyond beyond
           (flush_buffer { client1 with buf := buf2, bufsz := client1.bufsz + n } s).2.1,
         (flush_buffer { client1 with buf := buf2, bufsz := client1.bufsz + n } s).2.2) := by
  obtain ⟨a1, a2, a3, a4, a5⟩ := h
  have h2 : conn_inv P { client1 with buf := buf2, bufsz := client1.bufsz + n } :=
    ⟨by show client1.bufit ≤ client1.bufsz + n; omega, hn, a3, by rw [← a4]; exact hl, a5⟩
  obtain ⟨i1, _, i3⟩ := flush_buffer_inv P beyond
    { client1 with buf := buf2, bufsz := client1.bufsz + n } s h2 hio
  exact ⟨i1, i3⟩

theorem clientbuf_send_record_inv (P : Proto) (beyond : List Nat) (client : clientbuf)
    (s : Sock) (key : Option (List Nat)) (keySz : Nat) (stor : uniauth_storage)
    (h : conn_inv P client) :
    conn_inv P (clientbuf_send_record P client s key keySz stor).2.1 ∧
    clientbuf_send_record P (with_beyond beyond client) s key keySz stor
      = ((clientbuf_send_record P client s key keySz stor).1,
         with_beyond beyond (clientbuf_send_record P client s key keySz stor).2.1,
         (clientbuf_send_record P client s key keySz stor).2.2) := by
  obtain ⟨g1, g2, g3, g4⟩ := get_output_buffer_inv P beyond client h
  unfold clientbuf_send_record
  rw [g3]
  generalize get_output_buffer P client = r at g1 g2 g4 ⊢
  obtain ⟨o, client1⟩ := r
  cases o with
  | none => exact ⟨g1, rfl⟩
  | some p =>
    obtain ⟨off, remain⟩ := p
    obtain ⟨e1, e2, e3⟩ := g4 off remain rfl
    simp only at e2 g1 g2 ⊢
    have hlen := g1.2.2.2.1
    obtain ⟨f1, f2, f3⟩ := send_record_fields_step P beyond client1.buf off remain key keySz
      stor e1 (by omega)
    have := fill_flush_inv P beyond client1 s
      (send_record_fields P client1.buf off remain key keySz stor).1
      (send_record_fields P client1.buf off remain key keySz stor).2 g1 g2 (by omega) f2
    refine ⟨this.1, ?_⟩
    have hb : (with_beyond beyond client1).buf = client1.buf ++ beyond := rfl
    rw [hb, f3]
    exact congrArg (fun x => ((0 : Nat), x.2)) this.2

theorem send_text_step (beyond buf : List Nat) (off remain t : Nat) (bytes : List Nat)
    (hr : 1 ≤ remain) (hL : off + remain ≤ buf.length) (hb : bytes.length ≤ remain - 1) :
    (writeAt (writeAt buf off [t]) (off + 1) bytes).length = buf.length ∧
    writeAt (writeAt (buf ++ beyond) off [t]) (off + 1) bytes
      = writeAt (writeAt buf off [t]) (off + 1) bytes ++ beyond := by
  have hl1 : (writeAt buf off [t]).length = buf.length :=
    length_writeAt _ _ _ (by simp only [List.length_singleton]; omega)
  refine ⟨?_, ?_⟩
  · rw [length_writeAt _ _ _ (by omega), hl1]
  · rw [writeAt_append_beyond _ _ _ _ (by simp only [List.length_singleton]; omega),
      writeAt_append_beyond _ _ _ _ (by omega)]

theorem clientbuf_send_error_inv (P : Proto) (beyond : List Nat) (client : clientbuf)
    (s : Sock) (text : List Nat) (h : conn_inv P client) :
    conn_inv P (clientbuf_send_error P client s text).2.1 ∧
    clientbuf_send_error P (with_beyond beyond client) s text
      = ((clientbuf_send_error P client s text).1,
         with_beyond beyond (clientbuf_send_error P client s text).2.1,
         (clientbuf_send_error P client s text).2.2) := by
  obtain ⟨g1, g2, g3, g4⟩ := get_output_buffer_inv P beyond client h
  unfold clientbuf_send_error
  rw [g3]
  generalize get_output_buffer P client = r at g1 g2 g4 ⊢
  obtain ⟨o, client1⟩ := r
  cases o with
  | none => exact ⟨g1, rfl⟩
  | some p =>
    obtain ⟨off, remain⟩ := p
    obtain ⟨e1, e2, e3⟩ := g4 off remain rfl
    simp only at e2 g1 g2 ⊢
    have hlen := g1.2.2.2.1
    have hb := transfer_string_le (remain - 1) text (strlen text)
    obtain ⟨f1, f2⟩ := send_text_step beyond client1.buf off remain
      P.UNIAUTH_PROTO_RESPONSE_ERROR (transfer_string (remain - 1) text (strlen text)) e1
      (by omega) hb
    have := fill_flush_inv P beyond client1 s
      (writeAt (writeAt client1.buf off [P.UNIAUTH_PROTO_RESPONSE_ERROR]) (off + 1)
        (transfer_string (remain - 1) text (strlen text)))
      (1 + (transfer_string (remain - 1) text (strlen text)).length) g1 g2 (by omega) f1
    refine ⟨this.1, ?_⟩
    have hbb : (with_beyond beyond client1).buf = client1.buf ++ beyond := rfl
    rw [hbb, f2]
    exact congrArg (fun x => ((0 : Nat), x.2)) this.2

theorem clientbuf_send_message_inv (P : Proto) (beyond : List Nat) (client : clientbuf)
    (s : Sock) (text : List Nat) (h : conn_inv P client) :
    conn_inv P (clientbuf_send_message P client s text).2.1 ∧
    clientbuf_send_message P (with_beyond beyond client) s text
      = ((clientbuf_send_message P client s text).1,
         with_beyond beyond (clientbuf_send_message P client s text).2.1,
         (clientbuf_send_message P client s text).2.2) := by
  obtain ⟨g1, g2, g3, g4⟩ := get_output_buffer_inv P beyond client h
  unfold clientbuf_send_message
  rw [g3]
  generalize get_output_buffer P client = r at g1 g2 g4 ⊢
  obtain ⟨o, client1⟩ := r
  cases o with
  | none => exact ⟨g1, rfl⟩
  | some p =>
    obtain ⟨off, remain⟩ := p
    obtain ⟨e1, e2, e3⟩ := g4 off remain rfl
    simp only at e2 g1 g2 ⊢
    have hlen := g1.2.2.2.1
    have hb := transfer_string_le (remain - 1) text (strlen text)
    obtain ⟨f1, f2⟩ := send_text_step beyond client1.buf off remain
      P.UNIAUTH_PROTO_RESPONSE_MESSAGE (transfer_string (remain - 1) text (strlen text)) e1
      (by omega) hb
    have := fill_flush_inv P beyond client1 s
      (writeAt (writeAt client1.buf off [P.UNIAUTH_PROTO_RESPONSE_MESSAGE]) (off + 1)
        (transfer_string (remain - 1) text (strlen text)))
      (1 + (transfer_string (remain - 1) text (strlen text)).length) g1 g2 (by omega) f1
    refine ⟨this.1, ?_⟩
    have hbb : (with_beyond beyond client1).buf = client1.buf ++ beyond := rfl
    rw [hbb, f2]
    exact congrArg (fun x => ((0 : Nat), x.2)) this.2

theorem clientbuf_operation_inv (P : Proto) (beyond : List Nat) (client : clientbuf)
    (s : Sock) (h : conn_inv P client) :
    conn_inv P (clientbuf_operation P client s).2.1 ∧
    clientbuf_operation P (with_beyond beyond client) s
      = ((clientbuf_operation P client s).1,
         with_beyond beyond (clientbuf_operation P client s).2.1,
         (clientbuf_operation P client s).2.2) := by
  unfold clientbuf_operation
  have he : (with_beyond beyond client).eof = client.eof := rfl
  have hi : (with_beyond beyond client).iomode = client.iomode := rfl
  have hz : (with_beyond beyond client).bufsz = client.bufsz := rfl
  simp only [he, hi, hz]
  by_cases h1 : client.eof = true
  · simp only [if_pos h1]
    exact ⟨h, trivial⟩
  · simp only [if_neg h1]
    by_cases h2 : client.iomode = 0
    · simp only [if_pos h2]
      obtain ⟨r1, r2, r3⟩ := read_loop_inv P client.bufsz beyond s.reads client h h2
      rw [r3]
      generalize read_loop P client.bufsz s.reads client = r at r1 r2 ⊢
      obtain ⟨o, client1, rs⟩ := r
      cases o with
      | some ret => exact ⟨r1, rfl⟩
      | none =>
        simp only at r1 r2 ⊢
        refine ⟨(parse_buffer_inv P client1 r1 r2).1, ?_⟩
        rw [parse_buffer_beyond P client1 beyond r1]
    · simp only [if_neg h2]
      obtain ⟨f1, _, f3⟩ := flush_buffer_inv P beyond client s h h2
      exact ⟨f1, f3⟩

/-- Every call keeps the bounds and neither reads nor changes what lies beyond
the buffer. -/
theorem apply_call_inv (P : Proto) (beyond : List Nat) (client : clientbuf) (s : Sock)
    (call : BufCall) (h : conn_inv P client) :
    conn_inv P (apply_call P (client, s) call).1 ∧
    apply_call P (with_beyond beyond client, s) call
      = (with_beyond beyond (apply_call P (client, s) call).1,
         (apply_call P (client, s) call).2) := by
  obtain ⟨a1, a2, a3, a4, a5⟩ := h
  cases call with
  | operation =>
    obtain ⟨i1, i2⟩ := clientbuf_operation_inv P beyond client s ⟨a1, a2, a3, a4, a5⟩
    refine ⟨i1, ?_⟩
    simp only [apply_call]
    rw [i2]
  | input_mode =>
    exact ⟨⟨Nat.le_refl _, Nat.zero_le _, fun _ => rfl, a4, fun _ => rfl⟩, rfl⟩
  | output_mode =>
    exact ⟨⟨Nat.le_refl _, Nat.zero_le _, fun _ => rfl, a4, fun _ => rfl⟩, rfl⟩
  | send_error text =>
    obtain ⟨i1, i2⟩ := clientbuf_send_error_inv P beyond client s text ⟨a1, a2, a3, a4, a5⟩
    refine ⟨i1, ?_⟩
    simp only [apply_call]
    rw [i2]
  | send_message text =>
    obtain ⟨i1, i2⟩ := clientbuf_send_message_inv P beyond client s text ⟨a1, a2, a3, a4, a5⟩
    refine ⟨i1, ?_⟩
    simp only [apply_call]
    rw [i2]
  | send_record key keySz stor =>
    obtain ⟨i1, i2⟩ := clientbuf_send_record_inv P beyond client s key keySz stor
      ⟨a1, a2, a3, a4, a5⟩
    refine ⟨i1, ?_⟩
    simp only [apply_call]
    rw [i2]

theorem run_calls_inv (P : Proto) (beyond : List Nat) :
    ∀ (calls : List BufCall) (client : clientbuf) (s : Sock), conn_inv P client →
      conn_inv P (run_calls P (client, s) calls).1 ∧
      run_calls P (with_beyond beyond client, s) calls
        = (with_beyond beyond (run_calls P (client, s) calls).1,
           (run_calls P (client, s) calls).2) := by
  intro calls
  induction calls with
  | nil =>
    intro client s h
    exact ⟨h, rfl⟩
  | cons call calls ih =>
    intro client s h
    obtain ⟨i1, i2⟩ := apply_call_inv P beyond client s call h
    simp only [run_calls, List.foldl_cons] at ih ⊢
    rw [i2]
    exact ih _ _ i1

theorem clientbuf_init_inv (P : Proto) (sock atm : Int) :
    conn_inv P (clientbuf_init P sock atm) :=
  ⟨Nat.le_refl _, Nat.zero_le _, fun _ => rfl, List.length_replicate _ _, fun _ => rfl⟩

/-- C24: after `clientbuf_init` and any sequence of calls of
`clientbuf_operation`, `clientbuf_input_mode`, `clientbuf_output_mode`,
`clientbuf_send_error`, `clientbuf_send_message` and `clientbuf_send_record`,
with any outcomes of the reads and writes on the socket, the connection has
`bufit ≤ bufsz ≤ UNIAUTH_MAX_MESSAGE`, has `bufit = 0` in the output phase, and
its buffer still has `UNIAUTH_MAX_MESSAGE` bytes (no store lies outside it);
and the same calls on a connection whose buffer is followed by any bytes
`beyond` give the same results and leave those bytes as they were (nothing
outside the buffer is read or written). -/
theorem buffer_bounds_invariant (P : Proto) (sock atm : Int) (s : Sock)
    (calls : List BufCall) (beyond : List Nat) :
    (run_calls P (clientbuf_init P sock atm, s) calls).1.bufit
      ≤ (run_calls P (clientbuf_init P sock atm, s) calls).1.bufsz ∧
    (run_calls P (clientbuf_init P sock atm, s) calls).1.bufsz ≤ P.UNIAUTH_MAX_MESSAGE ∧
    ((run_calls P (clientbuf_init P sock atm, s) calls).1.iomode ≠ 0 →
      (run_calls P (clientbuf_init P sock atm, s) calls).1.bufit = 0) ∧
    (run_calls P (clientbuf_init P sock atm, s) calls).1.buf.length = P.UNIAUTH_MAX_MESSAGE ∧
    run_calls P (with_beyond beyond (clientbuf_init P sock atm), s) calls
      = (with_beyond beyond (run_calls P (clientbuf_init P sock atm, s) calls).1,
         (run_calls P (clientbuf_init P sock atm, s) calls).2) := by
  obtain ⟨⟨a1, a2, a3, a4, _⟩, h2⟩ := run_calls_inv P beyond calls
    (clientbuf_init P sock atm) s (clientbuf_init_inv P sock atm)
  exact ⟨a1, a2, a3, a4, h2⟩

end Uniauth
